import Mathlib

/-!
# Expronaut: a shallow embedding of the expression language of `donseba/goculator`

The development embeds the vendored package `github.com/donseba/expronaut`
(`lex.go`, `parse.go`, `ast.go`, `builtin.go`, `exp.go`) and proves properties of
the lexer, the parser, the evaluator and the builtin functions.

Conventions of the embedding.

* A Go `string` is a byte sequence.  It is modelled by a Lean `String` whose
  characters stand for the bytes; on ASCII text the two coincide.
* A Go `int` is a 64-bit two's-complement integer.  It is modelled by an `Int`
  and every arithmetic result is reduced by `wrap64`.
* A Go `float64` is not modelled bit by bit.  Its operations are the fields of
  the class `Float64`; every general theorem holds for every instance.  The
  instance `Exact` computes with rationals and returns a result only when it is
  a binary64 number; it is used for examples on such numbers.
* A Go call either returns or panics.  `Run α` is `Except Fault α`: the fault
  `panic msg` is a Go run-time panic, the fault `fuel` says that a loop or a
  recursion of the model ran out of its iteration budget, and the fault
  `unmodelled` marks the few inputs whose outcome in Go depends on data that the
  embedding does not hold (the capacity of a slice, the runes of a text that is
  not ASCII).
* A Go result pair `(any, error)` is a `Res`: a value and an optional error.
-/

namespace Expronaut

/-! ## Faults -/

/-- Reasons for which a call does not return. -/
inductive Fault where
  | panic (msg : String)
  | fuel
  | unmodelled
  deriving DecidableEq, Repr

/-- Computations that return a value, panic, exhaust the budget of the model
or leave it. -/
abbrev Run (α : Type) : Type := Except Fault α

/-! ## Machine integers -/

/-- Reduction of an integer to the 64-bit two's-complement range. -/
def wrap64 (i : Int) : Int := Int.bmod i (2 ^ 64)

/-- The smallest Go `int`. -/
def minInt : Int := -(2 ^ 63)

/-- The largest Go `int`. -/
def maxInt : Int := 2 ^ 63 - 1

/-- Membership in the range of a Go `int`. -/
def inRange (i : Int) : Prop := minInt ≤ i ∧ i ≤ maxInt

instance (i : Int) : Decidable (inRange i) := by
  unfold inRange; exact inferInstance

/-! ## Go strings -/

/-- The NUL byte, which the lexer uses as its end-of-input marker. -/
def NUL : Char := Char.ofNat 0

/-- Go's `s < t` on strings: lexicographic comparison of the bytes. -/
def bytesLt : List Char → List Char → Bool
  | [], [] => false
  | [], _ :: _ => true
  | _ :: _, [] => false
  | a :: as, b :: bs => if a.toNat < b.toNat then true else if b.toNat < a.toNat then false else bytesLt as bs

/-- Go's `s < t` on strings. -/
def strLt (s t : String) : Bool := bytesLt s.data t.data

/-- Go's `s == t` on strings. -/
def strEq (s t : String) : Bool := decide (s.data = t.data)

/-- Go's slice expression `s[a:b]` on a string; out-of-range bounds panic. -/
def sliceStr (s : List Char) (a b : Nat) : Run String :=
  if a ≤ b ∧ b ≤ s.length then pure (String.mk ((s.drop a).take (b - a)))
  else throw (Fault.panic "slice bounds out of range")

/-! ## Tokens (`lex.go`) -/

/-- The token kinds of `lex.go`, named by their string constants; `UNSET` is the
zero value `""` of a token whose kind was never assigned. -/
inductive TokenType where
  | EOF | INT | FLOAT | PAREN_LEFT | PAREN_RIGHT | ILLEGAL | STRING | VARIABLE
  | FUNCTION | ARRAY | ARRAY_START | ARRAY_END | COMMA
  | AND | OR | PLUS | MINUS | MULTIPLY | DIVIDE | DIVIDE_INTEGER | MODULO
  | EQUAL | NOT_EQUAL | LESS_THAN | GREATER_THAN | LESS_THAN_OR_EQUAL
  | GREATER_THAN_OR_EQUAL | BOOL | EXPONENT | LEFT_SHIFT | RIGHT_SHIFT
  | UNSET
  deriving DecidableEq, Repr

/-- The string behind a token kind, as `%v` and `%s` print it. -/
def TokenType.text : TokenType → String
  | .EOF => "EOF" | .INT => "INT" | .FLOAT => "FLOAT" | .PAREN_LEFT => "PAREN_LEFT"
  | .PAREN_RIGHT => "PAREN_RIGHT" | .ILLEGAL => "ILLEGAL" | .STRING => "STRING"
  | .VARIABLE => "VARIABLE" | .FUNCTION => "FUNCTION" | .ARRAY => "ARRAY"
  | .ARRAY_START => "ARRAY_START" | .ARRAY_END => "ARRAY_END" | .COMMA => "COMMA"
  | .AND => "AND" | .OR => "OR" | .PLUS => "PLUS" | .MINUS => "MINUS"
  | .MULTIPLY => "MULTIPLY" | .DIVIDE => "DIVIDE" | .DIVIDE_INTEGER => "DIVIDE_INTEGER"
  | .MODULO => "MODULO" | .EQUAL => "EQUAL" | .NOT_EQUAL => "NOT_EQUAL"
  | .LESS_THAN => "LESS_THAN" | .GREATER_THAN => "GREATER_THAN"
  | .LESS_THAN_OR_EQUAL => "LESS_THAN_OR_EQUAL"
  | .GREATER_THAN_OR_EQUAL => "GREATER_THAN_OR_EQUAL" | .BOOL => "BOOL"
  | .EXPONENT => "EXPONENT" | .LEFT_SHIFT => "LEFT_SHIFT" | .RIGHT_SHIFT => "RIGHT_SHIFT"
  | .UNSET => ""

/-- A token: its kind and the text it stands for. -/
structure Token where
  Typ : TokenType
  Literal : String
  deriving DecidableEq, Repr

/-- The lexer state of `lex.go`. -/
structure Lexer where
  input : List Char
  position : Nat
  readPosition : Nat
  ch : Char
  deriving Repr

/-- Embedding of `Lexer.readChar`. -/
def Lexer.readChar (l : Lexer) : Lexer :=
  { l with
    ch := if l.readPosition ≥ l.input.length then NUL else l.input.getD l.readPosition NUL
    position := l.readPosition
    readPosition := l.readPosition + 1 }

/-- Embedding of `NewLexer`. -/
def NewLexer (input : String) : Lexer :=
  Lexer.readChar { input := input.data, position := 0, readPosition := 0, ch := NUL }

/-- Embedding of `Lexer.peekChar`. -/
def Lexer.peekChar (l : Lexer) : Char :=
  if l.readPosition ≥ l.input.length then NUL else l.input.getD l.readPosition NUL

/-- Embedding of `newToken`. -/
def newToken (tokenType : TokenType) (ch : Char) : Token :=
  { Typ := tokenType, Literal := String.mk [ch] }

/-- Embedding of `isDigit`. -/
def isDigit (ch : Char) : Bool := decide (48 ≤ ch.toNat) && decide (ch.toNat ≤ 57)

/-- Embedding of `isLetter`. -/
def isLetter (ch : Char) : Bool :=
  (decide (97 ≤ ch.toNat) && decide (ch.toNat ≤ 122))
    || (decide (65 ≤ ch.toNat) && decide (ch.toNat ≤ 90)) || ch.toNat == 95

/-- The loop budget of the lexer: every iteration of a lexer loop reads a
character, and `ch` is NUL once the read position has passed the input. -/
def Lexer.budget (l : Lexer) : Nat := l.input.length + 2

/-- The loop of `Lexer.skipWhitespace`. -/
def Lexer.skipWhitespaceLoop : Nat → Lexer → Run Lexer
  | 0, _ => throw Fault.fuel
  | n + 1, l =>
    if l.ch.toNat == 32 || l.ch.toNat == 9 || l.ch.toNat == 10 || l.ch.toNat == 13 then
      Lexer.skipWhitespaceLoop n l.readChar
    else pure l

/-- Embedding of `Lexer.skipWhitespace`. -/
def Lexer.skipWhitespace (l : Lexer) : Run Lexer := Lexer.skipWhitespaceLoop l.budget l

/-- The loop of `Lexer.readNumber`; it returns the final state and `hasDecimal`. -/
def Lexer.readNumberLoop (isNegative : Bool) : Nat → Bool → Lexer → Run (Bool × Lexer)
  | 0, _, _ => throw Fault.fuel
  | n + 1, hasDecimal, l =>
    if isDigit l.ch || (!hasDecimal && l.ch == '.') || (isNegative && l.ch == '-') then
      Lexer.readNumberLoop isNegative n (if l.ch == '.' then true else hasDecimal) l.readChar
    else pure (hasDecimal, l)

/-- Embedding of `Lexer.readNumber`. -/
def Lexer.readNumber (l : Lexer) (isNegative : Bool) : Run (Token × Lexer) := do
  let position := l.position
  let (hasDecimal, l1) ← Lexer.readNumberLoop isNegative l.budget false l
  let lit ← sliceStr l1.input position l1.position
  if hasDecimal then pure ({ Typ := TokenType.FLOAT, Literal := lit }, l1)
  else pure ({ Typ := TokenType.INT, Literal := lit }, l1)

/-- The identifier kinds of `lex.go`. -/
inductive identifierType where
  | variable | function | array | bool
  deriving DecidableEq, Repr

/-- The loop of `Lexer.readIdentifier`. -/
def Lexer.readIdentifierLoop : Nat → Lexer → Run Lexer
  | 0, _ => throw Fault.fuel
  | n + 1, l =>
    if isLetter l.peekChar || isDigit l.peekChar || l.peekChar == '_' || l.peekChar == '.' then
      Lexer.readIdentifierLoop n l.readChar
    else pure l

/-- Embedding of `Lexer.readIdentifier`. -/
def Lexer.readIdentifier (l : Lexer) : Run (String × identifierType × Lexer) := do
  let startPosition := l.position
  let l1 ← Lexer.readIdentifierLoop l.budget l
  let returnType :=
    if l1.peekChar == '[' then identifierType.array
    else if l1.peekChar == '(' then identifierType.function
    else identifierType.variable
  let l2 := l1.readChar
  let ident ← sliceStr l2.input startPosition l2.position
  if ident = "true" ∨ ident = "false" then pure (ident, identifierType.bool, l2)
  else pure (ident, returnType, l2)

/-- The loop of `Lexer.readString`: it stops at a double quote or at NUL. -/
def Lexer.readStringLoop : Nat → Lexer → Run Lexer
  | 0, _ => throw Fault.fuel
  | n + 1, l =>
    let l1 := l.readChar
    if l1.ch.toNat == 34 || l1.ch == NUL then pure l1 else Lexer.readStringLoop n l1

/-- Embedding of `Lexer.readString`. -/
def Lexer.readString (l : Lexer) : Run (String × Lexer) := do
  let position := l.position + 1
  let l1 ← Lexer.readStringLoop l.budget l
  let lit ← sliceStr l1.input position l1.position
  pure (lit, l1)

/-- The loop of `Lexer.readUntilBacktick`.  Without a closing backtick the Go
loop never ends; the model then reports `Fault.fuel`. -/
def Lexer.readUntilBacktickLoop : Nat → Lexer → Run Lexer
  | 0, _ => throw Fault.fuel
  | n + 1, l =>
    if l.peekChar.toNat == 96 then pure l.readChar
    else Lexer.readUntilBacktickLoop n l.readChar

/-- Embedding of `Lexer.readUntilBacktick`. -/
def Lexer.readUntilBacktick (l : Lexer) : Run (String × Lexer) := do
  let position := l.position + 1
  let l1 ← Lexer.readUntilBacktickLoop l.budget l
  let l2 := l1.readChar
  let lit ← sliceStr l2.input position l2.position
  pure (lit, l2)

/-- The shared shape of the two-character operators: when the next character is
`second` the token is `two` with both characters as its literal. -/
def Lexer.twoChar (l : Lexer) (two : TokenType) : Token × Lexer :=
  let ch := l.ch
  let l1 := l.readChar
  ({ Typ := two, Literal := String.mk [ch, l1.ch] }, l1)

/-- Embedding of `Lexer.NextToken`. -/
def Lexer.NextToken (l0 : Lexer) : Run (Token × Lexer) := do
  let l ← l0.skipWhitespace
  let fin : Token × Lexer → Run (Token × Lexer) := fun p => pure (p.1, p.2.readChar)
  if l.ch == '(' then fin (newToken TokenType.PAREN_LEFT l.ch, l)
  else if l.ch == ')' then fin (newToken TokenType.PAREN_RIGHT l.ch, l)
  else if l.ch == '+' then fin (newToken TokenType.PLUS l.ch, l)
  else if l.ch == '-' then
    if isDigit l.peekChar then l.readNumber true
    else fin (newToken TokenType.MINUS l.ch, l)
  else if l.ch == '*' then
    if l.peekChar == '*' then fin (l.twoChar TokenType.EXPONENT)
    else fin (newToken TokenType.MULTIPLY l.ch, l)
  else if l.ch == '^' then fin (newToken TokenType.EXPONENT l.ch, l)
  else if l.ch == '/' then
    if l.peekChar == '/' then fin (l.twoChar TokenType.DIVIDE_INTEGER)
    else fin (newToken TokenType.DIVIDE l.ch, l)
  else if l.ch == '%' then fin (newToken TokenType.MODULO l.ch, l)
  else if l.ch == ',' then fin (newToken TokenType.COMMA l.ch, l)
  else if l.ch == '[' then fin (newToken TokenType.ARRAY_START l.ch, l)
  else if l.ch == ']' then fin (newToken TokenType.ARRAY_END l.ch, l)
  else if l.ch == '<' then
    if l.peekChar == '=' then fin (l.twoChar TokenType.LESS_THAN_OR_EQUAL)
    else if l.peekChar == '<' then fin (l.twoChar TokenType.LEFT_SHIFT)
    else fin (newToken TokenType.LESS_THAN l.ch, l)
  else if l.ch == '>' then
    if l.peekChar == '=' then fin (l.twoChar TokenType.GREATER_THAN_OR_EQUAL)
    else if l.peekChar == '>' then fin (l.twoChar TokenType.RIGHT_SHIFT)
    else fin (newToken TokenType.GREATER_THAN l.ch, l)
  else if l.ch == '=' then
    if l.peekChar == '=' then fin (l.twoChar TokenType.EQUAL)
    else fin (newToken TokenType.ILLEGAL l.ch, l)
  else if l.ch == '!' then
    if l.peekChar == '=' then fin (l.twoChar TokenType.NOT_EQUAL)
    else fin (newToken TokenType.ILLEGAL l.ch, l)
  else if l.ch.toNat == 34 || l.ch.toNat == 39 then do
    let (lit, l1) ← l.readString
    fin ({ Typ := TokenType.STRING, Literal := lit }, l1)
  else if l.ch.toNat == 96 then do
    let (lit, l1) ← l.readUntilBacktick
    fin ({ Typ := TokenType.UNSET, Literal := lit }, l1)
  else if l.ch == '&' then
    if l.peekChar == '&' then fin (l.twoChar TokenType.AND)
    else fin (newToken TokenType.ILLEGAL l.ch, l)
  else if l.ch == '|' then
    if l.peekChar == '|' then fin (l.twoChar TokenType.OR)
    else fin (newToken TokenType.ILLEGAL l.ch, l)
  else if l.ch == NUL then fin ({ Typ := TokenType.EOF, Literal := "" }, l)
  else if isLetter l.ch then do
    let (identifier, iType, l1) ← l.readIdentifier
    match iType with
    | identifierType.function => pure ({ Typ := TokenType.FUNCTION, Literal := identifier }, l1)
    | identifierType.array => pure ({ Typ := TokenType.ARRAY, Literal := identifier }, l1)
    | identifierType.variable => pure ({ Typ := TokenType.VARIABLE, Literal := identifier }, l1)
    | identifierType.bool => fin ({ Typ := TokenType.BOOL, Literal := identifier }, l1)
  else if isDigit l.ch then l.readNumber false
  else fin (newToken TokenType.ILLEGAL l.ch, l)

/-- The drain loop of `NewParser`: tokens are appended until the first EOF. -/
def drainLoop : Nat → Lexer → List Token → Run (List Token)
  | 0, _, _ => throw Fault.fuel
  | n + 1, l, acc => do
    let (tok, l1) ← l.NextToken
    if tok.Typ = TokenType.EOF then pure (acc ++ [tok]) else drainLoop n l1 (acc ++ [tok])

/-- The token sequence that `NewParser` stores: every call of `NextToken` before
the first EOF reads at least one character, so the input length bounds the loop. -/
def lexAll (l : Lexer) : Run (List Token) := drainLoop l.budget l []

/-! ## Values (`any`) -/

/-- The operations of Go's `float64` that the package uses.  `gt` and `ge` are
`lt` and `le` with the operands exchanged and `!=` is the negation of `eq`, as
in IEEE 754.  `parse` is `strconv.ParseFloat(s, 64)`, with `none` when it
returns an error; `toInt` is the conversion `int(f)`; `pow`, `hypot` and `log`
are `math.Pow`, `math.Hypot` and `math.Log`; `format` is `fmt.Sprintf("%f", f)`. -/
class Float64 (F : Type) where
  ofInt : Int → F
  toInt : F → Int
  add : F → F → F
  sub : F → F → F
  mul : F → F → F
  div : F → F → F
  pow : F → F → F
  hypot : F → F → F
  log : F → F
  eq : F → F → Bool
  lt : F → F → Bool
  le : F → F → Bool
  parse : String → Option F
  format : F → String

/-- The dynamic values that the package produces or inspects.  `ints`, `floats`
and `strs` are the typed slices `[]int`, `[]float64` and `[]string`; `func` is a
function value, named by an index into the table of the host. -/
inductive Value (F : Type) where
  | nil
  | int (i : Int)
  | float (f : F)
  | str (s : String)
  | bool (b : Bool)
  | time (t : Int)
  | duration (d : Int)
  | list (xs : List (Value F))
  | map (kvs : List (String × Value F))
  | ints (xs : List Int)
  | floats (xs : List F)
  | strs (xs : List String)
  | func (id : Nat)

/-- What the verb `%T` prints for a value. -/
def goTypeName {F : Type} : Value F → String
  | .nil => "<nil>"
  | .int _ => "int"
  | .float _ => "float64"
  | .str _ => "string"
  | .bool _ => "bool"
  | .time _ => "time.Time"
  | .duration _ => "time.Duration"
  | .list _ => "[]interface {}"
  | .map _ => "map[string]interface {}"
  | .ints _ => "[]int"
  | .floats _ => "[]float64"
  | .strs _ => "[]string"
  | .func _ => "expronaut.bifFunc"

/-- Go `error` values of the package.  `text` is an error with the given
message.  `typeMismatch` is the error of `BinaryOperationNode.Evaluate` whose
message is formatted from `"type mismatch or operation not applicable
(%T(%v), %s, %T(%v))"`: it records the `%T` text of the left operand, the left
operand, the operator, the `%T` text of the right operand and the right
operand, in the order of the format.  `evaluating expr err` is the error of
`Filter` and `Map` formatted from `"error evaluating expression '%s': %v"` with
the expression and the error of `Evaluate`. -/
inductive Error (F : Type) where
  | text (msg : String)
  | typeMismatch (leftType : String) (left : Value F) (op : TokenType)
      (rightType : String) (right : Value F)
  | evaluating (expr : String) (err : Error F)

/-- A Go result pair `(any, error)`. -/
abbrev Res (F : Type) : Type := Value F × Option (Error F)

/-- The evaluation context: the value stored under `ContextKey`, when it is a
`map[string]any` (then `ctx.Value(ContextKey).(map[string]any)` succeeds). -/
structure Context (F : Type) where
  vars : Option (List (String × Value F))

/-- Go's map index `m[key]`, with the comma-ok flag as `Option`. -/
def mapGet {F : Type} (m : List (String × Value F)) (key : String) : Option (Value F) :=
  match m with
  | [] => none
  | (k, v) :: rest => if k = key then some v else mapGet rest key

/-- Go's map assignment `m[key] = value`: an earlier value of the key is
replaced. -/
def mapSet {F : Type} (m : List (String × Value F)) (key : String) (value : Value F) :
    List (String × Value F) :=
  (key, value) :: m.filter (fun kv => decide (kv.1 ≠ key))

/-- Embedding of `SetVariables`. -/
def SetVariables {F : Type} (_ctx : Context F) (vars : List (String × Value F)) :
    Context F :=
  { vars := some vars }

/-! ## Syntax trees (`ast.go`) -/

/-- The node variants of `ast.go`. -/
inductive ASTNode (F : Type) where
  | IntLiteralNode (Value : Int)
  | FloatLiteralNode (Value : F)
  | BinaryOperationNode (Left : ASTNode F) (Operator : TokenType) (Right : ASTNode F)
  | StringLiteralNode (Value : String)
  | VariableNode (Name : String)
  | LogicalOperationNode (Left : ASTNode F) (Operator : TokenType) (Right : ASTNode F)
  | BooleanLiteralNode (Value : Bool)
  | FunctionCallNode (FunctionName : String) (Arguments : List (ASTNode F))
  | ArrayNode (Elements : List (ASTNode F)) (arrayType : String)

/-! ## Parser (`parse.go`) -/

/-- The parser state of `parse.go`. -/
structure Parser where
  tokens : List Token
  current : Nat
  deriving DecidableEq, Repr

/-- Embedding of `NewParser`: the lexer is drained up to its first EOF token. -/
def NewParser (lexer : Lexer) : Run Parser := do
  let tokens ← lexAll lexer
  pure { tokens := tokens, current := 0 }

/-- Go's index expression `p.tokens[i]` for `i ≥ 0`; out of range it panics. -/
def Parser.tokenAt (p : Parser) (i : Nat) : Run Token :=
  match p.tokens[i]? with
  | some t => pure t
  | none => throw (Fault.panic "index out of range")

/-- Embedding of `Parser.peek`. -/
def Parser.peek (p : Parser) : Run Token := p.tokenAt p.current

/-- Embedding of `Parser.previous`. -/
def Parser.previous (p : Parser) : Run Token :=
  if p.current = 0 then throw (Fault.panic "index out of range") else p.tokenAt (p.current - 1)

/-- Embedding of `Parser.isAtEnd`. -/
def Parser.isAtEnd (p : Parser) : Run Bool := do
  let t ← p.peek
  pure (decide (t.Typ = TokenType.EOF))

/-- Embedding of `Parser.check`. -/
def Parser.check (p : Parser) (typ : TokenType) : Run Bool := do
  if (← p.isAtEnd) then pure false
  else
    let t ← p.peek
    pure (decide (t.Typ = typ))

/-- Embedding of `Parser.advance`. -/
def Parser.advance (p : Parser) : Run (Token × Parser) := do
  let p1 := if (← p.isAtEnd) then p else { p with current := p.current + 1 }
  let t ← p1.previous
  pure (t, p1)

/-- Embedding of `Parser.match`: the first kind that the current token has is
consumed. -/
def Parser.matchTypes (p : Parser) : List TokenType → Run (Bool × Parser)
  | [] => pure (false, p)
  | typ :: types => do
    if (← p.check typ) then
      let (_, p1) ← p.advance
      pure (true, p1)
    else p.matchTypes types

/-- Embedding of `Parser.consume`. -/
def Parser.consume (p : Parser) (tokenType : TokenType) (message : String) :
    Run (Token × Parser) := do
  if (← p.check tokenType) then p.advance else throw (Fault.panic message)

/-- The value of a string of decimal digits; `none` when a byte is no digit. -/
def digitsValue : List Char → Nat → Option Nat
  | [], acc => some acc
  | c :: cs, acc => if isDigit c then digitsValue cs (acc * 10 + (c.toNat - 48)) else none

/-- Go's `strconv.Atoi`: an optional sign, then one or more decimal digits, and
the value must be an `int`; `none` when it returns an error. -/
def Atoi (s : String) : Option Int :=
  let body : List Char → Option Nat := fun cs =>
    match cs with
    | [] => none
    | _ :: _ => digitsValue cs 0
  let signed : Option Int :=
    match s.data with
    | [] => none
    | c :: cs =>
      if c == '-' then (body cs).map (fun n => -(n : Int))
      else if c == '+' then (body cs).map (fun n => (n : Int))
      else (body (c :: cs)).map (fun n => (n : Int))
  match signed with
  | some i => if minInt ≤ i ∧ i ≤ maxInt then some i else none
  | none => none

/-- Embedding of `parseInt`: an error of `strconv.Atoi` is a panic. -/
def parseInt (lit : String) : Run Int :=
  match Atoi lit with
  | some v => pure v
  | none => throw (Fault.panic ("strconv.Atoi: parsing " ++ lit))

/-- Embedding of `parseFloat`: an error of `strconv.ParseFloat` is a panic. -/
def parseFloat {F : Type} [Float64 F] (lit : String) : Run F :=
  match Float64.parse lit with
  | some v => pure v
  | none => throw (Fault.panic ("strconv.ParseFloat: parsing " ++ lit))

/-- Embedding of `parseBool`. -/
def parseBool (lit : String) : Bool := decide (lit = "true")

section Parsing

variable {F : Type} [Float64 F]

/-- The loop `for p.match(ops...)` shared by the binary levels and by
`functions`: each round takes the matched operator from `previous`, parses the
right operand with `next` and wraps the accumulated node as the left operand. -/
def Parser.binaryLoop (ops : List TokenType)
    (mk : ASTNode F → TokenType → ASTNode F → ASTNode F) (next : Parser → Run (ASTNode F × Parser)) :
    Nat → ASTNode F → Parser → Run (ASTNode F × Parser)
  | 0, _, _ => throw Fault.fuel
  | n + 1, node, p => do
    let (m, p1) ← p.matchTypes ops
    if m then
      let operator ← p1.previous
      let (right, p2) ← next p1
      Parser.binaryLoop ops mk next n (mk node operator.Typ right) p2
    else pure (node, p1)

/-- The budget of a parser loop: every round consumes a token. -/
def Parser.budget (p : Parser) : Nat := p.tokens.length + 1

/-- The shape of a binary level: one operand of the next level, then the loop. -/
def Parser.binaryLevel (ops : List TokenType)
    (mk : ASTNode F → TokenType → ASTNode F → ASTNode F) (next : Parser → Run (ASTNode F × Parser))
    (p : Parser) : Run (ASTNode F × Parser) := do
  let (node, p1) ← next p
  Parser.binaryLoop ops mk next p1.budget node p1

/-- The comma loop of a function call or an array literal. -/
def Parser.listLoop (expression : Parser → Run (ASTNode F × Parser)) :
    Nat → List (ASTNode F) → Parser → Run (List (ASTNode F) × Parser)
  | 0, _, _ => throw Fault.fuel
  | n + 1, acc, p => do
    let (element, p1) ← expression p
    let (m, p2) ← p1.matchTypes [TokenType.COMMA]
    if m then Parser.listLoop expression n (acc ++ [element]) p2
    else pure (acc ++ [element], p2)

/-- Embedding of `Parser.primary`; `expression` is the recursive call. -/
def Parser.primary (expression : Parser → Run (ASTNode F × Parser)) (p : Parser) : Run (ASTNode F × Parser) := do
  let (m, p) ← p.matchTypes [TokenType.INT]
  if m then
    let v ← parseInt (← p.previous).Literal
    pure (ASTNode.IntLiteralNode v, p)
  else
  let (m, p) ← p.matchTypes [TokenType.FLOAT]
  if m then
    let v ← parseFloat (← p.previous).Literal
    pure (ASTNode.FloatLiteralNode v, p)
  else
  let (m, p) ← p.matchTypes [TokenType.STRING]
  if m then pure (ASTNode.StringLiteralNode (← p.previous).Literal, p)
  else
  let (m, p) ← p.matchTypes [TokenType.BOOL]
  if m then pure (ASTNode.BooleanLiteralNode (parseBool (← p.previous).Literal), p)
  else
  let (m, p) ← p.matchTypes [TokenType.VARIABLE]
  if m then pure (ASTNode.VariableNode (← p.previous).Literal, p)
  else
  let (m, p) ← p.matchTypes [TokenType.PAREN_LEFT]
  if m then
    let (expr, p) ← expression p
    let (_, p) ← p.consume TokenType.PAREN_RIGHT "Expect ')' after expression."
    pure (expr, p)
  else
  let (m, p) ← p.matchTypes [TokenType.FUNCTION]
  if m then
    let funcName := (← p.previous).Literal
    let (_, p) ← p.consume TokenType.PAREN_LEFT "Expect '(' after function."
    let (arguments, p) ←
      if !(← p.check TokenType.PAREN_RIGHT) then Parser.listLoop expression p.budget [] p
      else pure ([], p)
    let (_, p) ← p.consume TokenType.PAREN_RIGHT "Expect ')' after arguments to function."
    pure (ASTNode.FunctionCallNode funcName arguments, p)
  else
  let (m, p) ← p.matchTypes [TokenType.ARRAY]
  if m then
    let arrayType := (← p.previous).Literal
    let (_, p) ← p.consume TokenType.ARRAY_START "Expect '[' after array."
    let (elements, p) ←
      if !(← p.check TokenType.ARRAY_END) then Parser.listLoop expression p.budget [] p
      else pure ([], p)
    let (_, p) ← p.consume TokenType.ARRAY_END "Expect ']' after elements to array."
    pure (ASTNode.ArrayNode elements arrayType, p)
  else pure (ASTNode.IntLiteralNode 0, p)

/-- Embedding of `Parser.functions`: a primary, then the loop over `**`, `^`
and function-name tokens whose right operand is a recursive call. -/
def Parser.functions (expression : Parser → Run (ASTNode F × Parser)) : Nat → Parser → Run (ASTNode F × Parser)
  | 0, _ => throw Fault.fuel
  | n + 1, p => do
    let (node, p1) ← Parser.primary expression p
    Parser.binaryLoop [TokenType.EXPONENT, TokenType.FUNCTION] ASTNode.BinaryOperationNode
      (Parser.functions expression n) p1.budget node p1

/-- Embedding of `Parser.multiplication`. -/
def Parser.multiplication (expression : Parser → Run (ASTNode F × Parser)) : Parser → Run (ASTNode F × Parser) :=
  Parser.binaryLevel
    [TokenType.MULTIPLY, TokenType.DIVIDE, TokenType.MODULO, TokenType.DIVIDE_INTEGER]
    ASTNode.BinaryOperationNode (fun p => Parser.functions expression p.budget p)

/-- Embedding of `Parser.addition`. -/
def Parser.addition (expression : Parser → Run (ASTNode F × Parser)) : Parser → Run (ASTNode F × Parser) :=
  Parser.binaryLevel [TokenType.PLUS, TokenType.MINUS] ASTNode.BinaryOperationNode
    (Parser.multiplication expression)

/-- Embedding of `Parser.shift`. -/
def Parser.shift (expression : Parser → Run (ASTNode F × Parser)) : Parser → Run (ASTNode F × Parser) :=
  Parser.binaryLevel [TokenType.LEFT_SHIFT, TokenType.RIGHT_SHIFT] ASTNode.BinaryOperationNode
    (Parser.addition expression)

/-- Embedding of `Parser.comparison`. -/
def Parser.comparison (expression : Parser → Run (ASTNode F × Parser)) : Parser → Run (ASTNode F × Parser) :=
  Parser.binaryLevel
    [TokenType.GREATER_THAN, TokenType.GREATER_THAN_OR_EQUAL, TokenType.LESS_THAN,
      TokenType.LESS_THAN_OR_EQUAL]
    ASTNode.BinaryOperationNode (Parser.shift expression)

/-- Embedding of `Parser.equality`. -/
def Parser.equality (expression : Parser → Run (ASTNode F × Parser)) : Parser → Run (ASTNode F × Parser) :=
  Parser.binaryLevel [TokenType.EQUAL, TokenType.NOT_EQUAL] ASTNode.BinaryOperationNode
    (Parser.comparison expression)

/-- Embedding of `Parser.logicalAnd`. -/
def Parser.logicalAnd (expression : Parser → Run (ASTNode F × Parser)) : Parser → Run (ASTNode F × Parser) :=
  Parser.binaryLevel [TokenType.AND] ASTNode.LogicalOperationNode (Parser.equality expression)

/-- Embedding of `Parser.logicalOr`. -/
def Parser.logicalOr (expression : Parser → Run (ASTNode F × Parser)) : Parser → Run (ASTNode F × Parser) :=
  Parser.binaryLevel [TokenType.OR] ASTNode.LogicalOperationNode (Parser.logicalAnd expression)

/-- Embedding of `Parser.expression`.  The first argument bounds the nesting of
parentheses, calls and array literals; the recursion of `primary` into
`expression` happens after a token was consumed. -/
def Parser.expression : Nat → Parser → Run (ASTNode F × Parser)
  | 0, _ => throw Fault.fuel
  | n + 1, p => Parser.logicalOr (Parser.expression n) p

/-- Embedding of `Parser.Parse`. -/
def Parser.Parse (p : Parser) : Run (ASTNode F) := do
  let (tree, _) ← Parser.expression (F := F) p.budget p
  pure tree

end Parsing

/-! ## Builtin functions (`builtin.go`) -/

/-- What a builtin can reach besides its arguments: the package function
`Evaluate` and the registry `BuiltinFunctions`, both at the state of the call,
and the functions behind the function values `Value.func`; an index without an
entry in `closure` stands for a value that is no function. -/
structure Host (F : Type) where
  evaluate : Context F → String → Run (Res F)
  call : String → Option (Context F → List (Value F) → Run (Res F))
  closure : Nat → Option (Context F → List (Value F) → Run (Res F))

/-- The type `bifFunc` of `builtin.go`; the first argument is what the function
can reach in the package. -/
abbrev bifFunc (F : Type) : Type := Host F → Context F → List (Value F) → Run (Res F)

/-- The type `bif` of `builtin.go`: the registry, a map from names to functions
(`bif` is a reserved word of Lean, hence the capital). -/
abbrev Bif (F : Type) : Type := String → Option (bifFunc F)

/-- Embedding of `RegisterFunction`. -/
def RegisterFunction {F : Type} (b : Bif F) (name : String) (function : bifFunc F) : Bif F :=
  fun key => if key = name then some function else b key

/-- Go's `a / b` on `int`: truncated division, a panic on a zero divisor. -/
def intDiv (a b : Int) : Run Int :=
  if b = 0 then throw (Fault.panic "runtime error: integer divide by zero")
  else pure (wrap64 (Int.tdiv a b))

/-- Go's `a % b` on `int`: the remainder of the truncated division, a panic on
a zero divisor. -/
def intMod (a b : Int) : Run Int :=
  if b = 0 then throw (Fault.panic "runtime error: integer divide by zero")
  else pure (Int.tmod a b)

section Builtins

variable {F : Type} [Float64 F]

/-- A result pair with a value and no error. -/
def ok (v : Value F) : Run (Res F) := pure (v, none)

/-- A result pair `nil, fmt.Errorf(msg)`. -/
def fail (msg : String) : Run (Res F) := pure (Value.nil, some (Error.text msg))

/-- Embedding of `bif.Add`. -/
def Bif.Add (_h : Host F) (_ctx : Context F) (args : List (Value F)) : Run (Res F) :=
  match args with
  | [x, y] =>
    match x with
    | .int a =>
      match y with
      | .int b => ok (.int (wrap64 (a + b)))
      | .float b => ok (.float (Float64.add (Float64.ofInt a) b))
      | _ => ok .nil
    | .float a =>
      match y with
      | .int b => ok (.float (Float64.add a (Float64.ofInt b)))
      | .float b => ok (.float (Float64.add a b))
      | _ => ok .nil
    | .str a =>
      match y with
      | .str b => ok (.str (a ++ b))
      | _ => ok .nil
    | _ => ok .nil
  | _ => fail ("add function expects exactly two arguments got " ++ toString args.length)

/-- Embedding of `bif.Sub`. -/
def Bif.Sub (_h : Host F) (_ctx : Context F) (args : List (Value F)) : Run (Res F) :=
  match args with
  | [x, y] =>
    match x with
    | .int a =>
      match y with
      | .int b => ok (.int (wrap64 (a - b)))
      | .float b => ok (.float (Float64.sub (Float64.ofInt a) b))
      | _ => ok .nil
    | .float a =>
      match y with
      | .int b => ok (.float (Float64.sub a (Float64.ofInt b)))
      | .float b => ok (.float (Float64.sub a b))
      | _ => ok .nil
    | _ => ok .nil
  | _ => fail "sub function expects exactly two arguments"

/-- Embedding of `bif.Mul`. -/
def Bif.Mul (_h : Host F) (_ctx : Context F) (args : List (Value F)) : Run (Res F) :=
  match args with
  | [x, y] =>
    match x with
    | .int a =>
      match y with
      | .int b => ok (.int (wrap64 (a * b)))
      | .float b => ok (.float (Float64.mul (Float64.ofInt a) b))
      | _ => ok .nil
    | .float a =>
      match y with
      | .int b => ok (.float (Float64.mul a (Float64.ofInt b)))
      | .float b => ok (.float (Float64.mul a b))
      | _ => ok .nil
    | _ => ok .nil
  | _ => fail "mul function expects exactly two arguments"

/-- Embedding of `bif.Div`. -/
def Bif.Div (_h : Host F) (_ctx : Context F) (args : List (Value F)) : Run (Res F) :=
  match args with
  | [x, y] =>
    match x with
    | .int a =>
      match y with
      | .int b => do ok (.int (← intDiv a b))
      | .float b => ok (.float (Float64.div (Float64.ofInt a) b))
      | _ => ok .nil
    | .float a =>
      match y with
      | .int b => ok (.float (Float64.div a (Float64.ofInt b)))
      | .float b => ok (.float (Float64.div a b))
      | _ => ok .nil
    | _ => ok .nil
  | _ => fail "div function expects exactly two arguments"

/-- Embedding of `bif.DivInt`. -/
def Bif.DivInt (_h : Host F) (_ctx : Context F) (args : List (Value F)) : Run (Res F) :=
  match args with
  | [x, y] =>
    match x with
    | .int a =>
      match y with
      | .int b => do ok (.int (← intDiv a b))
      | .float b => do ok (.int (← intDiv a (Float64.toInt b)))
      | _ => ok .nil
    | .float a =>
      match y with
      | .int b => do ok (.int (← intDiv (Float64.toInt a) b))
      | .float b => do ok (.int (← intDiv (Float64.toInt a) (Float64.toInt b)))
      | _ => ok .nil
    | _ => ok .nil
  | _ => fail "div function expects exactly two arguments"

/-- Embedding of `bif.Mod`. -/
def Bif.Mod (_h : Host F) (_ctx : Context F) (args : List (Value F)) : Run (Res F) :=
  match args with
  | [x, y] =>
    match x with
    | .int a =>
      match y with
      | .int b => do ok (.int (← intMod a b))
      | .float b => do ok (.int (← intMod a (Float64.toInt b)))
      | _ => ok .nil
    | .float a =>
      match y with
      | .int b => do ok (.int (← intMod (Float64.toInt a) b))
      | .float b => do ok (.int (← intMod (Float64.toInt a) (Float64.toInt b)))
      | _ => ok .nil
    | _ => ok .nil
  | _ => fail "mod function expects exactly two arguments"

/-- Embedding of `bif.Exp`; `Float64.pow` is `math.Pow`. -/
def Bif.Exp (_h : Host F) (_ctx : Context F) (args : List (Value F)) : Run (Res F) :=
  match args with
  | [x, y] =>
    match x with
    | .int a =>
      match y with
      | .int b => ok (.float (Float64.pow (Float64.ofInt a) (Float64.ofInt b)))
      | .float b => ok (.float (Float64.pow (Float64.ofInt a) b))
      | _ => ok .nil
    | .float a =>
      match y with
      | .int b => ok (.float (Float64.pow a (Float64.ofInt b)))
      | .float b => ok (.float (Float64.pow a b))
      | _ => ok .nil
    | _ => ok .nil
  | _ => fail "exp function expects exactly two arguments"

/-- Embedding of `bif.Pow`. -/
def Bif.Pow (_h : Host F) (_ctx : Context F) (args : List (Value F)) : Run (Res F) :=
  match args with
  | [x, y] =>
    match x with
    | .int a =>
      match y with
      | .int b => ok (.float (Float64.pow (Float64.ofInt a) (Float64.ofInt b)))
      | .float b => ok (.float (Float64.pow (Float64.ofInt a) b))
      | _ => ok .nil
    | .float a =>
      match y with
      | .int b => ok (.float (Float64.pow a (Float64.ofInt b)))
      | .float b => ok (.float (Float64.pow a b))
      | _ => ok .nil
    | _ => ok .nil
  | _ => fail "pow function expects exactly two arguments"

/-- Embedding of `bif.Root`; the constant `1` of `1/b` is the float 1. -/
def Bif.Root (_h : Host F) (_ctx : Context F) (args : List (Value F)) : Run (Res F) :=
  match args with
  | [x, y] =>
    match x with
    | .int a =>
      match y with
      | .int b =>
        ok (.float (Float64.pow (Float64.ofInt a)
          (Float64.div (Float64.ofInt 1) (Float64.ofInt b))))
      | .float b =>
        ok (.float (Float64.pow (Float64.ofInt a) (Float64.div (Float64.ofInt 1) b)))
      | _ => ok .nil
    | .float a =>
      match y with
      | .int b => ok (.float (Float64.pow a (Float64.div (Float64.ofInt 1) (Float64.ofInt b))))
      | .float b => ok (.float (Float64.pow a (Float64.div (Float64.ofInt 1) b)))
      | _ => ok .nil
    | _ => ok .nil
  | _ => fail "root function expects exactly two arguments"

/-- Embedding of `bif.Hypot`. -/
def Bif.Hypot (_h : Host F) (_ctx : Context F) (args : List (Value F)) : Run (Res F) :=
  match args with
  | [x, y] =>
    match x with
    | .int a =>
      match y with
      | .int b => ok (.float (Float64.hypot (Float64.ofInt a) (Float64.ofInt b)))
      | .float b => ok (.float (Float64.hypot (Float64.ofInt a) b))
      | _ => ok .nil
    | .float a =>
      match y with
      | .int b => ok (.float (Float64.hypot a (Float64.ofInt b)))
      | .float b => ok (.float (Float64.hypot a b))
      | _ => ok .nil
    | _ => ok .nil
  | _ => fail "hypot function expects exactly two arguments"

/-- Embedding of `bif.Log`. -/
def Bif.Log (_h : Host F) (_ctx : Context F) (args : List (Value F)) : Run (Res F) :=
  match args with
  | [x, y] =>
    match x with
    | .int a =>
      match y with
      | .int b =>
        ok (.float (Float64.div (Float64.log (Float64.ofInt a))
          (Float64.log (Float64.ofInt b))))
      | .float b => ok (.float (Float64.div (Float64.log (Float64.ofInt a)) (Float64.log b)))
      | _ => ok .nil
    | .float a =>
      match y with
      | .int b => ok (.float (Float64.div (Float64.log a) (Float64.log (Float64.ofInt b))))
      | .float b => ok (.float (Float64.div (Float64.log a) (Float64.log b)))
      | _ => ok .nil
    | _ => ok .nil
  | _ => fail "log function expects exactly two arguments"

/-- The loop of `bif.Filter` over the elements that are left; `filteredArray`
holds the elements kept so far. -/
def Bif.filterLoop (h : Host F) (expr : String) :
    Context F → List (Value F) → List (Value F) → Run (Res F)
  | _, [], filteredArray => ok (.list filteredArray)
  | ctx, element :: rest, filteredArray => do
    let ctx1 := SetVariables ctx [("x", element)]
    let (result, err) ← h.evaluate ctx1 expr
    match err with
    | some e => pure (Value.nil, some (Error.evaluating expr e))
    | none =>
      match result with
      | .bool true => Bif.filterLoop h expr ctx1 rest (filteredArray ++ [element])
      | _ => Bif.filterLoop h expr ctx1 rest filteredArray

/-- Embedding of `bif.Filter`. -/
def Bif.Filter (h : Host F) (ctx : Context F) (args : List (Value F)) : Run (Res F) :=
  match args with
  | [x, y] =>
    match x with
    | .list array =>
      match y with
      | .str expr => Bif.filterLoop h expr ctx array []
      | _ => fail "second argument to filter must be a string expression"
    | _ => fail "first argument to filter must be an array"
  | _ => fail "filter function expects exactly two arguments: an array and an expression"

/-- The loop of `bif.Map` from the index `i` on; `mappedArray` holds the results
so far. -/
def Bif.mapLoop (h : Host F) (expr : String) :
    Context F → Nat → List (Value F) → List (Value F) → Run (Res F)
  | _, _, [], mappedArray => ok (.list mappedArray)
  | ctx, i, element :: rest, mappedArray => do
    let ctx1 := SetVariables ctx [("_i", Value.int i), ("_x", element)]
    let (transformedElement, err) ← h.evaluate ctx1 expr
    match err with
    | some e => pure (Value.nil, some (Error.evaluating expr e))
    | none => Bif.mapLoop h expr ctx1 (i + 1) rest (mappedArray ++ [transformedElement])

/-- Embedding of `bif.Map`. -/
def Bif.Map (h : Host F) (ctx : Context F) (args : List (Value F)) : Run (Res F) :=
  match args with
  | [x, y] =>
    match x with
    | .list array =>
      match y with
      | .str expr => Bif.mapLoop h expr ctx 0 array []
      | _ => fail "second argument to map must be a string expression"
    | _ => fail "first argument to map must be an array"
  | _ => fail "map function expects exactly two arguments: an array and an expression"

/-- The loop of `bif.Reduce`: the accumulator and the elements that are left. -/
def Bif.reduceLoop (function : Context F → List (Value F) → Run (Res F)) (ctx : Context F) :
    Value F → List (Value F) → Run (Res F)
  | accumulator, [] => ok accumulator
  | accumulator, element :: rest => do
    let (accumulator1, err) ← function ctx [accumulator, element]
    match err with
    | some e => pure (Value.nil, some e)
    | none => Bif.reduceLoop function ctx accumulator1 rest

/-- The second argument of `bif.Reduce` as a function: a name of the registry or
a function value; otherwise the error that `Reduce` returns. -/
def Bif.reduceFunction (h : Host F) (arg : Value F) :
    Except String (Context F → List (Value F) → Run (Res F)) :=
  match arg with
  | .str name =>
    match h.call name with
    | some function => Except.ok function
    | none => Except.error ("function " ++ name ++ " not supported")
  | .func id =>
    match h.closure id with
    | some function => Except.ok function
    | none => Except.error "second argument should be a function identifier or a function"
  | _ => Except.error "second argument should be a function identifier or a function"

/-- Embedding of `bif.Reduce`. -/
def Bif.Reduce (h : Host F) (ctx : Context F) (args : List (Value F)) : Run (Res F) :=
  if args.length < 2 ∨ args.length > 3 then
    fail ("reduce function expects two or three arguments: an array, a function, and an "
      ++ "optional initial value")
  else
    match args with
    | .list (first :: others) :: arg :: initial =>
      match Bif.reduceFunction h arg with
      | Except.error msg => fail msg
      | Except.ok function =>
        match initial with
        | [] => Bif.reduceLoop function ctx first others
        | accumulator :: _ => Bif.reduceLoop function ctx accumulator (first :: others)
    | _ => fail "first argument to reduce must be a non-empty array"

/-- The loop of `bif.Max`: `m` is the maximum so far and `i` the index. -/
def Bif.maxLoop : F → Nat → List (Value F) → Run (Res F)
  | m, _, [] => ok (.float m)
  | m, i, arg :: rest =>
    match arg with
    | .int a =>
      if i = 0 then Bif.maxLoop (Float64.ofInt a) (i + 1) rest
      else if Float64.lt m (Float64.ofInt a) then Bif.maxLoop (Float64.ofInt a) (i + 1) rest
      else Bif.maxLoop m (i + 1) rest
    | .float a =>
      if Float64.lt m a then Bif.maxLoop a (i + 1) rest else Bif.maxLoop m (i + 1) rest
    | _ => fail "max function expects number arguments"

/-- Embedding of `bif.Max`; `var m float64` starts at 0. -/
def Bif.Max (_h : Host F) (_ctx : Context F) (args : List (Value F)) : Run (Res F) :=
  if args.length < 1 then fail "max function expects at least one argument"
  else Bif.maxLoop (Float64.ofInt 0) 0 args

/-- The closure `median` of `bif.Median`; every index that it reads is in
range. -/
def Bif.medianOf (a : List F) : F :=
  if a.length = 0 then Float64.ofInt 0
  else if a.length = 1 then a.getD 0 (Float64.ofInt 0)
  else if a.length % 2 = 0 then
    Float64.div
      (Float64.add (a.getD (a.length / 2 - 1) (Float64.ofInt 0))
        (a.getD (a.length / 2) (Float64.ofInt 0)))
      (Float64.ofInt 2)
  else a.getD (a.length / 2) (Float64.ofInt 0)

/-- The loop of `bif.Median` that converts the arguments. -/
def Bif.medianLoop : List F → List (Value F) → Run (Res F)
  | a, [] => ok (.float (Bif.medianOf a))
  | a, arg :: rest =>
    match arg with
    | .int v => Bif.medianLoop (a ++ [Float64.ofInt v]) rest
    | .float v => Bif.medianLoop (a ++ [v]) rest
    | _ => fail "median function expects number arguments"

/-- Embedding of `bif.Median`. -/
def Bif.Median (_h : Host F) (_ctx : Context F) (args : List (Value F)) : Run (Res F) :=
  if args.length < 1 then fail "median function expects at least one argument"
  else Bif.medianLoop [] args

/-- The loop of `bif.Concat`. -/
def Bif.concatLoop : String → List (Value F) → Run (Res F)
  | result, [] => ok (.str result)
  | result, arg :: rest =>
    match arg with
    | .str a => Bif.concatLoop (result ++ a) rest
    | _ => fail "concat function expects string arguments"

/-- Embedding of `bif.Concat`. -/
def Bif.Concat (_h : Host F) (_ctx : Context F) (args : List (Value F)) : Run (Res F) :=
  if args.length < 2 then fail "concat function expects at least two arguments"
  else Bif.concatLoop "" args

/-- Embedding of `bif.Len`. -/
def Bif.Len (_h : Host F) (_ctx : Context F) (args : List (Value F)) : Run (Res F) :=
  match args with
  | [x] =>
    match x with
    | .str arg => ok (.int arg.length)
    | .list arg => ok (.int arg.length)
    | _ => fail "len function expects a string or array argument"
  | _ => fail "len function expects a single argument"

/-- Embedding of `bif.Reverse`.  A string is reversed rune by rune: for ASCII
text that is the reversed byte sequence, other texts are left to `unmodelled`.
A list is reversed in place in Go; the embedding returns the reversed list and
does not record the change of the argument. -/
def Bif.Reverse (_h : Host F) (_ctx : Context F) (args : List (Value F)) : Run (Res F) :=
  match args with
  | [x] =>
    match x with
    | .str arg =>
      if arg.data.all (fun c => decide (c.toNat < 128)) then
        ok (.str (String.mk arg.data.reverse))
      else throw Fault.unmodelled
    | .list arg => ok (.list arg.reverse)
    | _ => fail "reverse function expects a string or array argument"
  | _ => fail "reverse function expects a single argument"

/-- Embedding of `bif.Slice`.  Go checks the bounds of `arg[start:end]` against
the capacity of the slice, which the embedding does not hold: an end beyond the
length is left to `unmodelled`. -/
def Bif.Slice (_h : Host F) (_ctx : Context F) (args : List (Value F)) : Run (Res F) :=
  match args with
  | [x, y, z] =>
    match x with
    | .list arg =>
      match y with
      | .int start =>
        match z with
        | .int stop =>
          if start < 0 ∨ stop < start then throw (Fault.panic "slice bounds out of range")
          else if stop ≤ arg.length then
            ok (.list ((arg.drop start.toNat).take (stop - start).toNat))
          else throw Fault.unmodelled
        | _ => fail "slice function expects an int as the third argument"
      | _ => fail "slice function expects an int as the second argument"
    | _ => fail "slice function expects an array argument"
  | _ => fail "slice function expects exactly three arguments"

/-- The message of the panic of a failed type assertion `v.(T)`. -/
def assertionPanic (v : Value F) (want : String) : String :=
  "interface conversion: interface {} is "
    ++ (match v with
      | .nil => "nil"
      | _ => goTypeName v)
    ++ ", not " ++ want

/-- The loop `ints[i] = v.(int)` of `bif.Sort`. -/
def Bif.toInts : List (Value F) → Run (List Int)
  | [] => pure []
  | v :: rest =>
    match v with
    | .int i => do pure (i :: (← Bif.toInts rest))
    | _ => throw (Fault.panic (assertionPanic v "int"))

/-- The loop `floats[i] = v.(float64)` of `bif.Sort`. -/
def Bif.toFloats : List (Value F) → Run (List F)
  | [] => pure []
  | v :: rest =>
    match v with
    | .float f => do pure (f :: (← Bif.toFloats rest))
    | _ => throw (Fault.panic (assertionPanic v "float64"))

/-- The loop `strings[i] = v.(string)` of `bif.Sort`. -/
def Bif.toStrings : List (Value F) → Run (List String)
  | [] => pure []
  | v :: rest =>
    match v with
    | .str s => do pure (s :: (← Bif.toStrings rest))
    | _ => throw (Fault.panic (assertionPanic v "string"))

/-- Go's `sort.Ints`: the ascending rearrangement. -/
def sortInts (xs : List Int) : List Int := xs.insertionSort (fun a b => a ≤ b)

/-- The order of `sort.Float64s`: `x < y`, or `x` is NaN and `y` is not. -/
def floatLess (x y : F) : Bool :=
  Float64.lt x y || (!Float64.eq x x && Float64.eq y y)

/-- Go's `sort.Float64s`: a rearrangement that is ascending for `floatLess`;
which one Go returns among floats that compare equal is not fixed. -/
def sortFloat64s (xs : List F) : List F :=
  xs.insertionSort (fun a b => floatLess b a = false)

/-- Go's `sort.Strings`: the rearrangement that is ascending by bytes. -/
def sortStrings (xs : List String) : List String :=
  xs.insertionSort (fun a b => strLt b a = false)

/-- Embedding of `bif.Sort`.  The kind of the first element selects the typed
slice; an element of another kind fails its type assertion. -/
def Bif.Sort (_h : Host F) (_ctx : Context F) (args : List (Value F)) : Run (Res F) :=
  match args with
  | [x] =>
    match x with
    | .list arg =>
      match arg with
      | [] => throw (Fault.panic "runtime error: index out of range [0] with length 0")
      | first :: _ =>
        match first with
        | .int _ => do ok (.ints (sortInts (← Bif.toInts arg)))
        | .float _ => do ok (.floats (sortFloat64s (← Bif.toFloats arg)))
        | .str _ => do ok (.strs (sortStrings (← Bif.toStrings arg)))
        | _ => ok .nil
    | _ => fail "sort function expects an array argument"
  | _ => fail "sort function expects a single argument"

/-- Whether a value can be the key of a Go map: slices, maps and functions
cannot. -/
def Value.hashable : Value F → Bool
  | .list _ | .map _ | .ints _ | .floats _ | .strs _ | .func _ => false
  | _ => true

/-- Go's `==` on two hashable interface values: the same dynamic type and equal
values. -/
def Value.keyEq : Value F → Value F → Bool
  | .nil, .nil => true
  | .int a, .int b => decide (a = b)
  | .float a, .float b => Float64.eq a b
  | .str a, .str b => decide (a = b)
  | .bool a, .bool b => decide (a = b)
  | .time a, .time b => decide (a = b)
  | .duration a, .duration b => decide (a = b)
  | _, _ => false

/-- The loop of `bif.Unique`.  The keys of the map `unique` are the elements of
`result`; reading the map at a key that cannot be hashed panics. -/
def Bif.uniqueLoop : List (Value F) → List (Value F) → Run (Res F)
  | result, [] => ok (.list result)
  | result, a :: rest =>
    if !a.hashable then throw (Fault.panic "runtime error: hash of unhashable type")
    else if result.any (fun k => Value.keyEq k a) then Bif.uniqueLoop result rest
    else Bif.uniqueLoop (result ++ [a]) rest

/-- Embedding of `bif.Unique`. -/
def Bif.Unique (_h : Host F) (_ctx : Context F) (args : List (Value F)) : Run (Res F) :=
  match args with
  | [x] =>
    match x with
    | .list arg => Bif.uniqueLoop [] arg
    | _ => fail "unique function expects an array argument"
  | _ => fail "unique function expects a single argument"

/-- The names that `init` registers besides those of the builtins embedded
above. -/
def otherBuiltinNames : List String :=
  ["sqrt", "log10", "log2", "sin", "cos", "tan", "asin", "acos", "atan",
    "sinh", "cosh", "tanh", "ceil", "floor", "round", "abs", "double",
    "deg2rad", "rad2deg", "mean", "stddev", "min",
    "sum", "shuffle", "rand",
    "date", "time", "datetime", "diffdate", "difftime", "mode", "variance", "ai",
    "predict"]

/-- Embedding of `init`: the initial registry.  The builtins embedded above are
registered under their names; `library` supplies the functions of the other
registered names, which this development takes as given. -/
def init (library : String → bifFunc F) : Bif F := fun name =>
  if name = "add" then some Bif.Add
  else if name = "sub" then some Bif.Sub
  else if name = "mul" then some Bif.Mul
  else if name = "div" then some Bif.Div
  else if name = "divint" then some Bif.DivInt
  else if name = "mod" then some Bif.Mod
  else if name = "exp" then some Bif.Exp
  else if name = "pow" then some Bif.Pow
  else if name = "log" then some Bif.Log
  else if name = "root" then some Bif.Root
  else if name = "hypot" then some Bif.Hypot
  else if name = "filter" then some Bif.Filter
  else if name = "map" then some Bif.Map
  else if name = "reduce" then some Bif.Reduce
  else if name = "max" then some Bif.Max
  else if name = "median" then some Bif.Median
  else if name = "concat" then some Bif.Concat
  else if name = "len" then some Bif.Len
  else if name = "reverse" then some Bif.Reverse
  else if name = "slice" then some Bif.Slice
  else if name = "sort" then some Bif.Sort
  else if name = "unique" then some Bif.Unique
  else if name ∈ otherBuiltinNames then some (library name)
  else none

/-! ## Evaluation (`ast.go`) -/

/-- Embedding of `applyStringComparison`. -/
def applyStringComparison (left right : String) (op : TokenType) : Bool :=
  match op with
  | .EQUAL => strEq left right
  | .NOT_EQUAL => !strEq left right
  | .LESS_THAN => strLt left right
  | .LESS_THAN_OR_EQUAL => !strLt right left
  | .GREATER_THAN => strLt right left
  | .GREATER_THAN_OR_EQUAL => !strLt left right
  | _ => false

/-- Embedding of `applyFloatComparison`. -/
def applyFloatComparison (left right : F) (op : TokenType) : Bool :=
  match op with
  | .EQUAL => Float64.eq left right
  | .NOT_EQUAL => !Float64.eq left right
  | .LESS_THAN => Float64.lt left right
  | .LESS_THAN_OR_EQUAL => Float64.le left right
  | .GREATER_THAN => Float64.lt right left
  | .GREATER_THAN_OR_EQUAL => Float64.le right left
  | _ => false

/-- Embedding of `applyIntComparison`. -/
def applyIntComparison (left right : Int) (op : TokenType) : Bool :=
  match op with
  | .EQUAL => decide (left = right)
  | .NOT_EQUAL => decide (left ≠ right)
  | .LESS_THAN => decide (left < right)
  | .LESS_THAN_OR_EQUAL => decide (left ≤ right)
  | .GREATER_THAN => decide (left > right)
  | .GREATER_THAN_OR_EQUAL => decide (left ≥ right)
  | _ => false

/-- Embedding of `applyTimeComparison`; a `time.Time` is its instant. -/
def applyTimeComparison (left right : Int) (op : TokenType) : Bool :=
  match op with
  | .EQUAL => decide (left = right)
  | .NOT_EQUAL => !decide (left = right)
  | .LESS_THAN => decide (left < right)
  | .LESS_THAN_OR_EQUAL => decide (left < right) || decide (left = right)
  | .GREATER_THAN => decide (left > right)
  | .GREATER_THAN_OR_EQUAL => decide (left > right) || decide (left = right)
  | _ => false

/-- The error at the end of `BinaryOperationNode.Evaluate`. -/
def typeMismatch (leftEval : Value F) (op : TokenType) (rightEval : Value F) : Run (Res F) :=
  pure (Value.nil,
    some (Error.typeMismatch (goTypeName leftEval) leftEval op (goTypeName rightEval) rightEval))

/-- The comparison case of `BinaryOperationNode.Evaluate`. -/
def compareValues (leftEval : Value F) (op : TokenType) (rightEval : Value F) : Run (Res F) :=
  match leftEval with
  | .str left =>
    match rightEval with
    | .str right => ok (.bool (applyStringComparison left right op))
    | _ => typeMismatch leftEval op rightEval
  | .float left =>
    match rightEval with
    | .float right => ok (.bool (applyFloatComparison left right op))
    | .int right => ok (.bool (applyFloatComparison left (Float64.ofInt right) op))
    | _ => typeMismatch leftEval op rightEval
  | .int left =>
    match rightEval with
    | .int right => ok (.bool (applyIntComparison left right op))
    | .float right => ok (.bool (applyFloatComparison (Float64.ofInt left) right op))
    | _ => typeMismatch leftEval op rightEval
  | .time left =>
    match rightEval with
    | .time right => ok (.bool (applyTimeComparison left right op))
    | _ => typeMismatch leftEval op rightEval
  | _ => typeMismatch leftEval op rightEval

/-- Go's `left << right` on `int`; a negative count panics. -/
def shiftLeft (left right : Int) : Run Int :=
  if right < 0 then throw (Fault.panic "runtime error: negative shift amount")
  else if right ≥ 64 then pure 0
  else pure (wrap64 (left * 2 ^ right.toNat))

/-- Go's `left >> right` on `int`; a negative count panics. -/
def shiftRight (left right : Int) : Run Int :=
  if right < 0 then throw (Fault.panic "runtime error: negative shift amount")
  else if right ≥ 64 then pure (if left < 0 then -1 else 0)
  else pure (left / 2 ^ right.toNat)

/-- The dispatch of `BinaryOperationNode.Evaluate` on the operator, after both
operands were evaluated.  The arithmetic operators call the methods `Add`,
`Sub`, ... of `BuiltinFunctions` directly. -/
def applyBinary (h : Host F) (ctx : Context F) (leftEval : Value F) (op : TokenType)
    (rightEval : Value F) : Run (Res F) :=
  match op with
  | .PLUS => Bif.Add h ctx [leftEval, rightEval]
  | .MINUS => Bif.Sub h ctx [leftEval, rightEval]
  | .MULTIPLY => Bif.Mul h ctx [leftEval, rightEval]
  | .DIVIDE => Bif.Div h ctx [leftEval, rightEval]
  | .DIVIDE_INTEGER => Bif.DivInt h ctx [leftEval, rightEval]
  | .MODULO => Bif.Mod h ctx [leftEval, rightEval]
  | .EXPONENT => Bif.Exp h ctx [leftEval, rightEval]
  | .EQUAL | .NOT_EQUAL | .LESS_THAN | .LESS_THAN_OR_EQUAL | .GREATER_THAN
  | .GREATER_THAN_OR_EQUAL => compareValues leftEval op rightEval
  | .LEFT_SHIFT =>
    match leftEval, rightEval with
    | .int left, .int right => do ok (.int (← shiftLeft left right))
    | _, _ => typeMismatch leftEval op rightEval
  | .RIGHT_SHIFT =>
    match leftEval, rightEval with
    | .int left, .int right => do ok (.int (← shiftRight left right))
    | _, _ => typeMismatch leftEval op rightEval
  | _ => fail ("unknown or unsupported operator: " ++ op.text)

/-- The part of `LogicalOperationNode.Evaluate` after both operands were
evaluated. -/
def applyLogical (leftEval : Value F) (op : TokenType) (rightEval : Value F) : Run (Res F) :=
  match leftEval, rightEval with
  | .bool leftBool, .bool rightBool =>
    match op with
    | .AND => ok (.bool (leftBool && rightBool))
    | .OR => ok (.bool (leftBool || rightBool))
    | _ => fail ("unknown logical operator: " ++ op.text)
  | _, _ => fail "operands for logical operation must be boolean"

/-- Go's `strings.Split(name, ".")`: the first part and the other parts. -/
def splitDots : List Char → List Char → String × List String
  | [], cur => (String.mk cur, [])
  | c :: cs, cur =>
    if c == '.' then (String.mk cur, (splitDots cs []).1 :: (splitDots cs []).2)
    else splitDots cs (cur ++ [c])

/-- The loop of `VariableNode.lookup` over the parts after the first. -/
def lookupParts (value : Value F) : List String → Value F × Bool
  | [] => (value, true)
  | part :: parts =>
    match value with
    | .map v =>
      match mapGet v part with
      | some value1 => lookupParts value1 parts
      | none => (Value.nil, false)
    | _ => (Value.nil, false)

/-- Embedding of `VariableNode.lookup`. -/
def VariableNode.lookup (ctx : Context F) (name : String) : Value F × Bool :=
  match ctx.vars with
  | none => (Value.nil, false)
  | some vars =>
    match splitDots name.data [] with
    | (part0, []) => ((mapGet vars part0).getD Value.nil, true)
    | (part0, parts) =>
      match mapGet vars part0 with
      | none => (Value.nil, false)
      | some value => lookupParts value parts

mutual

/-- Embedding of the `Evaluate` methods of the nodes of `ast.go`. -/
def ASTNode.Evaluate (b : Bif F) (h : Host F) (ctx : Context F) : ASTNode F → Run (Res F)
  | .IntLiteralNode v => ok (.int v)
  | .FloatLiteralNode v => ok (.float v)
  | .StringLiteralNode v => ok (.str v)
  | .BooleanLiteralNode v => ok (.bool v)
  | .VariableNode name =>
    match VariableNode.lookup ctx name with
    | (value, true) => ok value
    | (_, false) => fail ("variable " ++ name ++ " not defined")
  | .BinaryOperationNode left op right => do
    let (leftEval, err) ← ASTNode.Evaluate b h ctx left
    match err with
    | some e => pure (Value.nil, some e)
    | none =>
      let (rightEval, err) ← ASTNode.Evaluate b h ctx right
      match err with
      | some e => pure (Value.nil, some e)
      | none => applyBinary h ctx leftEval op rightEval
  | .LogicalOperationNode left op right => do
    let (leftEval, err) ← ASTNode.Evaluate b h ctx left
    match err with
    | some e => pure (Value.nil, some e)
    | none =>
      let (rightEval, err) ← ASTNode.Evaluate b h ctx right
      match err with
      | some e => pure (Value.nil, some e)
      | none => applyLogical leftEval op rightEval
  | .FunctionCallNode name arguments => do
    let (args, err) ← ASTNode.EvaluateAll b h ctx arguments
    match err with
    | some e => pure (Value.nil, some e)
    | none =>
      match b name with
      | some f => f h ctx args
      | none => fail ("unknown function: " ++ name)
  | .ArrayNode elements _ => do
    let (vals, err) ← ASTNode.EvaluateAll b h ctx elements
    match err with
    | some e => pure (Value.nil, some e)
    | none => ok (.list vals)

/-- The loops of `FunctionCallNode.Evaluate` and `ArrayNode.Evaluate` over the
arguments and the elements: they stop at the first error. -/
def ASTNode.EvaluateAll (b : Bif F) (h : Host F) (ctx : Context F) :
    List (ASTNode F) → Run (List (Value F) × Option (Error F))
  | [] => pure ([], none)
  | node :: nodes => do
    let (val, err) ← ASTNode.Evaluate b h ctx node
    match err with
    | some e => pure ([], some e)
    | none =>
      let (vals, err) ← ASTNode.EvaluateAll b h ctx nodes
      match err with
      | some e => pure ([], some e)
      | none => pure (val :: vals, none)

end

/-! ## Entry points (`exp.go`) -/

/-- The body of `Evaluate`: lex, parse, evaluate the tree. -/
def pipeline (b : Bif F) (h : Host F) (ctx : Context F) (comparison : String) :
    Run (Res F) := do
  let p ← NewParser (NewLexer comparison)
  let tree ← Parser.Parse (F := F) p
  tree.Evaluate b h ctx

/-- What the builtins reach when at most `n` nested calls of `Evaluate` are
still allowed.  The entry point is embedded for contexts that hold no function
values: the table `closure` is empty. -/
def hostAt (b : Bif F) : Nat → Host F
  | 0 =>
    { evaluate := fun _ _ => throw Fault.fuel
      call := fun name => (b name).map (fun _ => fun _ _ => throw Fault.fuel)
      closure := fun _ => none }
  | n + 1 =>
    { evaluate := fun ctx comparison => pipeline b (hostAt b n) ctx comparison
      call := fun name => (b name).map (fun f => f (hostAt b n))
      closure := fun _ => none }

/-- Embedding of `Evaluate` under the registry `b`; the first argument bounds
the nesting of `Evaluate` calls made from inside builtins. -/
def Evaluate (b : Bif F) (n : Nat) (ctx : Context F) (comparison : String) : Run (Res F) :=
  (hostAt b n).evaluate ctx comparison

/-- Embedding of `EvaluateBool`, with the Go result pair `(bool, error)`. -/
def EvaluateBool (b : Bif F) (n : Nat) (ctx : Context F) (comparison : String) :
    Run (Bool × Option (Error F)) := do
  let (ev, err) ← Evaluate b n ctx comparison
  match err with
  | some e => pure (false, some e)
  | none =>
    match ev with
    | .bool v => pure (v, none)
    | _ => pure (false, some (Error.text "non-boolean result"))

/-- The loop of `Exp` over the parameters, two at a time; `none` is the return
for a key that is no string.  The index `i + 1` is in range when the number of
parameters is even. -/
def Exp.dictLoop : List (Value F) → List (String × Value F) →
    Run (Option (List (String × Value F)))
  | [], dict => pure (some dict)
  | [_], _ => throw (Fault.panic "index out of range")
  | k :: v :: rest, dict =>
    match k with
    | .str key => Exp.dictLoop rest (mapSet dict key v)
    | _ => pure none

/-- Embedding of `Exp` under the registry `b`.  Without parameters the mapping
is the nil map, which reads like the empty one; `context.TODO()` holds no
mapping. -/
def Exp (b : Bif F) (n : Nat) (comparison : String) (params : List (Value F)) :
    Run (Bool × Option (Error F)) := do
  if params.length > 0 ∧ params.length % 2 ≠ 0 then
    pure (false, some (Error.text "invalid dict call"))
  else
    match (← Exp.dictLoop params []) with
    | none => pure (false, some (Error.text "dict keys must be strings"))
    | some dict => EvaluateBool b n (SetVariables { vars := none } dict) comparison

end Builtins

/-! ## Template rendering (`lex.go`, `ast.go`, `exp.go`) -/

section Templates

variable {F : Type} [Float64 F]

/-- Embedding of `TokenGoTemplate`. -/
def TokenGoTemplate : TokenType → String
  | .AND => "and"
  | .OR => "or"
  | .EQUAL => "eq"
  | .NOT_EQUAL => "ne"
  | .LESS_THAN => "lt"
  | .GREATER_THAN => "gt"
  | .LESS_THAN_OR_EQUAL => "le"
  | .GREATER_THAN_OR_EQUAL => "ge"
  | .PLUS => "add"
  | .MINUS => "sub"
  | .MULTIPLY => "mul"
  | .DIVIDE => "div"
  | .MODULO => "mod"
  | tok => tok.text

/-- The type assertion `n.(*BinaryOperationNode)`. -/
def ASTNode.isBinaryOperationNode : ASTNode F → Bool
  | .BinaryOperationNode _ _ _ => true
  | _ => false

mutual

/-- Embedding of the `GoTemplate` methods of the nodes of `ast.go`.  The verb
`%d` prints an int in decimal and `%s` prints a `[]string` as its elements
between brackets, separated by spaces. -/
def ASTNode.GoTemplate : ASTNode F → String
  | .IntLiteralNode v => toString v
  | .FloatLiteralNode v => Float64.format v
  | .BinaryOperationNode left op right =>
    let er := right.GoTemplate
    let el := left.GoTemplate
    let er := if right.isBinaryOperationNode then "(" ++ er ++ ")" else er
    let el := if left.isBinaryOperationNode then "(" ++ el ++ ")" else el
    TokenGoTemplate op ++ " " ++ el ++ " " ++ er
  | .StringLiteralNode v => "\"" ++ v ++ "\""
  | .VariableNode name => "." ++ name
  | .LogicalOperationNode left op right =>
    TokenGoTemplate op ++ " ( " ++ left.GoTemplate ++ " ) ( " ++ right.GoTemplate ++ " )"
  | .BooleanLiteralNode v => if v then "true" else "false"
  | .FunctionCallNode name arguments =>
    name ++ " " ++ ("[" ++ " ".intercalate (ASTNode.GoTemplateAll arguments) ++ "]")
  | .ArrayNode elements _ => "[" ++ ", ".intercalate (ASTNode.GoTemplateAll elements) ++ "]"

/-- The loops of `FunctionCallNode.GoTemplate` and `ArrayNode.GoTemplate`. -/
def ASTNode.GoTemplateAll : List (ASTNode F) → List String
  | [] => []
  | node :: nodes => node.GoTemplate :: ASTNode.GoTemplateAll nodes

end

/-- Embedding of `ToGoTemplate`. -/
def ToGoTemplate (F : Type) [Float64 F] (comparison : String) : Run String := do
  let p ← NewParser (NewLexer comparison)
  let tree ← Parser.Parse (F := F) p
  pure tree.GoTemplate

end Templates

/-! ## An exact instance of `Float64` for examples -/

/-- A sufficient test for a rational to be a binary64 number: its denominator
is a power of two not above `2 ^ 200` and its numerator is below `2 ^ 53` in
absolute value. -/
def isBinary64 (q : Rat) : Bool :=
  decide (Nat.land q.den (q.den - 1) = 0) && decide (q.den ≤ 2 ^ 200)
    && decide (q.num.natAbs < 2 ^ 53)

/-- The carrier of the exact instance: `some q` is the binary64 number `q`,
`none` stands for every float that the instance does not compute. -/
abbrev Exact : Type := Option Rat

/-- The result of an operation whose exact value is `q`: IEEE 754 operations
round correctly, so they return `q` when `q` is a binary64 number. -/
def Exact.ofRat (q : Rat) : Exact := if isBinary64 q then some q else none

/-- A binary operation of the exact instance. -/
def Exact.lift (f : Rat → Rat → Rat) (x y : Exact) : Exact :=
  match x, y with
  | some a, some b => Exact.ofRat (f a b)
  | _, _ => none

/-- A comparison of the exact instance. -/
def Exact.rel (f : Rat → Rat → Bool) (x y : Exact) : Bool :=
  match x, y with
  | some a, some b => f a b
  | _, _ => false

/-- Powers with a natural exponent. -/
def Exact.powNat (a : Rat) : Nat → Rat
  | 0 => 1
  | n + 1 => Rat.mul a (Exact.powNat a n)

/-- The exact value of `math.Pow` for a non-negative integral exponent. -/
def Exact.pow (x y : Exact) : Exact :=
  match x, y with
  | some a, some b =>
    if b.den = 1 ∧ 0 ≤ b.num then Exact.ofRat (Exact.powNat a b.num.toNat) else none
  | _, _ => none

/-- The digits before and after the point of a decimal literal. -/
def Exact.splitPoint : List Char → List Char → List Char × Option (List Char)
  | [], acc => (acc, none)
  | c :: cs, acc => if c == '.' then (acc, some cs) else Exact.splitPoint cs (acc ++ [c])

/-- The value of an unsigned decimal literal `digits` or `digits.digits` with at
least one digit. -/
def Exact.parseUnsigned (cs : List Char) : Option Rat :=
  match Exact.splitPoint cs [] with
  | (whole, none) =>
    match whole with
    | [] => none
    | _ :: _ => (digitsValue whole 0).map (fun n => (Rat.ofInt n))
  | (whole, some frac) =>
    if whole.isEmpty && frac.isEmpty then none
    else
      match digitsValue whole 0, digitsValue frac 0 with
      | some w, some f => some (Rat.add (Rat.ofInt w) (Rat.div (Rat.ofInt f) (Rat.ofInt (10 ^ frac.length))))
      | _, _ => none

/-- The decimal literals of `strconv.ParseFloat` that the lexer can produce. -/
def Exact.parse (s : String) : Option Exact :=
  match s.data with
  | [] => none
  | c :: cs =>
    if c == '-' then (Exact.parseUnsigned cs).map (fun q => Exact.ofRat (Rat.neg q))
    else (Exact.parseUnsigned (c :: cs)).map Exact.ofRat

/-- The decimal digits of a natural number, padded with zeros to `width`. -/
def Exact.padded (width n : Nat) : String :=
  String.mk (List.replicate (width - (toString n).length) '0') ++ toString n

/-- The text of `%f` for a binary64 number: six digits after the point, the
last one rounded half to even.  For the floats that the instance does not
compute the text is `NaN`. -/
def Exact.format : Exact → String
  | none => "NaN"
  | some q =>
    let n := q.num.natAbs * 10 ^ 6
    let t := n / q.den
    let r := n % q.den
    let t := if 2 * r > q.den ∨ (2 * r = q.den ∧ t % 2 = 1) then t + 1 else t
    (if q.num < 0 then "-" else "") ++ toString (t / 10 ^ 6) ++ "."
      ++ Exact.padded 6 (t % 10 ^ 6)

instance : Float64 Exact where
  ofInt i := Exact.ofRat (Rat.ofInt i)
  toInt x := match x with
    | some q => Int.tdiv q.num q.den
    | none => 0
  add := Exact.lift Rat.add
  sub := Exact.lift Rat.sub
  mul := Exact.lift Rat.mul
  div x y := match y with
    | some b => if b.num = 0 then none else Exact.lift Rat.div x (some b)
    | none => none
  pow := Exact.pow
  hypot := fun _ _ => none
  log := fun _ => none
  eq := Exact.rel (fun a b => decide (a = b))
  lt := Exact.rel (fun a b => decide (a.num * b.den < b.num * a.den))
  le := Exact.rel (fun a b => decide (a.num * b.den ≤ b.num * a.den))
  parse := Exact.parse
  format := Exact.format

/-! ## Definitions used by the statements about the parser -/

section ParserSpec

variable {F : Type} [Float64 F]

/-- The parser state after one token was consumed. -/
def Parser.next (p : Parser) : Parser := { p with current := p.current + 1 }

/-- The precedence chain in the words of the specification: the level of a
binary operator, from the loosest (`||`, level 0) to the tightest (the
multiplicative operators, level 6). -/
def opLevel : TokenType → Option Nat
  | .OR => some 0
  | .AND => some 1
  | .EQUAL | .NOT_EQUAL => some 2
  | .LESS_THAN | .LESS_THAN_OR_EQUAL | .GREATER_THAN | .GREATER_THAN_OR_EQUAL => some 3
  | .LEFT_SHIFT | .RIGHT_SHIFT => some 4
  | .PLUS | .MINUS => some 5
  | .MULTIPLY | .DIVIDE | .MODULO | .DIVIDE_INTEGER => some 6
  | _ => none

/-- Token kinds that continue an expression after a complete operand: the
binary operators, the exponent and a function name. -/
def continues (t : TokenType) : Bool :=
  (opLevel t).isSome || decide (t = TokenType.EXPONENT) || decide (t = TokenType.FUNCTION)

/-- The node that the specification names `Node`: a logical node for `&&` and
`||`, a binary node for every other operator. -/
def mkNode (left : ASTNode F) (op : TokenType) (right : ASTNode F) : ASTNode F :=
  if op = TokenType.AND ∨ op = TokenType.OR then ASTNode.LogicalOperationNode left op right
  else ASTNode.BinaryOperationNode left op right

/-- The operators that the parsing function of a level matches. -/
def levelOps : Nat → List TokenType
  | 0 => [TokenType.OR]
  | 1 => [TokenType.AND]
  | 2 => [TokenType.EQUAL, TokenType.NOT_EQUAL]
  | 3 => [TokenType.GREATER_THAN, TokenType.GREATER_THAN_OR_EQUAL, TokenType.LESS_THAN,
      TokenType.LESS_THAN_OR_EQUAL]
  | 4 => [TokenType.LEFT_SHIFT, TokenType.RIGHT_SHIFT]
  | 5 => [TokenType.PLUS, TokenType.MINUS]
  | 6 => [TokenType.MULTIPLY, TokenType.DIVIDE, TokenType.MODULO, TokenType.DIVIDE_INTEGER]
  | _ => []

/-- The node constructor of the parsing function of a level. -/
def levelNode : Nat → ASTNode F → TokenType → ASTNode F → ASTNode F
  | 0 => ASTNode.LogicalOperationNode
  | 1 => ASTNode.LogicalOperationNode
  | _ => ASTNode.BinaryOperationNode

/-- The parsing functions of `parse.go` by level: `logicalOr` is level 0,
`multiplication` level 6 and `functions` level 7. -/
def Parser.atLevel (E : Parser → Run (ASTNode F × Parser)) : Nat → Parser →
    Run (ASTNode F × Parser)
  | 0 => Parser.logicalOr E
  | 1 => Parser.logicalAnd E
  | 2 => Parser.equality E
  | 3 => Parser.comparison E
  | 4 => Parser.shift E
  | 5 => Parser.addition E
  | 6 => Parser.multiplication E
  | _ => fun p => Parser.functions E p.budget p

/-- The shared hypotheses of the lemmas below: three primaries `a`, `b`, `c`
separated by the tokens `t1` and `t2` and followed by `t3`. -/
structure Triple (E : Parser → Run (ASTNode F × Parser)) (toks : List Token)
    (c0 c1 c2 c3 : Nat) (a b c : ASTNode F) (t1 t2 t3 : Token) : Prop where
  ha : Parser.primary E { tokens := toks, current := c0 }
    = Except.ok (a, { tokens := toks, current := c1 })
  h1 : toks[c1]? = some t1
  hb : Parser.primary E { tokens := toks, current := c1 + 1 }
    = Except.ok (b, { tokens := toks, current := c2 })
  h2 : toks[c2]? = some t2
  hc : Parser.primary E { tokens := toks, current := c2 + 1 }
    = Except.ok (c, { tokens := toks, current := c3 })
  h3 : toks[c3]? = some t3
  hend : continues t3.Typ = false

end ParserSpec

/-! ## Definitions used by the statements about evaluation -/

section EvalSpec

variable {F : Type} [Float64 F]

/-- The operator/builtin pairs of the operator-parity property. -/
def operatorBuiltins : List (TokenType × String) :=
  [(TokenType.PLUS, "add"), (TokenType.MINUS, "sub"), (TokenType.MULTIPLY, "mul"),
    (TokenType.DIVIDE, "div"), (TokenType.DIVIDE_INTEGER, "divint"),
    (TokenType.MODULO, "mod"), (TokenType.EXPONENT, "exp")]

/-- The reference definition of addition in the words of the specification:
int with int gives the int sum (Go's wrapping sum), an int with a float gives the
float sum with the int promoted, float with float the float sum, string with
string the concatenation, every other pair of kinds gives nil. -/
def addReference (x y : Value F) : Value F :=
  match x, y with
  | .int a, .int b => .int (wrap64 (a + b))
  | .int a, .float b => .float (Float64.add (Float64.ofInt a) b)
  | .float a, .int b => .float (Float64.add a (Float64.ofInt b))
  | .float a, .float b => .float (Float64.add a b)
  | .str s, .str t => .str (s ++ t)
  | _, _ => .nil

/-- The six comparison operators. -/
def comparisonOps : List TokenType :=
  [TokenType.EQUAL, TokenType.NOT_EQUAL, TokenType.LESS_THAN, TokenType.LESS_THAN_OR_EQUAL,
    TokenType.GREATER_THAN, TokenType.GREATER_THAN_OR_EQUAL]

/-- The mathematical relation that a comparison operator stands for, on an
ordered type. -/
def relation {α : Type} [LT α] [LE α] (op : TokenType) (a b : α) : Prop :=
  match op with
  | .EQUAL => a = b
  | .NOT_EQUAL => a ≠ b
  | .LESS_THAN => a < b
  | .LESS_THAN_OR_EQUAL => a ≤ b
  | .GREATER_THAN => b < a
  | .GREATER_THAN_OR_EQUAL => b ≤ a
  | _ => False

/-- The float order behind a comparison operator, from the comparisons `==`, `<`
and `<=` of `float64`. -/
def floatRelation (op : TokenType) (x y : F) : Bool :=
  match op with
  | .EQUAL => Float64.eq x y
  | .NOT_EQUAL => !Float64.eq x y
  | .LESS_THAN => Float64.lt x y
  | .LESS_THAN_OR_EQUAL => Float64.le x y
  | .GREATER_THAN => Float64.lt y x
  | .GREATER_THAN_OR_EQUAL => Float64.le y x
  | _ => false

/-- The operand pairs of a supported family: two strings, two numbers (each an
int or a float), two timestamps. -/
def comparable (l r : Value F) : Bool :=
  match l, r with
  | .str _, .str _ => true
  | .int _, .int _ => true
  | .int _, .float _ => true
  | .float _, .int _ => true
  | .float _, .float _ => true
  | .time _, .time _ => true
  | _, _ => false

/-- The text `s` between two double quotes. -/
def quoted (s : String) : String := String.mk (Char.ofNat 34 :: s.data ++ [Char.ofNat 34])

end EvalSpec

/-! ## Definitions used by the statements about the lexer -/

/-- The lexer state that has read `pre` and has `suf` still to read: the
current character is the head of `suf`, or NUL when `suf` is empty. -/
def Lexer.view (pre suf : List Char) : Lexer :=
  { input := pre ++ suf
    position := pre.length
    readPosition := pre.length + 1
    ch := (pre ++ suf).getD pre.length NUL }

/-- The value of a string of decimal digits. -/
def decimalValue (ds : List Char) : Nat :=
  ds.foldl (fun acc c => acc * 10 + (c.toNat - 48)) 0

/-- The characters that end a run of digits without extending the number. -/
def endsNumber (rest : List Char) : Prop :=
  isDigit (rest.headD NUL) = false ∧ rest.headD NUL ≠ '.'

/-! ## Definitions used by the statements about variables and the array builtins -/

section LookupSpec

variable {F : Type}

/-- The text `.k1.k2...kn` after the first segment of a dotted name. -/
def dottedTail : List String → List Char
  | [] => []
  | k :: ks => '.' :: (k.data ++ dottedTail ks)

/-- The variable name `k0.k1...kn` of the segments `k0` and `ks = [k1, ..., kn]`. -/
def dottedName (k0 : String) (ks : List String) : String :=
  String.mk (k0.data ++ dottedTail ks)

/-- The relation of the statement about dotted names: from the value `x`, each
segment of `ks` in turn is a key of the string-keyed mapping reached so far, and
`v` is the value stored at the last one. -/
inductive Resolves : Value F → List String → Value F → Prop
  | done (v : Value F) : Resolves v [] v
  | step (m : List (String × Value F)) (k : String) (ks : List String) (x v : Value F) :
      mapGet m k = some x → Resolves x ks v → Resolves (Value.map m) (k :: ks) v

/-- Whether a result is the boolean `true`. -/
def isBoolTrue : Value F → Bool
  | .bool true => true
  | _ => false

/-- The context that `Filter` evaluates under for the element `v`. -/
def filterContext (v : Value F) : Context F := { vars := some [("x", v)] }

/-- The context that `Map` evaluates under for the element `v` at index `i`. -/
def mapContext (i : Nat) (v : Value F) : Context F :=
  { vars := some [("_i", Value.int i), ("_x", v)] }

/-- The second argument `arg` of `Reduce` stands for the function `f`: it is a
name with the entry `f` in the registry, or a function value that is `f`. -/
def designates (h : Host F) (arg : Value F)
    (f : Context F → List (Value F) → Run (Res F)) : Prop :=
  (∃ name, arg = Value.str name ∧ h.call name = some f)
    ∨ (∃ id, arg = Value.func id ∧ h.closure id = some f)

/-- The names of the two-argument arithmetic builtins. -/
def arithmeticNames : List String :=
  ["add", "sub", "mul", "div", "divint", "mod", "exp", "pow", "root", "hypot", "log"]

end LookupSpec

/-! ## Definitions used by the statements about tokens, the registry and the templates -/

section TokenSpec

variable {F : Type}

/-- The characters that continue an identifier. -/
def identChar (c : Char) : Bool := isLetter c || isDigit c || c == '_' || c == '.'

/-- The kind of an identifier that is no boolean, by the character after it. -/
def identifierKind (next : Char) : TokenType :=
  if next = '(' then TokenType.FUNCTION
  else if next = '[' then TokenType.ARRAY
  else TokenType.VARIABLE

/-- The characters that can stand inside a string literal: all but the double
quote and NUL. -/
def stringChar (c : Char) : Bool := !(c.toNat == 34 || c == NUL)

/-- The characters that extend a negative numeric literal without a point. -/
def negativeChar (c : Char) : Bool := isDigit c || c == '-'

/-- The characters that start no token of the language: neither white space
nor NUL, no letter, no digit, and none of the characters with a case of their
own in `NextToken`. -/
def illegalChar (c : Char) : Bool :=
  !(c.toNat == 32 || c.toNat == 9 || c.toNat == 10 || c.toNat == 13)
    && !(c == '(' || c == ')' || c == '+' || c == '-' || c == '*' || c == '^' || c == '/'
      || c == '%' || c == ',' || c == '[' || c == ']' || c == '<' || c == '>' || c == '='
      || c == '!' || c.toNat == 34 || c.toNat == 39 || c.toNat == 96 || c == '&' || c == '|'
      || c == NUL)
    && !isLetter c && !isDigit c

/-- The token kinds with which a production of `primary` begins. -/
def beginsPrimary : TokenType → Bool
  | .INT | .FLOAT | .STRING | .BOOL | .VARIABLE | .PAREN_LEFT | .FUNCTION | .ARRAY => true
  | _ => false

/-- The table of the template keywords in the words of the specification. -/
def templateKeywords : List (TokenType × String) :=
  [(TokenType.AND, "and"), (TokenType.OR, "or"), (TokenType.EQUAL, "eq"),
    (TokenType.NOT_EQUAL, "ne"), (TokenType.LESS_THAN, "lt"), (TokenType.GREATER_THAN, "gt"),
    (TokenType.LESS_THAN_OR_EQUAL, "le"), (TokenType.GREATER_THAN_OR_EQUAL, "ge"),
    (TokenType.PLUS, "add"), (TokenType.MINUS, "sub"), (TokenType.MULTIPLY, "mul"),
    (TokenType.DIVIDE, "div"), (TokenType.MODULO, "mod")]

/-- An operand of a binary node in a template: in parentheses when it is a
binary node itself. -/
def templateOperand [Float64 F] (n : ASTNode F) : String :=
  match n with
  | .BinaryOperationNode _ _ _ => "(" ++ n.GoTemplate ++ ")"
  | _ => n.GoTemplate

/-- The parameters `k1, v1, k2, v2, ...` of `Exp` for a list of pairs. -/
def dictParams : List (String × Value F) → List (Value F)
  | [] => []
  | (k, v) :: rest => Value.str k :: v :: dictParams rest

/-- The value of the last pair with the key `key`. -/
def lastBinding (pairs : List (String × Value F)) (key : String) : Option (Value F) :=
  (pairs.reverse.find? (fun kv => decide (kv.1 = key))).map Prod.snd

end TokenSpec

/-! ## Definitions used by the statements about the totality of the parser -/

section TotalitySpec

/-- The panics that the parser raises on purpose: the messages of `consume` and
the errors of `strconv.Atoi` and `strconv.ParseFloat` that `parseInt` and
`parseFloat` raise. -/
def explicitPanic (msg : String) : Prop :=
  msg = "Expect ')' after expression." ∨ msg = "Expect '(' after function."
    ∨ msg = "Expect ')' after arguments to function." ∨ msg = "Expect '[' after array."
    ∨ msg = "Expect ']' after elements to array."
    ∨ (∃ lit, msg = "strconv.Atoi: parsing " ++ lit)
    ∨ (∃ lit, msg = "strconv.ParseFloat: parsing " ++ lit)

/-- A finished token sequence: it ends with its only EOF token. -/
def finishedTokens (toks : List Token) : Prop :=
  ∃ body last, toks = body ++ [last] ∧ last.Typ = TokenType.EOF
    ∧ ∀ t ∈ body, t.Typ ≠ TokenType.EOF

/-- The cursor stands on a token at or before an EOF token. -/
def Parser.inside (p : Parser) : Prop :=
  ∃ j t, p.current ≤ j ∧ p.tokens[j]? = some t ∧ t.Typ = TokenType.EOF

/-- The number of tokens from the cursor on. -/
def Parser.rem (p : Parser) : Nat := p.tokens.length - p.current

/-- The outcomes of a parsing function started at `p` that the statement of
totality allows: a result whose parser state holds the same tokens, with the
cursor not moved back and still at or before an EOF token, or an explicit
panic. -/
def Parser.fine {α : Type} (p : Parser) (r : Run (α × Parser)) : Prop :=
  match r with
  | Except.ok (_, p1) => p1.tokens = p.tokens ∧ p.current ≤ p1.current ∧ p1.inside
  | Except.error (Fault.panic msg) => explicitPanic msg
  | Except.error _ => False

end TotalitySpec

/-! ## Definitions used by the statements about `Unique` -/

section UniqueSpec

/-- The scalar values of the statement about `Unique`: ints, strings and
booleans. -/
inductive Scalar where
  | int (i : Int)
  | str (s : String)
  | bool (b : Bool)
  deriving DecidableEq, Repr

/-- The value of a scalar. -/
def Scalar.toValue {F : Type} : Scalar → Value F
  | .int i => Value.int i
  | .str s => Value.str s
  | .bool b => Value.bool b

/-- The distinct elements of a list in the order of their first occurrence. -/
def firstOccurrences {α : Type} [DecidableEq α] : List α → List α
  | [] => []
  | x :: xs => x :: (firstOccurrences xs).filter (fun y => decide (y ≠ x))

end UniqueSpec

/-! ## Definitions used by the statements about the tokens after an expression -/

section LocalitySpec

/-- Two token sequences hold the same tokens at the indices up to `k`. -/
def agreeUpTo (toks1 toks2 : List Token) (k : Nat) : Prop :=
  ∀ i, i ≤ k → toks1[i]? = toks2[i]?

/-- A result of the parsing function `f1` is reproduced by `f2` on the tokens
`toks2`: when `f1` returns `x` with the cursor at `c1`, it kept the tokens, did
not move the cursor back and read the current token, and `f2` started at the
same cursor on `toks2` returns `x` with the cursor at `c1` whenever `toks2` holds
the same tokens up to `c1` and at most `m` tokens from the cursor on. -/
def Parser.follows {α : Type} (f1 f2 : Parser → Run (α × Parser)) (toks2 : List Token)
    (m : Nat) : Prop :=
  ∀ (p : Parser) (x : α) (p1 : Parser), f1 p = Except.ok (x, p1) →
    p1.tokens = p.tokens ∧ p.current ≤ p1.current ∧ (∃ t, p.tokens[p.current]? = some t)
      ∧ (agreeUpTo p.tokens toks2 p1.current → toks2.length - p.current ≤ m →
        f2 { tokens := toks2, current := p.current }
          = Except.ok (x, { tokens := toks2, current := p1.current }))

end LocalitySpec

/-! ## Definitions used by the statements about the propagation of parse failures -/

section CallSpec

/-- The fault with which a computation ends, if it ends with one. -/
def faultOf {α : Type} : Run α → Option Fault
  | Except.ok _ => none
  | Except.error f => some f

/-- The calls that occur while `Parse` runs: of `expression` (with its budget of
nesting), of the parsing function of a level and of its loop `for p.match(...)`,
of `functions` and of its loop, of `primary`, and of the comma loop of a call or
an array literal.  The first number is the budget of the recursive call
`expression` that `primary` makes. -/
inductive Parser.Call (F : Type) where
  | expression (n : Nat) (p : Parser)
  | level (n k : Nat) (p : Parser)
  | levelLoop (n k fuel : Nat) (node : ASTNode F) (p : Parser)
  | functions (n m : Nat) (p : Parser)
  | functionsLoop (n m fuel : Nat) (node : ASTNode F) (p : Parser)
  | primary (n : Nat) (p : Parser)
  | listLoop (n fuel : Nat) (acc : List (ASTNode F)) (p : Parser)

variable {F : Type} [Float64 F]

/-- The fault of a call: the fault of the parsing function that the call
runs. -/
def Parser.Call.fault : Parser.Call F → Option Fault
  | .expression n p => faultOf (Parser.expression (F := F) n p)
  | .level n k p => faultOf (Parser.atLevel (Parser.expression (F := F) n) k p)
  | .levelLoop n k fuel node p =>
    faultOf (Parser.binaryLoop (levelOps k) (levelNode k)
      (Parser.atLevel (Parser.expression (F := F) n) (k + 1)) fuel node p)
  | .functions n m p => faultOf (Parser.functions (Parser.expression (F := F) n) m p)
  | .functionsLoop n m fuel node p =>
    faultOf (Parser.binaryLoop [TokenType.EXPONENT, TokenType.FUNCTION]
      ASTNode.BinaryOperationNode (Parser.functions (Parser.expression (F := F) n) m) fuel node p)
  | .primary n p => faultOf (Parser.primary (Parser.expression (F := F) n) p)
  | .listLoop n fuel acc p => faultOf (Parser.listLoop (Parser.expression (F := F) n) fuel acc p)

/-- The direct calls of `parse.go`: `Calls c d` says that the run of the call
`c` makes the call `d`.  A call that comes after other calls of the same body
is made when those returned, with the results that they returned. -/
inductive Parser.Calls : Parser.Call F → Parser.Call F → Prop
  | expression (n : Nat) (p : Parser) :
    Parser.Calls (.expression (n + 1) p) (.level n 0 p)
  | levelOperand (n k : Nat) (p : Parser) (hk : k < 7) :
    Parser.Calls (.level n k p) (.level n (k + 1) p)
  | levelLoop (n k : Nat) (p p1 : Parser) (node : ASTNode F) (hk : k < 7)
    (h : Parser.atLevel (Parser.expression n) (k + 1) p = Except.ok (node, p1)) :
    Parser.Calls (.level n k p) (.levelLoop n k p1.budget node p1)
  | levelFunctions (n k : Nat) (p : Parser) (hk : 7 ≤ k) :
    Parser.Calls (.level n k p) (.functions n p.budget p)
  | loopOperand (n k fuel : Nat) (node : ASTNode F) (p : Parser) (t : Token)
    (ht : p.tokens[p.current]? = some t) (hne : t.Typ ≠ TokenType.EOF)
    (hin : t.Typ ∈ levelOps k) :
    Parser.Calls (.levelLoop n k (fuel + 1) node p) (.level n (k + 1) p.next)
  | loopRound (n k fuel : Nat) (node right : ASTNode F) (p p2 : Parser) (t : Token)
    (ht : p.tokens[p.current]? = some t) (hne : t.Typ ≠ TokenType.EOF)
    (hin : t.Typ ∈ levelOps k)
    (h : Parser.atLevel (Parser.expression n) (k + 1) p.next = Except.ok (right, p2)) :
    Parser.Calls (.levelLoop n k (fuel + 1) node p)
      (.levelLoop n k fuel (levelNode k node t.Typ right) p2)
  | functionsPrimary (n m : Nat) (p : Parser) :
    Parser.Calls (.functions n (m + 1) p) (.primary n p)
  | functionsLoop (n m : Nat) (p p1 : Parser) (node : ASTNode F)
    (h : Parser.primary (Parser.expression n) p = Except.ok (node, p1)) :
    Parser.Calls (.functions n (m + 1) p) (.functionsLoop n m p1.budget node p1)
  | functionsOperand (n m fuel : Nat) (node : ASTNode F) (p : Parser) (t : Token)
    (ht : p.tokens[p.current]? = some t)
    (hin : t.Typ = TokenType.EXPONENT ∨ t.Typ = TokenType.FUNCTION) :
    Parser.Calls (.functionsLoop n m (fuel + 1) node p) (.functions n m p.next)
  | functionsRound (n m fuel : Nat) (node right : ASTNode F) (p p2 : Parser) (t : Token)
    (ht : p.tokens[p.current]? = some t)
    (hin : t.Typ = TokenType.EXPONENT ∨ t.Typ = TokenType.FUNCTION)
    (h : Parser.functions (Parser.expression n) m p.next = Except.ok (right, p2)) :
    Parser.Calls (.functionsLoop n m (fuel + 1) node p)
      (.functionsLoop n m fuel (ASTNode.BinaryOperationNode node t.Typ right) p2)
  | parenthesis (n : Nat) (p : Parser) (t : Token) (ht : p.tokens[p.current]? = some t)
    (hty : t.Typ = TokenType.PAREN_LEFT) :
    Parser.Calls (.primary n p) (.expression n p.next)
  | arguments (n : Nat) (p : Parser) (t t1 t2 : Token)
    (ht : p.tokens[p.current]? = some t) (hty : t.Typ = TokenType.FUNCTION)
    (h1 : p.next.tokens[p.next.current]? = some t1) (hty1 : t1.Typ = TokenType.PAREN_LEFT)
    (h2 : p.next.next.tokens[p.next.next.current]? = some t2)
    (hty2 : t2.Typ ≠ TokenType.PAREN_RIGHT) :
    Parser.Calls (.primary n p) (.listLoop n p.next.next.budget [] p.next.next)
  | elements (n : Nat) (p : Parser) (t t1 t2 : Token)
    (ht : p.tokens[p.current]? = some t) (hty : t.Typ = TokenType.ARRAY)
    (h1 : p.next.tokens[p.next.current]? = some t1) (hty1 : t1.Typ = TokenType.ARRAY_START)
    (h2 : p.next.next.tokens[p.next.next.current]? = some t2)
    (hty2 : t2.Typ ≠ TokenType.ARRAY_END) :
    Parser.Calls (.primary n p) (.listLoop n p.next.next.budget [] p.next.next)
  | listElement (n fuel : Nat) (acc : List (ASTNode F)) (p : Parser) :
    Parser.Calls (.listLoop n (fuel + 1) acc p) (.expression n p)
  | listRound (n fuel : Nat) (acc : List (ASTNode F)) (element : ASTNode F) (p p1 : Parser)
    (t : Token) (h : Parser.expression n p = Except.ok (element, p1))
    (ht : p1.tokens[p1.current]? = some t) (hty : t.Typ = TokenType.COMMA) :
    Parser.Calls (.listLoop n (fuel + 1) acc p) (.listLoop n fuel (acc ++ [element]) p1.next)

/-- The faults that a parsing function raises itself: the exhausted budget of
the model, the panic of an index out of range, and the explicit panics. -/
def Parser.raised (f : Fault) : Prop :=
  f = Fault.fuel ∨ f = Fault.panic "index out of range"
    ∨ ∃ msg, f = Fault.panic msg ∧ explicitPanic msg

end CallSpec

/-! ## Definitions used by the statements about the termination of the lexer -/

section LexerSpec

/-- The state of a lexer after a `readChar`: the read position is one past the
position and `ch` is the character at the position, NUL past the end. -/
def Lexer.aligned (l : Lexer) : Prop :=
  l.readPosition = l.position + 1 ∧ l.ch = l.input.getD l.position NUL

/-- The characters that are left from the position on. -/
def Lexer.left (l : Lexer) : Nat := l.input.length - l.position

end LexerSpec

/-! # Theorems -/

section ParserLemmas

variable {F : Type} [Float64 F]

theorem Parser.peek_eq {p : Parser} {t : Token} (h : p.tokens[p.current]? = some t) :
    p.peek = Except.ok t := by
  simp [Parser.peek, Parser.tokenAt, h, pure, Except.pure]

theorem Parser.isAtEnd_eq {p : Parser} {t : Token} (h : p.tokens[p.current]? = some t) :
    p.isAtEnd = Except.ok (decide (t.Typ = TokenType.EOF)) := by
  simp [Parser.isAtEnd, Parser.peek_eq h, bind, Except.bind, pure, Except.pure]

theorem Parser.check_eq {p : Parser} {t : Token} (h : p.tokens[p.current]? = some t)
    (typ : TokenType) :
    p.check typ = Except.ok (!decide (t.Typ = TokenType.EOF) && decide (t.Typ = typ)) := by
  by_cases he : t.Typ = TokenType.EOF <;>
    simp [Parser.check, Parser.isAtEnd_eq h, Parser.peek_eq h, bind, Except.bind, pure,
      Except.pure, he]

theorem Parser.previous_next {p : Parser} {t : Token} (h : p.tokens[p.current]? = some t) :
    p.next.previous = Except.ok t := by
  simp [Parser.previous, Parser.next, Parser.tokenAt, h, pure, Except.pure]

theorem Parser.advance_eq {p : Parser} {t : Token} (h : p.tokens[p.current]? = some t)
    (hne : t.Typ ≠ TokenType.EOF) : p.advance = Except.ok (t, p.next) := by
  have hp := Parser.previous_next h
  simp only [Parser.next] at hp
  simp [Parser.advance, Parser.isAtEnd_eq h, hne, bind, Except.bind, pure, Except.pure,
    Parser.next, hp]

theorem Parser.matchTypes_eq {p : Parser} {t : Token} (h : p.tokens[p.current]? = some t)
    (ops : List TokenType) :
    p.matchTypes ops
      = Except.ok (if t.Typ ≠ TokenType.EOF ∧ t.Typ ∈ ops then (true, p.next) else (false, p)) := by
  induction ops with
  | nil => simp [Parser.matchTypes, pure, Except.pure]
  | cons typ ops ih =>
    by_cases he : t.Typ = TokenType.EOF
    · simp [Parser.matchTypes, Parser.check_eq h, he, bind, Except.bind, ih]
    · by_cases ht : t.Typ = typ
      · simp [Parser.matchTypes, Parser.check_eq h, he, ht, bind, Except.bind,
          Parser.advance_eq h he, pure, Except.pure]
        simp [← ht, he]
      · simp [Parser.matchTypes, Parser.check_eq h, he, ht, bind, Except.bind, ih]

end ParserLemmas

section LoopLemmas

variable {F : Type}

theorem Parser.binaryLoop_exit {ops : List TokenType}
    {mk : ASTNode F → TokenType → ASTNode F → ASTNode F}
    {next : Parser → Run (ASTNode F × Parser)} {p : Parser} {t : Token}
    (h : p.tokens[p.current]? = some t) (hno : t.Typ ∉ ops) (n : Nat) (node : ASTNode F) :
    Parser.binaryLoop ops mk next (n + 1) node p = Except.ok (node, p) := by
  simp [Parser.binaryLoop, Parser.matchTypes_eq h, hno, bind, Except.bind, pure, Except.pure]

theorem Parser.binaryLoop_step {ops : List TokenType}
    {mk : ASTNode F → TokenType → ASTNode F → ASTNode F}
    {next : Parser → Run (ASTNode F × Parser)} {p p2 : Parser} {t : Token} {right : ASTNode F}
    (h : p.tokens[p.current]? = some t) (hin : t.Typ ∈ ops) (hne : t.Typ ≠ TokenType.EOF)
    (hr : next p.next = Except.ok (right, p2)) (n : Nat) (node : ASTNode F) :
    Parser.binaryLoop ops mk next (n + 1) node p
      = Parser.binaryLoop ops mk next n (mk node t.Typ right) p2 := by
  simp [Parser.binaryLoop, Parser.matchTypes_eq h, hin, hne, bind, Except.bind,
    Parser.previous_next h, hr]

theorem Parser.binaryLevel_pass {ops : List TokenType}
    {mk : ASTNode F → TokenType → ASTNode F → ASTNode F}
    {next : Parser → Run (ASTNode F × Parser)} {p p1 : Parser} {t : Token} {node : ASTNode F}
    (hn : next p = Except.ok (node, p1)) (h : p1.tokens[p1.current]? = some t)
    (hno : t.Typ ∉ ops) :
    Parser.binaryLevel ops mk next p = Except.ok (node, p1) := by
  simp [Parser.binaryLevel, hn, bind, Except.bind, Parser.budget, Parser.binaryLoop_exit h hno]

theorem Parser.binaryLevel_single {ops : List TokenType}
    {mk : ASTNode F → TokenType → ASTNode F → ASTNode F}
    {next : Parser → Run (ASTNode F × Parser)} {p p1 p2 : Parser} {t1 t2 : Token}
    {a b : ASTNode F}
    (ha : next p = Except.ok (a, p1)) (h1 : p1.tokens[p1.current]? = some t1)
    (hin : t1.Typ ∈ ops) (hne : t1.Typ ≠ TokenType.EOF)
    (hb : next p1.next = Except.ok (b, p2)) (h2 : p2.tokens[p2.current]? = some t2)
    (hno : t2.Typ ∉ ops) (hlen : 1 ≤ p1.tokens.length) :
    Parser.binaryLevel ops mk next p = Except.ok (mk a t1.Typ b, p2) := by
  obtain ⟨m, hm⟩ : ∃ m, p1.tokens.length = m + 1 := ⟨p1.tokens.length - 1, by omega⟩
  simp [Parser.binaryLevel, ha, bind, Except.bind, Parser.budget, hm,
    Parser.binaryLoop_step h1 hin hne hb, Parser.binaryLoop_exit h2 hno]

theorem Parser.binaryLevel_double {ops : List TokenType}
    {mk : ASTNode F → TokenType → ASTNode F → ASTNode F}
    {next : Parser → Run (ASTNode F × Parser)} {p p1 p2 p3 : Parser} {t1 t2 t3 : Token}
    {a b c : ASTNode F}
    (ha : next p = Except.ok (a, p1)) (h1 : p1.tokens[p1.current]? = some t1)
    (hin1 : t1.Typ ∈ ops) (hne1 : t1.Typ ≠ TokenType.EOF)
    (hb : next p1.next = Except.ok (b, p2)) (h2 : p2.tokens[p2.current]? = some t2)
    (hin2 : t2.Typ ∈ ops) (hne2 : t2.Typ ≠ TokenType.EOF)
    (hc : next p2.next = Except.ok (c, p3)) (h3 : p3.tokens[p3.current]? = some t3)
    (hno : t3.Typ ∉ ops) (hlen : 2 ≤ p1.tokens.length) :
    Parser.binaryLevel ops mk next p = Except.ok (mk (mk a t1.Typ b) t2.Typ c, p3) := by
  obtain ⟨m, hm⟩ : ∃ m, p1.tokens.length = m + 2 := ⟨p1.tokens.length - 2, by omega⟩
  simp [Parser.binaryLevel, ha, bind, Except.bind, Parser.budget, hm,
    Parser.binaryLoop_step h1 hin1 hne1 hb, Parser.binaryLoop_step h2 hin2 hne2 hc,
    Parser.binaryLoop_exit h3 hno]

end LoopLemmas

section LevelLemmas

variable {F : Type} [Float64 F]

/-- The level of `functions`: a primary followed by no `**`, `^` or function name. -/
theorem Parser.functions_pass {E : Parser → Run (ASTNode F × Parser)} {p p1 : Parser}
    {t : Token} {a : ASTNode F}
    (ha : Parser.primary E p = Except.ok (a, p1)) (h1 : p1.tokens[p1.current]? = some t)
    (hno : t.Typ ∉ [TokenType.EXPONENT, TokenType.FUNCTION]) (n : Nat) :
    Parser.functions E (n + 1) p = Except.ok (a, p1) := by
  simp only [Parser.functions, ha, bind, Except.bind, Parser.budget,
    Parser.binaryLoop_exit h1 hno]

end LevelLemmas

section NodeLemmas

variable {F : Type}

theorem levelNode_eq {k : Nat} {t : TokenType} (h : opLevel t = some k) (a b : ASTNode F) :
    levelNode k a t b = mkNode a t b := by
  cases t <;> simp [opLevel] at h <;> subst h <;> simp [levelNode, mkNode]

end NodeLemmas

section Climb

variable {F : Type} [Float64 F]

theorem Parser.atLevel_succ (E : Parser → Run (ASTNode F × Parser)) {k : Nat} (hk : k < 7) :
    Parser.atLevel E k
      = Parser.binaryLevel (levelOps k) (levelNode k) (Parser.atLevel E (k + 1)) := by
  interval_cases k <;> rfl

theorem mem_levelOps {k : Nat} (hk : k < 7) (t : TokenType) :
    t ∈ levelOps k ↔ opLevel t = some k := by
  interval_cases k <;> cases t <;> simp [levelOps, opLevel]

theorem opLevel_lt {k : Nat} {t : TokenType} (h : opLevel t = some k) : k < 7 := by
  cases t <;> simp [opLevel] at h <;> omega

theorem opLevel_ne_EOF {k : Nat} {t : TokenType} (h : opLevel t = some k) :
    t ≠ TokenType.EOF := by
  intro he; subst he; simp [opLevel] at h

/-- A result of a tighter level passes unchanged through the looser levels whose
operators the next token is not. -/
theorem Parser.atLevel_pass (E : Parser → Run (ASTNode F × Parser)) (p p1 : Parser)
    {t : Token} {node : ASTNode F} (h1 : p1.tokens[p1.current]? = some t) :
    ∀ (d i : Nat), i + d ≤ 7 →
      Parser.atLevel E (i + d) p = Except.ok (node, p1) →
      (∀ k, i ≤ k → k < i + d → opLevel t.Typ ≠ some k) →
      Parser.atLevel E i p = Except.ok (node, p1) := by
  intro d
  induction d with
  | zero => intro i _ h _; simpa using h
  | succ d ih =>
    intro i hi h hk
    have h' : Parser.atLevel E (i + 1 + d) p = Except.ok (node, p1) := by
      rw [show i + 1 + d = i + (d + 1) by omega]; exact h
    have hnext := ih (i + 1) (by omega) h' (fun k hk1 hk2 => hk k (by omega) (by omega))
    rw [Parser.atLevel_succ E (show i < 7 by omega)]
    refine Parser.binaryLevel_pass hnext h1 ?_
    rw [mem_levelOps (show i < 7 by omega)]
    exact hk i (le_refl i) (by omega)

/-- A primary that no exponent and no function name follows is the result of
every level from `functions` down to the level just above that of the
following operator. -/
theorem Parser.atLevel_primary (E : Parser → Run (ASTNode F × Parser)) {p p1 : Parser}
    {t : Token} {a : ASTNode F} (ha : Parser.primary E p = Except.ok (a, p1))
    (h1 : p1.tokens[p1.current]? = some t)
    (hno : t.Typ ≠ TokenType.EXPONENT ∧ t.Typ ≠ TokenType.FUNCTION)
    (i : Nat) (hi : i ≤ 7) (hk : ∀ k, i ≤ k → opLevel t.Typ ≠ some k) :
    Parser.atLevel E i p = Except.ok (a, p1) := by
  have h7 : Parser.atLevel E 7 p = Except.ok (a, p1) := by
    show Parser.functions E p.budget p = _
    exact Parser.functions_pass ha h1 (by simp [hno.1, hno.2]) p.tokens.length
  have := Parser.atLevel_pass E p p1 h1 (7 - i) i (by omega)
    (by rw [show i + (7 - i) = 7 by omega]; exact h7) (fun k hk1 _ => hk k hk1)
  exact this

end Climb

section ClimbTriples

variable {F : Type} [Float64 F]

theorem continues_false {t : TokenType} (h : continues t = false) :
    opLevel t = none ∧ t ≠ TokenType.EXPONENT ∧ t ≠ TokenType.FUNCTION := by
  cases t <;> simp [continues, opLevel] at h ⊢

theorem opLevel_not_exp {t : TokenType} {k : Nat} (h : opLevel t = some k) :
    t ≠ TokenType.EXPONENT ∧ t ≠ TokenType.FUNCTION := by
  cases t <;> simp [opLevel] at h ⊢

theorem Parser.functions_single {E : Parser → Run (ASTNode F × Parser)} {p p1 p2 : Parser}
    {t1 t2 : Token} {a r : ASTNode F} {n : Nat}
    (ha : Parser.primary E p = Except.ok (a, p1)) (h1 : p1.tokens[p1.current]? = some t1)
    (hin : t1.Typ ∈ [TokenType.EXPONENT, TokenType.FUNCTION])
    (hr : Parser.functions E n p1.next = Except.ok (r, p2))
    (h2 : p2.tokens[p2.current]? = some t2)
    (hno : t2.Typ ∉ [TokenType.EXPONENT, TokenType.FUNCTION])
    (hlen : 1 ≤ p1.tokens.length) :
    Parser.functions E (n + 1) p
      = Except.ok (ASTNode.BinaryOperationNode a t1.Typ r, p2) := by
  obtain ⟨m, hm⟩ : ∃ m, p1.tokens.length = m + 1 := ⟨p1.tokens.length - 1, by omega⟩
  have hne : t1.Typ ≠ TokenType.EOF := by
    intro he; rw [he] at hin; simp at hin
  simp only [Parser.functions, ha, bind, Except.bind, Parser.budget, hm,
    Parser.binaryLoop_step h1 hin hne hr, Parser.binaryLoop_exit h2 hno]

theorem Triple.length_pos {E : Parser → Run (ASTNode F × Parser)} {toks : List Token}
    {c0 c1 c2 c3 : Nat} {a b c : ASTNode F} {t1 t2 t3 : Token}
    (T : Triple E toks c0 c1 c2 c3 a b c t1 t2 t3) : 1 ≤ toks.length := by
  have := T.h3
  rcases toks with _ | ⟨x, xs⟩
  · simp at this
  · simp

theorem Triple.length_two {E : Parser → Run (ASTNode F × Parser)} {toks : List Token}
    {c0 c1 c2 c3 : Nat} {a b c : ASTNode F} {t1 t2 t3 : Token}
    (T : Triple E toks c0 c1 c2 c3 a b c t1 t2 t3) (hcont : continues t1.Typ = true) :
    2 ≤ toks.length := by
  have h1 := T.h1
  have h3 := T.h3
  have hne : c1 ≠ c3 := by
    intro he
    rw [he, h3] at h1
    have h31 : t3 = t1 := by simpa using h1
    have hend := T.hend
    rw [h31, hcont] at hend
    exact absurd hend (by simp)
  have l1 : c1 < toks.length := by
    by_contra hcon
    rw [List.getElem?_eq_none (by omega)] at h1
    simp at h1
  have l3 : c3 < toks.length := by
    by_contra hcon
    rw [List.getElem?_eq_none (by omega)] at h3
    simp at h3
  omega

/-- The looser operator first: `a t1 b t2 c` groups as `a t1 (b t2 c)`. -/
theorem climb_right {E : Parser → Run (ASTNode F × Parser)} {toks : List Token}
    {c0 c1 c2 c3 : Nat} {a b c : ASTNode F} {t1 t2 t3 : Token}
    (T : Triple E toks c0 c1 c2 c3 a b c t1 t2 t3) {i j : Nat}
    (hi : opLevel t1.Typ = some i) (hj : opLevel t2.Typ = some j) (hij : i < j) :
    Parser.atLevel E 0 { tokens := toks, current := c0 }
      = Except.ok (mkNode a t1.Typ (mkNode b t2.Typ c), { tokens := toks, current := c3 }) := by
  obtain ⟨e3, x3, f3⟩ := continues_false T.hend
  have hj7 := opLevel_lt hj
  have hA := Parser.atLevel_primary E T.ha (t := t1) T.h1 (opLevel_not_exp hi) (i + 1)
    (by omega) (fun k hk => by rw [hi]; simp; omega)
  have hB := Parser.atLevel_primary E T.hb (t := t2) T.h2 (opLevel_not_exp hj) (j + 1)
    (by omega) (fun k hk => by rw [hj]; simp; omega)
  have hC := Parser.atLevel_primary E T.hc (t := t3) T.h3 ⟨x3, f3⟩ (j + 1)
    (by omega) (fun k _ => by rw [e3]; simp)
  have hBC : Parser.atLevel E j { tokens := toks, current := c1 + 1 }
      = Except.ok (mkNode b t2.Typ c, { tokens := toks, current := c3 }) := by
    rw [Parser.atLevel_succ E hj7, ← levelNode_eq hj]
    exact Parser.binaryLevel_single hB T.h2 ((mem_levelOps hj7 _).2 hj) (opLevel_ne_EOF hj)
      hC T.h3 (by rw [mem_levelOps hj7, e3]; simp) T.length_pos
  have hBC' := Parser.atLevel_pass E { tokens := toks, current := c1 + 1 }
    { tokens := toks, current := c3 } T.h3 (j - (i + 1)) (i + 1) (by omega)
    (by rw [show i + 1 + (j - (i + 1)) = j by omega]; exact hBC)
    (fun k _ _ => by rw [e3]; simp)
  have hi7 : i < 7 := by omega
  have hABC : Parser.atLevel E i { tokens := toks, current := c0 }
      = Except.ok (mkNode a t1.Typ (mkNode b t2.Typ c), { tokens := toks, current := c3 }) := by
    rw [Parser.atLevel_succ E hi7, ← levelNode_eq hi]
    exact Parser.binaryLevel_single hA T.h1 ((mem_levelOps hi7 _).2 hi) (opLevel_ne_EOF hi)
      hBC' T.h3 (by rw [mem_levelOps hi7, e3]; simp) T.length_pos
  exact Parser.atLevel_pass E { tokens := toks, current := c0 }
    { tokens := toks, current := c3 } T.h3 i 0 (by omega)
    (by rw [Nat.zero_add]; exact hABC) (fun k _ _ => by rw [e3]; simp)

/-- The tighter operator first: `a t1 b t2 c` groups as `(a t1 b) t2 c`. -/
theorem climb_left {E : Parser → Run (ASTNode F × Parser)} {toks : List Token}
    {c0 c1 c2 c3 : Nat} {a b c : ASTNode F} {t1 t2 t3 : Token}
    (T : Triple E toks c0 c1 c2 c3 a b c t1 t2 t3) {i j : Nat}
    (hi : opLevel t1.Typ = some i) (hj : opLevel t2.Typ = some j) (hji : j < i) :
    Parser.atLevel E 0 { tokens := toks, current := c0 }
      = Except.ok (mkNode (mkNode a t1.Typ b) t2.Typ c, { tokens := toks, current := c3 }) := by
  obtain ⟨e3, x3, f3⟩ := continues_false T.hend
  have hi7 := opLevel_lt hi
  have hj7 : j < 7 := by omega
  have hA := Parser.atLevel_primary E T.ha (t := t1) T.h1 (opLevel_not_exp hi) (i + 1)
    (by omega) (fun k hk => by rw [hi]; simp; omega)
  have hB := Parser.atLevel_primary E T.hb (t := t2) T.h2 (opLevel_not_exp hj) (i + 1)
    (by omega) (fun k hk => by rw [hj]; simp; omega)
  have hC := Parser.atLevel_primary E T.hc (t := t3) T.h3 ⟨x3, f3⟩ (j + 1)
    (by omega) (fun k _ => by rw [e3]; simp)
  have hAB : Parser.atLevel E i { tokens := toks, current := c0 }
      = Except.ok (mkNode a t1.Typ b, { tokens := toks, current := c2 }) := by
    rw [Parser.atLevel_succ E hi7, ← levelNode_eq hi]
    exact Parser.binaryLevel_single hA T.h1 ((mem_levelOps hi7 _).2 hi) (opLevel_ne_EOF hi)
      hB T.h2 (by rw [mem_levelOps hi7, hj]; simp; omega) T.length_pos
  have hAB' := Parser.atLevel_pass E { tokens := toks, current := c0 }
    { tokens := toks, current := c2 } T.h2 (i - (j + 1)) (j + 1) (by omega)
    (by rw [show j + 1 + (i - (j + 1)) = i by omega]; exact hAB)
    (fun k hk _ => by rw [hj]; simp; omega)
  have hABC : Parser.atLevel E j { tokens := toks, current := c0 }
      = Except.ok (mkNode (mkNode a t1.Typ b) t2.Typ c, { tokens := toks, current := c3 }) := by
    rw [Parser.atLevel_succ E hj7, ← levelNode_eq hj]
    exact Parser.binaryLevel_single hAB' T.h2 ((mem_levelOps hj7 _).2 hj) (opLevel_ne_EOF hj)
      hC T.h3 (by rw [mem_levelOps hj7, e3]; simp) T.length_pos
  exact Parser.atLevel_pass E { tokens := toks, current := c0 }
    { tokens := toks, current := c3 } T.h3 j 0 (by omega)
    (by rw [Nat.zero_add]; exact hABC) (fun k _ _ => by rw [e3]; simp)

/-- Two operators of one level: `a t1 b t2 c` groups as `(a t1 b) t2 c`. -/
theorem climb_same {E : Parser → Run (ASTNode F × Parser)} {toks : List Token}
    {c0 c1 c2 c3 : Nat} {a b c : ASTNode F} {t1 t2 t3 : Token}
    (T : Triple E toks c0 c1 c2 c3 a b c t1 t2 t3) {i : Nat}
    (hi : opLevel t1.Typ = some i) (hj : opLevel t2.Typ = some i) :
    Parser.atLevel E 0 { tokens := toks, current := c0 }
      = Except.ok (mkNode (mkNode a t1.Typ b) t2.Typ c, { tokens := toks, current := c3 }) := by
  obtain ⟨e3, x3, f3⟩ := continues_false T.hend
  have hi7 := opLevel_lt hi
  have hA := Parser.atLevel_primary E T.ha (t := t1) T.h1 (opLevel_not_exp hi) (i + 1)
    (by omega) (fun k hk => by rw [hi]; simp; omega)
  have hB := Parser.atLevel_primary E T.hb (t := t2) T.h2 (opLevel_not_exp hj) (i + 1)
    (by omega) (fun k hk => by rw [hj]; simp; omega)
  have hC := Parser.atLevel_primary E T.hc (t := t3) T.h3 ⟨x3, f3⟩ (i + 1)
    (by omega) (fun k _ => by rw [e3]; simp)
  have hABC : Parser.atLevel E i { tokens := toks, current := c0 }
      = Except.ok (mkNode (mkNode a t1.Typ b) t2.Typ c, { tokens := toks, current := c3 }) := by
    rw [Parser.atLevel_succ E hi7, ← levelNode_eq hj, ← levelNode_eq hi]
    exact Parser.binaryLevel_double hA T.h1 ((mem_levelOps hi7 _).2 hi) (opLevel_ne_EOF hi)
      hB T.h2 ((mem_levelOps hi7 _).2 hj) (opLevel_ne_EOF hj) hC T.h3
      (by rw [mem_levelOps hi7, e3]; simp)
      (T.length_two (by simp [continues, hi]))
  exact Parser.atLevel_pass E { tokens := toks, current := c0 }
    { tokens := toks, current := c3 } T.h3 i 0 (by omega)
    (by rw [Nat.zero_add]; exact hABC) (fun k _ _ => by rw [e3]; simp)

end ClimbTriples

section ClimbExponent

variable {F : Type} [Float64 F]

theorem Triple.length_succ {E : Parser → Run (ASTNode F × Parser)} {toks : List Token}
    {c0 c1 c2 c3 : Nat} {a b c : ASTNode F} {t1 t2 t3 : Token}
    (T : Triple E toks c0 c1 c2 c3 a b c t1 t2 t3) : ∃ m, toks.length = m + 1 :=
  ⟨toks.length - 1, by have := T.length_pos; omega⟩

/-- Two exponent operators: `a ** b ** c` groups as `a ** (b ** c)`. -/
theorem climb_exp_exp {E : Parser → Run (ASTNode F × Parser)} {toks : List Token}
    {c0 c1 c2 c3 : Nat} {a b c : ASTNode F} {t1 t2 t3 : Token}
    (T : Triple E toks c0 c1 c2 c3 a b c t1 t2 t3)
    (h1 : t1.Typ = TokenType.EXPONENT) (h2 : t2.Typ = TokenType.EXPONENT) :
    Parser.atLevel E 0 { tokens := toks, current := c0 }
      = Except.ok (ASTNode.BinaryOperationNode a TokenType.EXPONENT
          (ASTNode.BinaryOperationNode b TokenType.EXPONENT c),
        { tokens := toks, current := c3 }) := by
  obtain ⟨e3, x3, f3⟩ := continues_false T.hend
  obtain ⟨m, hm⟩ : ∃ m, toks.length = m + 2 :=
    ⟨toks.length - 2, by have := T.length_two (by simp [continues, h1]); omega⟩
  have hC : Parser.functions E (m + 1) { tokens := toks, current := c2 + 1 }
      = Except.ok (c, { tokens := toks, current := c3 }) :=
    Parser.functions_pass T.hc T.h3 (by simp [x3, f3]) m
  have hBC := Parser.functions_single (n := m + 1) T.hb T.h2 (by simp [h2]) hC T.h3
    (by simp [x3, f3]) T.length_pos
  have hABC := Parser.functions_single (n := m + 2) T.ha T.h1 (by simp [h1]) hBC T.h3
    (by simp [x3, f3]) T.length_pos
  rw [h1] at hABC
  rw [h2] at hABC
  have h7 : Parser.atLevel E 7 { tokens := toks, current := c0 }
      = Except.ok (ASTNode.BinaryOperationNode a TokenType.EXPONENT
          (ASTNode.BinaryOperationNode b TokenType.EXPONENT c),
        { tokens := toks, current := c3 }) := by
    show Parser.functions E (toks.length + 1) _ = _
    rw [hm]; exact hABC
  exact Parser.atLevel_pass E { tokens := toks, current := c0 }
    { tokens := toks, current := c3 } T.h3 7 0 (by omega)
    (by rw [Nat.zero_add]; exact h7) (fun k _ _ => by rw [e3]; simp)

/-- A binary operator, then an exponent: `a t1 b ** c` groups as `a t1 (b ** c)`. -/
theorem climb_op_exp {E : Parser → Run (ASTNode F × Parser)} {toks : List Token}
    {c0 c1 c2 c3 : Nat} {a b c : ASTNode F} {t1 t2 t3 : Token}
    (T : Triple E toks c0 c1 c2 c3 a b c t1 t2 t3) {i : Nat}
    (hi : opLevel t1.Typ = some i) (h2 : t2.Typ = TokenType.EXPONENT) :
    Parser.atLevel E 0 { tokens := toks, current := c0 }
      = Except.ok (mkNode a t1.Typ (ASTNode.BinaryOperationNode b TokenType.EXPONENT c),
        { tokens := toks, current := c3 }) := by
  obtain ⟨e3, x3, f3⟩ := continues_false T.hend
  obtain ⟨m, hm⟩ := T.length_succ
  have hi7 := opLevel_lt hi
  have hA := Parser.atLevel_primary E T.ha (t := t1) T.h1 (opLevel_not_exp hi) (i + 1)
    (by omega) (fun k hk => by rw [hi]; simp; omega)
  have hC : Parser.functions E (m + 1) { tokens := toks, current := c2 + 1 }
      = Except.ok (c, { tokens := toks, current := c3 }) :=
    Parser.functions_pass T.hc T.h3 (by simp [x3, f3]) m
  have hBC := Parser.functions_single (n := m + 1) T.hb T.h2 (by simp [h2]) hC T.h3
    (by simp [x3, f3]) T.length_pos
  rw [h2] at hBC
  have h7 : Parser.atLevel E 7 { tokens := toks, current := c1 + 1 }
      = Except.ok (ASTNode.BinaryOperationNode b TokenType.EXPONENT c,
        { tokens := toks, current := c3 }) := by
    show Parser.functions E (toks.length + 1) _ = _
    rw [hm]; exact hBC
  have hBC' := Parser.atLevel_pass E { tokens := toks, current := c1 + 1 }
    { tokens := toks, current := c3 } T.h3 (7 - (i + 1)) (i + 1) (by omega)
    (by rw [show i + 1 + (7 - (i + 1)) = 7 by omega]; exact h7)
    (fun k _ _ => by rw [e3]; simp)
  have hABC : Parser.atLevel E i { tokens := toks, current := c0 }
      = Except.ok (mkNode a t1.Typ (ASTNode.BinaryOperationNode b TokenType.EXPONENT c),
        { tokens := toks, current := c3 }) := by
    rw [Parser.atLevel_succ E hi7, ← levelNode_eq hi]
    exact Parser.binaryLevel_single hA T.h1 ((mem_levelOps hi7 _).2 hi) (opLevel_ne_EOF hi)
      hBC' T.h3 (by rw [mem_levelOps hi7, e3]; simp) T.length_pos
  exact Parser.atLevel_pass E { tokens := toks, current := c0 }
    { tokens := toks, current := c3 } T.h3 i 0 (by omega)
    (by rw [Nat.zero_add]; exact hABC) (fun k _ _ => by rw [e3]; simp)

/-- An exponent, then a binary operator: `a ** b t2 c` groups as `(a ** b) t2 c`. -/
theorem climb_exp_op {E : Parser → Run (ASTNode F × Parser)} {toks : List Token}
    {c0 c1 c2 c3 : Nat} {a b c : ASTNode F} {t1 t2 t3 : Token}
    (T : Triple E toks c0 c1 c2 c3 a b c t1 t2 t3) {j : Nat}
    (h1 : t1.Typ = TokenType.EXPONENT) (hj : opLevel t2.Typ = some j) :
    Parser.atLevel E 0 { tokens := toks, current := c0 }
      = Except.ok (mkNode (ASTNode.BinaryOperationNode a TokenType.EXPONENT b) t2.Typ c,
        { tokens := toks, current := c3 }) := by
  obtain ⟨e3, x3, f3⟩ := continues_false T.hend
  obtain ⟨m, hm⟩ := T.length_succ
  have hj7 := opLevel_lt hj
  have hB : Parser.functions E (m + 1) { tokens := toks, current := c1 + 1 }
      = Except.ok (b, { tokens := toks, current := c2 }) :=
    Parser.functions_pass T.hb T.h2
      (by have := opLevel_not_exp hj; simp [this.1, this.2]) m
  have hAB := Parser.functions_single (n := m + 1) T.ha T.h1 (by simp [h1]) hB T.h2
    (by have := opLevel_not_exp hj; simp [this.1, this.2]) T.length_pos
  rw [h1] at hAB
  have h7 : Parser.atLevel E 7 { tokens := toks, current := c0 }
      = Except.ok (ASTNode.BinaryOperationNode a TokenType.EXPONENT b,
        { tokens := toks, current := c2 }) := by
    show Parser.functions E (toks.length + 1) _ = _
    rw [hm]; exact hAB
  have hAB' := Parser.atLevel_pass E { tokens := toks, current := c0 }
    { tokens := toks, current := c2 } T.h2 (7 - (j + 1)) (j + 1) (by omega)
    (by rw [show j + 1 + (7 - (j + 1)) = 7 by omega]; exact h7)
    (fun k hk _ => by rw [hj]; simp; omega)
  have hC := Parser.atLevel_primary E T.hc (t := t3) T.h3 ⟨x3, f3⟩ (j + 1)
    (by omega) (fun k _ => by rw [e3]; simp)
  have hABC : Parser.atLevel E j { tokens := toks, current := c0 }
      = Except.ok (mkNode (ASTNode.BinaryOperationNode a TokenType.EXPONENT b) t2.Typ c,
        { tokens := toks, current := c3 }) := by
    rw [Parser.atLevel_succ E hj7, ← levelNode_eq hj]
    exact Parser.binaryLevel_single hAB' T.h2 ((mem_levelOps hj7 _).2 hj) (opLevel_ne_EOF hj)
      hC T.h3 (by rw [mem_levelOps hj7, e3]; simp) T.length_pos
  exact Parser.atLevel_pass E { tokens := toks, current := c0 }
    { tokens := toks, current := c3 } T.h3 j 0 (by omega)
    (by rw [Nat.zero_add]; exact hABC) (fun k _ _ => by rw [e3]; simp)

theorem Parser.Parse_of_atLevel {toks : List Token} {tree : ASTNode F} {p1 : Parser}
    (h : Parser.atLevel (Parser.expression toks.length) 0 { tokens := toks, current := 0 }
      = Except.ok (tree, p1)) :
    Parser.Parse { tokens := toks, current := 0 } = Except.ok tree := by
  have h' : Parser.expression (F := F) (toks.length + 1) { tokens := toks, current := 0 }
      = Except.ok (tree, p1) := h
  simp [Parser.Parse, Parser.budget, h', bind, Except.bind, pure, Except.pure]

end ClimbExponent

/-! ## C2, C3, C4: grouping of operators by the parser -/

/-- C2. The parser implements the precedence chain `||`, `&&`, `==`/`!=`,
`<`/`<=`/`>`/`>=`, `<<`/`>>`, `+`/`-`, `*` `/` `%` `//` (loosest to tightest).
Let the primaries `a`, `b`, `c` be separated by the operator tokens `t1` and `t2`
and followed by a token that continues no expression.  When `t1` is of a
looser level than `t2` the sequence parses to `Node(a, t1, Node(b, t2, c))`; when
`t1` is of a tighter level than `t2` it parses to `Node(Node(a, t1, b), t2, c)`.
`Node` is a logical node for `&&` and `||` and a binary node otherwise. -/
theorem precedence_chain {F : Type} [Float64 F] (toks : List Token) (c1 c2 c3 : Nat)
    (a b c : ASTNode F) (t1 t2 t3 : Token) (i j : Nat)
    (ha : Parser.primary (Parser.expression toks.length) { tokens := toks, current := 0 }
      = Except.ok (a, { tokens := toks, current := c1 }))
    (h1 : toks[c1]? = some t1)
    (hb : Parser.primary (Parser.expression toks.length) { tokens := toks, current := c1 + 1 }
      = Except.ok (b, { tokens := toks, current := c2 }))
    (h2 : toks[c2]? = some t2)
    (hc : Parser.primary (Parser.expression toks.length) { tokens := toks, current := c2 + 1 }
      = Except.ok (c, { tokens := toks, current := c3 }))
    (h3 : toks[c3]? = some t3) (hend : continues t3.Typ = false)
    (hi : opLevel t1.Typ = some i) (hj : opLevel t2.Typ = some j) :
    (i < j → Parser.Parse { tokens := toks, current := 0 }
      = Except.ok (mkNode a t1.Typ (mkNode b t2.Typ c)))
    ∧ (j < i → Parser.Parse { tokens := toks, current := 0 }
      = Except.ok (mkNode (mkNode a t1.Typ b) t2.Typ c)) := by
  have T : Triple (Parser.expression toks.length) toks 0 c1 c2 c3 a b c t1 t2 t3 :=
    ⟨ha, h1, hb, h2, hc, h3, hend⟩
  exact ⟨fun hij => Parser.Parse_of_atLevel (climb_right T hi hj hij),
    fun hji => Parser.Parse_of_atLevel (climb_left T hi hj hji)⟩

/-- The tokens of `2 + 3 * 4` and of `2 * 3 + 4` parse to `2 + (3 * 4)` and to
`(2 * 3) + 4`. -/
theorem precedence_chain_witness :
    Parser.Parse (F := Exact)
        { tokens := [⟨TokenType.INT, "2"⟩, ⟨TokenType.PLUS, "+"⟩, ⟨TokenType.INT, "3"⟩,
            ⟨TokenType.MULTIPLY, "*"⟩, ⟨TokenType.INT, "4"⟩, ⟨TokenType.EOF, ""⟩],
          current := 0 }
      = Except.ok (ASTNode.BinaryOperationNode (ASTNode.IntLiteralNode 2) TokenType.PLUS
          (ASTNode.BinaryOperationNode (ASTNode.IntLiteralNode 3) TokenType.MULTIPLY
            (ASTNode.IntLiteralNode 4)))
    ∧ Parser.Parse (F := Exact)
        { tokens := [⟨TokenType.INT, "2"⟩, ⟨TokenType.MULTIPLY, "*"⟩, ⟨TokenType.INT, "3"⟩,
            ⟨TokenType.PLUS, "+"⟩, ⟨TokenType.INT, "4"⟩, ⟨TokenType.EOF, ""⟩],
          current := 0 }
      = Except.ok (ASTNode.BinaryOperationNode
          (ASTNode.BinaryOperationNode (ASTNode.IntLiteralNode 2) TokenType.MULTIPLY
            (ASTNode.IntLiteralNode 3))
          TokenType.PLUS (ASTNode.IntLiteralNode 4)) :=
  ⟨(precedence_chain (F := Exact)
      [⟨TokenType.INT, "2"⟩, ⟨TokenType.PLUS, "+"⟩, ⟨TokenType.INT, "3"⟩,
        ⟨TokenType.MULTIPLY, "*"⟩, ⟨TokenType.INT, "4"⟩, ⟨TokenType.EOF, ""⟩]
      1 3 5 (ASTNode.IntLiteralNode 2) (ASTNode.IntLiteralNode 3)
      (ASTNode.IntLiteralNode 4) ⟨TokenType.PLUS, "+"⟩ ⟨TokenType.MULTIPLY, "*"⟩
      ⟨TokenType.EOF, ""⟩ 5 6 rfl rfl rfl rfl rfl rfl rfl rfl rfl).1 (by decide),
   (precedence_chain (F := Exact)
      [⟨TokenType.INT, "2"⟩, ⟨TokenType.MULTIPLY, "*"⟩, ⟨TokenType.INT, "3"⟩,
        ⟨TokenType.PLUS, "+"⟩, ⟨TokenType.INT, "4"⟩, ⟨TokenType.EOF, ""⟩]
      1 3 5 (ASTNode.IntLiteralNode 2) (ASTNode.IntLiteralNode 3)
      (ASTNode.IntLiteralNode 4) ⟨TokenType.MULTIPLY, "*"⟩ ⟨TokenType.PLUS, "+"⟩
      ⟨TokenType.EOF, ""⟩ 6 5 rfl rfl rfl rfl rfl rfl rfl rfl rfl).2 (by decide)⟩

/-- C3. Every binary level is left-associative: when the operator tokens `t1`
and `t2` between the primaries `a`, `b`, `c` are of the same level, the sequence
parses to `Node(Node(a, t1, b), t2, c)`.  The source `10 - 3 - 2` evaluates to
the int 5 under every registry and context. -/
theorem binary_levels_left_associative :
    (∀ (F : Type) [Float64 F] (toks : List Token) (c1 c2 c3 : Nat) (a b c : ASTNode F)
      (t1 t2 t3 : Token) (i : Nat),
      Parser.primary (Parser.expression toks.length) { tokens := toks, current := 0 }
        = Except.ok (a, { tokens := toks, current := c1 }) →
      toks[c1]? = some t1 →
      Parser.primary (Parser.expression toks.length) { tokens := toks, current := c1 + 1 }
        = Except.ok (b, { tokens := toks, current := c2 }) →
      toks[c2]? = some t2 →
      Parser.primary (Parser.expression toks.length) { tokens := toks, current := c2 + 1 }
        = Except.ok (c, { tokens := toks, current := c3 }) →
      toks[c3]? = some t3 → continues t3.Typ = false →
      opLevel t1.Typ = some i → opLevel t2.Typ = some i →
      Parser.Parse { tokens := toks, current := 0 }
        = Except.ok (mkNode (mkNode a t1.Typ b) t2.Typ c))
    ∧ (∀ (F : Type) [Float64 F] (reg : Bif F) (n : Nat) (ctx : Context F),
      Evaluate reg (n + 1) ctx "10 - 3 - 2" = Except.ok (Value.int 5, none)) := by
  refine ⟨?_, ?_⟩
  · intro F _ toks c1 c2 c3 a b c t1 t2 t3 i ha h1 hb h2 hc h3 hend hi hj
    have T : Triple (Parser.expression toks.length) toks 0 c1 c2 c3 a b c t1 t2 t3 :=
      ⟨ha, h1, hb, h2, hc, h3, hend⟩
    exact Parser.Parse_of_atLevel (climb_same T hi hj)
  · intro F _ reg n ctx
    rfl

/-- The tokens of `10 - 3 - 2` parse to `(10 - 3) - 2`. -/
theorem binary_levels_left_associative_witness :
    Parser.Parse (F := Exact)
        { tokens := [⟨TokenType.INT, "10"⟩, ⟨TokenType.MINUS, "-"⟩, ⟨TokenType.INT, "3"⟩,
            ⟨TokenType.MINUS, "-"⟩, ⟨TokenType.INT, "2"⟩, ⟨TokenType.EOF, ""⟩],
          current := 0 }
      = Except.ok (ASTNode.BinaryOperationNode
          (ASTNode.BinaryOperationNode (ASTNode.IntLiteralNode 10) TokenType.MINUS
            (ASTNode.IntLiteralNode 3))
          TokenType.MINUS (ASTNode.IntLiteralNode 2)) :=
  binary_levels_left_associative.1 Exact
    [⟨TokenType.INT, "10"⟩, ⟨TokenType.MINUS, "-"⟩, ⟨TokenType.INT, "3"⟩,
      ⟨TokenType.MINUS, "-"⟩, ⟨TokenType.INT, "2"⟩, ⟨TokenType.EOF, ""⟩]
    1 3 5 (ASTNode.IntLiteralNode 10)
    (ASTNode.IntLiteralNode 3) (ASTNode.IntLiteralNode 2) ⟨TokenType.MINUS, "-"⟩
    ⟨TokenType.MINUS, "-"⟩ ⟨TokenType.EOF, ""⟩ 5 rfl rfl rfl rfl rfl rfl rfl rfl rfl

set_option maxRecDepth 100000 in
/-- C4. The exponent operator groups to the right and binds tighter than the
binary levels: for primaries `a`, `b`, `c`, the sequence `a ** b ** c` parses to
`a ** (b ** c)`, the sequence `a op b ** c` to `Node(a, op, b ** c)` and the
sequence `a ** b op c` to `Node(a ** b, op, c)` for every binary operator `op`
(the multiplicative ones included).  The characters `**` and `^` give the same
token kind.  The sources `2 ** 3 ** 2` and `2 ^ 3 ^ 2` evaluate to
`math.Pow(2, math.Pow(3, 2))`, which is the float 512. -/
theorem exponent_groups_right :
    (∀ (F : Type) [Float64 F] (toks : List Token) (c1 c2 c3 : Nat) (a b c : ASTNode F)
      (t1 t2 t3 : Token),
      Parser.primary (Parser.expression toks.length) { tokens := toks, current := 0 }
        = Except.ok (a, { tokens := toks, current := c1 }) →
      toks[c1]? = some t1 →
      Parser.primary (Parser.expression toks.length) { tokens := toks, current := c1 + 1 }
        = Except.ok (b, { tokens := toks, current := c2 }) →
      toks[c2]? = some t2 →
      Parser.primary (Parser.expression toks.length) { tokens := toks, current := c2 + 1 }
        = Except.ok (c, { tokens := toks, current := c3 }) →
      toks[c3]? = some t3 → continues t3.Typ = false →
      (t1.Typ = TokenType.EXPONENT → t2.Typ = TokenType.EXPONENT →
        Parser.Parse { tokens := toks, current := 0 }
          = Except.ok (ASTNode.BinaryOperationNode a TokenType.EXPONENT
              (ASTNode.BinaryOperationNode b TokenType.EXPONENT c)))
      ∧ (∀ i, opLevel t1.Typ = some i → t2.Typ = TokenType.EXPONENT →
        Parser.Parse { tokens := toks, current := 0 }
          = Except.ok (mkNode a t1.Typ (ASTNode.BinaryOperationNode b TokenType.EXPONENT c)))
      ∧ (∀ j, t1.Typ = TokenType.EXPONENT → opLevel t2.Typ = some j →
        Parser.Parse { tokens := toks, current := 0 }
          = Except.ok (mkNode (ASTNode.BinaryOperationNode a TokenType.EXPONENT b) t2.Typ c)))
    ∧ (lexAll (NewLexer "2 ** 3 ** 2")
        = Except.ok [⟨TokenType.INT, "2"⟩, ⟨TokenType.EXPONENT, "**"⟩, ⟨TokenType.INT, "3"⟩,
            ⟨TokenType.EXPONENT, "**"⟩, ⟨TokenType.INT, "2"⟩, ⟨TokenType.EOF, ""⟩]
      ∧ lexAll (NewLexer "2 ^ 3 ^ 2")
        = Except.ok [⟨TokenType.INT, "2"⟩, ⟨TokenType.EXPONENT, "^"⟩, ⟨TokenType.INT, "3"⟩,
            ⟨TokenType.EXPONENT, "^"⟩, ⟨TokenType.INT, "2"⟩, ⟨TokenType.EOF, ""⟩])
    ∧ (∀ (F : Type) [Float64 F] (reg : Bif F) (n : Nat) (ctx : Context F),
      Evaluate reg (n + 1) ctx "2 ** 3 ** 2"
        = Except.ok (Value.float (Float64.pow (Float64.ofInt 2)
            (Float64.pow (Float64.ofInt 3) (Float64.ofInt 2))), none)
      ∧ Evaluate reg (n + 1) ctx "2 ^ 3 ^ 2"
        = Except.ok (Value.float (Float64.pow (Float64.ofInt 2)
            (Float64.pow (Float64.ofInt 3) (Float64.ofInt 2))), none))
    ∧ (∀ (reg : Bif Exact) (n : Nat) (ctx : Context Exact),
      Evaluate reg (n + 1) ctx "2 ** 3 ** 2" = Except.ok (Value.float (some 512), none)
      ∧ Evaluate reg (n + 1) ctx "2 ^ 3 ^ 2" = Except.ok (Value.float (some 512), none)) := by
  refine ⟨?_, ⟨rfl, rfl⟩, ?_, ?_⟩
  · intro F _ toks c1 c2 c3 a b c t1 t2 t3 ha h1 hb h2 hc h3 hend
    have T : Triple (Parser.expression toks.length) toks 0 c1 c2 c3 a b c t1 t2 t3 :=
      ⟨ha, h1, hb, h2, hc, h3, hend⟩
    exact ⟨fun e1 e2 => Parser.Parse_of_atLevel (climb_exp_exp T e1 e2),
      fun i hi e2 => Parser.Parse_of_atLevel (climb_op_exp T hi e2),
      fun j e1 hj => Parser.Parse_of_atLevel (climb_exp_op T e1 hj)⟩
  · intro F _ reg n ctx
    exact ⟨rfl, rfl⟩
  · intro reg n ctx
    exact ⟨by with_unfolding_all rfl, by with_unfolding_all rfl⟩

/-- The tokens of `2 ** 3 ** 2` parse to `2 ** (3 ** 2)`. -/
theorem exponent_groups_right_witness :
    Parser.Parse (F := Exact)
        { tokens := [⟨TokenType.INT, "2"⟩, ⟨TokenType.EXPONENT, "**"⟩, ⟨TokenType.INT, "3"⟩,
            ⟨TokenType.EXPONENT, "**"⟩, ⟨TokenType.INT, "2"⟩, ⟨TokenType.EOF, ""⟩],
          current := 0 }
      = Except.ok (ASTNode.BinaryOperationNode (ASTNode.IntLiteralNode 2) TokenType.EXPONENT
          (ASTNode.BinaryOperationNode (ASTNode.IntLiteralNode 3) TokenType.EXPONENT
            (ASTNode.IntLiteralNode 2))) :=
  (exponent_groups_right.1 Exact
    [⟨TokenType.INT, "2"⟩, ⟨TokenType.EXPONENT, "**"⟩, ⟨TokenType.INT, "3"⟩,
      ⟨TokenType.EXPONENT, "**"⟩, ⟨TokenType.INT, "2"⟩, ⟨TokenType.EOF, ""⟩]
    1 3 5 (ASTNode.IntLiteralNode 2)
    (ASTNode.IntLiteralNode 3) (ASTNode.IntLiteralNode 2) ⟨TokenType.EXPONENT, "**"⟩
    ⟨TokenType.EXPONENT, "**"⟩ ⟨TokenType.EOF, ""⟩ rfl rfl rfl rfl rfl rfl rfl).1 rfl rfl

section EvalLemmas

variable {F : Type} [Float64 F]

/-- A binary node whose operands evaluate without error dispatches on its
operator. -/
theorem ASTNode.Evaluate_binary {reg : Bif F} {h : Host F} {ctx : Context F}
    {left right : ASTNode F} {l r : Value F}
    (hl : left.Evaluate reg h ctx = Except.ok (l, none))
    (hr : right.Evaluate reg h ctx = Except.ok (r, none)) (op : TokenType) :
    (ASTNode.BinaryOperationNode left op right).Evaluate reg h ctx
      = applyBinary h ctx l op r := by
  simp [ASTNode.Evaluate, hl, hr, bind, Except.bind]

/-- A logical node whose operands evaluate without error applies its operator. -/
theorem ASTNode.Evaluate_logical {reg : Bif F} {h : Host F} {ctx : Context F}
    {left right : ASTNode F} {l r : Value F}
    (hl : left.Evaluate reg h ctx = Except.ok (l, none))
    (hr : right.Evaluate reg h ctx = Except.ok (r, none)) (op : TokenType) :
    (ASTNode.LogicalOperationNode left op right).Evaluate reg h ctx
      = applyLogical l op r := by
  simp [ASTNode.Evaluate, hl, hr, bind, Except.bind]

theorem wrap64_of_inRange {i : Int} (h : inRange i) : wrap64 i = i := by
  unfold inRange minInt maxInt at h
  unfold wrap64
  rw [Int.bmod_def]
  norm_num
  omega

theorem wrap64_inRange (i : Int) : inRange (wrap64 i) := by
  unfold inRange minInt maxInt wrap64
  rw [Int.bmod_def]
  norm_num
  split <;> omega

end EvalLemmas

section PrimaryLemmas

variable {F : Type} [Float64 F]

theorem Parser.matchTypes_one {p : Parser} {t : Token} (h : p.tokens[p.current]? = some t)
    (typ : TokenType) (htyp : typ ≠ TokenType.EOF) :
    p.matchTypes [typ] = Except.ok (if t.Typ = typ then (true, p.next) else (false, p)) := by
  rw [Parser.matchTypes_eq h]
  by_cases ht : t.Typ = typ
  · simp [ht, htyp]
  · simp [ht]

/-- The primary of an integer literal. -/
theorem Parser.primary_int (E : Parser → Run (ASTNode F × Parser)) {p : Parser} {t : Token}
    {v : Int} (h : p.tokens[p.current]? = some t) (ht : t.Typ = TokenType.INT)
    (hv : Atoi t.Literal = some v) :
    Parser.primary E p = Except.ok (ASTNode.IntLiteralNode v, p.next) := by
  simp [Parser.primary, Parser.matchTypes_one h, ht, Parser.previous_next h, parseInt, hv,
    bind, Except.bind, pure, Except.pure]

/-- The primary of a float literal. -/
theorem Parser.primary_float (E : Parser → Run (ASTNode F × Parser)) {p : Parser} {t : Token}
    {x : F} (h : p.tokens[p.current]? = some t) (ht : t.Typ = TokenType.FLOAT)
    (hx : Float64.parse t.Literal = some x) :
    Parser.primary E p = Except.ok (ASTNode.FloatLiteralNode x, p.next) := by
  simp [Parser.primary, Parser.matchTypes_one h, ht, Parser.previous_next h, parseFloat, hx,
    bind, Except.bind, pure, Except.pure]

/-- The primary of a parenthesized expression. -/
theorem Parser.primary_paren (E : Parser → Run (ASTNode F × Parser)) (p p2 : Parser)
    {t t2 : Token} {e : ASTNode F} (h : p.tokens[p.current]? = some t)
    (ht : t.Typ = TokenType.PAREN_LEFT) (he : E p.next = Except.ok (e, p2))
    (h2 : p2.tokens[p2.current]? = some t2) (ht2 : t2.Typ = TokenType.PAREN_RIGHT) :
    Parser.primary E p = Except.ok (e, p2.next) := by
  simp [Parser.primary, Parser.matchTypes_one h, ht, he, Parser.consume, Parser.check_eq h2,
    ht2, Parser.advance_eq h2, bind, Except.bind, pure, Except.pure]

/-- Two primaries `a`, `b` separated by a binary operator `t1` and followed by
a token `t2` that continues no expression group as `Node(a, t1, b)`. -/
theorem climb_one {E : Parser → Run (ASTNode F × Parser)} {toks : List Token}
    {c0 : Nat} (c1 c2 : Nat) {a b : ASTNode F} (t1 t2 : Token) (i : Nat)
    (ha : Parser.primary E { tokens := toks, current := c0 }
      = Except.ok (a, { tokens := toks, current := c1 }))
    (h1 : toks[c1]? = some t1)
    (hb : Parser.primary E { tokens := toks, current := c1 + 1 }
      = Except.ok (b, { tokens := toks, current := c2 }))
    (h2 : toks[c2]? = some t2) (hend : continues t2.Typ = false)
    (hi : opLevel t1.Typ = some i) :
    Parser.atLevel E 0 { tokens := toks, current := c0 }
      = Except.ok (mkNode a t1.Typ b, { tokens := toks, current := c2 }) := by
  obtain ⟨e3, x3, f3⟩ := continues_false hend
  have hi7 := opLevel_lt hi
  have hlen : 1 ≤ toks.length := by
    rcases toks with _ | ⟨x, xs⟩
    · simp at h1
    · simp
  have hA := Parser.atLevel_primary E ha (t := t1) h1 (opLevel_not_exp hi) (i + 1)
    (by omega) (fun k hk => by rw [hi]; simp; omega)
  have hB := Parser.atLevel_primary E hb (t := t2) h2 ⟨x3, f3⟩ (i + 1)
    (by omega) (fun k _ => by rw [e3]; simp)
  have hAB : Parser.atLevel E i { tokens := toks, current := c0 }
      = Except.ok (mkNode a t1.Typ b, { tokens := toks, current := c2 }) := by
    rw [Parser.atLevel_succ E hi7, ← levelNode_eq hi]
    exact Parser.binaryLevel_single hA h1 ((mem_levelOps hi7 _).2 hi) (opLevel_ne_EOF hi)
      hB h2 (by rw [mem_levelOps hi7, e3]; simp) hlen
  exact Parser.atLevel_pass E { tokens := toks, current := c0 }
    { tokens := toks, current := c2 } h2 i 0 (by omega)
    (by rw [Nat.zero_add]; exact hAB) (fun k _ _ => by rw [e3]; simp)

/-- The steps of `Evaluate`: the tokens of the source, their tree, its value. -/
theorem Evaluate_of_parse {reg : Bif F} {ctx : Context F} {comparison : String}
    {toks : List Token} {tree : ASTNode F}
    (hlex : lexAll (NewLexer comparison) = Except.ok toks)
    (hparse : Parser.Parse { tokens := toks, current := 0 } = Except.ok tree) (n : Nat) :
    Evaluate reg (n + 1) ctx comparison = tree.Evaluate reg (hostAt reg n) ctx := by
  show pipeline reg (hostAt reg n) ctx comparison = _
  simp [pipeline, NewParser, hlex, hparse, bind, Except.bind, pure, Except.pure]

end PrimaryLemmas

/-! ## C5 to C10: operators, comparisons and logical nodes -/

/-- C5. Operator parity under the initial registry: for operand nodes that
evaluate to `l` and `r` without error and for each of the pairs (`+`, add),
(`-`, sub), (`*`, mul), (`/`, div), (`//`, divint), (`%`, mod), (`**`, exp), the
registry has an entry of that name and the binary node returns exactly what the
entry returns on `(l, r)`. -/
theorem operator_parity {F : Type} [Float64 F] (library : String → bifFunc F) (h : Host F)
    (ctx : Context F) (left right : ASTNode F) (l r : Value F) (op : TokenType)
    (name : String)
    (hl : left.Evaluate (init library) h ctx = Except.ok (l, none))
    (hr : right.Evaluate (init library) h ctx = Except.ok (r, none))
    (hp : (op, name) ∈ operatorBuiltins) :
    ∃ f, init library name = some f
      ∧ (ASTNode.BinaryOperationNode left op right).Evaluate (init library) h ctx
        = f h ctx [l, r] := by
  rw [ASTNode.Evaluate_binary hl hr]
  simp only [operatorBuiltins, List.mem_cons, Prod.mk.injEq, List.mem_singleton,
    List.not_mem_nil, or_false] at hp
  rcases hp with ⟨rfl, rfl⟩ | ⟨rfl, rfl⟩ | ⟨rfl, rfl⟩ | ⟨rfl, rfl⟩ | ⟨rfl, rfl⟩ | ⟨rfl, rfl⟩
    | ⟨rfl, rfl⟩
  · exact ⟨Bif.Add, rfl, rfl⟩
  · exact ⟨Bif.Sub, rfl, rfl⟩
  · exact ⟨Bif.Mul, rfl, rfl⟩
  · exact ⟨Bif.Div, rfl, rfl⟩
  · exact ⟨Bif.DivInt, rfl, rfl⟩
  · exact ⟨Bif.Mod, rfl, rfl⟩
  · exact ⟨Bif.Exp, rfl, rfl⟩

/-- The node `1 + "a"` and the entry `add` on `(1, "a")` agree. -/
theorem operator_parity_witness :
    ∃ f, init (fun _ _ _ _ => Except.ok (Value.nil, none)) "add" = some f
      ∧ (ASTNode.BinaryOperationNode (ASTNode.IntLiteralNode 1) TokenType.PLUS
            (ASTNode.StringLiteralNode "a")).Evaluate
          (init (fun _ _ _ _ => Except.ok (Value.nil, none)))
          (hostAt (init (fun _ _ _ _ => Except.ok (Value.nil, none))) 0) ⟨none⟩
        = f (hostAt (init (fun _ _ _ _ => Except.ok (Value.nil, none))) 0) ⟨none⟩
            [(Value.int 1 : Value Exact), Value.str "a"] :=
  operator_parity (F := Exact) (fun _ _ _ _ => Except.ok (Value.nil, none)) _ ⟨none⟩
    (ASTNode.IntLiteralNode 1) (ASTNode.StringLiteralNode "a") (Value.int 1) (Value.str "a")
    TokenType.PLUS "add" rfl rfl (by decide)

set_option maxRecDepth 100000 in
/-- C6. `Add` called with exactly two arguments equals the reference definition
`addReference`; the int sum is the exact sum whenever that is an `int`.  The
source `1 + 2.5` evaluates to the float 3.5 and the source `"ab" + "cd"` to the
string `abcd`. -/
theorem add_matches_reference :
    (∀ (F : Type) [Float64 F] (h : Host F) (ctx : Context F) (x y : Value F),
      Bif.Add h ctx [x, y] = Except.ok (addReference x y, none))
    ∧ (∀ (F : Type) [Float64 F] (h : Host F) (ctx : Context F) (a b : Int),
      inRange (a + b) → Bif.Add h ctx [Value.int a, Value.int b]
        = Except.ok (Value.int (a + b), none))
    ∧ (∀ (F : Type) [Float64 F] (reg : Bif F) (n : Nat) (ctx : Context F) (x : F),
      Float64.parse "2.5" = some x →
      Evaluate reg (n + 1) ctx "1 + 2.5"
        = Except.ok (Value.float (Float64.add (Float64.ofInt 1) x), none))
    ∧ (∀ (reg : Bif Exact) (n : Nat) (ctx : Context Exact),
      Evaluate reg (n + 1) ctx "1 + 2.5" = Except.ok (Value.float (some (7 / 2)), none))
    ∧ (∀ (F : Type) [Float64 F] (reg : Bif F) (n : Nat) (ctx : Context F),
      Evaluate reg (n + 1) ctx (quoted "ab" ++ " + " ++ quoted "cd")
        = Except.ok (Value.str "abcd", none)) := by
  refine ⟨?_, ?_, ?_, ?_, ?_⟩
  · intro F _ h ctx x y
    cases x <;> cases y <;> rfl
  · intro F _ h ctx a b hab
    simp [Bif.Add, ok, wrap64_of_inRange hab, pure, Except.pure]
  · intro F _ reg n ctx x hx
    have hparse : Parser.Parse (F := F)
        { tokens := [⟨TokenType.INT, "1"⟩, ⟨TokenType.PLUS, "+"⟩, ⟨TokenType.FLOAT, "2.5"⟩,
            ⟨TokenType.EOF, ""⟩], current := 0 }
        = Except.ok (ASTNode.BinaryOperationNode (ASTNode.IntLiteralNode 1) TokenType.PLUS
            (ASTNode.FloatLiteralNode x)) :=
      Parser.Parse_of_atLevel
        (climb_one 1 3 ⟨TokenType.PLUS, "+"⟩ ⟨TokenType.EOF, ""⟩ 5
          (Parser.primary_int _ (t := ⟨TokenType.INT, "1"⟩) rfl rfl rfl) rfl
          (Parser.primary_float _ (t := ⟨TokenType.FLOAT, "2.5"⟩) rfl rfl hx) rfl rfl rfl)
    have hlex : lexAll (NewLexer "1 + 2.5")
        = Except.ok [⟨TokenType.INT, "1"⟩, ⟨TokenType.PLUS, "+"⟩, ⟨TokenType.FLOAT, "2.5"⟩,
            ⟨TokenType.EOF, ""⟩] := rfl
    rw [Evaluate_of_parse hlex hparse]
    rfl
  · intro reg n ctx
    with_unfolding_all rfl
  · intro F _ reg n ctx
    rfl

section IntLemmas

theorem wrap64_congr {x y : Int} (h : x % 2 ^ 64 = y % 2 ^ 64) : wrap64 x = wrap64 y := by
  unfold wrap64
  rw [Int.bmod_def, Int.bmod_def]
  norm_num
  norm_num at h
  rw [h]

theorem wrap64_emod (x : Int) : wrap64 x % 2 ^ 64 = x % 2 ^ 64 := by
  unfold wrap64
  have := @Int.bmod_emod x (2 ^ 64)
  norm_num at this ⊢
  exact this

theorem wrap64_mul_add (t b r : Int) : wrap64 (wrap64 t * b + r) = wrap64 (t * b + r) := by
  apply wrap64_congr
  rw [Int.add_emod, Int.mul_emod, wrap64_emod, ← Int.mul_emod, ← Int.add_emod]

theorem natAbs_tmod (a b : Int) : (a.tmod b).natAbs = a.natAbs % b.natAbs := by
  cases a <;> cases b <;> simp [Int.tmod] <;> rfl

theorem tmod_nonpos {a : Int} (b : Int) (ha : a ≤ 0) : a.tmod b ≤ 0 := by
  cases a with
  | ofNat n =>
    have h0 : n = 0 := by
      have : (n : Int) ≤ 0 := ha
      omega
    subst h0
    simp
  | negSucc m => cases b <;> exact Int.neg_nonpos_of_nonneg (Int.ofNat_zero_le _)

theorem tmod_sign (a b : Int) :
    a.tmod b = 0 ∨ (0 < a.tmod b ∧ 0 < a) ∨ (a.tmod b < 0 ∧ a < 0) := by
  rcases lt_trichotomy a 0 with ha | ha | ha
  · have h := tmod_nonpos b (show a ≤ 0 by omega)
    omega
  · subst ha; left; simp
  · have h := Int.tmod_nonneg b (show 0 ≤ a by omega)
    omega

theorem tdiv_inRange {a b : Int} (ha : inRange a)
    (hne : ¬ (a = minInt ∧ b = -1)) : inRange (a.tdiv b) := by
  unfold inRange minInt maxInt at *
  by_cases hb1 : b = 1
  · subst hb1; rw [Int.tdiv_one]; exact ha
  by_cases hbm : b = -1
  · subst hbm
    rw [Int.tdiv_neg, Int.tdiv_one]
    have : a ≠ -(2 ^ 63) := fun h => hne ⟨h, rfl⟩
    omega
  by_cases hb0 : b = 0
  · subst hb0; simp
  have h1 := Int.natAbs_tdiv a b
  have hB : 2 ≤ b.natAbs := by omega
  have hA : a.natAbs ≤ 2 ^ 63 := by omega
  have hq : (a.tdiv b).natAbs ≤ 2 ^ 62 := by
    rw [h1]
    calc a.natAbs / b.natAbs ≤ a.natAbs / 2 := Nat.div_le_div_left hB (by norm_num)
      _ ≤ 2 ^ 62 := by omega
  omega

end IntLemmas

/-! ## C7 -/

set_option maxRecDepth 100000 in
/-- C7. For all ints `a` and `b` with `b ≠ 0`, the nodes `a // b` and `a / b`
evaluate to the same int `q`, the quotient truncated toward zero (reduced to 64
bits, which changes it only for the smallest int divided by -1), and `a % b`
evaluates to an int `r` with `q * b + r = a` in 64-bit wrap-around arithmetic,
`|r| < |b|`, and `r` zero or of the sign of `a`.  The source `5 // 2` is the
int 2 and the source `5 % 2` is the int 1. -/
theorem int_quotient_and_remainder :
    (∀ (F : Type) [Float64 F] (reg : Bif F) (h : Host F) (ctx : Context F) (a b : Int),
      inRange a → inRange b → b ≠ 0 →
      (ASTNode.BinaryOperationNode (ASTNode.IntLiteralNode a) TokenType.DIVIDE_INTEGER
          (ASTNode.IntLiteralNode b)).Evaluate reg h ctx
        = Except.ok (Value.int (wrap64 (a.tdiv b)), none)
      ∧ (ASTNode.BinaryOperationNode (ASTNode.IntLiteralNode a) TokenType.DIVIDE
          (ASTNode.IntLiteralNode b)).Evaluate reg h ctx
        = Except.ok (Value.int (wrap64 (a.tdiv b)), none)
      ∧ (ASTNode.BinaryOperationNode (ASTNode.IntLiteralNode a) TokenType.MODULO
          (ASTNode.IntLiteralNode b)).Evaluate reg h ctx
        = Except.ok (Value.int (a.tmod b), none)
      ∧ (¬ (a = minInt ∧ b = -1) → wrap64 (a.tdiv b) = a.tdiv b)
      ∧ wrap64 (wrap64 (a.tdiv b) * b + a.tmod b) = a
      ∧ (a.tmod b).natAbs < b.natAbs
      ∧ (a.tmod b = 0 ∨ (0 < a.tmod b ∧ 0 < a) ∨ (a.tmod b < 0 ∧ a < 0)))
    ∧ (∀ (F : Type) [Float64 F] (reg : Bif F) (n : Nat) (ctx : Context F),
      Evaluate reg (n + 1) ctx "5 // 2" = Except.ok (Value.int 2, none)
      ∧ Evaluate reg (n + 1) ctx "5 % 2" = Except.ok (Value.int 1, none)) := by
  refine ⟨?_, ?_⟩
  · intro F _ reg h ctx a b ha hb hb0
    have hl : (ASTNode.IntLiteralNode a : ASTNode F).Evaluate reg h ctx
        = Except.ok (Value.int a, none) := rfl
    have hr : (ASTNode.IntLiteralNode b : ASTNode F).Evaluate reg h ctx
        = Except.ok (Value.int b, none) := rfl
    refine ⟨?_, ?_, ?_, ?_, ?_, ?_, ?_⟩
    · rw [ASTNode.Evaluate_binary hl hr]
      simp [applyBinary, Bif.DivInt, intDiv, hb0, ok, bind, Except.bind, pure, Except.pure]
    · rw [ASTNode.Evaluate_binary hl hr]
      simp [applyBinary, Bif.Div, intDiv, hb0, ok, bind, Except.bind, pure, Except.pure]
    · rw [ASTNode.Evaluate_binary hl hr]
      simp [applyBinary, Bif.Mod, intMod, hb0, ok, bind, Except.bind, pure, Except.pure]
    · intro hne
      exact wrap64_of_inRange (tdiv_inRange ha hne)
    · rw [wrap64_mul_add, Int.tdiv_add_tmod']
      exact wrap64_of_inRange ha
    · rw [natAbs_tmod]
      exact Nat.mod_lt _ (by omega)
    · exact tmod_sign a b
  · intro F _ reg n ctx
    exact ⟨rfl, rfl⟩

/-- The quotient and the remainder of -7 by 2 are -3 and -1. -/
theorem int_quotient_and_remainder_witness :
    (ASTNode.BinaryOperationNode (ASTNode.IntLiteralNode (-7)) TokenType.DIVIDE_INTEGER
        (ASTNode.IntLiteralNode 2)).Evaluate (fun _ => none)
        (hostAt (fun _ => none) 0) (⟨none⟩ : Context Exact)
      = Except.ok (Value.int (wrap64 (Int.tdiv (-7) 2)), none)
    ∧ wrap64 (Int.tdiv (-7) 2) = -3 ∧ Int.tmod (-7) 2 = -1 :=
  ⟨(int_quotient_and_remainder.1 Exact (fun _ => none) (hostAt (fun _ => none) 0) ⟨none⟩
      (-7) 2 (by decide) (by decide) (by decide)).1, by decide, by decide⟩

section StringOrder

theorem char_lt_iff (a b : Char) : a < b ↔ a.toNat < b.toNat := by
  rw [Char.lt_def]
  rfl

theorem char_toNat_inj {a b : Char} (h : a.toNat = b.toNat) : a = b := by
  apply Char.ext
  apply UInt32.ext
  exact h

theorem bytesLt_iff (as bs : List Char) :
    bytesLt as bs = true ↔ List.Lex (fun x y : Char => x < y) as bs := by
  induction as generalizing bs with
  | nil =>
    cases bs with
    | nil =>
      simp only [bytesLt, Bool.false_eq_true, false_iff]
      intro h; cases h
    | cons b bs =>
      simp only [bytesLt, true_iff]
      exact List.Lex.nil
  | cons a as ih =>
    cases bs with
    | nil =>
      simp only [bytesLt, Bool.false_eq_true, false_iff]
      intro h; cases h
    | cons b bs =>
      unfold bytesLt
      by_cases h1 : a.toNat < b.toNat
      · simp only [h1, if_true, true_iff]
        exact List.Lex.rel ((char_lt_iff a b).2 h1)
      · by_cases h2 : b.toNat < a.toNat
        · simp only [h1, h2, if_true, if_false, Bool.false_eq_true, false_iff]
          intro h
          cases h with
          | rel hab => exact h1 ((char_lt_iff a b).1 hab)
          | cons _ => omega
        · simp only [h1, h2, if_false]
          have hab : a = b := char_toNat_inj (by omega)
          subst hab
          rw [ih]
          constructor
          · intro h
            exact List.Lex.cons h
          · intro h
            cases h with
            | rel hab => exact absurd ((char_lt_iff a a).1 hab) h1
            | cons h' => exact h'

theorem strLt_iff (s t : String) : strLt s t = true ↔ s < t := by
  rw [String.lt_iff_toList_lt]
  exact bytesLt_iff s.data t.data

theorem strEq_iff (s t : String) : strEq s t = true ↔ s = t := by
  simp [strEq, String.ext_iff]

theorem applyStringComparison_iff {op : TokenType} (hop : op ∈ comparisonOps) (s t : String) :
    applyStringComparison s t op = true ↔ relation op s t := by
  simp only [comparisonOps, List.mem_cons, List.mem_singleton, List.not_mem_nil, or_false] at hop
  rcases hop with rfl | rfl | rfl | rfl | rfl | rfl
  · simp [applyStringComparison, relation, strEq_iff]
  · simp only [applyStringComparison, relation, Bool.not_eq_true', ← Bool.not_eq_true,
      strEq_iff]
  · simp [applyStringComparison, relation, strLt_iff]
  · simp only [applyStringComparison, relation, Bool.not_eq_true', ← Bool.not_eq_true, strLt_iff]
    exact not_lt
  · simp [applyStringComparison, relation, strLt_iff]
  · simp only [applyStringComparison, relation, Bool.not_eq_true', ← Bool.not_eq_true, strLt_iff]
    exact not_lt

theorem applyIntComparison_iff {op : TokenType} (hop : op ∈ comparisonOps) (a b : Int) :
    applyIntComparison a b op = true ↔ relation op a b := by
  simp only [comparisonOps, List.mem_cons, List.mem_singleton, List.not_mem_nil, or_false] at hop
  rcases hop with rfl | rfl | rfl | rfl | rfl | rfl <;>
    simp [applyIntComparison, relation]

theorem applyFloatComparison_eq {F : Type} [Float64 F] (op : TokenType) (x y : F) :
    applyFloatComparison x y op = floatRelation op x y := by
  cases op <;> rfl

end StringOrder

/-! ## C8, C9, C10 -/

set_option maxRecDepth 100000 in
/-- C8. For operand nodes that evaluate without error to values of a supported
family, each of the six comparison operators evaluates with no error to the
boolean of the corresponding relation: on two ints the integer order, on two
strings the lexicographic order of the bytes, on two floats the float order,
and on an int with a float (either side) the float order after the conversion
of the int to a float.  The source `1 < 2.5` evaluates to `true`. -/
theorem comparison_relations :
    (∀ (F : Type) [Float64 F] (reg : Bif F) (h : Host F) (ctx : Context F)
      (left right : ASTNode F) (l r : Value F) (op : TokenType),
      op ∈ comparisonOps →
      left.Evaluate reg h ctx = Except.ok (l, none) →
      right.Evaluate reg h ctx = Except.ok (r, none) →
      (∀ a b : Int, l = Value.int a → r = Value.int b →
        ∃ v, (ASTNode.BinaryOperationNode left op right).Evaluate reg h ctx
            = Except.ok (Value.bool v, none) ∧ (v = true ↔ relation op a b))
      ∧ (∀ s t : String, l = Value.str s → r = Value.str t →
        ∃ v, (ASTNode.BinaryOperationNode left op right).Evaluate reg h ctx
            = Except.ok (Value.bool v, none) ∧ (v = true ↔ relation op s t))
      ∧ (∀ x y : F, l = Value.float x → r = Value.float y →
        (ASTNode.BinaryOperationNode left op right).Evaluate reg h ctx
          = Except.ok (Value.bool (floatRelation op x y), none))
      ∧ (∀ (a : Int) (y : F), l = Value.int a → r = Value.float y →
        (ASTNode.BinaryOperationNode left op right).Evaluate reg h ctx
          = Except.ok (Value.bool (floatRelation op (Float64.ofInt a) y), none))
      ∧ (∀ (x : F) (b : Int), l = Value.float x → r = Value.int b →
        (ASTNode.BinaryOperationNode left op right).Evaluate reg h ctx
          = Except.ok (Value.bool (floatRelation op x (Float64.ofInt b)), none)))
    ∧ (∀ (reg : Bif Exact) (n : Nat) (ctx : Context Exact),
      Evaluate reg (n + 1) ctx "1 < 2.5" = Except.ok (Value.bool true, none)) := by
  refine ⟨?_, ?_⟩
  · intro F _ reg h ctx left right l r op hop hl hr
    have hcmp : applyBinary h ctx l op r = compareValues l op r := by
      simp only [comparisonOps, List.mem_cons, List.mem_singleton, List.not_mem_nil,
        or_false] at hop
      rcases hop with rfl | rfl | rfl | rfl | rfl | rfl <;> rfl
    rw [ASTNode.Evaluate_binary hl hr, hcmp]
    refine ⟨?_, ?_, ?_, ?_, ?_⟩
    · rintro a b rfl rfl
      exact ⟨applyIntComparison a b op, rfl, applyIntComparison_iff hop a b⟩
    · rintro s t rfl rfl
      exact ⟨applyStringComparison s t op, rfl, applyStringComparison_iff hop s t⟩
    · rintro x y rfl rfl
      simp [compareValues, ok, applyFloatComparison_eq, pure, Except.pure]
    · rintro a y rfl rfl
      simp [compareValues, ok, applyFloatComparison_eq, pure, Except.pure]
    · rintro x b rfl rfl
      simp [compareValues, ok, applyFloatComparison_eq, pure, Except.pure]
  · intro reg n ctx
    with_unfolding_all rfl

/-- The node `"ab" < "b"` evaluates to a boolean that is `true` exactly when
`"ab" < "b"` in the lexicographic order. -/
theorem comparison_relations_witness :
    ∃ v, (ASTNode.BinaryOperationNode (ASTNode.StringLiteralNode "ab") TokenType.LESS_THAN
          (ASTNode.StringLiteralNode "b")).Evaluate (fun _ => none) (hostAt (fun _ => none) 0)
          (⟨none⟩ : Context Exact)
        = Except.ok (Value.bool v, none)
      ∧ (v = true ↔ relation TokenType.LESS_THAN "ab" "b") :=
  (comparison_relations.1 Exact (fun _ => none) (hostAt (fun _ => none) 0) ⟨none⟩
    (ASTNode.StringLiteralNode "ab") (ASTNode.StringLiteralNode "b") (Value.str "ab")
    (Value.str "b") TokenType.LESS_THAN (by decide) rfl rfl).2.1 "ab" "b" rfl rfl

/-- C9. For every comparison operator and operand nodes that evaluate without
error to a pair that is not of one supported family (a string with a number, a
number with a boolean, a timestamp with a non-timestamp, a left operand that is
a boolean, a list or nil, ...), evaluation fails with the type-mismatch error,
which records the `%T` type names of both operands and the operator; the source
`true == true` fails in this way. -/
theorem comparison_type_mismatch :
    (∀ (F : Type) [Float64 F] (reg : Bif F) (h : Host F) (ctx : Context F)
      (left right : ASTNode F) (l r : Value F) (op : TokenType),
      op ∈ comparisonOps →
      left.Evaluate reg h ctx = Except.ok (l, none) →
      right.Evaluate reg h ctx = Except.ok (r, none) →
      comparable l r = false →
      (ASTNode.BinaryOperationNode left op right).Evaluate reg h ctx
        = Except.ok (Value.nil,
            some (Error.typeMismatch (goTypeName l) l op (goTypeName r) r)))
    ∧ (∀ (F : Type) [Float64 F] (reg : Bif F) (n : Nat) (ctx : Context F),
      Evaluate reg (n + 1) ctx "true == true"
        = Except.ok (Value.nil, some (Error.typeMismatch "bool" (Value.bool true)
            TokenType.EQUAL "bool" (Value.bool true)))) := by
  refine ⟨?_, ?_⟩
  · intro F _ reg h ctx left right l r op hop hl hr hc
    have hcmp : applyBinary h ctx l op r = compareValues l op r := by
      simp only [comparisonOps, List.mem_cons, List.mem_singleton, List.not_mem_nil,
        or_false] at hop
      rcases hop with rfl | rfl | rfl | rfl | rfl | rfl <;> rfl
    rw [ASTNode.Evaluate_binary hl hr, hcmp]
    cases l <;> cases r <;> simp [comparable] at hc <;> rfl
  · intro F _ reg n ctx
    rfl

/-- The node `"a" < 1` fails with the type mismatch of `string` and `int`. -/
theorem comparison_type_mismatch_witness :
    (ASTNode.BinaryOperationNode (ASTNode.StringLiteralNode "a") TokenType.LESS_THAN
        (ASTNode.IntLiteralNode 1)).Evaluate (fun _ => none) (hostAt (fun _ => none) 0)
        (⟨none⟩ : Context Exact)
      = Except.ok (Value.nil, some (Error.typeMismatch "string" (Value.str "a")
          TokenType.LESS_THAN "int" (Value.int 1))) :=
  comparison_type_mismatch.1 Exact (fun _ => none) (hostAt (fun _ => none) 0) ⟨none⟩
    (ASTNode.StringLiteralNode "a") (ASTNode.IntLiteralNode 1) (Value.str "a") (Value.int 1)
    TokenType.LESS_THAN (by decide) rfl rfl rfl

set_option maxRecDepth 100000 in
/-- C10. A logical node (`&&` or `||`) never short-circuits and requires
booleans.  A panic or an error of the left operand is the outcome; otherwise a
panic or an error of the right operand is the outcome, whatever the left value
is (so `true || e` fails with the error of `e`); otherwise, unless both values
are booleans, the error is `operands for logical operation must be boolean`;
otherwise the result is `l && r` for `&&` and `l || r` for `||`.  The source
`true || nope(1)` fails with `unknown function: nope`. -/
theorem logical_node_evaluates_both :
    (∀ (F : Type) [Float64 F] (reg : Bif F) (h : Host F) (ctx : Context F)
      (left right : ASTNode F) (op : TokenType), op = TokenType.AND ∨ op = TokenType.OR →
      (∀ f, left.Evaluate reg h ctx = Except.error f →
        (ASTNode.LogicalOperationNode left op right).Evaluate reg h ctx = Except.error f)
      ∧ (∀ lv e, left.Evaluate reg h ctx = Except.ok (lv, some e) →
        (ASTNode.LogicalOperationNode left op right).Evaluate reg h ctx
          = Except.ok (Value.nil, some e))
      ∧ (∀ lv f, left.Evaluate reg h ctx = Except.ok (lv, none) →
        right.Evaluate reg h ctx = Except.error f →
        (ASTNode.LogicalOperationNode left op right).Evaluate reg h ctx = Except.error f)
      ∧ (∀ lv rv e, left.Evaluate reg h ctx = Except.ok (lv, none) →
        right.Evaluate reg h ctx = Except.ok (rv, some e) →
        (ASTNode.LogicalOperationNode left op right).Evaluate reg h ctx
          = Except.ok (Value.nil, some e))
      ∧ (∀ lv rv, left.Evaluate reg h ctx = Except.ok (lv, none) →
        right.Evaluate reg h ctx = Except.ok (rv, none) →
        (¬ ∃ x y, lv = Value.bool x ∧ rv = Value.bool y) →
        (ASTNode.LogicalOperationNode left op right).Evaluate reg h ctx
          = Except.ok (Value.nil,
              some (Error.text "operands for logical operation must be boolean")))
      ∧ (∀ x y, left.Evaluate reg h ctx = Except.ok (Value.bool x, none) →
        right.Evaluate reg h ctx = Except.ok (Value.bool y, none) →
        (ASTNode.LogicalOperationNode left op right).Evaluate reg h ctx
          = Except.ok (Value.bool (if op = TokenType.AND then x && y else x || y), none)))
    ∧ (∀ (F : Type) [Float64 F] (reg : Bif F) (h : Host F) (ctx : Context F)
      (right : ASTNode F) (rv : Value F) (e : Error F),
      right.Evaluate reg h ctx = Except.ok (rv, some e) →
      (ASTNode.LogicalOperationNode (ASTNode.BooleanLiteralNode true) TokenType.OR
          right).Evaluate reg h ctx = Except.ok (Value.nil, some e))
    ∧ (∀ (F : Type) [Float64 F] (library : String → bifFunc F) (n : Nat) (ctx : Context F),
      Evaluate (init library) (n + 1) ctx "true || nope(1)"
        = Except.ok (Value.nil, some (Error.text "unknown function: nope"))) := by
  refine ⟨?_, ?_, ?_⟩
  · intro F _ reg h ctx left right op hop
    refine ⟨?_, ?_, ?_, ?_, ?_, ?_⟩
    · intro f hl
      simp [ASTNode.Evaluate, hl, bind, Except.bind]
    · intro lv e hl
      simp [ASTNode.Evaluate, hl, bind, Except.bind, pure, Except.pure]
    · intro lv f hl hr
      simp [ASTNode.Evaluate, hl, hr, bind, Except.bind]
    · intro lv rv e hl hr
      simp [ASTNode.Evaluate, hl, hr, bind, Except.bind, pure, Except.pure]
    · intro lv rv hl hr hnb
      rw [ASTNode.Evaluate_logical hl hr]
      cases lv <;> cases rv <;> first | rfl | exact absurd ⟨_, _, rfl, rfl⟩ hnb
    · intro x y hl hr
      rw [ASTNode.Evaluate_logical hl hr]
      rcases hop with rfl | rfl <;> rfl
  · intro F _ reg h ctx right rv e hr
    simp [ASTNode.Evaluate, ok, hr, bind, Except.bind, pure, Except.pure]
  · intro F _ library n ctx
    rfl

/-- The node `true && 1` fails: its right operand is no boolean. -/
theorem logical_node_evaluates_both_witness :
    (ASTNode.LogicalOperationNode (ASTNode.BooleanLiteralNode true) TokenType.AND
        (ASTNode.IntLiteralNode 1)).Evaluate (fun _ => none) (hostAt (fun _ => none) 0)
        (⟨none⟩ : Context Exact)
      = Except.ok (Value.nil,
          some (Error.text "operands for logical operation must be boolean")) :=
  (logical_node_evaluates_both.1 Exact (fun _ => none) (hostAt (fun _ => none) 0) ⟨none⟩
    (ASTNode.BooleanLiteralNode true) (ASTNode.IntLiteralNode 1) TokenType.AND
    (Or.inl rfl)).2.2.2.2.1 (Value.bool true) (Value.int 1) rfl rfl
    (by rintro ⟨x, y, _, h⟩; cases h)

section LexerLemmas

theorem getD_append_length (pre suf : List Char) :
    (pre ++ suf).getD pre.length NUL = suf.headD NUL := by
  rw [List.getD_eq_getElem?_getD, List.getElem?_append_right (le_refl _), Nat.sub_self]
  cases suf <;> simp

theorem Lexer.view_ch (pre suf : List Char) : (Lexer.view pre suf).ch = suf.headD NUL := by
  exact getD_append_length pre suf

theorem Lexer.view_readChar (pre : List Char) (c : Char) (suf : List Char) :
    (Lexer.view pre (c :: suf)).readChar = Lexer.view (pre ++ [c]) suf := by
  have h := getD_append_length (pre ++ [c]) suf
  simp only [List.append_assoc, List.singleton_append, List.length_append,
    List.length_singleton] at h
  simp only [Lexer.readChar, Lexer.view, List.append_assoc, List.singleton_append,
    List.length_append, List.length_singleton, h]
  congr 1
  cases suf with
  | nil => simp
  | cons d ds => simp

theorem Lexer.view_readChar_nil (pre : List Char) :
    (Lexer.view pre []).readChar
      = { input := pre, position := pre.length + 1, readPosition := pre.length + 2,
          ch := NUL } := by
  simp [Lexer.readChar, Lexer.view]

theorem Lexer.view_peekChar (pre : List Char) (c : Char) (suf : List Char) :
    (Lexer.view pre (c :: suf)).peekChar = suf.headD NUL := by
  have h := getD_append_length (pre ++ [c]) suf
  simp only [List.append_assoc, List.singleton_append, List.length_append,
    List.length_singleton] at h
  simp only [Lexer.peekChar, Lexer.view, h]
  cases suf with
  | nil => simp
  | cons d ds => simp

theorem NewLexer_eq_view (s : String) : NewLexer s = Lexer.view [] s.data := by
  simp only [NewLexer, Lexer.readChar, Lexer.view, List.nil_append, List.length_nil]
  congr 1
  cases s.data with
  | nil => simp [List.getD]
  | cons d ds => simp [List.getD]

end LexerLemmas

section LexerSteps

theorem Lexer.skipWhitespace_id (l : Lexer)
    (h : (l.ch.toNat == 32 || l.ch.toNat == 9 || l.ch.toNat == 10 || l.ch.toNat == 13) = false) :
    l.skipWhitespace = Except.ok l := by
  simp only [Lexer.skipWhitespace, Lexer.budget, Lexer.skipWhitespaceLoop, h]
  rfl

theorem Lexer.skipWhitespace_space (pre : List Char) (c : Char) (suf : List Char)
    (h : (c.toNat == 32 || c.toNat == 9 || c.toNat == 10 || c.toNat == 13) = false) :
    (Lexer.view pre (' ' :: c :: suf)).skipWhitespace
      = Except.ok (Lexer.view (pre ++ [' ']) (c :: suf)) := by
  have hb : (Lexer.view pre (' ' :: c :: suf)).budget
      = (pre ++ ' ' :: c :: suf).length + 1 + 1 := rfl
  simp only [Lexer.skipWhitespace, hb, Lexer.skipWhitespaceLoop, Lexer.view_ch,
    Lexer.view_readChar, List.headD_cons, h]
  rfl

theorem Lexer.NextToken_of_skip {l0 l : Lexer} (h0 : l0.skipWhitespace = Except.ok l)
    (h : l.skipWhitespace = Except.ok l) : l0.NextToken = l.NextToken := by
  unfold Lexer.NextToken
  rw [h0, h]

theorem beq_false_of_digit {c d : Char} (hc : isDigit c = true) (hd : isDigit d = false) :
    (c == d) = false := by
  rw [beq_eq_false_iff_ne]
  rintro rfl
  rw [hc] at hd
  cases hd

theorem toNat_beq_false_of_digit {c : Char} (hc : isDigit c = true) (n : Nat)
    (hn : n < 48 ∨ 57 < n) : (c.toNat == n) = false := by
  simp only [isDigit, Bool.and_eq_true, decide_eq_true_eq] at hc
  rw [beq_eq_false_iff_ne]
  omega

theorem isLetter_false_of_digit {c : Char} (hc : isDigit c = true) : isLetter c = false := by
  simp only [isDigit, Bool.and_eq_true, decide_eq_true_eq] at hc
  simp only [isLetter, Bool.or_eq_false_iff, Bool.and_eq_false_iff, decide_eq_false_iff_not,
    beq_eq_false_iff_ne]
  omega

theorem digit_not_space {c : Char} (hc : isDigit c = true) :
    (c.toNat == 32 || c.toNat == 9 || c.toNat == 10 || c.toNat == 13) = false := by
  simp [toNat_beq_false_of_digit hc]

/-- A digit under the cursor starts a number. -/
theorem Lexer.NextToken_digit (l : Lexer) (hd : isDigit l.ch = true) :
    l.NextToken = l.readNumber false := by
  unfold Lexer.NextToken
  rw [Lexer.skipWhitespace_id l (digit_not_space hd)]
  simp only [bind, Except.bind,
    beq_false_of_digit hd (show isDigit '(' = false by decide),
    beq_false_of_digit hd (show isDigit ')' = false by decide),
    beq_false_of_digit hd (show isDigit '+' = false by decide),
    beq_false_of_digit hd (show isDigit '-' = false by decide),
    beq_false_of_digit hd (show isDigit '*' = false by decide),
    beq_false_of_digit hd (show isDigit '^' = false by decide),
    beq_false_of_digit hd (show isDigit '/' = false by decide),
    beq_false_of_digit hd (show isDigit '%' = false by decide),
    beq_false_of_digit hd (show isDigit ',' = false by decide),
    beq_false_of_digit hd (show isDigit '[' = false by decide),
    beq_false_of_digit hd (show isDigit ']' = false by decide),
    beq_false_of_digit hd (show isDigit '<' = false by decide),
    beq_false_of_digit hd (show isDigit '>' = false by decide),
    beq_false_of_digit hd (show isDigit '=' = false by decide),
    beq_false_of_digit hd (show isDigit '!' = false by decide),
    beq_false_of_digit hd (show isDigit '&' = false by decide),
    beq_false_of_digit hd (show isDigit '|' = false by decide),
    beq_false_of_digit hd (show isDigit NUL = false by decide),
    toNat_beq_false_of_digit hd 34 (by omega), toNat_beq_false_of_digit hd 39 (by omega),
    toNat_beq_false_of_digit hd 96 (by omega), isLetter_false_of_digit hd, hd,
    Bool.false_eq_true, if_false, if_true, Bool.or_false]

end LexerSteps

section LexerNumbers

theorem Lexer.readNumberLoop_digits (ds : List Char) :
    ∀ (pre rest : List Char) (fuel : Nat), (∀ c ∈ ds, isDigit c = true) → endsNumber rest →
      ds.length < fuel →
      Lexer.readNumberLoop false fuel false (Lexer.view pre (ds ++ rest))
        = Except.ok (false, Lexer.view (pre ++ ds) rest) := by
  induction ds with
  | nil =>
    intro pre rest fuel _ hend hf
    obtain ⟨n, rfl⟩ : ∃ n, fuel = n + 1 := ⟨fuel - 1, by simp at hf; omega⟩
    obtain ⟨h1, h2⟩ := hend
    have h2' : (rest.headD NUL == '.') = false := beq_eq_false_iff_ne.2 h2
    simp only [List.nil_append, Lexer.readNumberLoop, Lexer.view_ch, h1, h2', Bool.false_or,
      Bool.not_false, Bool.true_and, Bool.false_and, Bool.or_false, Bool.false_eq_true,
      if_false, List.append_nil]
    rfl
  | cons d ds ih =>
    intro pre rest fuel hds hend hf
    obtain ⟨n, rfl⟩ : ∃ n, fuel = n + 1 := ⟨fuel - 1, by simp at hf; omega⟩
    have hd : isDigit d = true := hds d (by simp)
    have hdot : (d == '.') = false := beq_false_of_digit hd (by decide)
    have := ih (pre ++ [d]) rest n (fun c hc => hds c (by simp [hc])) hend
      (by simp at hf; omega)
    simp only [List.cons_append, Lexer.readNumberLoop, Lexer.view_ch, List.headD_cons, hd,
      Bool.true_or, if_true, hdot, Bool.false_eq_true, if_false, Lexer.view_readChar, this,
      List.append_assoc, List.singleton_append, List.nil_append]

theorem sliceStr_middle (pre ds rest : List Char) :
    sliceStr (pre ++ (ds ++ rest)) pre.length (pre ++ ds).length = Except.ok (String.mk ds) := by
  simp [sliceStr, pure, Except.pure]

theorem Lexer.readNumber_digits (pre ds rest : List Char) (hds : ∀ c ∈ ds, isDigit c = true)
    (hend : endsNumber rest) :
    (Lexer.view pre (ds ++ rest)).readNumber false
      = Except.ok ({ Typ := TokenType.INT, Literal := String.mk ds },
          Lexer.view (pre ++ ds) rest) := by
  have hloop := Lexer.readNumberLoop_digits ds pre rest (Lexer.view pre (ds ++ rest)).budget
    hds hend (by simp [Lexer.budget, Lexer.view]; omega)
  have hs := sliceStr_middle pre ds rest
  simp only [Lexer.readNumber, hloop, bind, Except.bind]
  have hin : (Lexer.view (pre ++ ds) rest).input = pre ++ (ds ++ rest) := by
    simp [Lexer.view]
  have hp : (Lexer.view pre (ds ++ rest)).position = pre.length := rfl
  have hq : (Lexer.view (pre ++ ds) rest).position = (pre ++ ds).length := rfl
  rw [hin, hp, hq, hs]
  rfl

/-- A run of digits lexes to one INT token whose literal is the run. -/
theorem Lexer.NextToken_int (pre : List Char) (d : Char) (ds rest : List Char)
    (hds : ∀ c ∈ d :: ds, isDigit c = true) (hend : endsNumber rest) :
    (Lexer.view pre (d :: (ds ++ rest))).NextToken
      = Except.ok ({ Typ := TokenType.INT, Literal := String.mk (d :: ds) },
          Lexer.view (pre ++ d :: ds) rest) := by
  rw [Lexer.NextToken_digit _ (by rw [Lexer.view_ch]; exact hds d (by simp))]
  exact Lexer.readNumber_digits pre (d :: ds) rest hds hend

/-- The same after one space. -/
theorem Lexer.NextToken_space_int (pre : List Char) (d : Char) (ds rest : List Char)
    (hds : ∀ c ∈ d :: ds, isDigit c = true) (hend : endsNumber rest) :
    (Lexer.view pre (' ' :: d :: (ds ++ rest))).NextToken
      = Except.ok ({ Typ := TokenType.INT, Literal := String.mk (d :: ds) },
          Lexer.view (pre ++ ' ' :: d :: ds) rest) := by
  have hd : isDigit d = true := hds d (by simp)
  rw [Lexer.NextToken_of_skip (Lexer.skipWhitespace_space pre d (ds ++ rest)
      (digit_not_space hd))
    (Lexer.skipWhitespace_id _ (by rw [Lexer.view_ch]; exact digit_not_space hd))]
  have := Lexer.NextToken_int (pre ++ [' ']) d ds rest hds hend
  simpa using this

end LexerNumbers

section LexerOperators

theorem Lexer.NextToken_plus (pre suf : List Char) :
    (Lexer.view pre ('+' :: suf)).NextToken
      = Except.ok ({ Typ := TokenType.PLUS, Literal := "+" }, Lexer.view (pre ++ ['+']) suf) := by
  unfold Lexer.NextToken
  rw [Lexer.skipWhitespace_id _ (by rw [Lexer.view_ch, List.headD_cons]; decide)]
  simp [bind, Except.bind, Lexer.view_ch, Lexer.view_readChar, newToken, pure, Except.pure]

theorem Lexer.NextToken_lparen (pre suf : List Char) :
    (Lexer.view pre ('(' :: suf)).NextToken
      = Except.ok ({ Typ := TokenType.PAREN_LEFT, Literal := "(" },
          Lexer.view (pre ++ ['(']) suf) := by
  unfold Lexer.NextToken
  rw [Lexer.skipWhitespace_id _ (by rw [Lexer.view_ch, List.headD_cons]; decide)]
  simp [bind, Except.bind, Lexer.view_ch, Lexer.view_readChar, newToken, pure, Except.pure]

theorem Lexer.NextToken_rparen (pre suf : List Char) :
    (Lexer.view pre (')' :: suf)).NextToken
      = Except.ok ({ Typ := TokenType.PAREN_RIGHT, Literal := ")" },
          Lexer.view (pre ++ [')']) suf) := by
  unfold Lexer.NextToken
  rw [Lexer.skipWhitespace_id _ (by rw [Lexer.view_ch, List.headD_cons]; decide)]
  simp [bind, Except.bind, Lexer.view_ch, Lexer.view_readChar, newToken, pure, Except.pure]

theorem Lexer.NextToken_star_space (pre suf : List Char) :
    (Lexer.view pre ('*' :: ' ' :: suf)).NextToken
      = Except.ok ({ Typ := TokenType.MULTIPLY, Literal := "*" },
          Lexer.view (pre ++ ['*']) (' ' :: suf)) := by
  unfold Lexer.NextToken
  rw [Lexer.skipWhitespace_id _ (by rw [Lexer.view_ch, List.headD_cons]; decide)]
  simp [bind, Except.bind, Lexer.view_ch, Lexer.view_readChar, Lexer.view_peekChar, newToken,
    pure, Except.pure]

theorem Lexer.NextToken_eof (pre : List Char) :
    ∃ l, (Lexer.view pre []).NextToken
      = Except.ok ({ Typ := TokenType.EOF, Literal := "" }, l) := by
  unfold Lexer.NextToken
  rw [Lexer.skipWhitespace_id _ (by rw [Lexer.view_ch]; decide)]
  simp [bind, Except.bind, Lexer.view_ch, NUL, pure, Except.pure]

theorem Lexer.NextToken_space (pre : List Char) (c : Char) (suf : List Char)
    (h : (c.toNat == 32 || c.toNat == 9 || c.toNat == 10 || c.toNat == 13) = false) :
    (Lexer.view pre (' ' :: c :: suf)).NextToken
      = (Lexer.view (pre ++ [' ']) (c :: suf)).NextToken :=
  Lexer.NextToken_of_skip (Lexer.skipWhitespace_space pre c suf h)
    (Lexer.skipWhitespace_id _ (by rw [Lexer.view_ch]; exact h))

theorem drainLoop_step {l l1 : Lexer} {tok : Token} (h : l.NextToken = Except.ok (tok, l1))
    (hne : tok.Typ ≠ TokenType.EOF) (n : Nat) (acc : List Token) :
    drainLoop (n + 1) l acc = drainLoop n l1 (acc ++ [tok]) := by
  simp [drainLoop, h, hne, bind, Except.bind]

theorem drainLoop_eof {l l1 : Lexer} {tok : Token} (h : l.NextToken = Except.ok (tok, l1))
    (he : tok.Typ = TokenType.EOF) (n : Nat) (acc : List Token) :
    drainLoop (n + 1) l acc = Except.ok (acc ++ [tok]) := by
  simp [drainLoop, h, he, bind, Except.bind, pure, Except.pure]

end LexerOperators

section LexerSources

theorem Lexer.NextToken_space_plus (pre suf : List Char) :
    (Lexer.view pre (' ' :: '+' :: suf)).NextToken
      = Except.ok ({ Typ := TokenType.PLUS, Literal := "+" },
          Lexer.view (pre ++ [' '] ++ ['+']) suf) := by
  rw [Lexer.NextToken_space pre '+' suf (by decide)]
  exact Lexer.NextToken_plus _ _

theorem Lexer.NextToken_space_star_space (pre suf : List Char) :
    (Lexer.view pre (' ' :: '*' :: ' ' :: suf)).NextToken
      = Except.ok ({ Typ := TokenType.MULTIPLY, Literal := "*" },
          Lexer.view (pre ++ [' '] ++ ['*']) (' ' :: suf)) := by
  rw [Lexer.NextToken_space pre '*' (' ' :: suf) (by decide)]
  exact Lexer.NextToken_star_space _ _

theorem endsNumber_nil : endsNumber [] := by
  constructor <;> decide

theorem endsNumber_space (suf : List Char) : endsNumber (' ' :: suf) := by
  show isDigit ' ' = false ∧ ' ' ≠ '.'
  constructor <;> decide

theorem endsNumber_rparen (suf : List Char) : endsNumber (')' :: suf) := by
  show isDigit ')' = false ∧ ')' ≠ '.'
  constructor <;> decide

/-- The tokens of `a + b * c` for digit strings `a`, `b`, `c`. -/
theorem lexAll_sum_product (a0 : Char) (as : List Char) (b0 : Char) (bs : List Char)
    (c0 : Char) (cs : List Char) (ha : ∀ c ∈ a0 :: as, isDigit c = true)
    (hb : ∀ c ∈ b0 :: bs, isDigit c = true) (hc : ∀ c ∈ c0 :: cs, isDigit c = true) :
    lexAll (Lexer.view []
        (a0 :: (as ++ ' ' :: '+' :: ' ' :: b0 :: (bs ++ ' ' :: '*' :: ' ' :: c0 :: (cs ++ [])))))
      = Except.ok [⟨TokenType.INT, String.mk (a0 :: as)⟩, ⟨TokenType.PLUS, "+"⟩,
          ⟨TokenType.INT, String.mk (b0 :: bs)⟩, ⟨TokenType.MULTIPLY, "*"⟩,
          ⟨TokenType.INT, String.mk (c0 :: cs)⟩, ⟨TokenType.EOF, ""⟩] := by
  obtain ⟨k, hk⟩ : ∃ k, (Lexer.view []
      (a0 :: (as ++ ' ' :: '+' :: ' ' :: b0 :: (bs ++ ' ' :: '*' :: ' ' :: c0 ::
        (cs ++ []))))).budget = k + 6 := by
    refine ⟨as.length + bs.length + cs.length + 5, ?_⟩
    simp [Lexer.budget, Lexer.view]
    omega
  unfold lexAll
  rw [hk]
  have h1 := Lexer.NextToken_int [] a0 as
    (' ' :: '+' :: ' ' :: b0 :: (bs ++ ' ' :: '*' :: ' ' :: c0 :: (cs ++ []))) ha
    (endsNumber_space _)
  rw [drainLoop_step h1 (by simp)]
  have h2 := Lexer.NextToken_space_plus ([] ++ a0 :: as)
    (' ' :: b0 :: (bs ++ ' ' :: '*' :: ' ' :: c0 :: (cs ++ [])))
  rw [drainLoop_step h2 (by simp)]
  have h3 := Lexer.NextToken_space_int ([] ++ a0 :: as ++ [' '] ++ ['+']) b0 bs
    (' ' :: '*' :: ' ' :: c0 :: (cs ++ [])) hb (endsNumber_space _)
  rw [drainLoop_step h3 (by simp)]
  have h4 := Lexer.NextToken_space_star_space
    ([] ++ a0 :: as ++ [' '] ++ ['+'] ++ ' ' :: b0 :: bs) (c0 :: (cs ++ []))
  rw [drainLoop_step h4 (by simp)]
  have h5 := Lexer.NextToken_space_int
    ([] ++ a0 :: as ++ [' '] ++ ['+'] ++ ' ' :: b0 :: bs ++ [' '] ++ ['*']) c0 cs [] hc
    endsNumber_nil
  rw [drainLoop_step h5 (by simp)]
  obtain ⟨l, h6⟩ := Lexer.NextToken_eof
    ([] ++ a0 :: as ++ [' '] ++ ['+'] ++ ' ' :: b0 :: bs ++ [' '] ++ ['*'] ++ ' ' :: c0 :: cs)
  rw [drainLoop_eof h6 rfl]
  rfl

end LexerSources

section SumProduct

variable {F : Type} [Float64 F]

/-- The tokens of `(a + b) * c` for digit strings `a`, `b`, `c`. -/
theorem lexAll_paren_sum_product (a0 : Char) (as : List Char) (b0 : Char) (bs : List Char)
    (c0 : Char) (cs : List Char) (ha : ∀ c ∈ a0 :: as, isDigit c = true)
    (hb : ∀ c ∈ b0 :: bs, isDigit c = true) (hc : ∀ c ∈ c0 :: cs, isDigit c = true) :
    lexAll (Lexer.view []
        ('(' :: a0 :: (as ++ ' ' :: '+' :: ' ' :: b0 ::
          (bs ++ ')' :: ' ' :: '*' :: ' ' :: c0 :: (cs ++ [])))))
      = Except.ok [⟨TokenType.PAREN_LEFT, "("⟩, ⟨TokenType.INT, String.mk (a0 :: as)⟩,
          ⟨TokenType.PLUS, "+"⟩, ⟨TokenType.INT, String.mk (b0 :: bs)⟩,
          ⟨TokenType.PAREN_RIGHT, ")"⟩, ⟨TokenType.MULTIPLY, "*"⟩,
          ⟨TokenType.INT, String.mk (c0 :: cs)⟩, ⟨TokenType.EOF, ""⟩] := by
  obtain ⟨k, hk⟩ : ∃ k, (Lexer.view []
      ('(' :: a0 :: (as ++ ' ' :: '+' :: ' ' :: b0 ::
        (bs ++ ')' :: ' ' :: '*' :: ' ' :: c0 :: (cs ++ []))))).budget = k + 8 := by
    refine ⟨as.length + bs.length + cs.length + 5, ?_⟩
    simp [Lexer.budget, Lexer.view]
    omega
  unfold lexAll
  rw [hk]
  have h0 := Lexer.NextToken_lparen []
    (a0 :: (as ++ ' ' :: '+' :: ' ' :: b0 :: (bs ++ ')' :: ' ' :: '*' :: ' ' :: c0 ::
      (cs ++ []))))
  rw [drainLoop_step h0 (by simp)]
  have h1 := Lexer.NextToken_int ([] ++ ['(']) a0 as
    (' ' :: '+' :: ' ' :: b0 :: (bs ++ ')' :: ' ' :: '*' :: ' ' :: c0 :: (cs ++ []))) ha
    (endsNumber_space _)
  rw [drainLoop_step h1 (by simp)]
  have h2 := Lexer.NextToken_space_plus ([] ++ ['('] ++ a0 :: as)
    (' ' :: b0 :: (bs ++ ')' :: ' ' :: '*' :: ' ' :: c0 :: (cs ++ [])))
  rw [drainLoop_step h2 (by simp)]
  have h3 := Lexer.NextToken_space_int ([] ++ ['('] ++ a0 :: as ++ [' '] ++ ['+']) b0 bs
    (')' :: ' ' :: '*' :: ' ' :: c0 :: (cs ++ [])) hb (endsNumber_rparen _)
  rw [drainLoop_step h3 (by simp)]
  have h4 := Lexer.NextToken_rparen
    ([] ++ ['('] ++ a0 :: as ++ [' '] ++ ['+'] ++ ' ' :: b0 :: bs)
    (' ' :: '*' :: ' ' :: c0 :: (cs ++ []))
  rw [drainLoop_step h4 (by simp)]
  have h5 := Lexer.NextToken_space_star_space
    ([] ++ ['('] ++ a0 :: as ++ [' '] ++ ['+'] ++ ' ' :: b0 :: bs ++ [')'])
    (c0 :: (cs ++ []))
  rw [drainLoop_step h5 (by simp)]
  have h6 := Lexer.NextToken_space_int
    ([] ++ ['('] ++ a0 :: as ++ [' '] ++ ['+'] ++ ' ' :: b0 :: bs ++ [')'] ++ [' '] ++ ['*'])
    c0 cs [] hc endsNumber_nil
  rw [drainLoop_step h6 (by simp)]
  obtain ⟨l, h7⟩ := Lexer.NextToken_eof
    ([] ++ ['('] ++ a0 :: as ++ [' '] ++ ['+'] ++ ' ' :: b0 :: bs ++ [')'] ++ [' '] ++ ['*']
      ++ ' ' :: c0 :: cs)
  rw [drainLoop_eof h7 rfl]
  rfl

theorem digitsValue_digits (ds : List Char) :
    ∀ acc : Nat, (∀ c ∈ ds, isDigit c = true) →
      digitsValue ds acc = some (ds.foldl (fun acc c => acc * 10 + (c.toNat - 48)) acc) := by
  induction ds with
  | nil => intro acc _; rfl
  | cons d ds ih =>
    intro acc h
    have hd : isDigit d = true := h d (by simp)
    simp only [digitsValue, hd, if_true, List.foldl_cons]
    exact ih _ (fun c hc => h c (by simp [hc]))

/-- `strconv.Atoi` on a string of digits whose value is an `int`. -/
theorem Atoi_digits (d : Char) (ds : List Char) (h : ∀ c ∈ d :: ds, isDigit c = true)
    (hv : (decimalValue (d :: ds) : Int) ≤ maxInt) :
    Atoi (String.mk (d :: ds)) = some (decimalValue (d :: ds) : Int) := by
  have hd : isDigit d = true := h d (by simp)
  have h1 : (d == '-') = false := beq_false_of_digit hd (by decide)
  have h2 : (d == '+') = false := beq_false_of_digit hd (by decide)
  have h3 : digitsValue (d :: ds) 0 = some (decimalValue (d :: ds)) :=
    digitsValue_digits (d :: ds) 0 h
  have hmin : minInt ≤ (decimalValue (d :: ds) : Int) := by
    unfold minInt
    have : (0 : Int) ≤ (decimalValue (d :: ds) : Int) := Int.ofNat_zero_le _
    omega
  simp only [Atoi, h1, h2, Bool.false_eq_true, if_false, h3, Option.map_some']
  exact if_pos ⟨hmin, hv⟩

end SumProduct

section SumProductEval

variable {F : Type} [Float64 F]

theorem wrap64_nat_sum_product (a b c : Nat) (h : (a : Int) + b * c ≤ maxInt) :
    wrap64 (a + wrap64 (b * c)) = a + b * c := by
  have h1 : wrap64 ((a : Int) + wrap64 (b * c)) = wrap64 (a + b * c) := by
    unfold wrap64
    exact Int.add_bmod_bmod
  rw [h1]
  apply wrap64_of_inRange
  have h0 : (0 : Int) ≤ (a : Int) + b * c :=
    Int.add_nonneg (Int.ofNat_zero_le a) (Int.mul_nonneg (Int.ofNat_zero_le b)
      (Int.ofNat_zero_le c))
  exact ⟨le_trans (by decide) h0, h⟩

theorem wrap64_nat_product_sum (a b c : Nat) (h : ((a : Int) + b) * c ≤ maxInt) :
    wrap64 (wrap64 (a + b) * c) = (a + b) * c := by
  have h1 : wrap64 (wrap64 ((a : Int) + b) * c) = wrap64 ((a + b) * c) := by
    unfold wrap64
    exact Int.bmod_mul_bmod
  rw [h1]
  apply wrap64_of_inRange
  have h0 : (0 : Int) ≤ ((a : Int) + b) * c :=
    Int.mul_nonneg (Int.add_nonneg (Int.ofNat_zero_le a) (Int.ofNat_zero_le b))
      (Int.ofNat_zero_le c)
  exact ⟨le_trans (by decide) h0, h⟩

theorem Parser.expression_succ (n : Nat) (p : Parser) :
    Parser.expression (F := F) (n + 1) p = Parser.atLevel (Parser.expression n) 0 p := rfl

/-- The tree of the tokens of `a + b * c`. -/
theorem Parse_sum_product (la lb lc : String) (a b c : Int) (ha : Atoi la = some a)
    (hb : Atoi lb = some b) (hc : Atoi lc = some c) :
    Parser.Parse (F := F)
        { tokens := [⟨TokenType.INT, la⟩, ⟨TokenType.PLUS, "+"⟩, ⟨TokenType.INT, lb⟩,
            ⟨TokenType.MULTIPLY, "*"⟩, ⟨TokenType.INT, lc⟩, ⟨TokenType.EOF, ""⟩],
          current := 0 }
      = Except.ok (ASTNode.BinaryOperationNode (ASTNode.IntLiteralNode a) TokenType.PLUS
          (ASTNode.BinaryOperationNode (ASTNode.IntLiteralNode b) TokenType.MULTIPLY
            (ASTNode.IntLiteralNode c))) := by
  have T : Triple (F := F) (Parser.expression 6)
      [⟨TokenType.INT, la⟩, ⟨TokenType.PLUS, "+"⟩, ⟨TokenType.INT, lb⟩,
        ⟨TokenType.MULTIPLY, "*"⟩, ⟨TokenType.INT, lc⟩, ⟨TokenType.EOF, ""⟩] 0 1 3 5
      (ASTNode.IntLiteralNode a) (ASTNode.IntLiteralNode b) (ASTNode.IntLiteralNode c)
      ⟨TokenType.PLUS, "+"⟩ ⟨TokenType.MULTIPLY, "*"⟩ ⟨TokenType.EOF, ""⟩ :=
    ⟨Parser.primary_int _ (t := ⟨TokenType.INT, la⟩) rfl rfl ha, rfl,
      Parser.primary_int _ (t := ⟨TokenType.INT, lb⟩) rfl rfl hb, rfl,
      Parser.primary_int _ (t := ⟨TokenType.INT, lc⟩) rfl rfl hc, rfl, rfl⟩
  exact Parser.Parse_of_atLevel (climb_right T (i := 5) (j := 6) rfl rfl (by decide))

/-- The tree of the tokens of `(a + b) * c`. -/
theorem Parse_paren_sum_product (la lb lc : String) (a b c : Int) (ha : Atoi la = some a)
    (hb : Atoi lb = some b) (hc : Atoi lc = some c) :
    Parser.Parse (F := F)
        { tokens := [⟨TokenType.PAREN_LEFT, "("⟩, ⟨TokenType.INT, la⟩, ⟨TokenType.PLUS, "+"⟩,
            ⟨TokenType.INT, lb⟩, ⟨TokenType.PAREN_RIGHT, ")"⟩, ⟨TokenType.MULTIPLY, "*"⟩,
            ⟨TokenType.INT, lc⟩, ⟨TokenType.EOF, ""⟩],
          current := 0 }
      = Except.ok (ASTNode.BinaryOperationNode
          (ASTNode.BinaryOperationNode (ASTNode.IntLiteralNode a) TokenType.PLUS
            (ASTNode.IntLiteralNode b))
          TokenType.MULTIPLY (ASTNode.IntLiteralNode c)) := by
  have hinner : Parser.atLevel (F := F) (Parser.expression 7) 0
      { tokens := [⟨TokenType.PAREN_LEFT, "("⟩, ⟨TokenType.INT, la⟩, ⟨TokenType.PLUS, "+"⟩,
          ⟨TokenType.INT, lb⟩, ⟨TokenType.PAREN_RIGHT, ")"⟩, ⟨TokenType.MULTIPLY, "*"⟩,
          ⟨TokenType.INT, lc⟩, ⟨TokenType.EOF, ""⟩], current := 1 }
      = Except.ok (mkNode (ASTNode.IntLiteralNode a) TokenType.PLUS (ASTNode.IntLiteralNode b),
          { tokens := [⟨TokenType.PAREN_LEFT, "("⟩, ⟨TokenType.INT, la⟩,
            ⟨TokenType.PLUS, "+"⟩, ⟨TokenType.INT, lb⟩, ⟨TokenType.PAREN_RIGHT, ")"⟩,
            ⟨TokenType.MULTIPLY, "*"⟩, ⟨TokenType.INT, lc⟩, ⟨TokenType.EOF, ""⟩],
            current := 4 }) :=
    climb_one 2 4 ⟨TokenType.PLUS, "+"⟩ ⟨TokenType.PAREN_RIGHT, ")"⟩ 5
      (Parser.primary_int _ (t := ⟨TokenType.INT, la⟩) rfl rfl ha) rfl
      (Parser.primary_int _ (t := ⟨TokenType.INT, lb⟩) rfl rfl hb) rfl rfl rfl
  have hparen : Parser.primary (F := F) (Parser.expression 8)
      { tokens := [⟨TokenType.PAREN_LEFT, "("⟩, ⟨TokenType.INT, la⟩, ⟨TokenType.PLUS, "+"⟩,
          ⟨TokenType.INT, lb⟩, ⟨TokenType.PAREN_RIGHT, ")"⟩, ⟨TokenType.MULTIPLY, "*"⟩,
          ⟨TokenType.INT, lc⟩, ⟨TokenType.EOF, ""⟩], current := 0 }
      = Except.ok (mkNode (ASTNode.IntLiteralNode a) TokenType.PLUS (ASTNode.IntLiteralNode b),
          { tokens := [⟨TokenType.PAREN_LEFT, "("⟩, ⟨TokenType.INT, la⟩,
            ⟨TokenType.PLUS, "+"⟩, ⟨TokenType.INT, lb⟩, ⟨TokenType.PAREN_RIGHT, ")"⟩,
            ⟨TokenType.MULTIPLY, "*"⟩, ⟨TokenType.INT, lc⟩, ⟨TokenType.EOF, ""⟩],
            current := 5 }) :=
    Parser.primary_paren _
      { tokens := [⟨TokenType.PAREN_LEFT, "("⟩, ⟨TokenType.INT, la⟩, ⟨TokenType.PLUS, "+"⟩,
          ⟨TokenType.INT, lb⟩, ⟨TokenType.PAREN_RIGHT, ")"⟩, ⟨TokenType.MULTIPLY, "*"⟩,
          ⟨TokenType.INT, lc⟩, ⟨TokenType.EOF, ""⟩], current := 0 }
      { tokens := [⟨TokenType.PAREN_LEFT, "("⟩, ⟨TokenType.INT, la⟩, ⟨TokenType.PLUS, "+"⟩,
          ⟨TokenType.INT, lb⟩, ⟨TokenType.PAREN_RIGHT, ")"⟩, ⟨TokenType.MULTIPLY, "*"⟩,
          ⟨TokenType.INT, lc⟩, ⟨TokenType.EOF, ""⟩], current := 4 }
      (t := ⟨TokenType.PAREN_LEFT, "("⟩) rfl rfl
      (by rw [Parser.expression_succ]; exact hinner) rfl rfl
  have houter : Parser.atLevel (F := F) (Parser.expression 8) 0
      { tokens := [⟨TokenType.PAREN_LEFT, "("⟩, ⟨TokenType.INT, la⟩, ⟨TokenType.PLUS, "+"⟩,
          ⟨TokenType.INT, lb⟩, ⟨TokenType.PAREN_RIGHT, ")"⟩, ⟨TokenType.MULTIPLY, "*"⟩,
          ⟨TokenType.INT, lc⟩, ⟨TokenType.EOF, ""⟩], current := 0 }
      = Except.ok (mkNode (mkNode (ASTNode.IntLiteralNode a) TokenType.PLUS
            (ASTNode.IntLiteralNode b)) TokenType.MULTIPLY (ASTNode.IntLiteralNode c),
          { tokens := [⟨TokenType.PAREN_LEFT, "("⟩, ⟨TokenType.INT, la⟩,
            ⟨TokenType.PLUS, "+"⟩, ⟨TokenType.INT, lb⟩, ⟨TokenType.PAREN_RIGHT, ")"⟩,
            ⟨TokenType.MULTIPLY, "*"⟩, ⟨TokenType.INT, lc⟩, ⟨TokenType.EOF, ""⟩],
            current := 7 }) :=
    climb_one 5 7 ⟨TokenType.MULTIPLY, "*"⟩ ⟨TokenType.EOF, ""⟩ 6 hparen rfl
      (Parser.primary_int _ (t := ⟨TokenType.INT, lc⟩) rfl rfl hc) rfl rfl rfl
  exact Parser.Parse_of_atLevel houter

theorem Evaluate_sum_product (reg : Bif F) (n : Nat) (ctx : Context F) (src : String)
    (a0 : Char) (as : List Char) (b0 : Char) (bs : List Char) (c0 : Char) (cs : List Char)
    (hsrc : src.data
      = a0 :: (as ++ ' ' :: '+' :: ' ' :: b0 :: (bs ++ ' ' :: '*' :: ' ' :: c0 :: (cs ++ []))))
    (ha : ∀ c ∈ a0 :: as, isDigit c = true) (hb : ∀ c ∈ b0 :: bs, isDigit c = true)
    (hc : ∀ c ∈ c0 :: cs, isDigit c = true)
    (va : (decimalValue (a0 :: as) : Int) ≤ maxInt)
    (vb : (decimalValue (b0 :: bs) : Int) ≤ maxInt)
    (vc : (decimalValue (c0 :: cs) : Int) ≤ maxInt)
    (h : (decimalValue (a0 :: as) : Int) + decimalValue (b0 :: bs) * decimalValue (c0 :: cs)
      ≤ maxInt) :
    Evaluate reg (n + 1) ctx src
      = Except.ok (Value.int (decimalValue (a0 :: as)
          + decimalValue (b0 :: bs) * decimalValue (c0 :: cs)), none) := by
  have hlex : lexAll (NewLexer src)
      = Except.ok [⟨TokenType.INT, String.mk (a0 :: as)⟩, ⟨TokenType.PLUS, "+"⟩,
          ⟨TokenType.INT, String.mk (b0 :: bs)⟩, ⟨TokenType.MULTIPLY, "*"⟩,
          ⟨TokenType.INT, String.mk (c0 :: cs)⟩, ⟨TokenType.EOF, ""⟩] := by
    rw [NewLexer_eq_view, hsrc]
    exact lexAll_sum_product a0 as b0 bs c0 cs ha hb hc
  rw [Evaluate_of_parse hlex (Parse_sum_product _ _ _ _ _ _ (Atoi_digits a0 as ha va)
    (Atoi_digits b0 bs hb vb) (Atoi_digits c0 cs hc vc))]
  simp only [ASTNode.Evaluate, applyBinary, Bif.Add, Bif.Mul, ok, bind, Except.bind,
    pure, Except.pure]
  rw [wrap64_nat_sum_product _ _ _ h]

theorem Evaluate_paren_sum_product (reg : Bif F) (n : Nat) (ctx : Context F) (src : String)
    (a0 : Char) (as : List Char) (b0 : Char) (bs : List Char) (c0 : Char) (cs : List Char)
    (hsrc : src.data
      = '(' :: a0 :: (as ++ ' ' :: '+' :: ' ' :: b0 ::
          (bs ++ ')' :: ' ' :: '*' :: ' ' :: c0 :: (cs ++ []))))
    (ha : ∀ c ∈ a0 :: as, isDigit c = true) (hb : ∀ c ∈ b0 :: bs, isDigit c = true)
    (hc : ∀ c ∈ c0 :: cs, isDigit c = true)
    (va : (decimalValue (a0 :: as) : Int) ≤ maxInt)
    (vb : (decimalValue (b0 :: bs) : Int) ≤ maxInt)
    (vc : (decimalValue (c0 :: cs) : Int) ≤ maxInt)
    (h : ((decimalValue (a0 :: as) : Int) + decimalValue (b0 :: bs)) * decimalValue (c0 :: cs)
      ≤ maxInt) :
    Evaluate reg (n + 1) ctx src
      = Except.ok (Value.int (((decimalValue (a0 :: as) : Int) + decimalValue (b0 :: bs))
          * decimalValue (c0 :: cs)), none) := by
  have hlex : lexAll (NewLexer src)
      = Except.ok [⟨TokenType.PAREN_LEFT, "("⟩, ⟨TokenType.INT, String.mk (a0 :: as)⟩,
          ⟨TokenType.PLUS, "+"⟩, ⟨TokenType.INT, String.mk (b0 :: bs)⟩,
          ⟨TokenType.PAREN_RIGHT, ")"⟩, ⟨TokenType.MULTIPLY, "*"⟩,
          ⟨TokenType.INT, String.mk (c0 :: cs)⟩, ⟨TokenType.EOF, ""⟩] := by
    rw [NewLexer_eq_view, hsrc]
    exact lexAll_paren_sum_product a0 as b0 bs c0 cs ha hb hc
  rw [Evaluate_of_parse hlex (Parse_paren_sum_product _ _ _ _ _ _ (Atoi_digits a0 as ha va)
    (Atoi_digits b0 bs hb vb) (Atoi_digits c0 cs hc vc))]
  simp only [ASTNode.Evaluate, applyBinary, Bif.Add, Bif.Mul, ok, bind, Except.bind,
    pure, Except.pure]
  rw [wrap64_nat_product_sum _ _ _ h]

end SumProductEval

/-! ## C1 -/

set_option maxRecDepth 100000 in
/-- C1. For all non-negative decimal integer literals `a`, `b`, `c` (non-empty
strings of digits whose values are ints) and every registry and context: when
`a + b * c` is an int, the source `a + b * c` evaluates to the int `a + (b * c)`
with no error, and when `(a + b) * c` is an int, the source `(a + b) * c`
evaluates to the int `(a + b) * c` with no error.  In particular `2 + 3 * 4`
evaluates to 14 and `(2 + 3) * 4` to 20. -/
theorem evaluate_sum_and_product :
    (∀ (F : Type) [Float64 F] (reg : Bif F) (n : Nat) (ctx : Context F) (sa sb sc : String),
      sa.data ≠ [] → sb.data ≠ [] → sc.data ≠ [] →
      (∀ ch ∈ sa.data, isDigit ch = true) → (∀ ch ∈ sb.data, isDigit ch = true) →
      (∀ ch ∈ sc.data, isDigit ch = true) →
      (decimalValue sa.data : Int) ≤ maxInt → (decimalValue sb.data : Int) ≤ maxInt →
      (decimalValue sc.data : Int) ≤ maxInt →
      ((decimalValue sa.data : Int) + decimalValue sb.data * decimalValue sc.data ≤ maxInt →
        Evaluate reg (n + 1) ctx (sa ++ " + " ++ sb ++ " * " ++ sc)
          = Except.ok (Value.int
              (decimalValue sa.data + decimalValue sb.data * decimalValue sc.data), none))
      ∧ (((decimalValue sa.data : Int) + decimalValue sb.data) * decimalValue sc.data ≤ maxInt →
        Evaluate reg (n + 1) ctx ("(" ++ sa ++ " + " ++ sb ++ ") * " ++ sc)
          = Except.ok (Value.int
              (((decimalValue sa.data : Int) + decimalValue sb.data) * decimalValue sc.data),
              none)))
    ∧ (∀ (F : Type) [Float64 F] (reg : Bif F) (n : Nat) (ctx : Context F),
      Evaluate reg (n + 1) ctx "2 + 3 * 4" = Except.ok (Value.int 14, none)
      ∧ Evaluate reg (n + 1) ctx "(2 + 3) * 4" = Except.ok (Value.int 20, none)) := by
  refine ⟨?_, ?_⟩
  · intro F _ reg n ctx sa sb sc na nb nc ha hb hc va vb vc
    obtain ⟨a0, as, hsa⟩ : ∃ a0 as, sa.data = a0 :: as := List.exists_cons_of_ne_nil na
    obtain ⟨b0, bs, hsb⟩ : ∃ b0 bs, sb.data = b0 :: bs := List.exists_cons_of_ne_nil nb
    obtain ⟨c0, cs, hsc⟩ : ∃ c0 cs, sc.data = c0 :: cs := List.exists_cons_of_ne_nil nc
    rw [hsa] at ha va
    rw [hsb] at hb vb
    rw [hsc] at hc vc
    rw [hsa, hsb, hsc]
    have e1 : " + ".data = [' ', '+', ' '] := rfl
    have e2 : " * ".data = [' ', '*', ' '] := rfl
    have e3 : "(".data = ['('] := rfl
    have e4 : ") * ".data = [')', ' ', '*', ' '] := rfl
    refine ⟨fun h => ?_, fun h => ?_⟩
    · exact Evaluate_sum_product reg n ctx _ a0 as b0 bs c0 cs
        (by simp [String.data_append, hsa, hsb, hsc, e1, e2]) ha hb hc va vb vc h
    · exact Evaluate_paren_sum_product reg n ctx _ a0 as b0 bs c0 cs
        (by simp [String.data_append, hsa, hsb, hsc, e1, e2, e3, e4]) ha hb hc va vb vc h
  · intro F _ reg n ctx
    exact ⟨rfl, rfl⟩

/-- The literals 12, 34 and 5: the source `12 + 34 * 5` evaluates to 182. -/
theorem evaluate_sum_and_product_witness :
    Evaluate (F := Exact) (fun _ => none) 1 ⟨none⟩ ("12" ++ " + " ++ "34" ++ " * " ++ "5")
      = Except.ok (Value.int (decimalValue "12".data
          + decimalValue "34".data * decimalValue "5".data), none)
    ∧ (decimalValue "12".data : Int) + decimalValue "34".data * decimalValue "5".data = 182 :=
  ⟨(evaluate_sum_and_product.1 Exact (fun _ => none) 0 ⟨none⟩ "12" "34" "5" (by decide)
      (by decide) (by decide) (by decide) (by decide) (by decide) (by decide) (by decide)
      (by decide)).1 (by decide), by decide⟩

/-! ## C11 and C12: variables -/

section LookupLemmas

variable {F : Type}

theorem splitDots_append (k : List Char) (hk : '.' ∉ k) (rest cur : List Char) :
    splitDots (k ++ rest) cur = splitDots rest (cur ++ k) := by
  induction k generalizing cur with
  | nil => simp
  | cons c cs ih =>
    have hc : (c == '.') = false := by
      rw [beq_eq_false_iff_ne]; intro h; exact hk (by simp [h])
    have hcs : '.' ∉ cs := fun h => hk (List.mem_cons_of_mem _ h)
    simp only [List.cons_append, splitDots, hc, Bool.false_eq_true, if_false]
    show splitDots (cs ++ rest) (cur ++ [c]) = _
    rw [ih hcs]; simp

theorem splitDots_tail (ks : List String) (hks : ∀ k ∈ ks, '.' ∉ k.data) (cur : List Char) :
    splitDots (dottedTail ks) cur = (String.mk cur, ks) := by
  induction ks generalizing cur with
  | nil => simp [dottedTail, splitDots]
  | cons k ks ih =>
    have h1 : splitDots (k.data ++ dottedTail ks) [] = (k, ks) := by
      rw [splitDots_append k.data (hks k (List.mem_cons_self _ _)), List.nil_append,
        ih (fun x hx => hks x (List.mem_cons_of_mem _ hx))]
    simp [dottedTail, splitDots, h1]

theorem splitDots_dottedName (k0 : String) (ks : List String)
    (h : ∀ k ∈ k0 :: ks, '.' ∉ k.data) :
    splitDots (dottedName k0 ks).data [] = (k0, ks) := by
  show splitDots (k0.data ++ dottedTail ks) [] = _
  rw [splitDots_append k0.data (h k0 (List.mem_cons_self _ _)), List.nil_append,
    splitDots_tail ks (fun x hx => h x (List.mem_cons_of_mem _ hx))]

theorem lookupParts_true (x : Value F) (ks : List String) (v : Value F) :
    lookupParts x ks = (v, true) ↔ Resolves x ks v := by
  induction ks generalizing x with
  | nil =>
    constructor
    · intro h
      simp only [lookupParts, Prod.mk.injEq, and_true] at h
      subst h; exact Resolves.done _
    · intro h; cases h; rfl
  | cons k ks ih =>
    constructor
    · intro h
      cases x with
      | map m =>
        cases hm : mapGet m k with
        | none => simp [lookupParts, hm] at h
        | some y =>
          simp only [lookupParts, hm] at h
          exact Resolves.step m k ks y v hm ((ih y).1 h)
      | _ => simp [lookupParts] at h
    · intro h
      cases h with
      | step m _ _ y _ hm hr =>
        simp only [lookupParts, hm]
        exact (ih y).2 hr

theorem lookupParts_false (x : Value F) (ks : List String)
    (h : ¬ ∃ v, Resolves x ks v) : lookupParts x ks = (Value.nil, false) := by
  induction ks generalizing x with
  | nil => exact absurd ⟨x, Resolves.done x⟩ h
  | cons k ks ih =>
    cases x with
    | map m =>
      cases hm : mapGet m k with
      | none => simp [lookupParts, hm]
      | some y =>
        simp only [lookupParts, hm]
        exact ih y (fun ⟨v, hv⟩ => h ⟨v, Resolves.step m k ks y v hm hv⟩)
    | _ => simp [lookupParts]

theorem VariableNode.lookup_dotted (vars : List (String × Value F)) (k0 k : String)
    (ks : List String) (h : ∀ s ∈ k0 :: k :: ks, '.' ∉ s.data) :
    VariableNode.lookup ⟨some vars⟩ (dottedName k0 (k :: ks))
      = match mapGet vars k0 with
        | none => (Value.nil, false)
        | some x => lookupParts x (k :: ks) := by
  simp only [VariableNode.lookup, splitDots_dottedName k0 (k :: ks) h]

theorem VariableNode.lookup_single (vars : List (String × Value F)) (name : String)
    (h : '.' ∉ name.data) :
    VariableNode.lookup ⟨some vars⟩ name = ((mapGet vars name).getD Value.nil, true) := by
  have hs : splitDots name.data [] = (name, []) := by
    have := splitDots_append name.data h [] []
    simpa [splitDots] using this
  simp only [VariableNode.lookup, hs]

end LookupLemmas

/-- C11. A dotted variable name `k0.k1...kn` with at least two segments, under a
context that holds the mapping `vars`: the node evaluates to `v` with no error
exactly when `k0` is a key of `vars` and, from the value stored there, each
later segment is a key of the nested string-keyed mapping reached so far, `v`
being the value at the last one; when there is no such path (a segment is
absent or an intermediate value is no mapping) the result is the error
`variable <name> not defined`.  With the context `{a: {b: 5}}` the source `a.b`
evaluates to 5 and `a.c` fails. -/
theorem dotted_variable_lookup :
    (∀ (F : Type) [Float64 F] (reg : Bif F) (h : Host F) (vars : List (String × Value F))
      (k0 : String) (ks : List String), ks ≠ [] → (∀ s ∈ k0 :: ks, '.' ∉ s.data) →
      (∀ v, (ASTNode.VariableNode (dottedName k0 ks)).Evaluate reg h ⟨some vars⟩
            = Except.ok (v, none)
          ↔ ∃ x, mapGet vars k0 = some x ∧ Resolves x ks v)
      ∧ ((¬ ∃ x v, mapGet vars k0 = some x ∧ Resolves x ks v) →
        (ASTNode.VariableNode (dottedName k0 ks)).Evaluate reg h ⟨some vars⟩
          = Except.ok (Value.nil,
              some (Error.text ("variable " ++ dottedName k0 ks ++ " not defined")))))
    ∧ (∀ (F : Type) [Float64 F] (library : String → bifFunc F) (n : Nat),
      Evaluate (init library) (n + 1)
          ⟨some [("a", Value.map [("b", Value.int 5)])]⟩ "a.b"
        = Except.ok (Value.int 5, none))
    ∧ (∀ (F : Type) [Float64 F] (library : String → bifFunc F) (n : Nat),
      Evaluate (init library) (n + 1)
          ⟨some [("a", Value.map [("b", Value.int 5)])]⟩ "a.c"
        = Except.ok (Value.nil, some (Error.text "variable a.c not defined"))) := by
  refine ⟨?_, ?_, ?_⟩
  · intro F _ reg h vars k0 ks hks hdot
    obtain ⟨k, ks, rfl⟩ : ∃ k t, ks = k :: t := by
      cases ks with
      | nil => exact absurd rfl hks
      | cons k t => exact ⟨k, t, rfl⟩
    have hl := VariableNode.lookup_dotted vars k0 k ks hdot
    constructor
    · intro v
      cases hm : mapGet vars k0 with
      | none =>
        rw [hm] at hl
        simp [ASTNode.Evaluate, hl, fail, pure, Except.pure]
      | some x =>
        rw [hm] at hl
        simp only [Option.some.injEq, exists_eq_left']
        by_cases hr : ∃ w, Resolves x (k :: ks) w
        · obtain ⟨w, hw⟩ := hr
          have hw' := (lookupParts_true x (k :: ks) w).2 hw
          simp only [ASTNode.Evaluate, hl, hw', ok, pure, Except.pure, Except.ok.injEq,
            Prod.mk.injEq, and_true]
          constructor
          · intro e; subst e; exact hw
          · intro hv
            have := (lookupParts_true x (k :: ks) v).2 hv
            rw [hw'] at this
            exact (Prod.mk.inj this).1
        · have hf := lookupParts_false x (k :: ks) hr
          simp only [ASTNode.Evaluate, hl, hf, fail, pure, Except.pure, Except.ok.injEq,
            Prod.mk.injEq]
          constructor
          · intro e; exact absurd e.2 (by simp)
          · intro hv; exact absurd ⟨v, hv⟩ hr
    · intro hno
      cases hm : mapGet vars k0 with
      | none =>
        rw [hm] at hl
        simp [ASTNode.Evaluate, hl, fail, pure, Except.pure]
      | some x =>
        rw [hm] at hl
        have hf := lookupParts_false x (k :: ks)
          (fun ⟨v, hv⟩ => hno ⟨x, v, hm, hv⟩)
        simp [ASTNode.Evaluate, hl, hf, fail, pure, Except.pure]
  · intro F _ library n
    rfl
  · intro F _ library n
    rfl

/-- With the context `{a: {b: {c: 7}}}` the node of `a.b.c` evaluates to 7. -/
theorem dotted_variable_lookup_witness :
    (ASTNode.VariableNode (dottedName "a" ["b", "c"])).Evaluate (fun _ => none)
        (hostAt (fun _ => none) 0)
        (⟨some [("a", Value.map [("b", Value.map [("c", Value.int 7)])])]⟩ : Context Exact)
      = Except.ok (Value.int 7, none) :=
  ((dotted_variable_lookup.1 Exact (fun _ => none) (hostAt (fun _ => none) 0)
    [("a", Value.map [("b", Value.map [("c", Value.int 7)])])] "a" ["b", "c"]
    (by simp) (by decide)).1 (Value.int 7)).2
    ⟨Value.map [("b", Value.map [("c", Value.int 7)])], rfl,
      Resolves.step _ "b" ["c"] (Value.map [("c", Value.int 7)]) _ rfl
        (Resolves.step _ "c" [] (Value.int 7) _ rfl (Resolves.done _))⟩

/-- C12. A single-segment variable name that is no key of the mapping of the
context evaluates to the nil value with no error: `lookup` returns
`vars[parts[0]], true` for a name of one part without looking at the comma-ok
flag, which the branch for dotted names does.  The source `x` under the empty
mapping returns nil and no error. -/
theorem single_variable_absent :
    (∀ (F : Type) [Float64 F] (reg : Bif F) (h : Host F) (vars : List (String × Value F))
      (name : String), '.' ∉ name.data → mapGet vars name = none →
      (ASTNode.VariableNode name).Evaluate reg h ⟨some vars⟩ = Except.ok (Value.nil, none))
    ∧ (∀ (F : Type) [Float64 F] (library : String → bifFunc F) (n : Nat),
      Evaluate (init library) (n + 1) ⟨some []⟩ "x" = Except.ok (Value.nil, none)) := by
  refine ⟨?_, ?_⟩
  · intro F _ reg h vars name hdot hm
    simp [ASTNode.Evaluate, VariableNode.lookup_single vars name hdot, hm, ok, pure,
      Except.pure]
  · intro F _ library n
    rfl

/-- The node of `y` under the mapping `{x: 1}` evaluates to nil with no error. -/
theorem single_variable_absent_witness :
    (ASTNode.VariableNode "y").Evaluate (fun _ => none) (hostAt (fun _ => none) 0)
        (⟨some [("x", Value.int 1)]⟩ : Context Exact)
      = Except.ok (Value.nil, none) :=
  single_variable_absent.1 Exact (fun _ => none) (hostAt (fun _ => none) 0)
    [("x", Value.int 1)] "y" (by decide) rfl

/-! ## C13 and C14: `Filter` and `Map` -/

section ArrayLoops

variable {F : Type}

theorem Bif.filterLoop_ok (h : Host F) (e : String) (r : Value F → Value F)
    (l : List (Value F)) :
    ∀ (ctx : Context F) (acc : List (Value F)),
      (∀ v ∈ l, h.evaluate (filterContext v) e = Except.ok (r v, none)) →
      Bif.filterLoop h e ctx l acc
        = Except.ok (Value.list (acc ++ l.filter (fun v => isBoolTrue (r v))), none) := by
  induction l with
  | nil => intro ctx acc _; simp [Bif.filterLoop, ok, pure, Except.pure]
  | cons v rest ih =>
    intro ctx acc hl
    have hv : h.evaluate (SetVariables ctx [("x", v)]) e = Except.ok (r v, none) :=
      hl v (List.mem_cons_self _ _)
    have hrest := fun c a => ih c a (fun u hu => hl u (List.mem_cons_of_mem _ hu))
    simp only [Bif.filterLoop, hv, bind, Except.bind]
    cases hr : r v with
    | bool x =>
      cases x with
      | true => simp [hrest, List.filter_cons, isBoolTrue, hr]
      | false => simp [hrest, List.filter_cons, isBoolTrue, hr]
    | _ => simp [hrest, List.filter_cons, isBoolTrue, hr]

theorem Bif.filterLoop_fail (h : Host F) (e : String) (r : Value F → Value F)
    (pre : List (Value F)) (v : Value F) (post : List (Value F)) (x : Value F) (err : Error F)
    (hv : h.evaluate (filterContext v) e = Except.ok (x, some err)) :
    ∀ (ctx : Context F) (acc : List (Value F)),
      (∀ u ∈ pre, h.evaluate (filterContext u) e = Except.ok (r u, none)) →
      Bif.filterLoop h e ctx (pre ++ v :: post) acc
        = Except.ok (Value.nil, some (Error.evaluating e err)) := by
  induction pre with
  | nil =>
    intro ctx acc _
    have hv' : h.evaluate (SetVariables ctx [("x", v)]) e = Except.ok (x, some err) := hv
    simp [Bif.filterLoop, hv', bind, Except.bind, pure, Except.pure]
  | cons u rest ih =>
    intro ctx acc hl
    have hu : h.evaluate (SetVariables ctx [("x", u)]) e = Except.ok (r u, none) :=
      hl u (List.mem_cons_self _ _)
    have hrest := fun c a => ih c a (fun w hw => hl w (List.mem_cons_of_mem _ hw))
    simp only [List.cons_append, Bif.filterLoop, hu, bind, Except.bind]
    cases hr : r u with
    | bool b => cases b <;> simp [hrest]
    | _ => simp [hrest]

theorem Bif.mapLoop_ok (h : Host F) (e : String) (r : Nat → Value F) (l : List (Value F)) :
    ∀ (ctx : Context F) (i : Nat) (acc : List (Value F)),
      (∀ (j : Nat) (hj : j < l.length),
        h.evaluate (mapContext (i + j) l[j]) e = Except.ok (r (i + j), none)) →
      Bif.mapLoop h e ctx i l acc
        = Except.ok (Value.list (acc ++ (List.range l.length).map (fun j => r (i + j))),
            none) := by
  induction l with
  | nil => intro ctx i acc _; simp [Bif.mapLoop, ok, pure, Except.pure]
  | cons v rest ih =>
    intro ctx i acc hl
    have hv : h.evaluate (SetVariables ctx [("_i", Value.int i), ("_x", v)]) e
        = Except.ok (r i, none) := hl 0 (Nat.succ_pos _)
    have hrest := fun c a => ih c (i + 1) a (fun j hj => by
      have := hl (j + 1) (Nat.succ_lt_succ hj)
      simpa [Nat.add_assoc, Nat.add_comm 1 j] using this)
    simp only [Bif.mapLoop, hv, bind, Except.bind, hrest]
    simp [List.range_succ_eq_map, Nat.add_assoc, Nat.add_comm 1, Function.comp_def]

theorem Bif.mapLoop_fail (h : Host F) (e : String) (r : Nat → Value F) (x : Value F)
    (err : Error F) (l : List (Value F)) :
    ∀ (ctx : Context F) (i : Nat) (acc : List (Value F)) (k : Nat) (hk : k < l.length),
      (∀ (j : Nat) (hj : j < k),
        h.evaluate (mapContext (i + j) l[j]) e = Except.ok (r (i + j), none)) →
      h.evaluate (mapContext (i + k) l[k]) e = Except.ok (x, some err) →
      Bif.mapLoop h e ctx i l acc = Except.ok (Value.nil, some (Error.evaluating e err)) := by
  induction l with
  | nil => intro ctx i acc k hk; exact absurd hk (Nat.not_lt_zero _)
  | cons v rest ih =>
    intro ctx i acc k hk hl hf
    cases k with
    | zero =>
      have hv : h.evaluate (SetVariables ctx [("_i", Value.int i), ("_x", v)]) e
          = Except.ok (x, some err) := hf
      simp [Bif.mapLoop, hv, bind, Except.bind, pure, Except.pure]
    | succ k =>
      have hv : h.evaluate (SetVariables ctx [("_i", Value.int i), ("_x", v)]) e
          = Except.ok (r i, none) := hl 0 (Nat.succ_pos _)
      have hrest := fun c a => ih c (i + 1) a k (Nat.lt_of_succ_lt_succ hk)
        (fun j hj => by
          have := hl (j + 1) (Nat.succ_lt_succ hj)
          simpa [Nat.add_assoc, Nat.add_comm 1 j] using this)
        (by simpa [Nat.add_assoc, Nat.add_comm 1 k] using hf)
      simp only [Bif.mapLoop, hv, bind, Except.bind, hrest]

end ArrayLoops

set_option maxRecDepth 100000 in
/-- C13. `Filter` on a list `l` and an expression string `e`: the expression is
evaluated once per element `v`, by the `Evaluate` that the builtin reaches,
under the context whose only binding is `x -> v` (the context of the call does
not matter).  When every evaluation returns a value `r v` with no error, the
result is the list of the elements with `r v` the boolean `true`, in their
order; results that are `false` or no boolean drop the element.  When the
evaluation for an element returns an error and those before it returned none,
`Filter` returns the wrapping `error evaluating expression 'e': err` of that
error.  Called from a source, the `Evaluate` reached is the entry point with
one nesting less, and `filter(int[1, 2, 3, 4], "x > 2")` evaluates to
`[3, 4]`. -/
theorem filter_keeps_true :
    (∀ (F : Type) [Float64 F] (h : Host F) (ctx : Context F) (l : List (Value F))
      (e : String) (r : Value F → Value F),
      (∀ v ∈ l, h.evaluate (filterContext v) e = Except.ok (r v, none)) →
      Bif.Filter h ctx [Value.list l, Value.str e]
        = Except.ok (Value.list (l.filter (fun v => isBoolTrue (r v))), none))
    ∧ (∀ (F : Type) [Float64 F] (h : Host F) (ctx : Context F) (e : String)
      (r : Value F → Value F) (pre : List (Value F)) (v : Value F) (post : List (Value F))
      (x : Value F) (err : Error F),
      (∀ u ∈ pre, h.evaluate (filterContext u) e = Except.ok (r u, none)) →
      h.evaluate (filterContext v) e = Except.ok (x, some err) →
      Bif.Filter h ctx [Value.list (pre ++ v :: post), Value.str e]
        = Except.ok (Value.nil, some (Error.evaluating e err)))
    ∧ (∀ (F : Type) [Float64 F] (reg : Bif F) (n : Nat) (ctx : Context F) (e : String),
      (hostAt reg (n + 1)).evaluate ctx e = Evaluate reg (n + 1) ctx e)
    ∧ (∀ (F : Type) [Float64 F] (library : String → bifFunc F) (n : Nat) (ctx : Context F),
      Evaluate (init library) (n + 2) ctx "filter(int[1, 2, 3, 4], \"x > 2\")"
        = Except.ok (Value.list [Value.int 3, Value.int 4], none)) := by
  refine ⟨?_, ?_, ?_, ?_⟩
  · intro F _ h ctx l e r hl
    have := Bif.filterLoop_ok h e r l ctx [] hl
    simpa [Bif.Filter] using this
  · intro F _ h ctx e r pre v post x err hl hv
    exact Bif.filterLoop_fail h e r pre v post x err hv ctx [] hl
  · intro F _ reg n ctx e
    rfl
  · intro F _ library n ctx
    rfl

set_option maxRecDepth 100000 in
/-- Under the parsing pipeline, `Filter` keeps 3 and drops 1 for `x > 2`. -/
theorem filter_keeps_true_witness :
    Bif.Filter (hostAt (fun _ => none) 1) (⟨none⟩ : Context Exact)
        [Value.list [Value.int 1, Value.int 3], Value.str "x > 2"]
      = Except.ok (Value.list [Value.int 3], none) :=
  filter_keeps_true.1 Exact (hostAt (fun _ => none) 1) ⟨none⟩ [Value.int 1, Value.int 3]
    "x > 2" (fun v => match v with
      | Value.int i => Value.bool (decide (2 < i))
      | _ => Value.nil)
    (by
      intro v hv
      simp only [List.mem_cons, List.mem_singleton, List.not_mem_nil, or_false] at hv
      rcases hv with rfl | rfl <;> rfl)

set_option maxRecDepth 100000 in
/-- C14. `Map` on a list `l` and an expression string `e`: the expression is
evaluated once per index `j`, by the `Evaluate` that the builtin reaches, under
the context whose only bindings are `_i -> j` and `_x -> l[j]`.  When every
evaluation returns a value `r j` with no error, the result is the list
`[r 0, ..., r (len l - 1)]`, of the length of `l`.  When the evaluation at an
index returns an error and those before it returned none, `Map` returns the
wrapping `error evaluating expression 'e': err` of that error.  The source
`map(int[1, 2, 3], "_x * 2")` evaluates to `[2, 4, 6]`. -/
theorem map_collects_results :
    (∀ (F : Type) [Float64 F] (h : Host F) (ctx : Context F) (l : List (Value F))
      (e : String) (r : Nat → Value F),
      (∀ (j : Nat) (hj : j < l.length),
        h.evaluate (mapContext j l[j]) e = Except.ok (r j, none)) →
      Bif.Map h ctx [Value.list l, Value.str e]
          = Except.ok (Value.list ((List.range l.length).map r), none)
        ∧ ((List.range l.length).map r).length = l.length)
    ∧ (∀ (F : Type) [Float64 F] (h : Host F) (ctx : Context F) (l : List (Value F))
      (e : String) (r : Nat → Value F) (k : Nat) (hk : k < l.length) (x : Value F)
      (err : Error F),
      (∀ (j : Nat) (hj : j < k),
        h.evaluate (mapContext j l[j]) e = Except.ok (r j, none)) →
      h.evaluate (mapContext k l[k]) e = Except.ok (x, some err) →
      Bif.Map h ctx [Value.list l, Value.str e]
        = Except.ok (Value.nil, some (Error.evaluating e err)))
    ∧ (∀ (F : Type) [Float64 F] (library : String → bifFunc F) (n : Nat) (ctx : Context F),
      Evaluate (init library) (n + 2) ctx "map(int[1, 2, 3], \"_x * 2\")"
        = Except.ok (Value.list [Value.int 2, Value.int 4, Value.int 6], none)) := by
  refine ⟨?_, ?_, ?_⟩
  · intro F _ h ctx l e r hl
    have := Bif.mapLoop_ok h e r l ctx 0 []
      (fun j hj => by simpa using hl j hj)
    refine ⟨?_, by simp⟩
    simpa [Bif.Map] using this
  · intro F _ h ctx l e r k hk x err hl hf
    exact Bif.mapLoop_fail h e r x err l ctx 0 [] k hk
      (fun j hj => by simpa using hl j hj) (by simpa using hf)
  · intro F _ library n ctx
    rfl

set_option maxRecDepth 100000 in
/-- Under the parsing pipeline, `Map` with `_x + _i` sends `[10, 20]` to
`[10, 21]`. -/
theorem map_collects_results_witness :
    Bif.Map (hostAt (fun _ => none) 1) (⟨none⟩ : Context Exact)
        [Value.list [Value.int 10, Value.int 20], Value.str "_x + _i"]
      = Except.ok (Value.list [Value.int 10, Value.int 21], none) :=
  (map_collects_results.1 Exact (hostAt (fun _ => none) 1) ⟨none⟩
    [Value.int 10, Value.int 20] "_x + _i"
    (fun j => if j = 0 then Value.int 10 else Value.int 21)
    (by
      intro j hj
      have hj2 : j < 2 := hj
      interval_cases j <;> rfl)).1

/-! ## C15 and C16: `Reduce` -/

section ReduceLemmas

variable {F : Type}

theorem Bif.reduceLoop_ok (f : Context F → List (Value F) → Run (Res F)) (ctx : Context F)
    (g : Value F → Value F → Value F) (l : List (Value F)) :
    ∀ (a : Value F),
      (∀ (pre : List (Value F)) x post, l = pre ++ x :: post →
        f ctx [pre.foldl g a, x] = Except.ok (g (pre.foldl g a) x, none)) →
      Bif.reduceLoop f ctx a l = Except.ok (l.foldl g a, none) := by
  induction l with
  | nil => intro a _; simp [Bif.reduceLoop, ok, pure, Except.pure]
  | cons x rest ih =>
    intro a hl
    have hx : f ctx [a, x] = Except.ok (g a x, none) := hl [] x rest rfl
    simp only [Bif.reduceLoop, hx, bind, Except.bind, List.foldl_cons]
    exact ih (g a x) (fun pre u post hu => hl (x :: pre) u post (by rw [hu]; rfl))

theorem Bif.reduceLoop_fail (f : Context F → List (Value F) → Run (Res F)) (ctx : Context F)
    (g : Value F → Value F → Value F) (pre : List (Value F)) (x : Value F)
    (post : List (Value F)) (y : Value F) (err : Error F) :
    ∀ (a : Value F),
      (∀ (pre1 : List (Value F)) u post1, pre = pre1 ++ u :: post1 →
        f ctx [pre1.foldl g a, u] = Except.ok (g (pre1.foldl g a) u, none)) →
      f ctx [pre.foldl g a, x] = Except.ok (y, some err) →
      Bif.reduceLoop f ctx a (pre ++ x :: post) = Except.ok (Value.nil, some err) := by
  induction pre with
  | nil =>
    intro a _ hf
    simp only [List.foldl_nil] at hf
    simp [Bif.reduceLoop, hf, bind, Except.bind, pure, Except.pure]
  | cons u rest ih =>
    intro a hl hf
    have hu : f ctx [a, u] = Except.ok (g a u, none) := hl [] u rest rfl
    simp only [List.cons_append, Bif.reduceLoop, hu, bind, Except.bind]
    exact ih (g a u) (fun pre1 w post1 hw => hl (u :: pre1) w post1 (by rw [hw]; rfl)) hf

theorem Bif.reduceFunction_of_designates {h : Host F} {arg : Value F}
    {f : Context F → List (Value F) → Run (Res F)} (hd : designates h arg f) :
    Bif.reduceFunction h arg = Except.ok f := by
  rcases hd with ⟨name, rfl, hn⟩ | ⟨id, rfl, hc⟩
  · simp [Bif.reduceFunction, hn]
  · simp [Bif.reduceFunction, hc]

theorem Bif.Reduce_two {h : Host F} {arg : Value F}
    {f : Context F → List (Value F) → Run (Res F)} (hd : designates h arg f)
    (ctx : Context F) (a0 : Value F) (rest : List (Value F)) :
    Bif.Reduce h ctx [Value.list (a0 :: rest), arg] = Bif.reduceLoop f ctx a0 rest := by
  simp [Bif.Reduce, Bif.reduceFunction_of_designates hd]

theorem Bif.Reduce_three {h : Host F} {arg : Value F}
    {f : Context F → List (Value F) → Run (Res F)} (hd : designates h arg f)
    (ctx : Context F) (a0 : Value F) (rest : List (Value F)) (i : Value F) :
    Bif.Reduce h ctx [Value.list (a0 :: rest), arg, i]
      = Bif.reduceLoop f ctx i (a0 :: rest) := by
  simp [Bif.Reduce, Bif.reduceFunction_of_designates hd]

theorem Bif.Reduce_empty (h : Host F) (ctx : Context F) (args : List (Value F)) :
    Bif.Reduce h ctx (Value.list [] :: args)
      = if args.length < 1 ∨ args.length > 2 then
          fail ("reduce function expects two or three arguments: an array, a function, "
            ++ "and an optional initial value")
        else fail "first argument to reduce must be a non-empty array" := by
  simp only [Bif.Reduce, List.length_cons]
  by_cases hlen : args.length < 1 ∨ args.length > 2
  · have : args.length + 1 < 2 ∨ args.length + 1 > 3 := by omega
    rw [if_pos this, if_pos hlen]; rfl
  · have : ¬ (args.length + 1 < 2 ∨ args.length + 1 > 3) := by omega
    rw [if_neg this, if_neg hlen]

end ReduceLemmas

set_option maxRecDepth 100000 in
/-- C15. `Reduce` is a left fold.  Let the second argument stand for the
function `f`, by a name of the registry or as a function value, and let `g` give
the results of `f` on the pairs `(accumulated value, element)` that the fold
goes through.  Without an initial value, `Reduce` on `[a0, ..., an]` returns
`g (... (g (g a0 a1) a2) ...) an`; with an initial value `i` it returns
`g (... (g (g i a0) a1) ...) an`.  When `f` returns an error on the pair of the
accumulated value and an element, after returning none on the elements before
it, `Reduce` returns that error.  A name of the registry reaches the registry's
entry, and the source `reduce(int[1, 2, 3], "add")` evaluates to 6. -/
theorem reduce_left_fold :
    (∀ (F : Type) [Float64 F] (h : Host F) (ctx : Context F) (arg : Value F)
      (f : Context F → List (Value F) → Run (Res F)) (g : Value F → Value F → Value F)
      (a0 : Value F) (rest : List (Value F)), designates h arg f →
      (∀ (pre : List (Value F)) x post, rest = pre ++ x :: post →
        f ctx [pre.foldl g a0, x] = Except.ok (g (pre.foldl g a0) x, none)) →
      Bif.Reduce h ctx [Value.list (a0 :: rest), arg]
        = Except.ok (rest.foldl g a0, none))
    ∧ (∀ (F : Type) [Float64 F] (h : Host F) (ctx : Context F) (arg : Value F)
      (f : Context F → List (Value F) → Run (Res F)) (g : Value F → Value F → Value F)
      (a0 : Value F) (rest : List (Value F)) (i : Value F), designates h arg f →
      (∀ (pre : List (Value F)) x post, a0 :: rest = pre ++ x :: post →
        f ctx [pre.foldl g i, x] = Except.ok (g (pre.foldl g i) x, none)) →
      Bif.Reduce h ctx [Value.list (a0 :: rest), arg, i]
        = Except.ok ((a0 :: rest).foldl g i, none))
    ∧ (∀ (F : Type) [Float64 F] (h : Host F) (ctx : Context F) (arg : Value F)
      (f : Context F → List (Value F) → Run (Res F)) (g : Value F → Value F → Value F)
      (a0 : Value F) (pre : List (Value F)) (x : Value F) (post : List (Value F))
      (y : Value F) (err : Error F), designates h arg f →
      (∀ (pre1 : List (Value F)) u post1, pre = pre1 ++ u :: post1 →
        f ctx [pre1.foldl g a0, u] = Except.ok (g (pre1.foldl g a0) u, none)) →
      f ctx [pre.foldl g a0, x] = Except.ok (y, some err) →
      Bif.Reduce h ctx [Value.list (a0 :: (pre ++ x :: post)), arg]
        = Except.ok (Value.nil, some err))
    ∧ (∀ (F : Type) [Float64 F] (h : Host F) (ctx : Context F) (arg : Value F)
      (f : Context F → List (Value F) → Run (Res F)) (g : Value F → Value F → Value F)
      (i : Value F) (pre : List (Value F)) (x : Value F) (post : List (Value F))
      (y : Value F) (err : Error F), designates h arg f →
      (∀ (pre1 : List (Value F)) u post1, pre = pre1 ++ u :: post1 →
        f ctx [pre1.foldl g i, u] = Except.ok (g (pre1.foldl g i) u, none)) →
      f ctx [pre.foldl g i, x] = Except.ok (y, some err) →
      Bif.Reduce h ctx [Value.list (pre ++ x :: post), arg, i]
        = Except.ok (Value.nil, some err))
    ∧ (∀ (F : Type) [Float64 F] (reg : Bif F) (n : Nat) (name : String) (f : bifFunc F),
      reg name = some f →
      designates (hostAt reg (n + 1)) (Value.str name) (f (hostAt reg n)))
    ∧ (∀ (F : Type) [Float64 F] (library : String → bifFunc F) (n : Nat) (ctx : Context F),
      Evaluate (init library) (n + 2) ctx "reduce(int[1, 2, 3], \"add\")"
        = Except.ok (Value.int 6, none)) := by
  refine ⟨?_, ?_, ?_, ?_, ?_, ?_⟩
  · intro F _ h ctx arg f g a0 rest hd hl
    rw [Bif.Reduce_two hd]
    exact Bif.reduceLoop_ok f ctx g rest a0 hl
  · intro F _ h ctx arg f g a0 rest i hd hl
    rw [Bif.Reduce_three hd]
    exact Bif.reduceLoop_ok f ctx g (a0 :: rest) i hl
  · intro F _ h ctx arg f g a0 pre x post y err hd hl hf
    rw [Bif.Reduce_two hd]
    exact Bif.reduceLoop_fail f ctx g pre x post y err a0 hl hf
  · intro F _ h ctx arg f g i pre x post y err hd hl hf
    cases pre with
    | nil =>
      rw [List.nil_append, Bif.Reduce_three hd]
      exact Bif.reduceLoop_fail f ctx g [] x post y err i hl hf
    | cons u us =>
      rw [List.cons_append, Bif.Reduce_three hd]
      exact Bif.reduceLoop_fail f ctx g (u :: us) x post y err i hl hf
  · intro F _ reg n name f hf
    exact Or.inl ⟨name, rfl, by simp [hostAt, hf]⟩
  · intro F _ library n ctx
    rfl

/-- With the function value 0 standing for `Bif.Sub`, `Reduce` on `[10, 3, 2]`
returns `(10 - 3) - 2`. -/
theorem reduce_left_fold_witness :
    Bif.Reduce
        ({ evaluate := fun _ _ => throw Fault.fuel
           call := fun _ => none
           closure := fun id => if id = 0 then some (Bif.Sub (hostAt (fun _ => none) 0))
             else none } : Host Exact)
        ⟨none⟩ [Value.list [Value.int 10, Value.int 3, Value.int 2], Value.func 0]
      = Except.ok (Value.int 5, none) :=
  reduce_left_fold.1 Exact _ ⟨none⟩ (Value.func 0) (Bif.Sub (hostAt (fun _ => none) 0))
    (fun a x => match a, x with
      | Value.int i, Value.int j => Value.int (wrap64 (i - j))
      | _, _ => Value.nil)
    (Value.int 10) [Value.int 3, Value.int 2] (Or.inr ⟨0, rfl, rfl⟩)
    (by
      intro pre x post hx
      match pre, hx with
      | [], hx => cases hx; rfl
      | [_], hx => cases hx; rfl
      | _ :: _ :: pre, hx => simp at hx)

set_option maxRecDepth 100000 in
/-- The call of `Reduce` on the empty list with the function name `add` and the
initial value 0 returns the error of the non-empty check and not the value 0; so
does the source `reduce(int[], "add", 0)`. -/
theorem reduce_empty_with_initial_fails :
    Bif.Reduce (hostAt (init (fun _ _ _ _ => throw Fault.fuel)) 1) (⟨none⟩ : Context Exact)
        [Value.list [], Value.str "add", Value.int 0]
      = Except.ok (Value.nil,
          some (Error.text "first argument to reduce must be a non-empty array"))
    ∧ Bif.Reduce (hostAt (init (fun _ _ _ _ => throw Fault.fuel)) 1)
        (⟨none⟩ : Context Exact) [Value.list [], Value.str "add", Value.int 0]
      ≠ Except.ok (Value.int 0, none)
    ∧ Evaluate (init (fun _ _ _ _ => throw Fault.fuel)) 2 (⟨none⟩ : Context Exact)
        "reduce(int[], \"add\", 0)"
      = Except.ok (Value.nil,
          some (Error.text "first argument to reduce must be a non-empty array")) := by
  refine ⟨rfl, ?_, rfl⟩
  intro h
  have h2 : (Except.ok (Value.nil,
      some (Error.text "first argument to reduce must be a non-empty array"))
      : Run (Res Exact)) = Except.ok (Value.int 0, none) := h
  cases h2

/-- C16, as the code has it.  `Reduce` requires a non-empty array whether or
not an initial value is given: on the empty list, with any second argument and
with or without an initial value, it returns the error
`first argument to reduce must be a non-empty array` and no value. -/
theorem reduce_requires_nonempty :
    (∀ (F : Type) [Float64 F] (h : Host F) (ctx : Context F) (arg i : Value F),
      Bif.Reduce h ctx [Value.list [], arg, i]
        = Except.ok (Value.nil,
            some (Error.text "first argument to reduce must be a non-empty array")))
    ∧ (∀ (F : Type) [Float64 F] (h : Host F) (ctx : Context F) (arg : Value F),
      Bif.Reduce h ctx [Value.list [], arg]
        = Except.ok (Value.nil,
            some (Error.text "first argument to reduce must be a non-empty array"))) := by
  refine ⟨?_, ?_⟩
  · intro F _ h ctx arg i
    rw [Bif.Reduce_empty]; rfl
  · intro F _ h ctx arg
    rw [Bif.Reduce_empty]; rfl

/-! ## C17 to C19: unknown functions, arities and run-time panics -/

section CallLemmas

variable {F : Type} [Float64 F]

theorem ASTNode.EvaluateAll_ok (reg : Bif F) (h : Host F) (ctx : Context F)
    (nodes : List (ASTNode F))
    (hall : ∀ a ∈ nodes, ∃ v, a.Evaluate reg h ctx = Except.ok (v, none)) :
    ∃ vals, ASTNode.EvaluateAll reg h ctx nodes = Except.ok (vals, none) := by
  induction nodes with
  | nil => exact ⟨[], by simp [ASTNode.EvaluateAll, pure, Except.pure]⟩
  | cons a rest ih =>
    obtain ⟨v, hv⟩ := hall a (List.mem_cons_self _ _)
    obtain ⟨vals, hvals⟩ := ih (fun x hx => hall x (List.mem_cons_of_mem _ hx))
    exact ⟨v :: vals, by
      simp [ASTNode.EvaluateAll, hv, hvals, bind, Except.bind, pure, Except.pure]⟩

theorem arity_cases {α : Type} (args : List α) (hlen : args.length ≠ 2)
    (P : List α → Prop) (h0 : P []) (h1 : ∀ a, P [a])
    (h3 : ∀ a b c rest, P (a :: b :: c :: rest)) : P args := by
  rcases args with _ | ⟨a, _ | ⟨b, _ | ⟨c, rest⟩⟩⟩
  · exact h0
  · exact h1 a
  · exact absurd rfl hlen
  · exact h3 a b c rest

end CallLemmas

set_option maxRecDepth 100000 in
/-- C17. A function call whose name has no entry in the registry and whose
arguments all evaluate with no error returns the error
`unknown function: <name>`; the initial registry has no entry `nope`, and the
source `nope(1)` fails this way. -/
theorem unknown_function_fails :
    (∀ (F : Type) [Float64 F] (reg : Bif F) (h : Host F) (ctx : Context F) (name : String)
      (arguments : List (ASTNode F)), reg name = none →
      (∀ a ∈ arguments, ∃ v, a.Evaluate reg h ctx = Except.ok (v, none)) →
      (ASTNode.FunctionCallNode name arguments).Evaluate reg h ctx
        = Except.ok (Value.nil, some (Error.text ("unknown function: " ++ name))))
    ∧ (∀ (F : Type) [Float64 F] (library : String → bifFunc F),
      (init library "nope").isNone = true)
    ∧ (∀ (F : Type) [Float64 F] (library : String → bifFunc F) (n : Nat) (ctx : Context F),
      Evaluate (init library) (n + 1) ctx "nope(1)"
        = Except.ok (Value.nil, some (Error.text "unknown function: nope"))) := by
  refine ⟨?_, ?_, ?_⟩
  · intro F _ reg h ctx name arguments hreg hall
    obtain ⟨vals, hvals⟩ := ASTNode.EvaluateAll_ok reg h ctx arguments hall
    simp [ASTNode.Evaluate, hvals, hreg, bind, Except.bind, fail, pure, Except.pure]
  · intro F _ library
    rfl
  · intro F _ library n ctx
    rfl

/-- Under the empty registry the call `nope(1)` fails as an unknown function. -/
theorem unknown_function_fails_witness :
    (ASTNode.FunctionCallNode "nope" [ASTNode.IntLiteralNode 1]).Evaluate (fun _ => none)
        (hostAt (fun _ => none) 0) (⟨none⟩ : Context Exact)
      = Except.ok (Value.nil, some (Error.text ("unknown function: " ++ "nope"))) :=
  unknown_function_fails.1 Exact (fun _ => none) (hostAt (fun _ => none) 0) ⟨none⟩ "nope"
    [ASTNode.IntLiteralNode 1] rfl
    (by
      intro a ha
      simp only [List.mem_singleton] at ha
      subst ha
      exact ⟨Value.int 1, rfl⟩)

set_option maxRecDepth 100000 in
/-- C18. Each of the names add, sub, mul, div, divint, mod, exp, pow, root,
hypot and log has an entry in the initial registry, and that entry returns an
error and the nil value whenever the number of its arguments is not two,
whatever the arguments, the host and the context are.  The source `add(1)`
fails with `add function expects exactly two arguments got 1`. -/
theorem arithmetic_builtins_check_arity :
    (∀ (F : Type) [Float64 F] (library : String → bifFunc F) (name : String),
      name ∈ arithmeticNames →
      ∃ f, init library name = some f
        ∧ ∀ (h : Host F) (ctx : Context F) (args : List (Value F)), args.length ≠ 2 →
          ∃ msg, f h ctx args = Except.ok (Value.nil, some (Error.text msg)))
    ∧ (∀ (F : Type) [Float64 F] (library : String → bifFunc F) (n : Nat) (ctx : Context F),
      Evaluate (init library) (n + 1) ctx "add(1)"
        = Except.ok (Value.nil,
            some (Error.text "add function expects exactly two arguments got 1"))) := by
  refine ⟨?_, ?_⟩
  · intro F _ library name hname
    simp only [arithmeticNames, List.mem_cons, List.mem_singleton, List.not_mem_nil,
      or_false] at hname
    rcases hname with rfl | rfl | rfl | rfl | rfl | rfl | rfl | rfl | rfl | rfl | rfl
    · exact ⟨Bif.Add, rfl, fun h ctx args hlen =>
        arity_cases args hlen
          (fun args => ∃ msg, Bif.Add h ctx args = Except.ok (Value.nil, some (Error.text msg)))
          ⟨_, rfl⟩ (fun _ => ⟨_, rfl⟩) (fun _ _ _ _ => ⟨_, rfl⟩)⟩
    · exact ⟨Bif.Sub, rfl, fun h ctx args hlen =>
        arity_cases args hlen
          (fun args => ∃ msg, Bif.Sub h ctx args = Except.ok (Value.nil, some (Error.text msg)))
          ⟨_, rfl⟩ (fun _ => ⟨_, rfl⟩) (fun _ _ _ _ => ⟨_, rfl⟩)⟩
    · exact ⟨Bif.Mul, rfl, fun h ctx args hlen =>
        arity_cases args hlen
          (fun args => ∃ msg, Bif.Mul h ctx args = Except.ok (Value.nil, some (Error.text msg)))
          ⟨_, rfl⟩ (fun _ => ⟨_, rfl⟩) (fun _ _ _ _ => ⟨_, rfl⟩)⟩
    · exact ⟨Bif.Div, rfl, fun h ctx args hlen =>
        arity_cases args hlen
          (fun args => ∃ msg, Bif.Div h ctx args = Except.ok (Value.nil, some (Error.text msg)))
          ⟨_, rfl⟩ (fun _ => ⟨_, rfl⟩) (fun _ _ _ _ => ⟨_, rfl⟩)⟩
    · exact ⟨Bif.DivInt, rfl, fun h ctx args hlen =>
        arity_cases args hlen
          (fun args => ∃ msg, Bif.DivInt h ctx args = Except.ok (Value.nil, some (Error.text msg)))
          ⟨_, rfl⟩ (fun _ => ⟨_, rfl⟩) (fun _ _ _ _ => ⟨_, rfl⟩)⟩
    · exact ⟨Bif.Mod, rfl, fun h ctx args hlen =>
        arity_cases args hlen
          (fun args => ∃ msg, Bif.Mod h ctx args = Except.ok (Value.nil, some (Error.text msg)))
          ⟨_, rfl⟩ (fun _ => ⟨_, rfl⟩) (fun _ _ _ _ => ⟨_, rfl⟩)⟩
    · exact ⟨Bif.Exp, rfl, fun h ctx args hlen =>
        arity_cases args hlen
          (fun args => ∃ msg, Bif.Exp h ctx args = Except.ok (Value.nil, some (Error.text msg)))
          ⟨_, rfl⟩ (fun _ => ⟨_, rfl⟩) (fun _ _ _ _ => ⟨_, rfl⟩)⟩
    · exact ⟨Bif.Pow, rfl, fun h ctx args hlen =>
        arity_cases args hlen
          (fun args => ∃ msg, Bif.Pow h ctx args = Except.ok (Value.nil, some (Error.text msg)))
          ⟨_, rfl⟩ (fun _ => ⟨_, rfl⟩) (fun _ _ _ _ => ⟨_, rfl⟩)⟩
    · exact ⟨Bif.Root, rfl, fun h ctx args hlen =>
        arity_cases args hlen
          (fun args => ∃ msg, Bif.Root h ctx args = Except.ok (Value.nil, some (Error.text msg)))
          ⟨_, rfl⟩ (fun _ => ⟨_, rfl⟩) (fun _ _ _ _ => ⟨_, rfl⟩)⟩
    · exact ⟨Bif.Hypot, rfl, fun h ctx args hlen =>
        arity_cases args hlen
          (fun args => ∃ msg, Bif.Hypot h ctx args = Except.ok (Value.nil, some (Error.text msg)))
          ⟨_, rfl⟩ (fun _ => ⟨_, rfl⟩) (fun _ _ _ _ => ⟨_, rfl⟩)⟩
    · exact ⟨Bif.Log, rfl, fun h ctx args hlen =>
        arity_cases args hlen
          (fun args => ∃ msg, Bif.Log h ctx args = Except.ok (Value.nil, some (Error.text msg)))
          ⟨_, rfl⟩ (fun _ => ⟨_, rfl⟩) (fun _ _ _ _ => ⟨_, rfl⟩)⟩
  · intro F _ library n ctx
    with_unfolding_all rfl

/-- The entry `mod` of the initial registry rejects the single argument 1. -/
theorem arithmetic_builtins_check_arity_witness :
    ∃ f, init (fun _ _ _ _ => throw Fault.fuel) "mod" = some f
      ∧ ∃ msg, f (hostAt (fun _ => none) 0) (⟨none⟩ : Context Exact) [Value.int 1]
        = Except.ok (Value.nil, some (Error.text msg)) :=
  let ⟨f, hf, h⟩ := arithmetic_builtins_check_arity.1 Exact (fun _ _ _ _ => throw Fault.fuel)
    "mod" (by simp [arithmeticNames])
  ⟨f, hf, h (hostAt (fun _ => none) 0) ⟨none⟩ [Value.int 1] (by decide)⟩

set_option maxRecDepth 100000 in
/-- C19. Under the initial registry and every context, the sources `1 / 0`,
`1 // 0` and `1 % 0` abort with the run-time panic of an integer division by
zero, `1 << -1` aborts with the panic of a negative shift count, and so does
the call `div(1, 0)` of the builtin by name: none of them returns an error
value. -/
theorem zero_divisor_and_negative_shift_abort :
    (∀ (F : Type) [Float64 F] (library : String → bifFunc F) (n : Nat) (ctx : Context F),
      Evaluate (init library) (n + 1) ctx "1 / 0"
        = Except.error (Fault.panic "runtime error: integer divide by zero"))
    ∧ (∀ (F : Type) [Float64 F] (library : String → bifFunc F) (n : Nat) (ctx : Context F),
      Evaluate (init library) (n + 1) ctx "1 // 0"
        = Except.error (Fault.panic "runtime error: integer divide by zero"))
    ∧ (∀ (F : Type) [Float64 F] (library : String → bifFunc F) (n : Nat) (ctx : Context F),
      Evaluate (init library) (n + 1) ctx "1 % 0"
        = Except.error (Fault.panic "runtime error: integer divide by zero"))
    ∧ (∀ (F : Type) [Float64 F] (library : String → bifFunc F) (n : Nat) (ctx : Context F),
      Evaluate (init library) (n + 1) ctx "1 << -1"
        = Except.error (Fault.panic "runtime error: negative shift amount"))
    ∧ (∀ (F : Type) [Float64 F] (library : String → bifFunc F) (n : Nat) (ctx : Context F),
      Evaluate (init library) (n + 1) ctx "div(1, 0)"
        = Except.error (Fault.panic "runtime error: integer divide by zero")) := by
  refine ⟨?_, ?_, ?_, ?_, ?_⟩ <;> intro F _ library n ctx <;> rfl

/-! ## C20: missing closing brackets -/

section FaultLoopLemmas

variable {F : Type}

theorem Parser.binaryLevel_fault {ops : List TokenType}
    {mk : ASTNode F → TokenType → ASTNode F → ASTNode F}
    {next : Parser → Run (ASTNode F × Parser)} {p : Parser} {f : Fault}
    (hn : next p = Except.error f) :
    Parser.binaryLevel ops mk next p = Except.error f := by
  simp [Parser.binaryLevel, hn, bind, Except.bind]

theorem Parser.binaryLevel_right_fault {ops : List TokenType}
    {mk : ASTNode F → TokenType → ASTNode F → ASTNode F}
    {next : Parser → Run (ASTNode F × Parser)} {p p1 : Parser} {t1 : Token}
    {a : ASTNode F} {f : Fault}
    (ha : next p = Except.ok (a, p1)) (h1 : p1.tokens[p1.current]? = some t1)
    (hin : t1.Typ ∈ ops) (hne : t1.Typ ≠ TokenType.EOF)
    (hb : next p1.next = Except.error f) :
    Parser.binaryLevel ops mk next p = Except.error f := by
  simp [Parser.binaryLevel, ha, bind, Except.bind, Parser.budget, Parser.binaryLoop,
    Parser.matchTypes_eq h1, hin, hne, Parser.previous_next h1, hb]

end FaultLoopLemmas

section FaultLemmas

variable {F : Type} [Float64 F]

theorem Parser.consume_missing {p : Parser} {t : Token} (h : p.tokens[p.current]? = some t)
    (typ : TokenType) (hne : t.Typ ≠ typ) (message : String) :
    p.consume typ message = Except.error (Fault.panic message) := by
  simp [Parser.consume, Parser.check_eq h, hne, bind, Except.bind, throw, throwThe,
    MonadExceptOf.throw]

theorem Parser.consume_found {p : Parser} {t : Token} (h : p.tokens[p.current]? = some t)
    (typ : TokenType) (ht : t.Typ = typ) (hne : typ ≠ TokenType.EOF) (message : String) :
    p.consume typ message = Except.ok (t, p.next) := by
  have hne' : t.Typ ≠ TokenType.EOF := by rw [ht]; exact hne
  simp [Parser.consume, Parser.check_eq h, ht, hne, Parser.advance_eq h hne', bind,
    Except.bind]

theorem Parser.primary_paren_missing (E : Parser → Run (ASTNode F × Parser)) (p p2 : Parser)
    {t t2 : Token} {e : ASTNode F} (h : p.tokens[p.current]? = some t)
    (ht : t.Typ = TokenType.PAREN_LEFT) (he : E p.next = Except.ok (e, p2))
    (h2 : p2.tokens[p2.current]? = some t2) (ht2 : t2.Typ ≠ TokenType.PAREN_RIGHT) :
    Parser.primary E p = Except.error (Fault.panic "Expect ')' after expression.") := by
  simp [Parser.primary, Parser.matchTypes_one h, ht, he,
    Parser.consume_missing h2 TokenType.PAREN_RIGHT ht2, bind, Except.bind]

theorem Parser.primary_call_missing (E : Parser → Run (ASTNode F × Parser)) (p p3 : Parser)
    {t t1 t2 t3 : Token} {arguments : List (ASTNode F)}
    (h : p.tokens[p.current]? = some t) (ht : t.Typ = TokenType.FUNCTION)
    (h1 : p.next.tokens[p.next.current]? = some t1) (ht1 : t1.Typ = TokenType.PAREN_LEFT)
    (h2 : p.next.next.tokens[p.next.next.current]? = some t2)
    (ht2 : t2.Typ ≠ TokenType.PAREN_RIGHT)
    (hargs : Parser.listLoop E p.next.next.budget [] p.next.next
      = Except.ok (arguments, p3))
    (h3 : p3.tokens[p3.current]? = some t3) (ht3 : t3.Typ ≠ TokenType.PAREN_RIGHT) :
    Parser.primary E p
      = Except.error (Fault.panic "Expect ')' after arguments to function.") := by
  simp [Parser.primary, Parser.matchTypes_one h, ht, Parser.previous_next h,
    Parser.consume_found h1 TokenType.PAREN_LEFT ht1, Parser.check_eq h2, ht2, hargs,
    Parser.consume_missing h3 TokenType.PAREN_RIGHT ht3, bind, Except.bind, pure,
    Except.pure]

theorem Parser.primary_array_missing (E : Parser → Run (ASTNode F × Parser)) (p p3 : Parser)
    {t t1 t2 t3 : Token} {elements : List (ASTNode F)}
    (h : p.tokens[p.current]? = some t) (ht : t.Typ = TokenType.ARRAY)
    (h1 : p.next.tokens[p.next.current]? = some t1) (ht1 : t1.Typ = TokenType.ARRAY_START)
    (h2 : p.next.next.tokens[p.next.next.current]? = some t2)
    (ht2 : t2.Typ ≠ TokenType.ARRAY_END)
    (helems : Parser.listLoop E p.next.next.budget [] p.next.next
      = Except.ok (elements, p3))
    (h3 : p3.tokens[p3.current]? = some t3) (ht3 : t3.Typ ≠ TokenType.ARRAY_END) :
    Parser.primary E p
      = Except.error (Fault.panic "Expect ']' after elements to array.") := by
  simp [Parser.primary, Parser.matchTypes_one h, ht, Parser.previous_next h,
    Parser.consume_found h1 TokenType.ARRAY_START ht1, Parser.check_eq h2, ht2, helems,
    Parser.consume_missing h3 TokenType.ARRAY_END ht3, bind, Except.bind, pure,
    Except.pure]

theorem Parser.atLevel_fault_down (E : Parser → Run (ASTNode F × Parser)) (p : Parser)
    {f : Fault} :
    ∀ (d i : Nat), i + d ≤ 7 → Parser.atLevel E (i + d) p = Except.error f →
      Parser.atLevel E i p = Except.error f := by
  intro d
  induction d with
  | zero => intro i _ h; simpa using h
  | succ d ih =>
    intro i hi h
    have h' : Parser.atLevel E (i + 1 + d) p = Except.error f := by
      rw [show i + 1 + d = i + (d + 1) by omega]; exact h
    rw [Parser.atLevel_succ E (show i < 7 by omega)]
    exact Parser.binaryLevel_fault (ih (i + 1) (by omega) h')

theorem Parser.atLevel_primary_fault (E : Parser → Run (ASTNode F × Parser)) {p : Parser}
    {f : Fault} (h : Parser.primary E p = Except.error f) (i : Nat) (hi : i ≤ 7) :
    Parser.atLevel E i p = Except.error f := by
  have h7 : Parser.atLevel E 7 p = Except.error f := by
    show Parser.functions E p.budget p = _
    simp [Parser.budget, Parser.functions, h, bind, Except.bind]
  have := Parser.atLevel_fault_down E p (7 - i) i (by omega)
    (by rw [show i + (7 - i) = 7 by omega]; exact h7)
  exact this

theorem Parser.Parse_eq_atLevel (p : Parser) :
    Parser.Parse (F := F) p
      = (Parser.atLevel (Parser.expression p.tokens.length) 0 p).map Prod.fst := by
  show _ = (Parser.expression (F := F) (p.tokens.length + 1) p).map Prod.fst
  simp only [Parser.Parse, Parser.budget, bind, Except.bind, pure, Except.pure]
  cases Parser.expression (F := F) (p.tokens.length + 1) p <;> rfl

end FaultLemmas

/-! ## C22, C23, C30: the registry and the context -/

section RegistryLemmas

variable {F : Type} [Float64 F]

theorem ASTNode.EvaluateAll_of_forall₂ (reg : Bif F) (h : Host F) (ctx : Context F)
    (nodes : List (ASTNode F)) (vals : List (Value F))
    (hall : List.Forall₂ (fun a v => a.Evaluate reg h ctx = Except.ok (v, none)) nodes vals) :
    ASTNode.EvaluateAll reg h ctx nodes = Except.ok (vals, none) := by
  induction hall with
  | nil => simp [ASTNode.EvaluateAll, pure, Except.pure]
  | cons hv _ ih =>
    simp [ASTNode.EvaluateAll, hv, ih, bind, Except.bind, pure, Except.pure]

theorem ASTNode.Evaluate_call {reg : Bif F} {h : Host F} {ctx : Context F} {name : String}
    {f : bifFunc F} {arguments : List (ASTNode F)} {vals : List (Value F)}
    (hreg : reg name = some f)
    (hall : List.Forall₂ (fun a v => a.Evaluate reg h ctx = Except.ok (v, none))
      arguments vals) :
    (ASTNode.FunctionCallNode name arguments).Evaluate reg h ctx = f h ctx vals := by
  simp [ASTNode.Evaluate, ASTNode.EvaluateAll_of_forall₂ reg h ctx arguments vals hall, hreg,
    bind, Except.bind]

theorem applyBinary_operator (h : Host F) (ctx : Context F) (l r : Value F)
    (library : String → bifFunc F) {op : TokenType} {name : String}
    (hp : (op, name) ∈ operatorBuiltins) :
    ∃ f, init library name = some f ∧ applyBinary h ctx l op r = f h ctx [l, r] := by
  simp only [operatorBuiltins, List.mem_cons, Prod.mk.injEq, List.mem_singleton,
    List.not_mem_nil, or_false] at hp
  rcases hp with ⟨rfl, rfl⟩ | ⟨rfl, rfl⟩ | ⟨rfl, rfl⟩ | ⟨rfl, rfl⟩ | ⟨rfl, rfl⟩ | ⟨rfl, rfl⟩
    | ⟨rfl, rfl⟩
  · exact ⟨Bif.Add, rfl, rfl⟩
  · exact ⟨Bif.Sub, rfl, rfl⟩
  · exact ⟨Bif.Mul, rfl, rfl⟩
  · exact ⟨Bif.Div, rfl, rfl⟩
  · exact ⟨Bif.DivInt, rfl, rfl⟩
  · exact ⟨Bif.Mod, rfl, rfl⟩
  · exact ⟨Bif.Exp, rfl, rfl⟩

theorem Parser.primary_default (E : Parser → Run (ASTNode F × Parser)) {p : Parser}
    {t : Token} (h : p.tokens[p.current]? = some t) (ht : beginsPrimary t.Typ = false) :
    Parser.primary E p = Except.ok (ASTNode.IntLiteralNode 0, p) := by
  have h1 : t.Typ ≠ TokenType.INT := by intro e; rw [e] at ht; cases ht
  have h2 : t.Typ ≠ TokenType.FLOAT := by intro e; rw [e] at ht; cases ht
  have h3 : t.Typ ≠ TokenType.STRING := by intro e; rw [e] at ht; cases ht
  have h4 : t.Typ ≠ TokenType.BOOL := by intro e; rw [e] at ht; cases ht
  have h5 : t.Typ ≠ TokenType.VARIABLE := by intro e; rw [e] at ht; cases ht
  have h6 : t.Typ ≠ TokenType.PAREN_LEFT := by intro e; rw [e] at ht; cases ht
  have h7 : t.Typ ≠ TokenType.FUNCTION := by intro e; rw [e] at ht; cases ht
  have h8 : t.Typ ≠ TokenType.ARRAY := by intro e; rw [e] at ht; cases ht
  simp [Parser.primary, Parser.matchTypes_one h, h1, h2, h3, h4, h5, h6, h7, h8, bind,
    Except.bind, pure, Except.pure]

theorem Parser.Parse_default {toks : List Token} {t : Token} (h : toks[0]? = some t)
    (ht : beginsPrimary t.Typ = false) (hc : continues t.Typ = false) :
    Parser.Parse (F := F) { tokens := toks, current := 0 }
      = Except.ok (ASTNode.IntLiteralNode 0) := by
  obtain ⟨e3, x3, f3⟩ := continues_false hc
  have hp := Parser.primary_default (F := F) (Parser.expression toks.length)
    (p := { tokens := toks, current := 0 }) h ht
  have h0 := Parser.atLevel_primary (Parser.expression toks.length) hp (t := t) h ⟨x3, f3⟩ 0
    (by omega) (fun k _ => by rw [e3]; simp)
  exact Parser.Parse_of_atLevel h0

end RegistryLemmas

section DrainLemmas

theorem drainLoop_extends (n : Nat) :
    ∀ (l : Lexer) (acc toks : List Token), drainLoop n l acc = Except.ok toks →
      ∃ more, toks = acc ++ more ∧ more ≠ [] := by
  induction n with
  | zero => intro l acc toks h; simp [drainLoop, throw, throwThe, MonadExceptOf.throw] at h
  | succ n ih =>
    intro l acc toks h
    cases hn : l.NextToken with
    | error f => simp [drainLoop, hn, bind, Except.bind] at h
    | ok r =>
      obtain ⟨tok, l1⟩ := r
      by_cases he : tok.Typ = TokenType.EOF
      · rw [drainLoop_eof hn he] at h
        cases h
        exact ⟨[tok], rfl, by simp⟩
      · rw [drainLoop_step hn he] at h
        obtain ⟨more, hm, _⟩ := ih l1 (acc ++ [tok]) toks h
        exact ⟨tok :: more, by rw [hm]; simp, by simp⟩

theorem lexAll_head {l l1 : Lexer} {tok : Token} {toks : List Token}
    (hn : l.NextToken = Except.ok (tok, l1)) (h : lexAll l = Except.ok toks) :
    toks[0]? = some tok := by
  unfold lexAll at h
  have hb : l.budget = l.input.length + 1 + 1 := rfl
  rw [hb] at h
  by_cases he : tok.Typ = TokenType.EOF
  · rw [drainLoop_eof hn he] at h
    cases h
    rfl
  · rw [drainLoop_step hn he] at h
    obtain ⟨more, hm, _⟩ := drainLoop_extends _ _ _ _ h
    rw [hm]; simp

theorem Lexer.NextToken_illegal (pre : List Char) (c : Char) (suf : List Char)
    (hc : illegalChar c = true) :
    (Lexer.view pre (c :: suf)).NextToken
      = Except.ok ({ Typ := TokenType.ILLEGAL, Literal := String.mk [c] },
          Lexer.view (pre ++ [c]) suf) := by
  simp only [illegalChar, Bool.and_eq_true, Bool.not_eq_true', Bool.or_eq_false_iff] at hc
  obtain ⟨⟨⟨hws, hsp⟩, hl⟩, hd⟩ := hc
  obtain ⟨⟨⟨⟨⟨⟨⟨⟨⟨⟨⟨⟨⟨⟨⟨⟨⟨⟨⟨⟨h1, h2⟩, h3⟩, h4⟩, h5⟩, h6⟩, h7⟩, h8⟩, h9⟩, h10⟩, h11⟩, h12⟩, h13⟩,
    h14⟩, h15⟩, h16⟩, h17⟩, h18⟩, h19⟩, h20⟩, h21⟩ := hsp
  obtain ⟨⟨⟨w1, w2⟩, w3⟩, w4⟩ := hws
  unfold Lexer.NextToken
  rw [Lexer.skipWhitespace_id _ (by rw [Lexer.view_ch, List.headD_cons]; simp [w1, w2, w3, w4])]
  simp [bind, Except.bind, Lexer.view_ch, Lexer.view_readChar, newToken, pure, Except.pure,
    h1, h2, h3, h4, h5, h6, h7, h8, h9, h10, h11, h12, h13, h14, h15, h16, h17, h18, h19, h20,
    h21, hl, hd]

end DrainLemmas

set_option maxRecDepth 100000 in
/-- C22. After `RegisterFunction(name, f)` a call node of that name, whose
arguments evaluate to the values `vals` with no error, returns exactly
`f(ctx, vals...)`, whether or not the name had an entry before; the entry of
every other name is unchanged.  With `count` registered as the function that
returns the number of its arguments, the source `count(7, 8, 9)` evaluates to 3
and `add(1, 2)` still to 3; with `add` replaced by the constant 0, `add(1, 2)`
evaluates to 0. -/
theorem register_function_frame :
    (∀ (F : Type) [Float64 F] (reg : Bif F) (name : String) (f : bifFunc F) (h : Host F)
      (ctx : Context F) (arguments : List (ASTNode F)) (vals : List (Value F)),
      List.Forall₂
        (fun a v => a.Evaluate (RegisterFunction reg name f) h ctx = Except.ok (v, none))
        arguments vals →
      (ASTNode.FunctionCallNode name arguments).Evaluate (RegisterFunction reg name f) h ctx
        = f h ctx vals)
    ∧ (∀ (F : Type) (reg : Bif F) (name : String) (f : bifFunc F) (other : String),
      other ≠ name → RegisterFunction reg name f other = reg other)
    ∧ (∀ (F : Type) [Float64 F] (library : String → bifFunc F) (n : Nat) (ctx : Context F),
      Evaluate
          (RegisterFunction (init library) "count"
            (fun _ _ args => ok (Value.int args.length)))
          (n + 1) ctx "count(7, 8, 9)"
        = Except.ok (Value.int 3, none)
      ∧ Evaluate
          (RegisterFunction (init library) "count"
            (fun _ _ args => ok (Value.int args.length)))
          (n + 1) ctx "add(1, 2)"
        = Except.ok (Value.int 3, none)
      ∧ Evaluate (RegisterFunction (init library) "add" (fun _ _ _ => ok (Value.int 0)))
          (n + 1) ctx "add(1, 2)"
        = Except.ok (Value.int 0, none)) := by
  refine ⟨?_, ?_, ?_⟩
  · intro F _ reg name f h ctx arguments vals hall
    exact ASTNode.Evaluate_call (by simp [RegisterFunction]) hall
  · intro F reg name f other hne
    simp [RegisterFunction, hne]
  · intro F _ library n ctx
    exact ⟨rfl, rfl, rfl⟩

/-- With `one` registered over the empty registry as the constant 1, the call
`one(5)` returns 1. -/
theorem register_function_frame_witness :
    (ASTNode.FunctionCallNode "one" [ASTNode.IntLiteralNode 5]).Evaluate
        (RegisterFunction (fun _ => none) "one" (fun _ _ _ => ok (Value.int 1)))
        (hostAt (fun _ => none) 0) (⟨none⟩ : Context Exact)
      = Except.ok (Value.int 1, none) :=
  register_function_frame.1 Exact (fun _ => none) "one" (fun _ _ _ => ok (Value.int 1))
    (hostAt (fun _ => none) 0) ⟨none⟩ [ASTNode.IntLiteralNode 5] [Value.int 5]
    (List.Forall₂.cons rfl List.Forall₂.nil)

set_option maxRecDepth 100000 in
/-- C23. `SetVariables` replaces the mapping: under
`SetVariables(SetVariables(ctx, m1), m2)` every lookup of a variable and every
evaluation of a node gives what it gives under `SetVariables(ctx, m2)`, and a
dotted name with no path in `m2` is reported as not defined whatever `m1` holds.
With `m1 = {a: {b: 5}}` and `m2 = {c: 1}` the source `a.b` fails while `c`
evaluates to 1. -/
theorem set_variables_replaces :
    (∀ (F : Type) [Float64 F] (ctx : Context F) (m1 m2 : List (String × Value F))
      (name : String),
      VariableNode.lookup (SetVariables (SetVariables ctx m1) m2) name
        = VariableNode.lookup (SetVariables ctx m2) name)
    ∧ (∀ (F : Type) [Float64 F] (reg : Bif F) (h : Host F) (ctx : Context F)
      (m1 m2 : List (String × Value F)) (node : ASTNode F),
      node.Evaluate reg h (SetVariables (SetVariables ctx m1) m2)
        = node.Evaluate reg h (SetVariables ctx m2))
    ∧ (∀ (F : Type) [Float64 F] (reg : Bif F) (h : Host F) (ctx : Context F)
      (m1 m2 : List (String × Value F)) (k0 : String) (ks : List String), ks ≠ [] →
      (∀ s ∈ k0 :: ks, '.' ∉ s.data) →
      (¬ ∃ x v, mapGet m2 k0 = some x ∧ Resolves x ks v) →
      (ASTNode.VariableNode (dottedName k0 ks)).Evaluate reg h
          (SetVariables (SetVariables ctx m1) m2)
        = Except.ok (Value.nil,
            some (Error.text ("variable " ++ dottedName k0 ks ++ " not defined"))))
    ∧ (∀ (F : Type) [Float64 F] (library : String → bifFunc F) (n : Nat) (ctx : Context F),
      Evaluate (init library) (n + 1)
          (SetVariables (SetVariables ctx [("a", Value.map [("b", Value.int 5)])])
            [("c", Value.int 1)]) "a.b"
        = Except.ok (Value.nil, some (Error.text "variable a.b not defined"))
      ∧ Evaluate (init library) (n + 1)
          (SetVariables (SetVariables ctx [("a", Value.map [("b", Value.int 5)])])
            [("c", Value.int 1)]) "c"
        = Except.ok (Value.int 1, none)) := by
  refine ⟨?_, ?_, ?_, ?_⟩
  · intro F _ ctx m1 m2 name
    rfl
  · intro F _ reg h ctx m1 m2 node
    rfl
  · intro F _ reg h ctx m1 m2 k0 ks hks hdot hno
    obtain ⟨k, ks, rfl⟩ : ∃ k t, ks = k :: t := by
      cases ks with
      | nil => exact absurd rfl hks
      | cons k t => exact ⟨k, t, rfl⟩
    have hl : VariableNode.lookup (SetVariables (SetVariables ctx m1) m2)
        (dottedName k0 (k :: ks)) = _ := VariableNode.lookup_dotted m2 k0 k ks hdot
    cases hm : mapGet m2 k0 with
    | none =>
      rw [hm] at hl
      simp [ASTNode.Evaluate, hl, fail, pure, Except.pure]
    | some x =>
      rw [hm] at hl
      have hf := lookupParts_false x (k :: ks) (fun ⟨v, hv⟩ => hno ⟨x, v, hm, hv⟩)
      simp [ASTNode.Evaluate, hl, hf, fail, pure, Except.pure]
  · intro F _ library n ctx
    exact ⟨rfl, rfl⟩

/-- The name `a.b` resolves in `{a: {b: 5}}` but not in `{c: 1}`: under the two
nested contexts its node fails. -/
theorem set_variables_replaces_witness :
    (ASTNode.VariableNode (dottedName "a" ["b"])).Evaluate (fun _ => none)
        (hostAt (fun _ => none) 0)
        (SetVariables (SetVariables (⟨none⟩ : Context Exact)
          [("a", Value.map [("b", Value.int 5)])]) [("c", Value.int 1)])
      = Except.ok (Value.nil,
          some (Error.text ("variable " ++ dottedName "a" ["b"] ++ " not defined"))) :=
  set_variables_replaces.2.2.1 Exact (fun _ => none) (hostAt (fun _ => none) 0) ⟨none⟩
    [("a", Value.map [("b", Value.int 5)])] [("c", Value.int 1)] "a" ["b"] (by simp)
    (by decide) (by rintro ⟨x, v, hx, _⟩; cases hx)

set_option maxRecDepth 100000 in
/-- After `RegisterFunction` has replaced the entry `add` by the constant 0, the
source `1 + 2` still evaluates to 3 while the call `add(1, 2)` evaluates
to 0. -/
theorem plus_ignores_registered_add :
    Evaluate
        (RegisterFunction (init (fun _ _ _ _ => throw Fault.fuel)) "add"
          (fun _ _ _ => ok (Value.int 0)))
        1 (⟨none⟩ : Context Exact) "1 + 2"
      = Except.ok (Value.int 3, none)
    ∧ Evaluate
        (RegisterFunction (init (fun _ _ _ _ => throw Fault.fuel)) "add"
          (fun _ _ _ => ok (Value.int 0)))
        1 (⟨none⟩ : Context Exact) "add(1, 2)"
      = Except.ok (Value.int 0, none) :=
  ⟨rfl, rfl⟩

/-- C30, as the code has it.  The arithmetic operators call the builtin
methods and not the registry table: in every registry state, for operands that
evaluate to `l` and `r`, the node of `+`, `-`, `*`, `/`, `//`, `%`, `**`
returns what the entry of the initial registry under add, sub, mul, div,
divint, mod, exp returns on `(l, r)`; the explicit call of a name that
`RegisterFunction` has set to `f` returns `f(l, r)`. -/
theorem operators_call_builtin_methods :
    (∀ (F : Type) [Float64 F] (library : String → bifFunc F) (reg : Bif F) (h : Host F)
      (ctx : Context F) (left right : ASTNode F) (l r : Value F) (op : TokenType)
      (name : String), left.Evaluate reg h ctx = Except.ok (l, none) →
      right.Evaluate reg h ctx = Except.ok (r, none) → (op, name) ∈ operatorBuiltins →
      ∃ f0, init library name = some f0
        ∧ (ASTNode.BinaryOperationNode left op right).Evaluate reg h ctx = f0 h ctx [l, r])
    ∧ (∀ (F : Type) [Float64 F] (reg : Bif F) (h : Host F) (ctx : Context F)
      (left right : ASTNode F) (l r : Value F) (name : String) (f : bifFunc F),
      left.Evaluate (RegisterFunction reg name f) h ctx = Except.ok (l, none) →
      right.Evaluate (RegisterFunction reg name f) h ctx = Except.ok (r, none) →
      (ASTNode.FunctionCallNode name [left, right]).Evaluate (RegisterFunction reg name f)
          h ctx
        = f h ctx [l, r]) := by
  refine ⟨?_, ?_⟩
  · intro F _ library reg h ctx left right l r op name hl hr hp
    rw [ASTNode.Evaluate_binary hl hr]
    exact applyBinary_operator h ctx l r library hp
  · intro F _ reg h ctx left right l r name f hl hr
    exact ASTNode.Evaluate_call (by simp [RegisterFunction])
      (List.Forall₂.cons hl (List.Forall₂.cons hr List.Forall₂.nil))

/-- Under a registry whose `add` is the constant 0, the node of `1 + 2` returns
what the initial entry `add` returns on `(1, 2)`. -/
theorem operators_call_builtin_methods_witness :
    ∃ f0, init (fun _ _ _ _ => throw Fault.fuel) "add" = some f0
      ∧ (ASTNode.BinaryOperationNode (ASTNode.IntLiteralNode 1) TokenType.PLUS
          (ASTNode.IntLiteralNode 2)).Evaluate
          (RegisterFunction (init (fun _ _ _ _ => throw Fault.fuel)) "add"
            (fun _ _ _ => ok (Value.int 0)))
          (hostAt (fun _ => none) 0) (⟨none⟩ : Context Exact)
        = f0 (hostAt (fun _ => none) 0) ⟨none⟩ [Value.int 1, Value.int 2] :=
  operators_call_builtin_methods.1 Exact (fun _ _ _ _ => throw Fault.fuel)
    (RegisterFunction (init (fun _ _ _ _ => throw Fault.fuel)) "add"
      (fun _ _ _ => ok (Value.int 0)))
    (hostAt (fun _ => none) 0) ⟨none⟩ (ASTNode.IntLiteralNode 1) (ASTNode.IntLiteralNode 2)
    (Value.int 1) (Value.int 2) TokenType.PLUS "add" rfl rfl (by simp [operatorBuiltins])

/-! ## C24 and C25: `Exp` and the templates -/

section ExpLemmas

variable {F : Type}

theorem mapGet_filter_ne (d : List (String × Value F)) (k key : String) (h : k ≠ key) :
    mapGet (d.filter (fun kv => decide (kv.1 ≠ k))) key = mapGet d key := by
  induction d with
  | nil => rfl
  | cons kv rest ih =>
    obtain ⟨a, b⟩ := kv
    simp only [decide_not] at ih ⊢
    by_cases ha : a = k
    · subst ha
      simp [List.filter, mapGet, h, ih]
    · simp [List.filter, mapGet, ha, ih]

theorem mapGet_mapSet (d : List (String × Value F)) (k key : String) (v : Value F) :
    mapGet (mapSet d k v) key = if k = key then some v else mapGet d key := by
  by_cases h : k = key
  · simp [mapSet, mapGet, h]
  · have := mapGet_filter_ne d k key h
    simp only [decide_not] at this
    simp [mapSet, mapGet, h, this]

theorem lastBinding_cons (p : String × Value F) (ps : List (String × Value F))
    (key : String) :
    lastBinding (p :: ps) key
      = match lastBinding ps key with
        | some v => some v
        | none => if p.1 = key then some p.2 else none := by
  simp only [lastBinding, List.reverse_cons, List.find?_append]
  cases h : ps.reverse.find? (fun kv => decide (kv.1 = key)) with
  | some x => simp
  | none =>
    by_cases hp : p.1 = key
    · simp [List.find?, hp]
    · simp [List.find?, hp]

theorem mapGet_foldl_mapSet (pairs : List (String × Value F)) :
    ∀ (d : List (String × Value F)) (key : String),
      mapGet (pairs.foldl (fun acc kv => mapSet acc kv.1 kv.2) d) key
        = match lastBinding pairs key with
          | some v => some v
          | none => mapGet d key := by
  induction pairs with
  | nil => intro d key; simp [lastBinding]
  | cons p ps ih =>
    intro d key
    rw [List.foldl_cons, ih, lastBinding_cons, mapGet_mapSet]
    cases lastBinding ps key with
    | some v => rfl
    | none =>
      by_cases hp : p.1 = key
      · simp [hp]
      · simp [hp]

end ExpLemmas

section ExpLoop

variable {F : Type}

theorem Exp.dictLoop_pairs (pairs : List (String × Value F)) :
    ∀ (tail : List (Value F)) (d : List (String × Value F)),
      Exp.dictLoop (dictParams pairs ++ tail) d
        = Exp.dictLoop tail (pairs.foldl (fun acc kv => mapSet acc kv.1 kv.2) d) := by
  induction pairs with
  | nil => intro tail d; rfl
  | cons p ps ih =>
    intro tail d
    obtain ⟨k, v⟩ := p
    simp only [dictParams, List.cons_append, Exp.dictLoop, List.foldl_cons]
    exact ih tail _

theorem dictParams_length (pairs : List (String × Value F)) :
    (dictParams pairs).length = 2 * pairs.length := by
  induction pairs with
  | nil => rfl
  | cons p ps ih =>
    obtain ⟨k, v⟩ := p
    simp only [dictParams, List.length_cons, ih]
    omega

end ExpLoop

set_option maxRecDepth 100000 in
/-- C24. `Exp(expr, params...)`, for every registry, every expression string
and every nesting budget (also the budget 0, under which nothing is evaluated):
with an odd number of parameters it returns `false` and the error
`invalid dict call`; with an even number of parameters of which one at an even
index is no string (the first such after the pairs `pairs`) it returns `false`
and the error `dict keys must be strings`; with the parameters
`k1, v1, ..., kn, vn` of string keys it returns what `EvaluateBool` returns for
the expression under a mapping that gives every key the value of its last pair.
`EvaluateBool` returns the error of `Evaluate` if there is one, the boolean
result if the result is a boolean, and the error `non-boolean result`
otherwise.  For every int `i`, `Exp("foo == 5", "foo", i)` returns `i = 5` with
no error. -/
theorem exp_checks_params :
    (∀ (F : Type) [Float64 F] (reg : Bif F) (n : Nat) (expr : String)
      (params : List (Value F)), params.length % 2 = 1 →
      Exp reg n expr params = Except.ok (false, some (Error.text "invalid dict call")))
    ∧ (∀ (F : Type) [Float64 F] (reg : Bif F) (n : Nat) (expr : String)
      (pairs : List (String × Value F)) (k v : Value F) (rest : List (Value F)),
      (∀ s, k ≠ Value.str s) → rest.length % 2 = 0 →
      Exp reg n expr (dictParams pairs ++ k :: v :: rest)
        = Except.ok (false, some (Error.text "dict keys must be strings")))
    ∧ (∀ (F : Type) [Float64 F] (reg : Bif F) (n : Nat) (expr : String)
      (pairs : List (String × Value F)),
      ∃ dict, (∀ key, mapGet dict key = lastBinding pairs key)
        ∧ Exp reg n expr (dictParams pairs) = EvaluateBool reg n ⟨some dict⟩ expr)
    ∧ (∀ (F : Type) [Float64 F] (reg : Bif F) (n : Nat) (ctx : Context F) (expr : String)
      (v : Value F),
      (∀ e, Evaluate reg n ctx expr = Except.ok (v, some e) →
        EvaluateBool reg n ctx expr = Except.ok (false, some e))
      ∧ (∀ x, v = Value.bool x → Evaluate reg n ctx expr = Except.ok (v, none) →
        EvaluateBool reg n ctx expr = Except.ok (x, none))
      ∧ ((∀ x, v ≠ Value.bool x) → Evaluate reg n ctx expr = Except.ok (v, none) →
        EvaluateBool reg n ctx expr
          = Except.ok (false, some (Error.text "non-boolean result"))))
    ∧ (∀ (F : Type) [Float64 F] (library : String → bifFunc F) (n : Nat) (i : Int),
      Exp (init library) (n + 1) "foo == 5" [Value.str "foo", Value.int i]
        = Except.ok (decide (i = 5), none)) := by
  refine ⟨?_, ?_, ?_, ?_, ?_⟩
  · intro F _ reg n expr params hodd
    have hpos : params.length > 0 ∧ params.length % 2 ≠ 0 := by omega
    simp [Exp, hpos]
    rfl
  · intro F _ reg n expr pairs k v rest hk hrest
    have hlen : ¬ ((dictParams pairs ++ k :: v :: rest).length > 0
        ∧ (dictParams pairs ++ k :: v :: rest).length % 2 ≠ 0) := by
      simp only [List.length_append, dictParams_length, List.length_cons]
      omega
    have hloop : Exp.dictLoop (k :: v :: rest)
        (pairs.foldl (fun acc kv => mapSet acc kv.1 kv.2) []) = Except.ok none := by
      cases k with
      | str s => exact absurd rfl (hk s)
      | _ => rfl
    simp only [Exp, if_neg hlen, Exp.dictLoop_pairs, hloop, bind, Except.bind]
    rfl
  · intro F _ reg n expr pairs
    refine ⟨pairs.foldl (fun acc kv => mapSet acc kv.1 kv.2) [], ?_, ?_⟩
    · intro key
      rw [mapGet_foldl_mapSet]
      cases lastBinding pairs key <;> rfl
    · have hlen : ¬ ((dictParams pairs).length > 0 ∧ (dictParams pairs).length % 2 ≠ 0) := by
        rw [dictParams_length]
        omega
      have hloop := Exp.dictLoop_pairs pairs [] ([] : List (String × Value F))
      rw [List.append_nil] at hloop
      simp only [Exp, if_neg hlen, hloop, Exp.dictLoop, bind, Except.bind, pure, Except.pure]
      rfl
  · intro F _ reg n ctx expr v
    refine ⟨?_, ?_, ?_⟩
    · intro e he
      simp [EvaluateBool, he, bind, Except.bind, pure, Except.pure]
    · intro x hx he
      subst hx
      simp [EvaluateBool, he, bind, Except.bind, pure, Except.pure]
    · intro hv he
      cases v with
      | bool x => exact absurd rfl (hv x)
      | _ => simp [EvaluateBool, he, bind, Except.bind, pure, Except.pure]
  · intro F _ library n i
    with_unfolding_all rfl

/-- Three parameters are rejected before anything is evaluated. -/
theorem exp_checks_params_witness :
    Exp (fun _ => none) 0 "foo == 5"
        [Value.str "foo", Value.int 5, (Value.str "bar" : Value Exact)]
      = Except.ok (false, some (Error.text "invalid dict call")) :=
  exp_checks_params.1 Exact (fun _ => none) 0 "foo == 5"
    [Value.str "foo", Value.int 5, Value.str "bar"] rfl

set_option maxRecDepth 100000 in
/-- C25. The template of a binary node is `<keyword> <left> <right>`, where an
operand that is a binary node itself stands in parentheses; the template of a
logical node is `<keyword> ( <left> ) ( <right> )`; the keyword of `&&`, `||`,
`==`, `!=`, `<`, `>`, `<=`, `>=`, `+`, `-`, `*`, `/`, `%` is and, or, eq, ne, lt,
gt, le, ge, add, sub, mul, div, mod.  `ToGoTemplate` gives `eq .a 5` for
`a == 5`, `add .a (mul .b .c)` for `a + b * c` and
`and ( lt .a 1 ) ( .b )` for `a < 1 && b`. -/
theorem template_operator_table :
    (∀ (F : Type) [Float64 F] (left right : ASTNode F) (op : TokenType),
      (ASTNode.BinaryOperationNode left op right).GoTemplate
        = TokenGoTemplate op ++ " " ++ templateOperand left ++ " " ++ templateOperand right)
    ∧ (∀ (F : Type) [Float64 F] (left right : ASTNode F) (op : TokenType),
      (ASTNode.LogicalOperationNode left op right).GoTemplate
        = TokenGoTemplate op ++ " ( " ++ left.GoTemplate ++ " ) ( " ++ right.GoTemplate
          ++ " )")
    ∧ (∀ (op : TokenType) (keyword : String), (op, keyword) ∈ templateKeywords →
      TokenGoTemplate op = keyword)
    ∧ (∀ (F : Type) [Float64 F],
      ToGoTemplate F "a == 5" = Except.ok "eq .a 5"
      ∧ ToGoTemplate F "a + b * c" = Except.ok "add .a (mul .b .c)"
      ∧ ToGoTemplate F "a < 1 && b" = Except.ok "and ( lt .a 1 ) ( .b )") := by
  refine ⟨?_, ?_, ?_, ?_⟩
  · intro F _ left right op
    cases left <;> cases right <;>
      simp [ASTNode.GoTemplate, templateOperand, ASTNode.isBinaryOperationNode,
        String.append_assoc]
  · intro F _ left right op
    simp [ASTNode.GoTemplate]
  · intro op keyword h
    simp only [templateKeywords, List.mem_cons, Prod.mk.injEq, List.mem_singleton,
      List.not_mem_nil, or_false] at h
    rcases h with ⟨rfl, rfl⟩ | ⟨rfl, rfl⟩ | ⟨rfl, rfl⟩ | ⟨rfl, rfl⟩ | ⟨rfl, rfl⟩ | ⟨rfl, rfl⟩
      | ⟨rfl, rfl⟩ | ⟨rfl, rfl⟩ | ⟨rfl, rfl⟩ | ⟨rfl, rfl⟩ | ⟨rfl, rfl⟩ | ⟨rfl, rfl⟩
      | ⟨rfl, rfl⟩ <;> rfl
  · intro F _
    refine ⟨?_, ?_, ?_⟩ <;> with_unfolding_all rfl

/-- The keyword of `<=` is `le`. -/
theorem template_operator_table_witness :
    TokenGoTemplate TokenType.LESS_THAN_OR_EQUAL = "le" :=
  template_operator_table.2.2.1 TokenType.LESS_THAN_OR_EQUAL "le"
    (by simp [templateKeywords])

/-! ## C21: the lexer and the backtick -/

section BacktickLemmas

theorem Lexer.peekChar_eq_getD (l : Lexer) : l.peekChar = l.input.getD l.readPosition NUL := by
  unfold Lexer.peekChar
  split
  · rename_i h
    rw [List.getD_eq_default _ _ h]
  · rfl

/-- The loop of `readUntilBacktick` has no exit when no backtick lies at or
after the read position. -/
theorem Lexer.readUntilBacktickLoop_unclosed (fuel : Nat) :
    ∀ l : Lexer, (∀ i, l.readPosition ≤ i → (l.input.getD i NUL).toNat ≠ 96) →
      Lexer.readUntilBacktickLoop fuel l = Except.error Fault.fuel := by
  induction fuel with
  | zero => intro l _; rfl
  | succ n ih =>
    intro l h
    have hp : (l.peekChar.toNat == 96) = false := by
      rw [Lexer.peekChar_eq_getD, beq_eq_false_iff_ne]
      exact h _ (le_refl _)
    simp only [Lexer.readUntilBacktickLoop, hp, Bool.false_eq_true, if_false]
    exact ih l.readChar (fun i hi => h i (by
      have : l.readChar.readPosition = l.readPosition + 1 := rfl
      omega))

theorem Lexer.view_unclosed (c : Char) (rest : List Char) (h : ∀ x ∈ rest, x.toNat ≠ 96) :
    ∀ i, (Lexer.view [] (c :: rest)).readPosition ≤ i →
      ((Lexer.view [] (c :: rest)).input.getD i NUL).toNat ≠ 96 := by
  intro i hi
  have hr : (Lexer.view [] (c :: rest)).readPosition = 1 := rfl
  have hin : (Lexer.view [] (c :: rest)).input = c :: rest := rfl
  rw [hr] at hi
  rw [hin]
  obtain ⟨j, rfl⟩ : ∃ j, i = j + 1 := ⟨i - 1, by omega⟩
  rw [List.getD_cons_succ]
  by_cases hj : j < rest.length
  · rw [List.getD_eq_getElem _ _ hj]
    exact h _ (List.getElem_mem _)
  · rw [List.getD_eq_default _ _ (by omega)]
    decide

/-- A backtick under the cursor sends `NextToken` into `readUntilBacktick`. -/
theorem Lexer.NextToken_backtick_fault (l : Lexer) (hc : l.ch = Char.ofNat 96) (f : Fault)
    (hf : l.readUntilBacktick = Except.error f) : l.NextToken = Except.error f := by
  unfold Lexer.NextToken
  rw [Lexer.skipWhitespace_id l (by rw [hc]; decide)]
  simp only [bind, Except.bind, hc, hf]
  rfl

theorem lexAll_unclosed_backtick (rest : List Char) (h : ∀ x ∈ rest, x.toNat ≠ 96) :
    lexAll (Lexer.view [] (Char.ofNat 96 :: rest)) = Except.error Fault.fuel := by
  have hloop := Lexer.readUntilBacktickLoop_unclosed
    (Lexer.view [] (Char.ofNat 96 :: rest)).budget _
    (Lexer.view_unclosed (Char.ofNat 96) rest h)
  have hread : (Lexer.view [] (Char.ofNat 96 :: rest)).readUntilBacktick
      = Except.error Fault.fuel := by
    simp only [Lexer.readUntilBacktick, hloop, bind, Except.bind]
  have hn := Lexer.NextToken_backtick_fault _
    (by rw [Lexer.view_ch]; rfl) Fault.fuel hread
  unfold lexAll
  have hb : (Lexer.view [] (Char.ofNat 96 :: rest)).budget
      = (Lexer.view [] (Char.ofNat 96 :: rest)).input.length + 1 + 1 := rfl
  rw [hb]
  simp only [drainLoop, hn, bind, Except.bind]

end BacktickLemmas

set_option maxRecDepth 100000 in
/-- C21. An input that starts with a backtick and holds no second one: the loop
of `readUntilBacktick` has no exit, for every number of iterations that it is
given, so the first call of `NextToken` yields no token, the drain loop of
`NewParser` yields no token sequence and `Evaluate` does not return.  With the
closing backtick the lexer returns: the source of a backtick, `a` and a backtick
lexes to a token without a kind and EOF. -/
theorem unclosed_backtick_never_ends :
    (∀ (s : String), (∀ c ∈ s.data, c.toNat ≠ 96) → ∀ fuel : Nat,
      Lexer.readUntilBacktickLoop fuel (NewLexer ("`" ++ s)) = Except.error Fault.fuel)
    ∧ (∀ (s : String), (∀ c ∈ s.data, c.toNat ≠ 96) →
      lexAll (NewLexer ("`" ++ s)) = Except.error Fault.fuel)
    ∧ (∀ (F : Type) [Float64 F] (reg : Bif F) (n : Nat) (ctx : Context F) (s : String),
      (∀ c ∈ s.data, c.toNat ≠ 96) →
      Evaluate reg (n + 1) ctx ("`" ++ s) = Except.error Fault.fuel)
    ∧ lexAll (NewLexer "`a`") = Except.ok [⟨TokenType.UNSET, "a`"⟩, ⟨TokenType.EOF, ""⟩] := by
  have hd : ∀ s : String, ("`" ++ s).data = Char.ofNat 96 :: s.data := by
    intro s
    rw [String.data_append]
    rfl
  refine ⟨?_, ?_, ?_, ?_⟩
  · intro s hs fuel
    rw [NewLexer_eq_view, hd]
    exact Lexer.readUntilBacktickLoop_unclosed fuel _ (Lexer.view_unclosed _ _ hs)
  · intro s hs
    rw [NewLexer_eq_view, hd]
    exact lexAll_unclosed_backtick _ hs
  · intro F _ reg n ctx s hs
    have hl : lexAll (NewLexer ("`" ++ s)) = Except.error Fault.fuel := by
      rw [NewLexer_eq_view, hd]
      exact lexAll_unclosed_backtick _ hs
    show pipeline reg (hostAt reg n) ctx ("`" ++ s) = _
    simp only [pipeline, NewParser, hl, bind, Except.bind]
  · rfl

/-- The input of a backtick followed by `abc` never yields a token sequence. -/
theorem unclosed_backtick_never_ends_witness :
    lexAll (NewLexer ("`" ++ "abc")) = Except.error Fault.fuel :=
  unclosed_backtick_never_ends.2.1 "abc" (by decide)

/-! ## C26: string literals -/

section StringLemmas

theorem Lexer.readStringLoop_chars (s : List Char) :
    ∀ (pre : List Char) (x : Char) (rest : List Char) (fuel : Nat),
      (∀ c ∈ s, stringChar c = true) → stringChar (rest.headD NUL) = false →
      s.length < fuel →
      Lexer.readStringLoop fuel (Lexer.view pre (x :: (s ++ rest)))
        = Except.ok (Lexer.view (pre ++ x :: s) rest) := by
  induction s with
  | nil =>
    intro pre x rest fuel _ hend hf
    obtain ⟨n, rfl⟩ : ∃ n, fuel = n + 1 := ⟨fuel - 1, by simp at hf; omega⟩
    have hstop : ((rest.headD NUL).toNat == 34 || rest.headD NUL == NUL) = true := by
      unfold stringChar at hend
      rw [Bool.not_eq_false'] at hend
      exact hend
    simp only [List.nil_append, Lexer.readStringLoop, Lexer.view_readChar, Lexer.view_ch,
      hstop, if_true]
    rfl
  | cons c s ih =>
    intro pre x rest fuel hs hend hf
    obtain ⟨n, rfl⟩ : ∃ n, fuel = n + 1 := ⟨fuel - 1, by simp at hf; omega⟩
    have hc : (c.toNat == 34 || c == NUL) = false := by
      have := hs c (List.mem_cons_self _ _)
      unfold stringChar at this
      rw [Bool.not_eq_true'] at this
      exact this
    have := ih (pre ++ [x]) c rest n (fun y hy => hs y (List.mem_cons_of_mem _ hy)) hend
      (by simp at hf; omega)
    simp only [List.cons_append, Lexer.readStringLoop, Lexer.view_readChar, Lexer.view_ch,
      List.headD_cons, hc, Bool.false_eq_true, if_false, this, List.append_assoc,
      List.singleton_append, List.nil_append]

theorem Lexer.readString_chars (pre : List Char) (x : Char) (s rest : List Char)
    (hs : ∀ c ∈ s, stringChar c = true) (hend : stringChar (rest.headD NUL) = false) :
    (Lexer.view pre (x :: (s ++ rest))).readString
      = Except.ok (String.mk s, Lexer.view (pre ++ x :: s) rest) := by
  have hloop := Lexer.readStringLoop_chars s pre x rest
    (Lexer.view pre (x :: (s ++ rest))).budget hs hend
    (by simp [Lexer.budget, Lexer.view]; omega)
  have hs' := sliceStr_middle (pre ++ [x]) s rest
  have hin : (Lexer.view (pre ++ x :: s) rest).input = pre ++ [x] ++ (s ++ rest) := by
    simp [Lexer.view]
  have hp : (Lexer.view pre (x :: (s ++ rest))).position + 1 = (pre ++ [x]).length := by
    simp [Lexer.view]
  have hq : (Lexer.view (pre ++ x :: s) rest).position = (pre ++ [x] ++ s).length := by
    simp [Lexer.view]
  simp only [Lexer.readString, hloop, bind, Except.bind]
  rw [hin, hp, hq, hs']
  rfl

/-- A quote character under the cursor starts a string literal, which ends at
the next double quote or at NUL. -/
theorem Lexer.NextToken_quote (pre : List Char) (q : Char) (s rest : List Char)
    (hq : q = Char.ofNat 34 ∨ q = Char.ofNat 39) (hs : ∀ c ∈ s, stringChar c = true)
    (hend : stringChar (rest.headD NUL) = false) :
    (Lexer.view pre (q :: (s ++ rest))).NextToken
      = Except.ok ({ Typ := TokenType.STRING, Literal := String.mk s },
          (Lexer.view (pre ++ q :: s) rest).readChar) := by
  have hr := Lexer.readString_chars pre q s rest hs hend
  unfold Lexer.NextToken
  rcases hq with rfl | rfl
  · rw [Lexer.skipWhitespace_id _ (by rw [Lexer.view_ch, List.headD_cons]; decide)]
    simp only [bind, Except.bind, Lexer.view_ch, List.headD_cons, hr]
    rfl
  · rw [Lexer.skipWhitespace_id _ (by rw [Lexer.view_ch, List.headD_cons]; decide)]
    simp only [bind, Except.bind, Lexer.view_ch, List.headD_cons, hr]
    rfl

/-- At NUL the next token is EOF. -/
theorem Lexer.NextToken_nul (l : Lexer) (h : l.ch = NUL) :
    ∃ l1, l.NextToken = Except.ok ({ Typ := TokenType.EOF, Literal := "" }, l1) := by
  unfold Lexer.NextToken
  rw [Lexer.skipWhitespace_id _ (by rw [h]; decide)]
  simp [bind, Except.bind, h, NUL, pure, Except.pure]

theorem lexAll_quoted (q : Char) (s : List Char) (tail : List Char)
    (hq : q = Char.ofNat 34 ∨ q = Char.ofNat 39) (hs : ∀ c ∈ s, stringChar c = true)
    (htail : tail = [] ∨ tail = [Char.ofNat 34]) :
    lexAll (Lexer.view [] (q :: (s ++ tail)))
      = Except.ok [⟨TokenType.STRING, String.mk s⟩, ⟨TokenType.EOF, ""⟩] := by
  have hend : stringChar (tail.headD NUL) = false := by
    rcases htail with rfl | rfl <;> decide
  have h1 := Lexer.NextToken_quote [] q s tail hq hs hend
  have hnul : ((Lexer.view ([] ++ q :: s) tail).readChar).ch = NUL := by
    rcases htail with rfl | rfl
    · rw [Lexer.view_readChar_nil]
    · rw [Lexer.view_readChar, Lexer.view_ch]; rfl
  obtain ⟨l2, h2⟩ := Lexer.NextToken_nul _ hnul
  unfold lexAll
  have hb : (Lexer.view [] (q :: (s ++ tail))).budget
      = (Lexer.view [] (q :: (s ++ tail))).input.length + 1 + 1 := rfl
  rw [hb, drainLoop_step h1 (by simp)]
  have hlen : (Lexer.view [] (q :: (s ++ tail))).input.length
      = (s ++ tail).length + 1 := by simp [Lexer.view]
  rw [hlen, drainLoop_eof h2 rfl]
  rfl

end StringLemmas

set_option maxRecDepth 100000 in
/-- C26. A string literal ends only at a double quote or at the end of the
input, whichever quote character opened it.  For every text `s` without a
double quote and without NUL, the double-quoted input lexes to the STRING token
of `s` and EOF.  The single-quoted input of a text `s` that holds no quote of
either kind lexes to the STRING token of `s` followed by the closing single
quote, and EOF: the closing quote is made part of the literal.  The source
`'ab' + 'cd'` is one string literal and evaluates to the string `ab' + 'cd'`,
while `"ab" + "cd"` evaluates to `abcd`. -/
theorem single_quote_does_not_close :
    (∀ (s : String), (∀ c ∈ s.data, stringChar c = true) →
      lexAll (NewLexer ("\"" ++ s ++ "\""))
        = Except.ok [⟨TokenType.STRING, s⟩, ⟨TokenType.EOF, ""⟩])
    ∧ (∀ (s : String), (∀ c ∈ s.data, stringChar c = true ∧ c.toNat ≠ 39) →
      lexAll (NewLexer ("'" ++ s ++ "'"))
        = Except.ok [⟨TokenType.STRING, s ++ "'"⟩, ⟨TokenType.EOF, ""⟩])
    ∧ (∀ (F : Type) [Float64 F] (library : String → bifFunc F) (n : Nat) (ctx : Context F),
      Evaluate (init library) (n + 1) ctx "'ab' + 'cd'"
          = Except.ok (Value.str "ab' + 'cd'", none)
        ∧ Evaluate (init library) (n + 1) ctx "\"ab\" + \"cd\""
          = Except.ok (Value.str "abcd", none)) := by
  refine ⟨?_, ?_, ?_⟩
  · intro s hs
    rw [NewLexer_eq_view]
    have hd : ("\"" ++ s ++ "\"").data = Char.ofNat 34 :: (s.data ++ [Char.ofNat 34]) := by
      simp only [String.data_append]
      rfl
    rw [hd]
    exact lexAll_quoted _ s.data _ (Or.inl rfl) hs (Or.inr rfl)
  · intro s hs
    rw [NewLexer_eq_view]
    have hd : ("'" ++ s ++ "'").data
        = Char.ofNat 39 :: ((s.data ++ [Char.ofNat 39]) ++ []) := by
      simp only [String.data_append, List.append_nil]
      rfl
    rw [hd]
    have := lexAll_quoted (Char.ofNat 39) (s.data ++ [Char.ofNat 39]) [] (Or.inr rfl)
      (by
        intro c hc
        rcases List.mem_append.1 hc with h | h
        · exact (hs c h).1
        · rw [List.mem_singleton.1 h]; decide)
      (Or.inl rfl)
    rw [this]
    rfl
  · intro F _ library n ctx
    exact ⟨rfl, rfl⟩

/-- The single-quoted input of `ab` lexes to the literal of `ab` and a quote. -/
theorem single_quote_does_not_close_witness :
    lexAll (NewLexer ("'" ++ "ab" ++ "'"))
      = Except.ok [⟨TokenType.STRING, "ab" ++ "'"⟩, ⟨TokenType.EOF, ""⟩] :=
  single_quote_does_not_close.2.1 "ab" (by decide)

/-! ## C27: identifiers -/

section IdentifierLemmas

theorem beq_false_of_letter {c d : Char} (hc : isLetter c = true) (hd : isLetter d = false) :
    (c == d) = false := by
  rw [beq_eq_false_iff_ne]
  rintro rfl
  rw [hc] at hd
  cases hd

theorem letter_toNat {c : Char} (hc : isLetter c = true) :
    (97 ≤ c.toNat ∧ c.toNat ≤ 122) ∨ (65 ≤ c.toNat ∧ c.toNat ≤ 90) ∨ c.toNat = 95 := by
  simp only [isLetter, Bool.or_eq_true, Bool.and_eq_true, decide_eq_true_eq,
    beq_iff_eq] at hc
  rcases hc with (h | h) | h
  · exact Or.inl h
  · exact Or.inr (Or.inl h)
  · exact Or.inr (Or.inr h)

theorem toNat_beq_false_of_letter {c : Char} (hc : isLetter c = true) (n : Nat)
    (hn : n < 65 ∨ n = 96) : (c.toNat == n) = false := by
  have := letter_toNat hc
  rw [beq_eq_false_iff_ne]
  omega

theorem letter_not_space {c : Char} (hc : isLetter c = true) :
    (c.toNat == 32 || c.toNat == 9 || c.toNat == 10 || c.toNat == 13) = false := by
  simp [toNat_beq_false_of_letter hc]

/-- A letter under the cursor starts an identifier. -/
theorem Lexer.NextToken_letter (l : Lexer) (hl : isLetter l.ch = true) {ident : String}
    {ty : identifierType} {l1 : Lexer} (hr : l.readIdentifier = Except.ok (ident, ty, l1)) :
    l.NextToken
      = Except.ok (match ty with
        | identifierType.function => ({ Typ := TokenType.FUNCTION, Literal := ident }, l1)
        | identifierType.array => ({ Typ := TokenType.ARRAY, Literal := ident }, l1)
        | identifierType.variable => ({ Typ := TokenType.VARIABLE, Literal := ident }, l1)
        | identifierType.bool => ({ Typ := TokenType.BOOL, Literal := ident }, l1.readChar)) := by
  unfold Lexer.NextToken
  rw [Lexer.skipWhitespace_id l (letter_not_space hl)]
  simp only [bind, Except.bind,
    beq_false_of_letter hl (show isLetter '(' = false by decide),
    beq_false_of_letter hl (show isLetter ')' = false by decide),
    beq_false_of_letter hl (show isLetter '+' = false by decide),
    beq_false_of_letter hl (show isLetter '-' = false by decide),
    beq_false_of_letter hl (show isLetter '*' = false by decide),
    beq_false_of_letter hl (show isLetter '^' = false by decide),
    beq_false_of_letter hl (show isLetter '/' = false by decide),
    beq_false_of_letter hl (show isLetter '%' = false by decide),
    beq_false_of_letter hl (show isLetter ',' = false by decide),
    beq_false_of_letter hl (show isLetter '[' = false by decide),
    beq_false_of_letter hl (show isLetter ']' = false by decide),
    beq_false_of_letter hl (show isLetter '<' = false by decide),
    beq_false_of_letter hl (show isLetter '>' = false by decide),
    beq_false_of_letter hl (show isLetter '=' = false by decide),
    beq_false_of_letter hl (show isLetter '!' = false by decide),
    beq_false_of_letter hl (show isLetter '&' = false by decide),
    beq_false_of_letter hl (show isLetter '|' = false by decide),
    beq_false_of_letter hl (show isLetter NUL = false by decide),
    toNat_beq_false_of_letter hl 34 (by omega), toNat_beq_false_of_letter hl 39 (by omega),
    toNat_beq_false_of_letter hl 96 (by omega), hl, hr,
    Bool.false_eq_true, if_false, if_true, Bool.or_false]
  cases ty <;> rfl

theorem Lexer.readIdentifierLoop_view (ys : List Char) :
    ∀ (p : List Char) (x : Char) (rest : List Char) (fuel : Nat),
      (∀ y ∈ ys, identChar y = true) → identChar (rest.headD NUL) = false →
      ys.length < fuel →
      ∃ init lst, x :: ys = init ++ [lst]
        ∧ Lexer.readIdentifierLoop fuel (Lexer.view p (x :: (ys ++ rest)))
          = Except.ok (Lexer.view (p ++ init) (lst :: rest)) := by
  induction ys with
  | nil =>
    intro p x rest fuel _ hend hf
    obtain ⟨n, rfl⟩ : ∃ n, fuel = n + 1 := ⟨fuel - 1, by simp at hf; omega⟩
    refine ⟨[], x, rfl, ?_⟩
    have hstop : (isLetter (rest.headD NUL) || isDigit (rest.headD NUL)
        || rest.headD NUL == '_' || rest.headD NUL == '.') = false := hend
    simp only [List.nil_append, Lexer.readIdentifierLoop, Lexer.view_peekChar, hstop,
      Bool.false_eq_true, if_false, List.append_nil]
    rfl
  | cons y ys ih =>
    intro p x rest fuel hys hend hf
    obtain ⟨n, rfl⟩ : ∃ n, fuel = n + 1 := ⟨fuel - 1, by simp at hf; omega⟩
    have hy : (isLetter y || isDigit y || y == '_' || y == '.') = true :=
      hys y (List.mem_cons_self _ _)
    obtain ⟨init, lst, he, hloop⟩ := ih (p ++ [x]) y rest n
      (fun z hz => hys z (List.mem_cons_of_mem _ hz)) hend (by simp at hf; omega)
    refine ⟨x :: init, lst, by rw [he]; rfl, ?_⟩
    simp only [List.cons_append, Lexer.readIdentifierLoop, Lexer.view_peekChar,
      List.headD_cons, hy, if_true, Lexer.view_readChar, hloop, List.append_assoc,
      List.singleton_append, List.nil_append]

theorem Lexer.readIdentifier_view (p : List Char) (x : Char) (ys rest : List Char)
    (hys : ∀ y ∈ ys, identChar y = true) (hend : identChar (rest.headD NUL) = false) :
    (Lexer.view p (x :: (ys ++ rest))).readIdentifier
      = Except.ok (String.mk (x :: ys),
          (if String.mk (x :: ys) = "true" ∨ String.mk (x :: ys) = "false" then
            identifierType.bool
          else if rest.headD NUL == '[' then identifierType.array
          else if rest.headD NUL == '(' then identifierType.function
          else identifierType.variable),
          Lexer.view (p ++ x :: ys) rest) := by
  obtain ⟨init, lst, he, hloop⟩ := Lexer.readIdentifierLoop_view ys p x rest
    (Lexer.view p (x :: (ys ++ rest))).budget hys hend
    (by simp [Lexer.budget, Lexer.view]; omega)
  have hs := sliceStr_middle p (x :: ys) rest
  have hrc : (Lexer.view (p ++ init) (lst :: rest)).readChar = Lexer.view (p ++ x :: ys) rest := by
    rw [Lexer.view_readChar, List.append_assoc, ← he]
  have hin : (Lexer.view (p ++ x :: ys) rest).input = p ++ (x :: ys ++ rest) := by
    simp [Lexer.view]
  have hp : (Lexer.view p (x :: (ys ++ rest))).position = p.length := rfl
  have hq : (Lexer.view (p ++ x :: ys) rest).position = (p ++ x :: ys).length := rfl
  simp only [Lexer.readIdentifier, hloop, bind, Except.bind, Lexer.view_peekChar, hrc]
  rw [hin, hp, hq, hs]
  by_cases hb : String.mk (x :: ys) = "true" ∨ String.mk (x :: ys) = "false"
  · simp only [hb, if_true]
    rfl
  · simp only [hb, if_false]
    rfl

theorem Lexer.NextToken_lbracket (pre suf : List Char) :
    (Lexer.view pre ('[' :: suf)).NextToken
      = Except.ok ({ Typ := TokenType.ARRAY_START, Literal := "[" },
          Lexer.view (pre ++ ['[']) suf) := by
  unfold Lexer.NextToken
  rw [Lexer.skipWhitespace_id _ (by rw [Lexer.view_ch, List.headD_cons]; decide)]
  simp [bind, Except.bind, Lexer.view_ch, Lexer.view_readChar, newToken, pure, Except.pure]

end IdentifierLemmas

set_option maxRecDepth 100000 in
/-- C27. An identifier `w` under the cursor: a letter or underscore, then
letters, digits, underscores and dots, then a character that continues no
identifier (or the end of the input).  `NextToken` returns a token with the
literal `w`.  Its kind is BOOL when `w` is `true` or `false`, whatever follows;
otherwise FUNCTION when the next character is `(`, ARRAY when it is `[`, and
VARIABLE in every other case, and then the lexer is left on the character after
`w`, so that after a function or array name the next token is the bracket.  The
source `max(a.b, int[1], true)` lexes to the tokens of `max`, `(`, `a.b`, `,`,
`int`, `[`, `1`, `]`, `,`, `true` and EOF; the character after the boolean is not
tokenised. -/
theorem identifier_classification :
    (∀ (pre : List Char) (c : Char) (cs rest : List Char), isLetter c = true →
      (∀ x ∈ cs, identChar x = true) → identChar (rest.headD NUL) = false →
      ((String.mk (c :: cs) = "true" ∨ String.mk (c :: cs) = "false") →
        (Lexer.view pre (c :: (cs ++ rest))).NextToken
          = Except.ok (⟨TokenType.BOOL, String.mk (c :: cs)⟩,
              (Lexer.view (pre ++ c :: cs) rest).readChar))
      ∧ (¬ (String.mk (c :: cs) = "true" ∨ String.mk (c :: cs) = "false") →
        (Lexer.view pre (c :: (cs ++ rest))).NextToken
          = Except.ok (⟨identifierKind (rest.headD NUL), String.mk (c :: cs)⟩,
              Lexer.view (pre ++ c :: cs) rest)))
    ∧ (∀ (pre rest : List Char),
      (Lexer.view pre ('(' :: rest)).NextToken
        = Except.ok (⟨TokenType.PAREN_LEFT, "("⟩, Lexer.view (pre ++ ['(']) rest))
    ∧ (∀ (pre rest : List Char),
      (Lexer.view pre ('[' :: rest)).NextToken
        = Except.ok (⟨TokenType.ARRAY_START, "["⟩, Lexer.view (pre ++ ['[']) rest))
    ∧ lexAll (NewLexer "max(a.b, int[1], true)")
      = Except.ok [⟨TokenType.FUNCTION, "max"⟩, ⟨TokenType.PAREN_LEFT, "("⟩,
          ⟨TokenType.VARIABLE, "a.b"⟩, ⟨TokenType.COMMA, ","⟩, ⟨TokenType.ARRAY, "int"⟩,
          ⟨TokenType.ARRAY_START, "["⟩, ⟨TokenType.INT, "1"⟩, ⟨TokenType.ARRAY_END, "]"⟩,
          ⟨TokenType.COMMA, ","⟩, ⟨TokenType.BOOL, "true"⟩, ⟨TokenType.EOF, ""⟩] := by
  refine ⟨?_, ?_, ?_, ?_⟩
  · intro pre c cs rest hc hcs hend
    have hr := Lexer.readIdentifier_view pre c cs rest hcs hend
    have hl : isLetter (Lexer.view pre (c :: (cs ++ rest))).ch = true := by
      rw [Lexer.view_ch]; exact hc
    constructor
    · intro hb
      rw [if_pos hb] at hr
      exact Lexer.NextToken_letter _ hl hr
    · intro hb
      rw [if_neg hb] at hr
      by_cases h1 : rest.headD NUL = '['
      · have e1 : (rest.headD NUL == '[') = true := by rw [h1]; rfl
        rw [e1, if_pos rfl] at hr
        rw [Lexer.NextToken_letter _ hl hr, h1]
        rfl
      · have e1 : (rest.headD NUL == '[') = false := beq_eq_false_iff_ne.2 h1
        rw [e1, if_neg (by simp)] at hr
        by_cases h2 : rest.headD NUL = '('
        · have e2 : (rest.headD NUL == '(') = true := by rw [h2]; rfl
          rw [e2, if_pos rfl] at hr
          rw [Lexer.NextToken_letter _ hl hr, h2]
          rfl
        · have e2 : (rest.headD NUL == '(') = false := beq_eq_false_iff_ne.2 h2
          rw [e2, if_neg (by simp)] at hr
          rw [Lexer.NextToken_letter _ hl hr]
          unfold identifierKind
          rw [if_neg h2, if_neg h1]
  · intro pre rest
    exact Lexer.NextToken_lparen pre rest
  · intro pre rest
    exact Lexer.NextToken_lbracket pre rest
  · rfl

/-- The identifier `foo` before `(` is a function name. -/
theorem identifier_classification_witness :
    (Lexer.view [] ('f' :: (['o', 'o'] ++ ['(', ')']))).NextToken
      = Except.ok (⟨identifierKind ((['(', ')'] : List Char).headD NUL),
            String.mk ('f' :: ['o', 'o'])⟩,
          Lexer.view ([] ++ 'f' :: ['o', 'o']) ['(', ')']) :=
  (identifier_classification.1 [] 'f' ['o', 'o'] ['(', ')'] (by decide) (by decide)
    (by decide)).2 (by decide)

/-! ## C28: negative literals -/

section NegativeLemmas

theorem Lexer.readNumberLoop_negative (cs : List Char) :
    ∀ (pre rest : List Char) (fuel : Nat), (∀ c ∈ cs, negativeChar c = true) →
      negativeChar (rest.headD NUL) = false → rest.headD NUL ≠ '.' → cs.length < fuel →
      Lexer.readNumberLoop true fuel false (Lexer.view pre (cs ++ rest))
        = Except.ok (false, Lexer.view (pre ++ cs) rest) := by
  induction cs with
  | nil =>
    intro pre rest fuel _ hend hdot hf
    obtain ⟨n, rfl⟩ : ∃ n, fuel = n + 1 := ⟨fuel - 1, by simp at hf; omega⟩
    have h1 : isDigit (rest.headD NUL) = false := by
      simp only [negativeChar, Bool.or_eq_false_iff] at hend; exact hend.1
    have h2 : (rest.headD NUL == '-') = false := by
      simp only [negativeChar, Bool.or_eq_false_iff] at hend; exact hend.2
    have h3 : (rest.headD NUL == '.') = false := beq_eq_false_iff_ne.2 hdot
    simp only [List.nil_append, Lexer.readNumberLoop, Lexer.view_ch, h1, h2, h3,
      Bool.false_or, Bool.not_false, Bool.true_and, Bool.or_false, Bool.false_eq_true,
      if_false, List.append_nil]
    rfl
  | cons d cs ih =>
    intro pre rest fuel hcs hend hdot hf
    obtain ⟨n, rfl⟩ : ∃ n, fuel = n + 1 := ⟨fuel - 1, by simp at hf; omega⟩
    have hd : (isDigit d || d == '-') = true := hcs d (by simp)
    have hnd : (d == '.') = false := by
      rw [beq_eq_false_iff_ne]
      rintro rfl
      revert hd
      decide
    have hcond : (isDigit d || (!false && false) || (true && d == '-')) = true := by
      rcases Bool.or_eq_true_iff.1 hd with h | h
      · simp [h]
      · simp [h]
    have := ih (pre ++ [d]) rest n (fun c hc => hcs c (by simp [hc])) hend hdot
      (by simp at hf; omega)
    simp only [List.cons_append, Lexer.readNumberLoop, Lexer.view_ch, List.headD_cons, hcond,
      if_true, hnd, Bool.false_eq_true, if_false, Lexer.view_readChar, this,
      List.append_assoc, List.singleton_append, List.nil_append]

theorem Lexer.readNumber_negative (pre cs rest : List Char)
    (hcs : ∀ c ∈ cs, negativeChar c = true) (hend : negativeChar (rest.headD NUL) = false)
    (hdot : rest.headD NUL ≠ '.') :
    (Lexer.view pre (cs ++ rest)).readNumber true
      = Except.ok ({ Typ := TokenType.INT, Literal := String.mk cs },
          Lexer.view (pre ++ cs) rest) := by
  have hloop := Lexer.readNumberLoop_negative cs pre rest (Lexer.view pre (cs ++ rest)).budget
    hcs hend hdot (by simp [Lexer.budget, Lexer.view]; omega)
  have hs := sliceStr_middle pre cs rest
  simp only [Lexer.readNumber, hloop, bind, Except.bind]
  have hin : (Lexer.view (pre ++ cs) rest).input = pre ++ (cs ++ rest) := by
    simp [Lexer.view]
  have hp : (Lexer.view pre (cs ++ rest)).position = pre.length := rfl
  have hq : (Lexer.view (pre ++ cs) rest).position = (pre ++ cs).length := rfl
  rw [hin, hp, hq, hs]
  rfl

/-- A minus sign directly before a digit starts a number. -/
theorem Lexer.NextToken_minus_digit (pre : List Char) (d : Char) (suf : List Char)
    (hd : isDigit d = true) :
    (Lexer.view pre ('-' :: d :: suf)).NextToken
      = (Lexer.view pre ('-' :: d :: suf)).readNumber true := by
  unfold Lexer.NextToken
  rw [Lexer.skipWhitespace_id _ (by rw [Lexer.view_ch, List.headD_cons]; decide)]
  simp [bind, Except.bind, Lexer.view_ch, Lexer.view_peekChar, hd]

/-- A minus sign and the digits and minus signs after it lex to one INT token. -/
theorem Lexer.NextToken_negative (pre : List Char) (d : Char) (cs rest : List Char)
    (hd : isDigit d = true) (hcs : ∀ c ∈ cs, negativeChar c = true)
    (hend : negativeChar (rest.headD NUL) = false) (hdot : rest.headD NUL ≠ '.') :
    (Lexer.view pre ('-' :: d :: (cs ++ rest))).NextToken
      = Except.ok ({ Typ := TokenType.INT, Literal := String.mk ('-' :: d :: cs) },
          Lexer.view (pre ++ '-' :: d :: cs) rest) := by
  rw [Lexer.NextToken_minus_digit pre d (cs ++ rest) hd]
  have := Lexer.readNumber_negative pre ('-' :: d :: cs) rest
    (by
      intro c hc
      simp only [List.mem_cons] at hc
      rcases hc with rfl | rfl | hc
      · decide
      · simp [negativeChar, hd]
      · exact hcs c hc)
    hend hdot
  simpa using this

theorem Lexer.NextToken_minus_space (pre suf : List Char) :
    (Lexer.view pre ('-' :: ' ' :: suf)).NextToken
      = Except.ok ({ Typ := TokenType.MINUS, Literal := "-" },
          Lexer.view (pre ++ ['-']) (' ' :: suf)) := by
  unfold Lexer.NextToken
  rw [Lexer.skipWhitespace_id _ (by rw [Lexer.view_ch, List.headD_cons]; decide)]
  simp [bind, Except.bind, Lexer.view_ch, Lexer.view_readChar, Lexer.view_peekChar, newToken,
    pure, Except.pure, isDigit]

theorem Lexer.NextToken_space_minus_space (pre suf : List Char) :
    (Lexer.view pre (' ' :: '-' :: ' ' :: suf)).NextToken
      = Except.ok ({ Typ := TokenType.MINUS, Literal := "-" },
          Lexer.view (pre ++ [' '] ++ ['-']) (' ' :: suf)) := by
  rw [Lexer.NextToken_space pre '-' (' ' :: suf) (by decide)]
  exact Lexer.NextToken_minus_space _ _

theorem endsNumber_minus (suf : List Char) : endsNumber ('-' :: suf) := by
  show isDigit '-' = false ∧ '-' ≠ '.'
  constructor <;> decide

theorem negativeChar_of_digit {c : Char} (h : isDigit c = true) : negativeChar c = true := by
  simp [negativeChar, h]

/-- The tokens of `a-b` for digit strings `a`, `b`. -/
theorem lexAll_digits_minus_digits (a0 : Char) (as : List Char) (b0 : Char) (bs : List Char)
    (ha : ∀ c ∈ a0 :: as, isDigit c = true) (hb : ∀ c ∈ b0 :: bs, isDigit c = true) :
    lexAll (Lexer.view [] (a0 :: (as ++ '-' :: b0 :: (bs ++ []))))
      = Except.ok [⟨TokenType.INT, String.mk (a0 :: as)⟩,
          ⟨TokenType.INT, String.mk ('-' :: b0 :: bs)⟩, ⟨TokenType.EOF, ""⟩] := by
  obtain ⟨k, hk⟩ : ∃ k, (Lexer.view [] (a0 :: (as ++ '-' :: b0 :: (bs ++ [])))).budget
      = k + 3 := by
    refine ⟨as.length + bs.length + 2, ?_⟩
    simp [Lexer.budget, Lexer.view]
    omega
  unfold lexAll
  rw [hk]
  have h1 := Lexer.NextToken_int [] a0 as ('-' :: b0 :: (bs ++ [])) ha (endsNumber_minus _)
  rw [drainLoop_step h1 (by simp)]
  have h2 := Lexer.NextToken_negative ([] ++ a0 :: as) b0 bs [] (hb b0 (by simp))
    (fun c hc => negativeChar_of_digit (hb c (by simp [hc]))) (by decide) (by decide)
  rw [drainLoop_step h2 (by simp)]
  obtain ⟨l, h3⟩ := Lexer.NextToken_eof ([] ++ a0 :: as ++ '-' :: b0 :: bs)
  rw [drainLoop_eof h3 rfl]
  rfl

/-- The tokens of `a - b` for digit strings `a`, `b`. -/
theorem lexAll_digits_space_minus (a0 : Char) (as : List Char) (b0 : Char) (bs : List Char)
    (ha : ∀ c ∈ a0 :: as, isDigit c = true) (hb : ∀ c ∈ b0 :: bs, isDigit c = true) :
    lexAll (Lexer.view [] (a0 :: (as ++ ' ' :: '-' :: ' ' :: b0 :: (bs ++ []))))
      = Except.ok [⟨TokenType.INT, String.mk (a0 :: as)⟩, ⟨TokenType.MINUS, "-"⟩,
          ⟨TokenType.INT, String.mk (b0 :: bs)⟩, ⟨TokenType.EOF, ""⟩] := by
  obtain ⟨k, hk⟩ : ∃ k,
      (Lexer.view [] (a0 :: (as ++ ' ' :: '-' :: ' ' :: b0 :: (bs ++ [])))).budget
        = k + 4 := by
    refine ⟨as.length + bs.length + 3, ?_⟩
    simp [Lexer.budget, Lexer.view]
    omega
  unfold lexAll
  rw [hk]
  have h1 := Lexer.NextToken_int [] a0 as (' ' :: '-' :: ' ' :: b0 :: (bs ++ [])) ha
    (endsNumber_space _)
  rw [drainLoop_step h1 (by simp)]
  have h2 := Lexer.NextToken_space_minus_space ([] ++ a0 :: as) (b0 :: (bs ++ []))
  rw [drainLoop_step h2 (by simp)]
  have h3 := Lexer.NextToken_space_int ([] ++ a0 :: as ++ [' '] ++ ['-']) b0 bs [] hb
    endsNumber_nil
  rw [drainLoop_step h3 (by simp)]
  obtain ⟨l, h4⟩ := Lexer.NextToken_eof
    ([] ++ a0 :: as ++ [' '] ++ ['-'] ++ ' ' :: b0 :: bs)
  rw [drainLoop_eof h4 rfl]
  rfl

end NegativeLemmas

section NegativeEval

variable {F : Type} [Float64 F]

/-- The tree of the tokens of `a-b`: the first literal alone. -/
theorem Parse_int_int (la lb : String) (a : Int) (ha : Atoi la = some a) :
    Parser.Parse (F := F)
        { tokens := [⟨TokenType.INT, la⟩, ⟨TokenType.INT, lb⟩, ⟨TokenType.EOF, ""⟩],
          current := 0 }
      = Except.ok (ASTNode.IntLiteralNode a) := by
  have hp := Parser.primary_int (F := F) (Parser.expression 3)
    (p := { tokens := [⟨TokenType.INT, la⟩, ⟨TokenType.INT, lb⟩, ⟨TokenType.EOF, ""⟩],
            current := 0 })
    (t := ⟨TokenType.INT, la⟩) rfl rfl ha
  have h0 := Parser.atLevel_primary (Parser.expression 3) hp (t := ⟨TokenType.INT, lb⟩) rfl
    ⟨by simp, by simp⟩ 0 (by omega) (fun k _ => by simp [opLevel])
  exact Parser.Parse_of_atLevel h0

/-- The tree of the tokens of `a - b`. -/
theorem Parse_int_minus_int (la lb : String) (a b : Int) (ha : Atoi la = some a)
    (hb : Atoi lb = some b) :
    Parser.Parse (F := F)
        { tokens := [⟨TokenType.INT, la⟩, ⟨TokenType.MINUS, "-"⟩, ⟨TokenType.INT, lb⟩,
            ⟨TokenType.EOF, ""⟩],
          current := 0 }
      = Except.ok (ASTNode.BinaryOperationNode (ASTNode.IntLiteralNode a) TokenType.MINUS
          (ASTNode.IntLiteralNode b)) := by
  have h0 : Parser.atLevel (F := F) (Parser.expression 4) 0
      { tokens := [⟨TokenType.INT, la⟩, ⟨TokenType.MINUS, "-"⟩, ⟨TokenType.INT, lb⟩,
          ⟨TokenType.EOF, ""⟩],
        current := 0 }
      = Except.ok (mkNode (ASTNode.IntLiteralNode a) TokenType.MINUS
            (ASTNode.IntLiteralNode b),
          { tokens := [⟨TokenType.INT, la⟩, ⟨TokenType.MINUS, "-"⟩, ⟨TokenType.INT, lb⟩,
              ⟨TokenType.EOF, ""⟩],
            current := 3 }) :=
    climb_one 1 3 ⟨TokenType.MINUS, "-"⟩ ⟨TokenType.EOF, ""⟩ 5
      (Parser.primary_int _ (t := ⟨TokenType.INT, la⟩) rfl rfl ha) rfl
      (Parser.primary_int _ (t := ⟨TokenType.INT, lb⟩) rfl rfl hb) rfl rfl rfl
  exact Parser.Parse_of_atLevel h0

theorem wrap64_nat_sub (a b : Nat) (ha : (a : Int) ≤ maxInt) (hb : (b : Int) ≤ maxInt) :
    wrap64 ((a : Int) - b) = (a : Int) - b := by
  apply wrap64_of_inRange
  unfold inRange minInt
  unfold maxInt at ha hb ⊢
  have h1 : (0 : Int) ≤ a := Int.ofNat_zero_le a
  have h2 : (0 : Int) ≤ b := Int.ofNat_zero_le b
  constructor <;> omega

theorem Evaluate_digits_minus_digits (reg : Bif F) (n : Nat) (ctx : Context F) (src : String)
    (a0 : Char) (as : List Char) (b0 : Char) (bs : List Char)
    (hsrc : src.data = a0 :: (as ++ '-' :: b0 :: (bs ++ [])))
    (ha : ∀ c ∈ a0 :: as, isDigit c = true) (hb : ∀ c ∈ b0 :: bs, isDigit c = true)
    (va : (decimalValue (a0 :: as) : Int) ≤ maxInt) :
    Evaluate reg (n + 1) ctx src = Except.ok (Value.int (decimalValue (a0 :: as)), none) := by
  have hlex : lexAll (NewLexer src)
      = Except.ok [⟨TokenType.INT, String.mk (a0 :: as)⟩,
          ⟨TokenType.INT, String.mk ('-' :: b0 :: bs)⟩, ⟨TokenType.EOF, ""⟩] := by
    rw [NewLexer_eq_view, hsrc]
    exact lexAll_digits_minus_digits a0 as b0 bs ha hb
  rw [Evaluate_of_parse hlex (Parse_int_int _ _ _ (Atoi_digits a0 as ha va))]
  rfl

theorem Evaluate_digits_space_minus (reg : Bif F) (n : Nat) (ctx : Context F) (src : String)
    (a0 : Char) (as : List Char) (b0 : Char) (bs : List Char)
    (hsrc : src.data = a0 :: (as ++ ' ' :: '-' :: ' ' :: b0 :: (bs ++ [])))
    (ha : ∀ c ∈ a0 :: as, isDigit c = true) (hb : ∀ c ∈ b0 :: bs, isDigit c = true)
    (va : (decimalValue (a0 :: as) : Int) ≤ maxInt)
    (vb : (decimalValue (b0 :: bs) : Int) ≤ maxInt) :
    Evaluate reg (n + 1) ctx src
      = Except.ok (Value.int ((decimalValue (a0 :: as) : Int) - decimalValue (b0 :: bs)),
          none) := by
  have hlex : lexAll (NewLexer src)
      = Except.ok [⟨TokenType.INT, String.mk (a0 :: as)⟩, ⟨TokenType.MINUS, "-"⟩,
          ⟨TokenType.INT, String.mk (b0 :: bs)⟩, ⟨TokenType.EOF, ""⟩] := by
    rw [NewLexer_eq_view, hsrc]
    exact lexAll_digits_space_minus a0 as b0 bs ha hb
  rw [Evaluate_of_parse hlex (Parse_int_minus_int _ _ _ _ (Atoi_digits a0 as ha va)
    (Atoi_digits b0 bs hb vb))]
  simp only [ASTNode.Evaluate, applyBinary, Bif.Sub, ok, bind, Except.bind, pure, Except.pure]
  rw [wrap64_nat_sub _ _ va vb]

end NegativeEval

set_option maxRecDepth 100000 in
/-- C28. For non-empty digit strings `a` and `b`: the input `a-b` lexes to the
INT token of `a`, the INT token of `-b` and EOF, and, when the value of `a` is
an int, evaluates to that value (no subtraction takes place).  The input
`a - b` lexes to INT `a`, MINUS, INT `b` and EOF and, when both values are ints,
evaluates to their difference.  The source `5-3` evaluates to 5 and `5 - 3`
to 2. -/
theorem minus_before_digit_is_a_sign :
    (∀ (sa sb : String), sa.data ≠ [] → sb.data ≠ [] →
      (∀ ch ∈ sa.data, isDigit ch = true) → (∀ ch ∈ sb.data, isDigit ch = true) →
      lexAll (NewLexer (sa ++ "-" ++ sb))
          = Except.ok [⟨TokenType.INT, sa⟩, ⟨TokenType.INT, "-" ++ sb⟩, ⟨TokenType.EOF, ""⟩]
        ∧ lexAll (NewLexer (sa ++ " - " ++ sb))
          = Except.ok [⟨TokenType.INT, sa⟩, ⟨TokenType.MINUS, "-"⟩, ⟨TokenType.INT, sb⟩,
              ⟨TokenType.EOF, ""⟩])
    ∧ (∀ (F : Type) [Float64 F] (reg : Bif F) (n : Nat) (ctx : Context F) (sa sb : String),
      sa.data ≠ [] → sb.data ≠ [] →
      (∀ ch ∈ sa.data, isDigit ch = true) → (∀ ch ∈ sb.data, isDigit ch = true) →
      (decimalValue sa.data : Int) ≤ maxInt →
      Evaluate reg (n + 1) ctx (sa ++ "-" ++ sb)
          = Except.ok (Value.int (decimalValue sa.data), none)
        ∧ ((decimalValue sb.data : Int) ≤ maxInt →
          Evaluate reg (n + 1) ctx (sa ++ " - " ++ sb)
            = Except.ok (Value.int ((decimalValue sa.data : Int) - decimalValue sb.data),
                none)))
    ∧ (∀ (F : Type) [Float64 F] (reg : Bif F) (n : Nat) (ctx : Context F),
      Evaluate reg (n + 1) ctx "5-3" = Except.ok (Value.int 5, none)
        ∧ Evaluate reg (n + 1) ctx "5 - 3" = Except.ok (Value.int 2, none)) := by
  have e1 : "-".data = ['-'] := rfl
  have e2 : " - ".data = [' ', '-', ' '] := rfl
  refine ⟨?_, ?_, ?_⟩
  · intro sa sb na nb ha hb
    obtain ⟨a0, as, hsa⟩ : ∃ a0 as, sa.data = a0 :: as := List.exists_cons_of_ne_nil na
    obtain ⟨b0, bs, hsb⟩ : ∃ b0 bs, sb.data = b0 :: bs := List.exists_cons_of_ne_nil nb
    rw [hsa] at ha
    rw [hsb] at hb
    have ea : sa = String.mk (a0 :: as) := by rw [← hsa]
    have eb : sb = String.mk (b0 :: bs) := by rw [← hsb]
    constructor
    · rw [NewLexer_eq_view]
      have hd : (sa ++ "-" ++ sb).data = a0 :: (as ++ '-' :: b0 :: (bs ++ [])) := by
        simp [String.data_append, hsa, hsb, e1]
      rw [hd, lexAll_digits_minus_digits a0 as b0 bs ha hb, ea, eb]
      rfl
    · rw [NewLexer_eq_view]
      have hd : (sa ++ " - " ++ sb).data
          = a0 :: (as ++ ' ' :: '-' :: ' ' :: b0 :: (bs ++ [])) := by
        simp [String.data_append, hsa, hsb, e2]
      rw [hd, lexAll_digits_space_minus a0 as b0 bs ha hb, ea, eb]
  · intro F _ reg n ctx sa sb na nb ha hb va
    obtain ⟨a0, as, hsa⟩ : ∃ a0 as, sa.data = a0 :: as := List.exists_cons_of_ne_nil na
    obtain ⟨b0, bs, hsb⟩ : ∃ b0 bs, sb.data = b0 :: bs := List.exists_cons_of_ne_nil nb
    rw [hsa] at ha va
    rw [hsb] at hb
    rw [hsa, hsb]
    refine ⟨?_, fun vb => ?_⟩
    · exact Evaluate_digits_minus_digits reg n ctx _ a0 as b0 bs
        (by simp [String.data_append, hsa, hsb, e1]) ha hb va
    · exact Evaluate_digits_space_minus reg n ctx _ a0 as b0 bs
        (by simp [String.data_append, hsa, hsb, e2]) ha hb va vb
  · intro F _ reg n ctx
    exact ⟨rfl, rfl⟩

/-- The literals 12 and 7: `12-7` evaluates to 12. -/
theorem minus_before_digit_is_a_sign_witness :
    Evaluate (F := Exact) (fun _ => none) 1 ⟨none⟩ ("12" ++ "-" ++ "7")
      = Except.ok (Value.int (decimalValue "12".data), none)
    ∧ (decimalValue "12".data : Int) = 12 :=
  ⟨(minus_before_digit_is_a_sign.2.1 Exact (fun _ => none) 0 ⟨none⟩ "12" "7" (by decide)
      (by decide) (by decide) (by decide) (by decide)).1, by decide⟩

/-! ## C31, C32, C33: `Median`, `Max` and `Concat` -/

section StatLemmas

variable {F : Type} [Float64 F]

theorem Bif.medianLoop_ints (xs : List Int) :
    ∀ a : List F, Bif.medianLoop a (xs.map Value.int)
      = ok (.float (Bif.medianOf (a ++ xs.map Float64.ofInt))) := by
  induction xs with
  | nil => intro a; simp [Bif.medianLoop]
  | cons x xs ih =>
    intro a
    simp only [List.map_cons, Bif.medianLoop, ih, List.append_assoc, List.singleton_append]

theorem Bif.medianLoop_floats (xs : List F) :
    ∀ a : List F, Bif.medianLoop a (xs.map Value.float)
      = ok (.float (Bif.medianOf (a ++ xs))) := by
  induction xs with
  | nil => intro a; simp [Bif.medianLoop]
  | cons x xs ih =>
    intro a
    simp only [List.map_cons, Bif.medianLoop, ih, List.append_assoc, List.singleton_append]

theorem Bif.maxLoop_low (xs : List F) (m : F) (hxs : ∀ x ∈ xs, Float64.lt m x = false) :
    ∀ i : Nat, Bif.maxLoop m i (xs.map Value.float) = ok (.float m) := by
  induction xs with
  | nil => intro i; rfl
  | cons x xs ih =>
    intro i
    have hx : Float64.lt m x = false := hxs x (List.mem_cons_self _ _)
    simp only [List.map_cons, Bif.maxLoop, hx, Bool.false_eq_true, if_false]
    exact ih (fun y hy => hxs y (List.mem_cons_of_mem _ hy)) (i + 1)

end StatLemmas

section ConcatLemmas

variable {F : Type}

theorem Bif.concatLoop_strs (ss : List String) :
    ∀ result : String, Bif.concatLoop (F := F) result (ss.map Value.str)
      = ok (.str (ss.foldl (fun r s => r ++ s) result)) := by
  induction ss with
  | nil => intro result; rfl
  | cons s ss ih =>
    intro result
    simp only [List.map_cons, Bif.concatLoop, ih, List.foldl_cons]

end ConcatLemmas

set_option maxRecDepth 100000 in
/-- C31. `Median` does not sort its arguments: for every non-empty list of int
arguments (and of float arguments) the result is `medianOf` of the arguments in
the order in which they were passed, which for three arguments is the second
one.  So `median(3, 1, 2)` is 1 while `median(1, 2, 3)` is 2: the result depends
on the order of the arguments. -/
theorem median_reads_arguments_unsorted :
    (∀ (F : Type) [Float64 F] (h : Host F) (ctx : Context F) (xs : List Int), xs ≠ [] →
      Bif.Median h ctx (xs.map Value.int)
        = ok (.float (Bif.medianOf (xs.map Float64.ofInt))))
    ∧ (∀ (F : Type) [Float64 F] (h : Host F) (ctx : Context F) (xs : List F), xs ≠ [] →
      Bif.Median h ctx (xs.map Value.float) = ok (.float (Bif.medianOf xs)))
    ∧ (∀ (F : Type) [Float64 F] (x y z : F), Bif.medianOf [x, y, z] = y)
    ∧ (∀ (F : Type) [Float64 F] (w x y z : F),
      Bif.medianOf [w, x, y, z] = Float64.div (Float64.add x y) (Float64.ofInt 2))
    ∧ (∀ (F : Type) [Float64 F] (library : String → bifFunc F) (n : Nat) (ctx : Context F),
      Evaluate (init library) (n + 1) ctx "median(3, 1, 2)"
          = Except.ok (Value.float (Float64.ofInt 1), none)
        ∧ Evaluate (init library) (n + 1) ctx "median(1, 2, 3)"
          = Except.ok (Value.float (Float64.ofInt 2), none))
    ∧ (Float64.ofInt 1 : Exact) ≠ Float64.ofInt 2 := by
  refine ⟨?_, ?_, ?_, ?_, ?_, by decide⟩
  · intro F _ h ctx xs hxs
    have hlen : ¬ (xs.map (Value.int (F := F))).length < 1 := by
      cases xs with
      | nil => exact absurd rfl hxs
      | cons x xs => simp
    simp only [Bif.Median, hlen, if_false]
    simpa using Bif.medianLoop_ints xs ([] : List F)
  · intro F _ h ctx xs hxs
    have hlen : ¬ (xs.map (Value.float (F := F))).length < 1 := by
      cases xs with
      | nil => exact absurd rfl hxs
      | cons x xs => simp
    simp only [Bif.Median, hlen, if_false]
    simpa using Bif.medianLoop_floats xs ([] : List F)
  · intro F _ x y z
    simp [Bif.medianOf]
  · intro F _ w x y z
    simp [Bif.medianOf]
  · intro F _ library n ctx
    exact ⟨by with_unfolding_all rfl, by with_unfolding_all rfl⟩

/-- C31 at the arguments 3, 1, 2. -/
theorem median_reads_arguments_unsorted_witness :
    ([3, 1, 2] : List Int) ≠ []
    ∧ Bif.Median (hostAt (fun _ => none) 0) (⟨none⟩ : Context Exact)
        (([3, 1, 2] : List Int).map Value.int)
      = ok (.float (Bif.medianOf (([3, 1, 2] : List Int).map Float64.ofInt))) :=
  ⟨by decide, median_reads_arguments_unsorted.1 Exact (hostAt (fun _ => none) 0) ⟨none⟩
    [3, 1, 2] (by decide)⟩

set_option maxRecDepth 100000 in
/-- C32. `Max` starts from 0 and only an int in first position replaces that
start: for every non-empty list of float arguments none of which is above 0 the
result is 0, which need not be one of the arguments.  With exact floats
`max(-1.5, -2.5)` is 0, where `max(-1, -2)` is -1. -/
theorem max_of_floats_starts_at_zero :
    (∀ (F : Type) [Float64 F] (h : Host F) (ctx : Context F) (xs : List F), xs ≠ [] →
      (∀ x ∈ xs, Float64.lt (Float64.ofInt 0) x = false) →
      Bif.Max h ctx (xs.map Value.float) = ok (.float (Float64.ofInt 0)))
    ∧ (∀ (library : String → bifFunc Exact) (n : Nat) (ctx : Context Exact),
      Evaluate (init library) (n + 1) ctx "max(-1.5, -2.5)"
          = Except.ok (Value.float (some 0), none)
        ∧ Evaluate (init library) (n + 1) ctx "max(-1, -2)"
          = Except.ok (Value.float (some (-1)), none))
    ∧ (Float64.parse "-1.5" : Option Exact) = some (some (-3 / 2))
    ∧ (Float64.parse "-2.5" : Option Exact) = some (some (-5 / 2)) := by
  refine ⟨?_, ?_, by with_unfolding_all rfl, by with_unfolding_all rfl⟩
  · intro F _ h ctx xs hxs hlow
    have hlen : ¬ (xs.map (Value.float (F := F))).length < 1 := by
      cases xs with
      | nil => exact absurd rfl hxs
      | cons x xs => simp
    simp only [Bif.Max, hlen, if_false]
    exact Bif.maxLoop_low xs _ hlow 0
  · intro library n ctx
    exact ⟨by with_unfolding_all rfl, by with_unfolding_all rfl⟩

/-- C32 at the arguments -1.5 and -2.5. -/
theorem max_of_floats_starts_at_zero_witness :
    ([some (-3 / 2), some (-5 / 2)] : List Exact) ≠ []
    ∧ (∀ x ∈ ([some (-3 / 2), some (-5 / 2)] : List Exact),
      Float64.lt (Float64.ofInt 0) x = false)
    ∧ Bif.Max (hostAt (fun _ => none) 0) (⟨none⟩ : Context Exact)
        (([some (-3 / 2), some (-5 / 2)] : List Exact).map Value.float)
      = ok (.float (Float64.ofInt 0)) :=
  ⟨by simp, by
      intro x hx
      simp only [List.mem_cons, List.mem_singleton, List.not_mem_nil, or_false] at hx
      rcases hx with rfl | rfl <;> with_unfolding_all rfl,
    max_of_floats_starts_at_zero.1 Exact (hostAt (fun _ => none) 0) ⟨none⟩
      [some (-3 / 2), some (-5 / 2)] (by simp) (by
        intro x hx
        simp only [List.mem_cons, List.mem_singleton, List.not_mem_nil, or_false] at hx
        rcases hx with rfl | rfl <;> with_unfolding_all rfl)⟩

set_option maxRecDepth 100000 in
/-- C33. `Concat` joins strings and rejects arrays: with two or more arguments
the first of which is a list it returns the error "concat function expects
string arguments", and for two or more strings it returns their concatenation
in order.  `concat(int[1], int[2])` returns that error. -/
theorem concat_joins_strings_not_arrays :
    (∀ (F : Type) [Float64 F] (h : Host F) (ctx : Context F) (l : List (Value F))
        (x : Value F) (rest : List (Value F)),
      Bif.Concat h ctx (Value.list l :: x :: rest)
        = fail "concat function expects string arguments")
    ∧ (∀ (F : Type) [Float64 F] (h : Host F) (ctx : Context F) (ss : List String),
      2 ≤ ss.length →
      Bif.Concat h ctx (ss.map Value.str)
        = ok (.str (ss.foldl (fun r s => r ++ s) "")))
    ∧ (∀ (F : Type) [Float64 F] (library : String → bifFunc F) (n : Nat) (ctx : Context F),
      Evaluate (init library) (n + 1) ctx "concat(int[1], int[2])"
        = Except.ok (Value.nil, some (Error.text "concat function expects string arguments")))
    := by
  refine ⟨?_, ?_, ?_⟩
  · intro F _ h ctx l x rest
    simp [Bif.Concat, Bif.concatLoop]
  · intro F _ h ctx ss hss
    have hlen : ¬ (ss.map (Value.str (F := F))).length < 2 := by simp; omega
    simp only [Bif.Concat, hlen, if_false]
    exact Bif.concatLoop_strs ss ""
  · intro F _ library n ctx
    with_unfolding_all rfl

/-- C33 at the strings "a" and "b". -/
theorem concat_joins_strings_not_arrays_witness :
    2 ≤ ["a", "b"].length
    ∧ Bif.Concat (hostAt (fun _ => none) 0) (⟨none⟩ : Context Exact)
        (["a", "b"].map Value.str)
      = ok (.str (["a", "b"].foldl (fun r s => r ++ s) "")) :=
  ⟨by decide, concat_joins_strings_not_arrays.2.1 Exact (hostAt (fun _ => none) 0) ⟨none⟩
    ["a", "b"] (by decide)⟩

/-! ## C34: `Unique` -/

section FirstOccurrences

variable {α : Type} [DecidableEq α]

theorem mem_firstOccurrences (l : List α) (x : α) : x ∈ firstOccurrences l ↔ x ∈ l := by
  induction l with
  | nil => simp [firstOccurrences]
  | cons a l ih =>
    simp only [firstOccurrences, List.mem_cons, List.mem_filter, ih, decide_eq_true_eq]
    by_cases h : x = a
    · simp [h]
    · simp [h]

theorem nodup_firstOccurrences (l : List α) : (firstOccurrences l).Nodup := by
  induction l with
  | nil => simp [firstOccurrences]
  | cons a l ih =>
    simp only [firstOccurrences, List.nodup_cons, List.mem_filter, decide_eq_true_eq]
    exact ⟨fun h => h.2 rfl, ih.filter _⟩

theorem firstOccurrences_of_nodup (l : List α) (h : l.Nodup) : firstOccurrences l = l := by
  induction l with
  | nil => rfl
  | cons a l ih =>
    rw [List.nodup_cons] at h
    simp only [firstOccurrences, ih h.2]
    congr 1
    rw [List.filter_eq_self]
    intro y hy
    simp only [decide_eq_true_eq]
    rintro rfl
    exact h.1 hy

theorem indexOf_filter_lt (P : α → Bool) (x y : α) (hx : P x = true) (hy : P y = true) :
    ∀ u : List α, (u.filter P).indexOf x < (u.filter P).indexOf y
      ↔ u.indexOf x < u.indexOf y := by
  intro u
  induction u with
  | nil => simp
  | cons b u ih =>
    by_cases hb : P b = true
    · rw [List.filter_cons_of_pos hb]
      by_cases hxb : b = x
      · subst hxb
        by_cases hyb : b = y
        · subst hyb; simp
        · simp [List.indexOf_cons_ne _ hyb]
      · by_cases hyb : b = y
        · subst hyb
          simp [List.indexOf_cons_ne _ hxb]
        · simp [List.indexOf_cons_ne _ hxb, List.indexOf_cons_ne _ hyb, ih]
    · have hxb : b ≠ x := by rintro rfl; exact hb hx
      have hyb : b ≠ y := by rintro rfl; exact hb hy
      rw [List.filter_cons_of_neg hb]
      simp [List.indexOf_cons_ne _ hxb, List.indexOf_cons_ne _ hyb, ih]

theorem indexOf_firstOccurrences_lt (x y : α) :
    ∀ l : List α, (firstOccurrences l).indexOf x < (firstOccurrences l).indexOf y
      ↔ l.indexOf x < l.indexOf y := by
  intro l
  induction l with
  | nil => simp [firstOccurrences]
  | cons a l ih =>
    simp only [firstOccurrences]
    by_cases hxa : a = x
    · subst hxa
      by_cases hya : a = y
      · subst hya; simp
      · simp [List.indexOf_cons_ne _ hya]
    · by_cases hya : a = y
      · subst hya
        simp [List.indexOf_cons_ne _ hxa]
      · simp only [List.indexOf_cons_ne _ hxa, List.indexOf_cons_ne _ hya,
          Nat.succ_lt_succ_iff]
        rw [indexOf_filter_lt _ x y (by simpa using Ne.symm hxa) (by simpa using Ne.symm hya)]
        exact ih

end FirstOccurrences

section ScalarLemmas

variable {F : Type}

theorem Scalar.toValue_injective : Function.Injective (Scalar.toValue (F := F)) := by
  intro a b h
  cases a <;> cases b <;> simp [Scalar.toValue] at h <;> simp [h]

theorem Scalar.hashable_toValue (a : Scalar) : (a.toValue : Value F).hashable = true := by
  cases a <;> rfl

end ScalarLemmas

section UniqueLemmas

variable {F : Type} [Float64 F]

theorem Scalar.keyEq_toValue (a b : Scalar) :
    Value.keyEq (a.toValue : Value F) b.toValue = decide (a = b) := by
  cases a <;> cases b <;> simp [Scalar.toValue, Value.keyEq]

theorem Bif.uniqueLoop_scalars (l : List Scalar) :
    ∀ result : List Scalar,
      Bif.uniqueLoop (F := F) (result.map Scalar.toValue) (l.map Scalar.toValue)
        = ok (.list ((result ++ (firstOccurrences l).filter
            (fun y => decide (y ∉ result))).map Scalar.toValue)) := by
  induction l with
  | nil => intro result; simp [Bif.uniqueLoop, firstOccurrences]
  | cons a l ih =>
    intro result
    have hany : (result.map (Scalar.toValue (F := F))).any
        (fun k => Value.keyEq k a.toValue) = decide (a ∈ result) := by
      induction result with
      | nil => simp
      | cons r rs ihr =>
        simp only [List.map_cons, List.any_cons, Scalar.keyEq_toValue, ihr, List.mem_cons]
        by_cases hra : r = a
        · simp [hra]
        · have : ¬ a = r := fun e => hra e.symm
          simp [hra, this]
    simp only [List.map_cons, Bif.uniqueLoop, Scalar.hashable_toValue, Bool.not_true,
      Bool.false_eq_true, if_false, hany, decide_eq_true_eq]
    by_cases ha : a ∈ result
    · simp only [ha, if_true]
      rw [ih result]
      simp only [firstOccurrences, List.filter_cons, ha, not_true_eq_false, decide_False,
        Bool.false_eq_true, if_false, List.filter_filter]
      congr 4
      apply List.filter_congr
      intro y _
      by_cases hy : y ∈ result
      · simp [hy]
      · have : y ≠ a := by rintro rfl; exact hy ha
        simp [hy, this]
    · simp only [ha, if_false]
      have := ih (result ++ [a])
      simp only [List.map_append, List.map_cons, List.map_nil] at this
      rw [this]
      simp only [firstOccurrences, List.filter_cons, ha, not_false_eq_true, decide_True,
        if_true, List.filter_filter, List.append_assoc, List.singleton_append,
        List.map_append, List.map_cons]
      congr 5
      apply List.filter_congr
      intro y _
      by_cases hy : y ∈ result
      · simp [hy]
      · by_cases hya : y = a
        · simp [hya]
        · simp [hy, hya]

theorem Bif.Unique_scalars (h : Host F) (ctx : Context F) (l : List Scalar) :
    Bif.Unique h ctx [.list (l.map Scalar.toValue)]
      = ok (.list ((firstOccurrences l).map Scalar.toValue)) := by
  have := Bif.uniqueLoop_scalars (F := F) l []
  simp only [List.map_nil, List.nil_append, List.not_mem_nil, not_false_eq_true, decide_True,
    List.filter_true] at this
  simpa [Bif.Unique] using this

end UniqueLemmas

set_option maxRecDepth 100000 in
/-- C34. `Unique` returns the distinct elements of a list in the order of their
first occurrence.  For every list `l` of scalar values (ints, strings,
booleans) `Unique` succeeds with the values of `firstOccurrences l`; that list
has no two equal elements, holds exactly the elements of `l`, and one element
stands before another in it exactly when its first occurrence in `l` comes
first; `Unique` of the result is the result.  `unique(int[1, 2, 1])` is the
list of 1 and 2. -/
theorem unique_keeps_first_occurrences :
    (∀ (F : Type) [Float64 F] (h : Host F) (ctx : Context F) (l : List Scalar),
      Bif.Unique h ctx [.list (l.map Scalar.toValue)]
          = ok (.list ((firstOccurrences l).map Scalar.toValue))
        ∧ ((firstOccurrences l).map (Scalar.toValue (F := F))).Nodup
        ∧ (∀ x, x ∈ firstOccurrences l ↔ x ∈ l)
        ∧ (∀ x y, (firstOccurrences l).indexOf x < (firstOccurrences l).indexOf y
            ↔ l.indexOf x < l.indexOf y)
        ∧ Bif.Unique h ctx [.list ((firstOccurrences l).map Scalar.toValue)]
          = ok (.list ((firstOccurrences l).map Scalar.toValue)))
    ∧ firstOccurrences [Scalar.int 1, Scalar.str "a", Scalar.int 1, Scalar.bool true,
        Scalar.str "a", Scalar.int 2]
      = [Scalar.int 1, Scalar.str "a", Scalar.bool true, Scalar.int 2]
    ∧ (∀ (F : Type) [Float64 F] (library : String → bifFunc F) (n : Nat) (ctx : Context F),
      Evaluate (init library) (n + 1) ctx "unique(int[1, 2, 1])"
        = Except.ok (Value.list [Value.int 1, Value.int 2], none)) := by
  refine ⟨?_, by decide, ?_⟩
  · intro F _ h ctx l
    refine ⟨Bif.Unique_scalars h ctx l,
      (nodup_firstOccurrences l).map Scalar.toValue_injective,
      mem_firstOccurrences l, fun x y => indexOf_firstOccurrences_lt x y l, ?_⟩
    have := Bif.Unique_scalars h ctx (firstOccurrences l)
    rw [firstOccurrences_of_nodup _ (nodup_firstOccurrences l)] at this
    exact this
  · intro F _ library n ctx
    with_unfolding_all rfl

/-! ## C35: a function name in operator position -/

section InfixFunction

variable {F : Type} [Float64 F]

/-- A primary, a function name, a parenthesized expression and a token that
continues no expression: the function name is the operator of a binary node. -/
theorem climb_function {E : Parser → Run (ASTNode F × Parser)} {toks : List Token}
    {c0 : Nat} (c1 c2 : Nat) {a e : ASTNode F} (t1 t2 t3 t4 : Token)
    (ha : Parser.primary E { tokens := toks, current := c0 }
      = Except.ok (a, { tokens := toks, current := c1 }))
    (h1 : toks[c1]? = some t1) (ht1 : t1.Typ = TokenType.FUNCTION)
    (h2 : toks[c1 + 1]? = some t2) (ht2 : t2.Typ = TokenType.PAREN_LEFT)
    (he : E { tokens := toks, current := c1 + 2 }
      = Except.ok (e, { tokens := toks, current := c2 }))
    (h3 : toks[c2]? = some t3) (ht3 : t3.Typ = TokenType.PAREN_RIGHT)
    (h4 : toks[c2 + 1]? = some t4) (hend : continues t4.Typ = false) :
    Parser.atLevel E 0 { tokens := toks, current := c0 }
      = Except.ok (ASTNode.BinaryOperationNode a TokenType.FUNCTION e,
          { tokens := toks, current := c2 + 1 }) := by
  obtain ⟨e4, x4, f4⟩ := continues_false hend
  have hlen : 1 ≤ toks.length := by
    rcases toks with _ | ⟨x, xs⟩
    · simp at h1
    · simp
  obtain ⟨m, hm⟩ : ∃ m, toks.length = m + 1 := ⟨toks.length - 1, by omega⟩
  have hb : Parser.primary E { tokens := toks, current := c1 + 1 }
      = Except.ok (e, { tokens := toks, current := c2 + 1 }) :=
    Parser.primary_paren E { tokens := toks, current := c1 + 1 }
      { tokens := toks, current := c2 } h2 ht2 he h3 ht3
  have hr : Parser.functions E (m + 1) (Parser.next { tokens := toks, current := c1 })
      = Except.ok (e, { tokens := toks, current := c2 + 1 }) :=
    Parser.functions_pass hb h4 (by simp [x4, f4]) m
  have h7 : Parser.atLevel E 7 { tokens := toks, current := c0 }
      = Except.ok (ASTNode.BinaryOperationNode a TokenType.FUNCTION e,
          { tokens := toks, current := c2 + 1 }) := by
    show Parser.functions E (toks.length + 1) { tokens := toks, current := c0 } = _
    rw [hm, ← ht1]
    exact Parser.functions_single ha h1 (by simp [ht1]) hr h4 (by simp [x4, f4]) hlen
  exact Parser.atLevel_pass E { tokens := toks, current := c0 }
    { tokens := toks, current := c2 + 1 } h4 7 0 (by omega) h7
    (fun k _ _ => by rw [e4]; simp)

end InfixFunction

set_option maxRecDepth 100000 in
/-- C35. A function name in operator position is an infix operator.  When a
primary `a` is followed by a function-name token, `(`, an expression `e`, `)` and
a token that continues no expression, `Parse` returns
`BinaryOperationNode(a, FUNCTION, e)` whatever the name is, and no call node.
Evaluating such a node returns the error "unknown or unsupported operator:
FUNCTION" whenever both operands evaluate without error.  `2 sqrt(4)` parses
and fails in this way. -/
theorem function_name_in_operator_position :
    (∀ (F : Type) [Float64 F] (toks : List Token) (c1 c2 : Nat) (a e : ASTNode F)
        (t1 t2 t3 t4 : Token),
      Parser.primary (Parser.expression toks.length) { tokens := toks, current := 0 }
        = Except.ok (a, { tokens := toks, current := c1 }) →
      toks[c1]? = some t1 → t1.Typ = TokenType.FUNCTION →
      toks[c1 + 1]? = some t2 → t2.Typ = TokenType.PAREN_LEFT →
      Parser.expression toks.length { tokens := toks, current := c1 + 2 }
        = Except.ok (e, { tokens := toks, current := c2 }) →
      toks[c2]? = some t3 → t3.Typ = TokenType.PAREN_RIGHT →
      toks[c2 + 1]? = some t4 → continues t4.Typ = false →
      Parser.Parse { tokens := toks, current := 0 }
        = Except.ok (ASTNode.BinaryOperationNode a TokenType.FUNCTION e))
    ∧ (∀ (F : Type) [Float64 F] (reg : Bif F) (h : Host F) (ctx : Context F)
        (a e : ASTNode F) (l r : Value F),
      a.Evaluate reg h ctx = Except.ok (l, none) →
      e.Evaluate reg h ctx = Except.ok (r, none) →
      (ASTNode.BinaryOperationNode a TokenType.FUNCTION e).Evaluate reg h ctx
        = fail "unknown or unsupported operator: FUNCTION")
    ∧ lexAll (NewLexer "2 sqrt(4)")
      = Except.ok [⟨TokenType.INT, "2"⟩, ⟨TokenType.FUNCTION, "sqrt"⟩,
          ⟨TokenType.PAREN_LEFT, "("⟩, ⟨TokenType.INT, "4"⟩, ⟨TokenType.PAREN_RIGHT, ")"⟩,
          ⟨TokenType.EOF, ""⟩]
    ∧ (∀ (F : Type) [Float64 F],
      Parser.Parse (F := F)
          { tokens := [⟨TokenType.INT, "2"⟩, ⟨TokenType.FUNCTION, "sqrt"⟩,
              ⟨TokenType.PAREN_LEFT, "("⟩, ⟨TokenType.INT, "4"⟩,
              ⟨TokenType.PAREN_RIGHT, ")"⟩, ⟨TokenType.EOF, ""⟩],
            current := 0 }
        = Except.ok (ASTNode.BinaryOperationNode (ASTNode.IntLiteralNode 2)
            TokenType.FUNCTION (ASTNode.IntLiteralNode 4)))
    ∧ (∀ (F : Type) [Float64 F] (library : String → bifFunc F) (n : Nat) (ctx : Context F),
      Evaluate (init library) (n + 1) ctx "2 sqrt(4)"
        = Except.ok (Value.nil,
            some (Error.text "unknown or unsupported operator: FUNCTION"))) := by
  refine ⟨?_, ?_, by rfl, ?_, ?_⟩
  · intro F _ toks c1 c2 a e t1 t2 t3 t4 ha h1 ht1 h2 ht2 he h3 ht3 h4 hend
    exact Parser.Parse_of_atLevel
      (climb_function c1 c2 t1 t2 t3 t4 ha h1 ht1 h2 ht2 he h3 ht3 h4 hend)
  · intro F _ reg h ctx a e l r hl hr
    rw [ASTNode.Evaluate_binary hl hr]
    rfl
  · intro F _
    rfl
  · intro F _ library n ctx
    rfl

set_option maxRecDepth 100000 in
/-- C35 at the operands 2 and 4. -/
theorem function_name_in_operator_position_witness :
    (ASTNode.IntLiteralNode 2 : ASTNode Exact).Evaluate (fun _ => none)
        (hostAt (fun _ => none) 0) ⟨none⟩ = Except.ok (Value.int 2, none)
    ∧ (ASTNode.IntLiteralNode 4 : ASTNode Exact).Evaluate (fun _ => none)
        (hostAt (fun _ => none) 0) ⟨none⟩ = Except.ok (Value.int 4, none)
    ∧ (ASTNode.BinaryOperationNode (ASTNode.IntLiteralNode 2 : ASTNode Exact)
          TokenType.FUNCTION (ASTNode.IntLiteralNode 4)).Evaluate (fun _ => none)
        (hostAt (fun _ => none) 0) ⟨none⟩
      = fail "unknown or unsupported operator: FUNCTION" :=
  ⟨rfl, rfl, function_name_in_operator_position.2.1 Exact (fun _ => none)
    (hostAt (fun _ => none) 0) ⟨none⟩ (ASTNode.IntLiteralNode 2) (ASTNode.IntLiteralNode 4)
    (Value.int 2) (Value.int 4) rfl rfl⟩

/-! ## C37: the parser is total on finished token sequences -/

section TotalityBasics

theorem Parser.inside_token {p : Parser} (h : p.inside) :
    ∃ t, p.tokens[p.current]? = some t := by
  obtain ⟨j, t, hj, ht, _⟩ := h
  have hlt : j < p.tokens.length := by
    by_contra hn
    rw [List.getElem?_eq_none (by omega)] at ht
    cases ht
  exact ⟨p.tokens[p.current], List.getElem?_eq_getElem (by omega)⟩

theorem Parser.inside_rem {p : Parser} (h : p.inside) : 1 ≤ p.rem := by
  obtain ⟨j, t, hj, ht, _⟩ := h
  have hlt : j < p.tokens.length := by
    by_contra hn
    rw [List.getElem?_eq_none (by omega)] at ht
    cases ht
  unfold Parser.rem
  omega

theorem Parser.inside_next {p : Parser} {t : Token} (h : p.inside)
    (ht : p.tokens[p.current]? = some t) (hne : t.Typ ≠ TokenType.EOF) : p.next.inside := by
  obtain ⟨j, u, hj, hu, he⟩ := h
  refine ⟨j, u, ?_, hu, he⟩
  have : j ≠ p.current := by
    rintro rfl
    rw [ht] at hu
    cases hu
    exact hne he
  show p.current + 1 ≤ j
  omega

theorem Parser.rem_next {p : Parser} (h : p.next.inside) : p.next.rem + 1 = p.rem := by
  have := Parser.inside_rem h
  unfold Parser.rem at *
  show p.tokens.length - (p.current + 1) + 1 = _
  have h2 : 1 ≤ p.tokens.length - (p.current + 1) := this
  omega

theorem Parser.fine_error {α β : Type} {p q : Parser} {f : Fault}
    (h : Parser.fine p (Except.error f : Run (α × Parser))) :
    Parser.fine q (Except.error f : Run (β × Parser)) := by
  cases f <;> exact h

theorem Parser.fine_trans {α : Type} {p q : Parser} {r : Run (α × Parser)}
    (ht : q.tokens = p.tokens) (hc : p.current ≤ q.current) (h : Parser.fine q r) :
    Parser.fine p r := by
  cases r with
  | error f => exact Parser.fine_error h
  | ok v =>
    obtain ⟨a, p1⟩ := v
    obtain ⟨h1, h2, h3⟩ := h
    exact ⟨h1.trans ht, le_trans hc h2, h3⟩

theorem Parser.rem_le_of_fine {p q : Parser} (ht : q.tokens = p.tokens)
    (hc : p.current ≤ q.current) : q.rem ≤ p.rem := by
  unfold Parser.rem
  rw [ht]
  omega

end TotalityBasics

section TotalityLoops

variable {F : Type}

theorem Parser.binaryLoop_fine (ops : List TokenType)
    (mk : ASTNode F → TokenType → ASTNode F → ASTNode F)
    (next : Parser → Run (ASTNode F × Parser)) (m : Nat)
    (hnext : ∀ q : Parser, q.inside → q.rem ≤ m → Parser.fine q (next q)) :
    ∀ (fuel : Nat) (node : ASTNode F) (p : Parser), p.inside → p.rem ≤ m + 1 →
      p.rem ≤ fuel → Parser.fine p (Parser.binaryLoop ops mk next fuel node p) := by
  intro fuel
  induction fuel with
  | zero =>
    intro node p hin _ hf
    have := Parser.inside_rem hin
    omega
  | succ n ih =>
    intro node p hin hm hf
    obtain ⟨t, ht⟩ := Parser.inside_token hin
    by_cases hmatch : t.Typ ≠ TokenType.EOF ∧ t.Typ ∈ ops
    · have hin1 := Parser.inside_next hin ht hmatch.1
      have hrem := Parser.rem_next hin1
      have hq := hnext p.next hin1 (by omega)
      cases hr : next p.next with
      | error f =>
        rw [hr] at hq
        have : Parser.binaryLoop ops mk next (n + 1) node p = Except.error f := by
          simp [Parser.binaryLoop, Parser.matchTypes_eq ht, hmatch.1, hmatch.2, bind,
            Except.bind, Parser.previous_next ht, hr]
        rw [this]
        exact Parser.fine_error hq
      | ok v =>
        obtain ⟨right, p2⟩ := v
        rw [hr] at hq
        obtain ⟨h1, h2, h3⟩ := hq
        rw [Parser.binaryLoop_step ht hmatch.2 hmatch.1 hr]
        have hc : p.current ≤ p2.current := by
          have : p.next.current = p.current + 1 := rfl
          omega
        have hrem2 : p2.rem ≤ p.next.rem := Parser.rem_le_of_fine h1 h2
        exact Parser.fine_trans (show p2.tokens = p.tokens from h1) hc
          (ih (mk node t.Typ right) p2 h3 (by omega) (by omega))
    · have : Parser.binaryLoop ops mk next (n + 1) node p = Except.ok (node, p) := by
        simp only [Parser.binaryLoop, Parser.matchTypes_eq ht, hmatch, if_false, bind,
          Except.bind]
        rfl
      rw [this]
      exact ⟨rfl, le_refl _, hin⟩

theorem Parser.binaryLevel_fine (ops : List TokenType)
    (mk : ASTNode F → TokenType → ASTNode F → ASTNode F)
    (next : Parser → Run (ASTNode F × Parser)) (m : Nat)
    (hnext : ∀ q : Parser, q.inside → q.rem ≤ m → Parser.fine q (next q)) :
    ∀ p : Parser, p.inside → p.rem ≤ m →
      Parser.fine p (Parser.binaryLevel ops mk next p) := by
  intro p hin hm
  have hq := hnext p hin hm
  cases hr : next p with
  | error f =>
    rw [hr] at hq
    have : Parser.binaryLevel ops mk next p = Except.error f := by
      simp [Parser.binaryLevel, hr, bind, Except.bind]
    rw [this]
    exact hq
  | ok v =>
    obtain ⟨node, p1⟩ := v
    rw [hr] at hq
    obtain ⟨h1, h2, h3⟩ := hq
    have hrem : p1.rem ≤ p.rem := Parser.rem_le_of_fine h1 h2
    have : Parser.binaryLevel ops mk next p
        = Parser.binaryLoop ops mk next p1.budget node p1 := by
      simp [Parser.binaryLevel, hr, bind, Except.bind]
    rw [this]
    exact Parser.fine_trans h1 h2
      (Parser.binaryLoop_fine ops mk next m hnext p1.budget node p1 h3 (by omega)
        (by unfold Parser.budget Parser.rem; omega))

theorem Parser.listLoop_fine (E : Parser → Run (ASTNode F × Parser)) (m : Nat)
    (hE : ∀ q : Parser, q.inside → q.rem ≤ m → Parser.fine q (E q)) :
    ∀ (fuel : Nat) (acc : List (ASTNode F)) (p : Parser), p.inside → p.rem ≤ m →
      p.rem ≤ fuel → Parser.fine p (Parser.listLoop E fuel acc p) := by
  intro fuel
  induction fuel with
  | zero =>
    intro acc p hin _ hf
    have := Parser.inside_rem hin
    omega
  | succ n ih =>
    intro acc p hin hm hf
    have hq := hE p hin hm
    cases hr : E p with
    | error f =>
      rw [hr] at hq
      have : Parser.listLoop E (n + 1) acc p = Except.error f := by
        simp [Parser.listLoop, hr, bind, Except.bind]
      rw [this]
      exact Parser.fine_error hq
    | ok v =>
      obtain ⟨element, p1⟩ := v
      rw [hr] at hq
      obtain ⟨h1, h2, h3⟩ := hq
      obtain ⟨t, ht⟩ := Parser.inside_token h3
      have hrem : p1.rem ≤ p.rem := Parser.rem_le_of_fine h1 h2
      by_cases hc : t.Typ = TokenType.COMMA
      · have hne : t.Typ ≠ TokenType.EOF := by rw [hc]; decide
        have hin2 := Parser.inside_next h3 ht hne
        have hrem2 := Parser.rem_next hin2
        have : Parser.listLoop E (n + 1) acc p
            = Parser.listLoop E n (acc ++ [element]) p1.next := by
          simp [Parser.listLoop, hr, bind, Except.bind, Parser.matchTypes_one ht, hc]
        rw [this]
        have hcur : p.current ≤ p1.next.current := by
          have : p1.next.current = p1.current + 1 := rfl
          omega
        exact Parser.fine_trans (show p1.next.tokens = p.tokens from h1) hcur
          (ih (acc ++ [element]) p1.next hin2 (by omega) (by omega))
      · have : Parser.listLoop E (n + 1) acc p = Except.ok (acc ++ [element], p1) := by
          simp [Parser.listLoop, hr, bind, Except.bind, Parser.matchTypes_one ht, hc, pure,
            Except.pure]
        rw [this]
        exact ⟨h1, h2, h3⟩

end TotalityLoops

section TotalityPrimary

variable {F : Type}

theorem Parser.consume_cases {p : Parser} (hin : p.inside) (typ : TokenType)
    (hne : typ ≠ TokenType.EOF) (message : String) :
    (∃ t, p.consume typ message = Except.ok (t, p.next) ∧ p.next.inside)
      ∨ p.consume typ message = Except.error (Fault.panic message) := by
  obtain ⟨t, ht⟩ := Parser.inside_token hin
  by_cases h : t.Typ = typ
  · exact Or.inl ⟨t, Parser.consume_found ht typ h hne message,
      Parser.inside_next hin ht (by rw [h]; exact hne)⟩
  · exact Or.inr (Parser.consume_missing ht typ h message)

theorem Parser.fine_next {α : Type} {p : Parser} (a : α) (h : p.next.inside) :
    Parser.fine p (Except.ok (a, p.next)) :=
  ⟨rfl, Nat.le_succ _, h⟩

theorem explicitPanic_atoi (lit : String) : explicitPanic ("strconv.Atoi: parsing " ++ lit) :=
  Or.inr (Or.inr (Or.inr (Or.inr (Or.inr (Or.inl ⟨lit, rfl⟩)))))

theorem explicitPanic_parseFloat (lit : String) :
    explicitPanic ("strconv.ParseFloat: parsing " ++ lit) :=
  Or.inr (Or.inr (Or.inr (Or.inr (Or.inr (Or.inr ⟨lit, rfl⟩)))))

/-- The shared tail of a call and of an array literal: the elements, then the
closing bracket. -/
theorem Parser.bracketed_fine (E : Parser → Run (ASTNode F × Parser)) (m : Nat)
    (hE : ∀ q : Parser, q.inside → q.rem ≤ m → Parser.fine q (E q))
    (close : TokenType) (hclose : close ≠ TokenType.EOF) (message : String)
    (hmsg : explicitPanic message) (mk : List (ASTNode F) → ASTNode F)
    (p : Parser) (hin : p.inside) (hm : p.rem ≤ m) :
    Parser.fine p (do
      let (elements, p) ←
        if !(← p.check close) then Parser.listLoop E p.budget [] p
        else pure ([], p)
      let (_, p) ← p.consume close message
      pure (mk elements, p) : Run (ASTNode F × Parser)) := by
  obtain ⟨t, ht⟩ := Parser.inside_token hin
  by_cases hc : t.Typ = close
  · rcases Parser.consume_cases hin close hclose message with ⟨u, hu, hin1⟩ | hu
    · simp [Parser.check_eq ht, hc, hclose, bind, Except.bind, pure, Except.pure, hu]
      exact Parser.fine_next _ hin1
    · simp [Parser.check_eq ht, hc, hclose, bind, Except.bind, pure, Except.pure, hu]
      exact hmsg
  · have hl := Parser.listLoop_fine E m hE p.budget [] p hin hm
      (by unfold Parser.budget Parser.rem; omega)
    cases hr : Parser.listLoop E p.budget [] p with
    | error f =>
      rw [hr] at hl
      simp [Parser.check_eq ht, hc, bind, Except.bind, pure, Except.pure, hr]
      exact Parser.fine_error hl
    | ok v =>
      obtain ⟨elements, p1⟩ := v
      rw [hr] at hl
      obtain ⟨h1, h2, h3⟩ := hl
      rcases Parser.consume_cases h3 close hclose message with ⟨u, hu, hin1⟩ | hu
      · simp [Parser.check_eq ht, hc, bind, Except.bind, pure, Except.pure, hr, hu]
        exact ⟨h1, Nat.le_succ_of_le h2, hin1⟩
      · simp [Parser.check_eq ht, hc, bind, Except.bind, pure, Except.pure, hr, hu]
        exact hmsg

end TotalityPrimary

section TotalityPrimary2

variable {F : Type} [Float64 F]

theorem Parser.primary_function_eq (E : Parser → Run (ASTNode F × Parser)) {p : Parser}
    {t : Token} (h : p.tokens[p.current]? = some t) (ht : t.Typ = TokenType.FUNCTION) :
    Parser.primary E p = (do
      let (_, p) ← p.next.consume TokenType.PAREN_LEFT "Expect '(' after function."
      let (arguments, p) ←
        if !(← p.check TokenType.PAREN_RIGHT) then Parser.listLoop E p.budget [] p
        else pure ([], p)
      let (_, p) ← p.consume TokenType.PAREN_RIGHT "Expect ')' after arguments to function."
      pure (ASTNode.FunctionCallNode t.Literal arguments, p)) := by
  simp [Parser.primary, Parser.matchTypes_one h, ht, Parser.previous_next h, bind,
    Except.bind, pure, Except.pure]

theorem Parser.primary_array_eq (E : Parser → Run (ASTNode F × Parser)) {p : Parser}
    {t : Token} (h : p.tokens[p.current]? = some t) (ht : t.Typ = TokenType.ARRAY) :
    Parser.primary E p = (do
      let (_, p) ← p.next.consume TokenType.ARRAY_START "Expect '[' after array."
      let (elements, p) ←
        if !(← p.check TokenType.ARRAY_END) then Parser.listLoop E p.budget [] p
        else pure ([], p)
      let (_, p) ← p.consume TokenType.ARRAY_END "Expect ']' after elements to array."
      pure (ASTNode.ArrayNode elements t.Literal, p)) := by
  simp [Parser.primary, Parser.matchTypes_one h, ht, Parser.previous_next h, bind,
    Except.bind, pure, Except.pure]

theorem Parser.primary_fine (E : Parser → Run (ASTNode F × Parser)) (m : Nat)
    (hE : ∀ q : Parser, q.inside → q.rem ≤ m → Parser.fine q (E q))
    (p : Parser) (hin : p.inside) (hm : p.rem ≤ m + 1) :
    Parser.fine p (Parser.primary E p) := by
  obtain ⟨t, ht⟩ := Parser.inside_token hin
  by_cases hb : beginsPrimary t.Typ = false
  · rw [Parser.primary_default E ht hb]
    exact ⟨rfl, le_refl _, hin⟩
  have hne : t.Typ ≠ TokenType.EOF := by
    intro e
    rw [e] at hb
    exact hb rfl
  have hin1 := Parser.inside_next hin ht hne
  have hrem := Parser.rem_next hin1
  by_cases h1 : t.Typ = TokenType.INT
  · cases hv : Atoi t.Literal with
    | some v =>
      rw [Parser.primary_int E ht h1 hv]
      exact Parser.fine_next _ hin1
    | none =>
      have : Parser.primary E p
          = Except.error (Fault.panic ("strconv.Atoi: parsing " ++ t.Literal)) := by
        simp [Parser.primary, Parser.matchTypes_one ht, h1, Parser.previous_next ht, parseInt,
          hv, bind, Except.bind, throw, throwThe, MonadExceptOf.throw]
      rw [this]
      exact explicitPanic_atoi _
  by_cases h2 : t.Typ = TokenType.FLOAT
  · cases hv : (Float64.parse t.Literal : Option F) with
    | some v =>
      have : Parser.primary E p = Except.ok (ASTNode.FloatLiteralNode v, p.next) := by
        simp [Parser.primary, Parser.matchTypes_one ht, h2, Parser.previous_next ht,
          parseFloat, hv, bind, Except.bind, pure, Except.pure]
      rw [this]
      exact Parser.fine_next _ hin1
    | none =>
      have : Parser.primary E p
          = Except.error (Fault.panic ("strconv.ParseFloat: parsing " ++ t.Literal)) := by
        simp [Parser.primary, Parser.matchTypes_one ht, h2, Parser.previous_next ht,
          parseFloat, hv, bind, Except.bind, throw, throwThe, MonadExceptOf.throw]
      rw [this]
      exact explicitPanic_parseFloat _
  by_cases h3 : t.Typ = TokenType.STRING
  · have : Parser.primary E p = Except.ok (ASTNode.StringLiteralNode t.Literal, p.next) := by
      simp [Parser.primary, Parser.matchTypes_one ht, h3, Parser.previous_next ht, bind,
        Except.bind, pure, Except.pure]
    rw [this]
    exact Parser.fine_next _ hin1
  by_cases h4 : t.Typ = TokenType.BOOL
  · have : Parser.primary E p
        = Except.ok (ASTNode.BooleanLiteralNode (parseBool t.Literal), p.next) := by
      simp [Parser.primary, Parser.matchTypes_one ht, h4, Parser.previous_next ht, bind,
        Except.bind, pure, Except.pure]
    rw [this]
    exact Parser.fine_next _ hin1
  by_cases h5 : t.Typ = TokenType.VARIABLE
  · have : Parser.primary E p = Except.ok (ASTNode.VariableNode t.Literal, p.next) := by
      simp [Parser.primary, Parser.matchTypes_one ht, h5, Parser.previous_next ht, bind,
        Except.bind, pure, Except.pure]
    rw [this]
    exact Parser.fine_next _ hin1
  by_cases h6 : t.Typ = TokenType.PAREN_LEFT
  · have hq := hE p.next hin1 (by omega)
    cases hr : E p.next with
    | error f =>
      rw [hr] at hq
      have : Parser.primary E p = Except.error f := by
        simp [Parser.primary, Parser.matchTypes_one ht, h6, hr, bind, Except.bind]
      rw [this]
      exact Parser.fine_error hq
    | ok v =>
      obtain ⟨e, p2⟩ := v
      rw [hr] at hq
      obtain ⟨q1, q2, q3⟩ := hq
      have hcur : p.current ≤ p2.current := Nat.le_of_succ_le q2
      rcases Parser.consume_cases q3 TokenType.PAREN_RIGHT (by decide)
        "Expect ')' after expression." with ⟨u, hu, hin2⟩ | hu
      · have : Parser.primary E p = Except.ok (e, p2.next) := by
          simp [Parser.primary, Parser.matchTypes_one ht, h6, hr, hu, bind, Except.bind, pure,
            Except.pure]
        rw [this]
        exact ⟨q1, Nat.le_succ_of_le hcur, hin2⟩
      · have : Parser.primary E p
            = Except.error (Fault.panic "Expect ')' after expression.") := by
          simp [Parser.primary, Parser.matchTypes_one ht, h6, hr, hu, bind, Except.bind]
        rw [this]
        exact Or.inl rfl
  by_cases h7 : t.Typ = TokenType.FUNCTION
  · rw [Parser.primary_function_eq E ht h7]
    rcases Parser.consume_cases hin1 TokenType.PAREN_LEFT (by decide)
      "Expect '(' after function." with ⟨u, hu, hin2⟩ | hu
    · rw [hu]
      have hrem2 := Parser.rem_next hin2
      exact Parser.fine_trans (p := p) (q := p.next.next) rfl
        (Nat.le_add_right p.current 2)
        (Parser.bracketed_fine E m hE TokenType.PAREN_RIGHT (by decide)
          "Expect ')' after arguments to function." (Or.inr (Or.inr (Or.inl rfl)))
          (ASTNode.FunctionCallNode t.Literal) p.next.next hin2 (by omega))
    · rw [hu]
      exact Or.inr (Or.inl rfl)
  by_cases h8 : t.Typ = TokenType.ARRAY
  · rw [Parser.primary_array_eq E ht h8]
    rcases Parser.consume_cases hin1 TokenType.ARRAY_START (by decide)
      "Expect '[' after array." with ⟨u, hu, hin2⟩ | hu
    · rw [hu]
      have hrem2 := Parser.rem_next hin2
      exact Parser.fine_trans (p := p) (q := p.next.next) rfl
        (Nat.le_add_right p.current 2)
        (Parser.bracketed_fine E m hE TokenType.ARRAY_END (by decide)
          "Expect ']' after elements to array." (Or.inr (Or.inr (Or.inr (Or.inr (Or.inl rfl)))))
          (fun elements => ASTNode.ArrayNode elements t.Literal) p.next.next hin2 (by omega))
    · rw [hu]
      exact Or.inr (Or.inr (Or.inr (Or.inl rfl)))
  exfalso
  apply hb
  revert h1 h2 h3 h4 h5 h6 h7 h8
  cases t.Typ <;> simp [beginsPrimary]

end TotalityPrimary2

section TotalityLevels

variable {F : Type} [Float64 F]

theorem Parser.functions_fine (E : Parser → Run (ASTNode F × Parser)) (m : Nat)
    (hE : ∀ q : Parser, q.inside → q.rem ≤ m → Parser.fine q (E q)) :
    ∀ (n : Nat) (p : Parser), p.inside → p.rem ≤ m + 1 → p.rem ≤ n →
      Parser.fine p (Parser.functions E n p) := by
  intro n
  induction n with
  | zero =>
    intro p hin _ hf
    have := Parser.inside_rem hin
    omega
  | succ n ih =>
    intro p hin hm hf
    have hq := Parser.primary_fine E m hE p hin hm
    cases hr : Parser.primary E p with
    | error f =>
      rw [hr] at hq
      have : Parser.functions E (n + 1) p = Except.error f := by
        simp [Parser.functions, hr, bind, Except.bind]
      rw [this]
      exact Parser.fine_error hq
    | ok v =>
      obtain ⟨node, p1⟩ := v
      rw [hr] at hq
      obtain ⟨h1, h2, h3⟩ := hq
      have hrem : p1.rem ≤ p.rem := Parser.rem_le_of_fine h1 h2
      have hpos := Parser.inside_rem hin
      have : Parser.functions E (n + 1) p
          = Parser.binaryLoop [TokenType.EXPONENT, TokenType.FUNCTION]
              ASTNode.BinaryOperationNode (Parser.functions E n) p1.budget node p1 := by
        simp [Parser.functions, hr, bind, Except.bind]
      rw [this]
      exact Parser.fine_trans h1 h2
        (Parser.binaryLoop_fine _ _ (Parser.functions E n) (p.rem - 1)
          (fun q hq1 hq2 => ih q hq1 (by omega) (by omega)) p1.budget node p1 h3 (by omega)
          (by unfold Parser.budget Parser.rem; omega))

theorem Parser.atLevel_fine (E : Parser → Run (ASTNode F × Parser)) (m : Nat)
    (hE : ∀ q : Parser, q.inside → q.rem ≤ m → Parser.fine q (E q)) :
    ∀ (d k : Nat), k + d = 7 → ∀ p : Parser, p.inside → p.rem ≤ m + 1 →
      Parser.fine p (Parser.atLevel E k p) := by
  intro d
  induction d with
  | zero =>
    intro k hk p hin hm
    have hk7 : k = 7 := by omega
    subst hk7
    exact Parser.functions_fine E m hE p.budget p hin hm
      (by unfold Parser.budget Parser.rem; omega)
  | succ d ih =>
    intro k hk p hin hm
    rw [Parser.atLevel_succ E (by omega : k < 7)]
    exact Parser.binaryLevel_fine (levelOps k) (levelNode k) (Parser.atLevel E (k + 1)) (m + 1)
      (ih (k + 1) (by omega)) p hin hm

theorem Parser.expression_fine :
    ∀ (n : Nat) (p : Parser), p.inside → p.rem ≤ n →
      Parser.fine p (Parser.expression (F := F) n p) := by
  intro n
  induction n with
  | zero =>
    intro p hin hf
    have := Parser.inside_rem hin
    omega
  | succ n ih =>
    intro p hin hf
    rw [Parser.expression_succ]
    exact Parser.atLevel_fine (Parser.expression n) n ih 7 0 rfl p hin hf

theorem finishedTokens_inside {toks : List Token} (h : finishedTokens toks) :
    Parser.inside { tokens := toks, current := 0 } := by
  obtain ⟨body, last, rfl, hl, _⟩ := h
  exact ⟨body.length, last, Nat.zero_le _, by simp, hl⟩

theorem finishedTokens_bound {toks : List Token} (h : finishedTokens toks) {p : Parser}
    (ht : p.tokens = toks) (hin : p.inside) : p.current + 1 ≤ toks.length := by
  obtain ⟨body, last, rfl, hl, hb⟩ := h
  obtain ⟨j, t, hj, hjt, he⟩ := hin
  rw [ht] at hjt
  have hlt : j < (body ++ [last]).length := by
    by_contra hn
    rw [List.getElem?_eq_none (by omega)] at hjt
    cases hjt
  omega

theorem not_explicitPanic_index : ¬ explicitPanic "index out of range" := by
  intro h
  rcases h with h | h | h | h | h | ⟨lit, h⟩ | ⟨lit, h⟩
  · exact absurd h (by decide)
  · exact absurd h (by decide)
  · exact absurd h (by decide)
  · exact absurd h (by decide)
  · exact absurd h (by decide)
  · have := congrArg String.data h
    rw [String.data_append] at this
    cases this
  · have := congrArg String.data h
    rw [String.data_append] at this
    cases this

end TotalityLevels

/-- C37. The parser is total on finished token sequences.  For every token
sequence that ends with its only EOF token, `Parse` with its own budget of
recursion either returns a tree, and then `expression` stopped with the same
tokens and the cursor on a token of the sequence (at or before the EOF token),
or it aborts with one of the explicit panics of `consume`, `parseInt` and
`parseFloat`; it never runs out of budget and never raises the panic of an
index out of range, which is not one of the explicit panics. -/
theorem parser_total_on_finished_tokens :
    (∀ (F : Type) [Float64 F] (toks : List Token), finishedTokens toks →
      ((∃ (tree : ASTNode F) (p1 : Parser),
          Parser.expression (toks.length + 1) { tokens := toks, current := 0 }
            = Except.ok (tree, p1)
          ∧ Parser.Parse { tokens := toks, current := 0 } = Except.ok tree
          ∧ p1.tokens = toks ∧ p1.current + 1 ≤ toks.length)
        ∨ (∃ msg, explicitPanic msg
          ∧ Parser.Parse (F := F) { tokens := toks, current := 0 }
            = Except.error (Fault.panic msg))))
    ∧ ¬ explicitPanic "index out of range"
    ∧ (∀ (F : Type) [Float64 F] (toks : List Token), finishedTokens toks →
      Parser.Parse (F := F) { tokens := toks, current := 0 } ≠ Except.error Fault.fuel
      ∧ Parser.Parse (F := F) { tokens := toks, current := 0 }
        ≠ Except.error (Fault.panic "index out of range")) := by
  have main : ∀ (F : Type) [Float64 F] (toks : List Token), finishedTokens toks →
      ((∃ (tree : ASTNode F) (p1 : Parser),
          Parser.expression (toks.length + 1) { tokens := toks, current := 0 }
            = Except.ok (tree, p1)
          ∧ Parser.Parse { tokens := toks, current := 0 } = Except.ok tree
          ∧ p1.tokens = toks ∧ p1.current + 1 ≤ toks.length)
        ∨ (∃ msg, explicitPanic msg
          ∧ Parser.Parse (F := F) { tokens := toks, current := 0 }
            = Except.error (Fault.panic msg))) := by
    intro F _ toks hfin
    have hin := finishedTokens_inside hfin
    have hq := Parser.expression_fine (F := F) (toks.length + 1)
      { tokens := toks, current := 0 } hin (by unfold Parser.rem; simp)
    cases hr : Parser.expression (F := F) (toks.length + 1) { tokens := toks, current := 0 } with
    | error f =>
      rw [hr] at hq
      cases f with
      | panic msg =>
        refine Or.inr ⟨msg, hq, ?_⟩
        simp [Parser.Parse, Parser.budget, hr, bind, Except.bind]
      | fuel => exact absurd hq id
      | unmodelled => exact absurd hq id
    | ok v =>
      obtain ⟨tree, p1⟩ := v
      rw [hr] at hq
      obtain ⟨h1, _, h3⟩ := hq
      refine Or.inl ⟨tree, p1, rfl, ?_, h1, finishedTokens_bound hfin h1 h3⟩
      simp [Parser.Parse, Parser.budget, hr, bind, Except.bind, pure, Except.pure]
  refine ⟨main, not_explicitPanic_index, ?_⟩
  intro F _ toks hfin
  rcases main F toks hfin with ⟨tree, p1, _, hp, _⟩ | ⟨msg, hm, hp⟩
  · rw [hp]
    exact ⟨by simp, by simp⟩
  · rw [hp]
    refine ⟨by simp, ?_⟩
    intro e
    cases e
    exact not_explicitPanic_index hm

set_option maxRecDepth 100000 in
/-- C37 at the tokens of `1`. -/
theorem parser_total_on_finished_tokens_witness :
    finishedTokens [⟨TokenType.INT, "1"⟩, ⟨TokenType.EOF, ""⟩]
    ∧ ((∃ (tree : ASTNode Exact) (p1 : Parser),
          Parser.expression 3
              { tokens := [⟨TokenType.INT, "1"⟩, ⟨TokenType.EOF, ""⟩], current := 0 }
            = Except.ok (tree, p1)
          ∧ Parser.Parse
              { tokens := [⟨TokenType.INT, "1"⟩, ⟨TokenType.EOF, ""⟩], current := 0 }
            = Except.ok tree
          ∧ p1.tokens = [⟨TokenType.INT, "1"⟩, ⟨TokenType.EOF, ""⟩] ∧ p1.current + 1 ≤ 2)
        ∨ (∃ msg, explicitPanic msg
          ∧ Parser.Parse (F := Exact)
              { tokens := [⟨TokenType.INT, "1"⟩, ⟨TokenType.EOF, ""⟩], current := 0 }
            = Except.error (Fault.panic msg))) :=
  ⟨⟨[⟨TokenType.INT, "1"⟩], ⟨TokenType.EOF, ""⟩, rfl, rfl, by simp⟩,
    parser_total_on_finished_tokens.1 Exact [⟨TokenType.INT, "1"⟩, ⟨TokenType.EOF, ""⟩]
      ⟨[⟨TokenType.INT, "1"⟩], ⟨TokenType.EOF, ""⟩, rfl, rfl, by simp⟩⟩

/-! ## The result of a parse depends on the tokens up to the cursor -/

section LocalityBasics

theorem agreeUpTo_mono {toks1 toks2 : List Token} {k j : Nat} (h : agreeUpTo toks1 toks2 k)
    (hj : j ≤ k) : agreeUpTo toks1 toks2 j :=
  fun i hi => h i (le_trans hi hj)

theorem agreeUpTo_token {toks1 toks2 : List Token} {k c : Nat} {t : Token}
    (h : agreeUpTo toks1 toks2 k) (hc : c ≤ k) (ht : toks1[c]? = some t) :
    toks2[c]? = some t := by
  rw [← h c hc]; exact ht

theorem lt_length_of_token {toks : List Token} {c : Nat} {t : Token} (h : toks[c]? = some t) :
    c < toks.length := by
  by_contra hn
  rw [List.getElem?_eq_none (by omega)] at h
  cases h

theorem agreeUpTo_append (pre : List Token) (t : Token) (rest1 rest2 : List Token) :
    agreeUpTo (pre ++ t :: rest1) (pre ++ t :: rest2) pre.length := by
  intro i hi
  rcases Nat.lt_or_ge i pre.length with h | h
  · rw [List.getElem?_append_left h, List.getElem?_append_left h]
  · have e : i = pre.length := by omega
    subst e
    rw [List.getElem?_append_right (le_refl _), List.getElem?_append_right (le_refl _)]
    simp

theorem Parser.check_none {p : Parser} (h : p.tokens[p.current]? = none) (typ : TokenType) :
    p.check typ = Except.error (Fault.panic "index out of range") := by
  simp [Parser.check, Parser.isAtEnd, Parser.peek, Parser.tokenAt, h, bind, Except.bind,
    throw, throwThe, MonadExceptOf.throw]

theorem Parser.matchTypes_none {p : Parser} (h : p.tokens[p.current]? = none)
    (typ : TokenType) (ops : List TokenType) :
    p.matchTypes (typ :: ops) = Except.error (Fault.panic "index out of range") := by
  simp [Parser.matchTypes, Parser.check_none h, bind, Except.bind]

end LocalityBasics

section LocalityLoops

variable {F : Type}

theorem Parser.binaryLoop_follows (typ : TokenType) (ops : List TokenType)
    (mk : ASTNode F → TokenType → ASTNode F → ASTNode F)
    (next1 next2 : Parser → Run (ASTNode F × Parser)) (toks2 : List Token) (m : Nat)
    (hnext : Parser.follows next1 next2 toks2 m) :
    ∀ (n1 : Nat) (node : ASTNode F) (p : Parser) (x : ASTNode F) (p1 : Parser),
      Parser.binaryLoop (typ :: ops) mk next1 n1 node p = Except.ok (x, p1) →
      p1.tokens = p.tokens ∧ p.current ≤ p1.current ∧ (∃ t, p.tokens[p.current]? = some t)
        ∧ ∀ n2 : Nat, agreeUpTo p.tokens toks2 p1.current →
          toks2.length - p.current ≤ m + 1 → toks2.length - p.current ≤ n2 →
          Parser.binaryLoop (typ :: ops) mk next2 n2 node { tokens := toks2, current := p.current }
            = Except.ok (x, { tokens := toks2, current := p1.current }) := by
  intro n1
  induction n1 with
  | zero =>
    intro node p x p1 h
    simp [Parser.binaryLoop, throw, throwThe, MonadExceptOf.throw] at h
  | succ n ih =>
    intro node p x p1 h
    cases ht : p.tokens[p.current]? with
    | none =>
      simp [Parser.binaryLoop, Parser.matchTypes_none ht, bind, Except.bind] at h
    | some t =>
      by_cases hmatch : t.Typ ≠ TokenType.EOF ∧ t.Typ ∈ typ :: ops
      · cases hr : next1 p.next with
        | error f =>
          simp [Parser.binaryLoop, Parser.matchTypes_eq ht, hmatch.1, hmatch.2, bind,
            Except.bind, Parser.previous_next ht, hr] at h
        | ok v =>
          obtain ⟨right, p2⟩ := v
          rw [Parser.binaryLoop_step ht hmatch.2 hmatch.1 hr] at h
          obtain ⟨a1, a2, _, a4⟩ := hnext p.next right p2 hr
          obtain ⟨b1, b2, _, b4⟩ := ih (mk node t.Typ right) p2 x p1 h
          have a1' : p2.tokens = p.tokens := a1
          have a2' : p.current + 1 ≤ p2.current := a2
          refine ⟨b1.trans a1', by omega, ⟨t, rfl⟩, ?_⟩
          intro n2 hag hm hn2
          have ht2 : toks2[p.current]? = some t := agreeUpTo_token hag (by omega) ht
          have hlt := lt_length_of_token ht2
          obtain ⟨k, rfl⟩ : ∃ k, n2 = k + 1 := ⟨n2 - 1, by omega⟩
          have hr2 : next2 (Parser.next { tokens := toks2, current := p.current })
              = Except.ok (right, { tokens := toks2, current := p2.current }) :=
            a4 (agreeUpTo_mono hag b2)
              (by show toks2.length - (p.current + 1) ≤ m; omega)
          have ht2' : ({ tokens := toks2, current := p.current } : Parser).tokens[
              ({ tokens := toks2, current := p.current } : Parser).current]? = some t := ht2
          rw [Parser.binaryLoop_step ht2' hmatch.2 hmatch.1 hr2]
          exact b4 k (by rw [a1']; exact hag) (by show toks2.length - p2.current ≤ m + 1; omega)
            (by show toks2.length - p2.current ≤ k; omega)
      · have hexit : ∀ (nx : Parser → Run (ASTNode F × Parser)) (q : Parser),
            q.tokens[q.current]? = some t → ∀ k,
            Parser.binaryLoop (typ :: ops) mk nx (k + 1) node q = Except.ok (node, q) := by
          intro nx q hq k
          simp only [Parser.binaryLoop, Parser.matchTypes_eq hq, hmatch, if_false, bind,
            Except.bind]
          rfl
        rw [hexit next1 p ht n] at h
        cases h
        refine ⟨rfl, le_refl _, ⟨t, rfl⟩, ?_⟩
        intro n2 hag hm hn2
        have ht2 : toks2[p.current]? = some t := agreeUpTo_token hag (le_refl _) ht
        have hlt := lt_length_of_token ht2
        obtain ⟨k, rfl⟩ : ∃ k, n2 = k + 1 := ⟨n2 - 1, by omega⟩
        exact hexit next2 { tokens := toks2, current := p.current } ht2 k

theorem Parser.binaryLevel_follows (typ : TokenType) (ops : List TokenType)
    (mk : ASTNode F → TokenType → ASTNode F → ASTNode F)
    (next1 next2 : Parser → Run (ASTNode F × Parser)) (toks2 : List Token) (m : Nat)
    (hnext : Parser.follows next1 next2 toks2 m) :
    Parser.follows (Parser.binaryLevel (typ :: ops) mk next1)
      (Parser.binaryLevel (typ :: ops) mk next2) toks2 m := by
  intro p x p1 h
  cases hr : next1 p with
  | error f =>
    simp [Parser.binaryLevel, hr, bind, Except.bind] at h
  | ok v =>
    obtain ⟨node, q⟩ := v
    have e1 : Parser.binaryLevel (typ :: ops) mk next1 p
        = Parser.binaryLoop (typ :: ops) mk next1 q.budget node q := by
      simp [Parser.binaryLevel, hr, bind, Except.bind]
    rw [e1] at h
    obtain ⟨a1, a2, a3, a4⟩ := hnext p node q hr
    obtain ⟨b1, b2, _, b4⟩ :=
      Parser.binaryLoop_follows typ ops mk next1 next2 toks2 m hnext q.budget node q x p1 h
    refine ⟨b1.trans a1, le_trans a2 b2, a3, ?_⟩
    intro hag hm
    have hr2 := a4 (agreeUpTo_mono hag b2) hm
    have e2 : Parser.binaryLevel (typ :: ops) mk next2 { tokens := toks2, current := p.current }
        = Parser.binaryLoop (typ :: ops) mk next2 (toks2.length + 1) node
            { tokens := toks2, current := q.current } := by
      simp [Parser.binaryLevel, hr2, bind, Except.bind, Parser.budget]
    rw [e2]
    exact b4 (toks2.length + 1) (by rw [a1]; exact hag)
      (by show toks2.length - q.current ≤ m + 1; omega)
      (by show toks2.length - q.current ≤ toks2.length + 1; omega)

theorem Parser.listLoop_follows (E1 E2 : Parser → Run (ASTNode F × Parser))
    (toks2 : List Token) (m : Nat) (hE : Parser.follows E1 E2 toks2 m) :
    ∀ (n1 : Nat) (acc : List (ASTNode F)) (p : Parser) (x : List (ASTNode F)) (p1 : Parser),
      Parser.listLoop E1 n1 acc p = Except.ok (x, p1) →
      p1.tokens = p.tokens ∧ p.current ≤ p1.current ∧ (∃ t, p.tokens[p.current]? = some t)
        ∧ ∀ n2 : Nat, agreeUpTo p.tokens toks2 p1.current →
          toks2.length - p.current ≤ m → toks2.length - p.current ≤ n2 →
          Parser.listLoop E2 n2 acc { tokens := toks2, current := p.current }
            = Except.ok (x, { tokens := toks2, current := p1.current }) := by
  intro n1
  induction n1 with
  | zero =>
    intro acc p x p1 h
    simp [Parser.listLoop, throw, throwThe, MonadExceptOf.throw] at h
  | succ n ih =>
    intro acc p x p1 h
    cases hr : E1 p with
    | error f =>
      simp [Parser.listLoop, hr, bind, Except.bind] at h
    | ok v =>
      obtain ⟨element, q⟩ := v
      obtain ⟨a1, a2, a3, a4⟩ := hE p element q hr
      obtain ⟨t0, ht0⟩ := a3
      cases ht : q.tokens[q.current]? with
      | none =>
        simp [Parser.listLoop, hr, bind, Except.bind, Parser.matchTypes_none ht] at h
      | some t =>
        by_cases hc : t.Typ = TokenType.COMMA
        · have e1 : Parser.listLoop E1 (n + 1) acc p
              = Parser.listLoop E1 n (acc ++ [element]) q.next := by
            simp [Parser.listLoop, hr, bind, Except.bind, Parser.matchTypes_one ht, hc]
          rw [e1] at h
          obtain ⟨b1, b2, _, b4⟩ := ih (acc ++ [element]) q.next x p1 h
          have b1' : p1.tokens = q.tokens := b1
          have b2' : q.current + 1 ≤ p1.current := b2
          refine ⟨b1'.trans a1, by omega, ⟨t0, ht0⟩, ?_⟩
          intro n2 hag hm hn2
          have hlt := lt_length_of_token (agreeUpTo_token hag (by omega) ht0)
          obtain ⟨k, rfl⟩ : ∃ k, n2 = k + 1 := ⟨n2 - 1, by omega⟩
          have hr2 := a4 (agreeUpTo_mono hag (by omega)) hm
          have ht2' : toks2[q.current]? = some t :=
            agreeUpTo_token hag (by omega) (a1 ▸ ht)
          have ht2 : ({ tokens := toks2, current := q.current } : Parser).tokens[
              ({ tokens := toks2, current := q.current } : Parser).current]? = some t := ht2'
          have e2 : Parser.listLoop E2 (k + 1) acc { tokens := toks2, current := p.current }
              = Parser.listLoop E2 k (acc ++ [element])
                  (Parser.next { tokens := toks2, current := q.current }) := by
            simp [Parser.listLoop, hr2, bind, Except.bind, Parser.matchTypes_one ht2, hc]
          rw [e2]
          have hlt2 := lt_length_of_token ht2'
          exact b4 k (by show agreeUpTo q.tokens toks2 p1.current; rw [a1]; exact hag)
            (by show toks2.length - (q.current + 1) ≤ m; omega)
            (by
              show toks2.length - (q.current + 1) ≤ k
              have : q.current < toks2.length := hlt2
              omega)
        · have e1 : Parser.listLoop E1 (n + 1) acc p = Except.ok (acc ++ [element], q) := by
            simp [Parser.listLoop, hr, bind, Except.bind, Parser.matchTypes_one ht, hc, pure,
              Except.pure]
          rw [e1] at h
          simp only [Except.ok.injEq, Prod.mk.injEq] at h
          obtain ⟨rfl, rfl⟩ := h
          refine ⟨a1, a2, ⟨t0, ht0⟩, ?_⟩
          intro n2 hag hm hn2
          have hlt := lt_length_of_token (agreeUpTo_token hag a2 ht0)
          obtain ⟨k, rfl⟩ : ∃ k, n2 = k + 1 := ⟨n2 - 1, by omega⟩
          have hr2 := a4 hag hm
          have ht2' : toks2[q.current]? = some t :=
            agreeUpTo_token hag (le_refl _) (a1 ▸ ht)
          have ht2 : ({ tokens := toks2, current := q.current } : Parser).tokens[
              ({ tokens := toks2, current := q.current } : Parser).current]? = some t := ht2'
          simp [Parser.listLoop, hr2, bind, Except.bind, Parser.matchTypes_one ht2, hc, pure,
            Except.pure]

end LocalityLoops

section LocalityPrimary

variable {F : Type} [Float64 F]

theorem Parser.primary_none (E : Parser → Run (ASTNode F × Parser)) {p : Parser}
    (h : p.tokens[p.current]? = none) :
    Parser.primary E p = Except.error (Fault.panic "index out of range") := by
  simp [Parser.primary, Parser.matchTypes_none h, bind, Except.bind]

theorem Parser.primary_string (E : Parser → Run (ASTNode F × Parser)) {p : Parser} {t : Token}
    (h : p.tokens[p.current]? = some t) (ht : t.Typ = TokenType.STRING) :
    Parser.primary E p = Except.ok (ASTNode.StringLiteralNode t.Literal, p.next) := by
  simp [Parser.primary, Parser.matchTypes_one h, ht, Parser.previous_next h, bind,
    Except.bind, pure, Except.pure]

theorem Parser.primary_bool (E : Parser → Run (ASTNode F × Parser)) {p : Parser} {t : Token}
    (h : p.tokens[p.current]? = some t) (ht : t.Typ = TokenType.BOOL) :
    Parser.primary E p
      = Except.ok (ASTNode.BooleanLiteralNode (parseBool t.Literal), p.next) := by
  simp [Parser.primary, Parser.matchTypes_one h, ht, Parser.previous_next h, bind,
    Except.bind, pure, Except.pure]

theorem Parser.primary_variable (E : Parser → Run (ASTNode F × Parser)) {p : Parser}
    {t : Token} (h : p.tokens[p.current]? = some t) (ht : t.Typ = TokenType.VARIABLE) :
    Parser.primary E p = Except.ok (ASTNode.VariableNode t.Literal, p.next) := by
  simp [Parser.primary, Parser.matchTypes_one h, ht, Parser.previous_next h, bind,
    Except.bind, pure, Except.pure]

end LocalityPrimary

section LocalityBracket

variable {F : Type}

/-- The shared tail of a call and of an array literal on two token sequences. -/
theorem Parser.bracketed_follows (E1 E2 : Parser → Run (ASTNode F × Parser))
    (toks2 : List Token) (m : Nat) (hE : Parser.follows E1 E2 toks2 m)
    (close : TokenType) (hclose : close ≠ TokenType.EOF) (message : String)
    (mk : List (ASTNode F) → ASTNode F) :
    Parser.follows
      (fun p => (do
        let (elements, p) ←
          if !(← p.check close) then Parser.listLoop E1 p.budget [] p
          else pure ([], p)
        let (_, p) ← p.consume close message
        pure (mk elements, p) : Run (ASTNode F × Parser)))
      (fun p => (do
        let (elements, p) ←
          if !(← p.check close) then Parser.listLoop E2 p.budget [] p
          else pure ([], p)
        let (_, p) ← p.consume close message
        pure (mk elements, p) : Run (ASTNode F × Parser)))
      toks2 m := by
  intro p x p1 h
  cases ht : p.tokens[p.current]? with
  | none =>
    simp [Parser.check_none ht, bind, Except.bind] at h
  | some t =>
    by_cases hc : t.Typ = close
    · have hfound := Parser.consume_found ht close hc hclose message
      simp [Parser.check_eq ht, hc, hclose, bind, Except.bind, pure, Except.pure, hfound] at h
      obtain ⟨rfl, rfl⟩ := h
      refine ⟨rfl, Nat.le_succ _, ⟨t, rfl⟩, ?_⟩
      intro hag _
      have ht2' : toks2[p.current]? = some t := agreeUpTo_token hag (Nat.le_succ _) ht
      have ht2 : ({ tokens := toks2, current := p.current } : Parser).tokens[
          ({ tokens := toks2, current := p.current } : Parser).current]? = some t := ht2'
      have hfound2 := Parser.consume_found ht2 close hc hclose message
      simp [Parser.check_eq ht2, hc, hclose, bind, Except.bind, pure, Except.pure, hfound2]
      rfl
    · cases hr : Parser.listLoop E1 p.budget [] p with
      | error f =>
        simp [Parser.check_eq ht, hc, bind, Except.bind, pure, Except.pure, hr] at h
      | ok v =>
        obtain ⟨elements, q⟩ := v
        obtain ⟨a1, a2, _, a4⟩ :=
          Parser.listLoop_follows E1 E2 toks2 m hE p.budget [] p elements q hr
        cases hq : q.tokens[q.current]? with
        | none =>
          simp [Parser.check_eq ht, hc, bind, Except.bind, pure, Except.pure, hr,
            Parser.consume, Parser.check_none hq] at h
        | some u =>
          by_cases hu : u.Typ = close
          · have hfound := Parser.consume_found hq close hu hclose message
            simp [Parser.check_eq ht, hc, bind, Except.bind, pure, Except.pure, hr,
              hfound] at h
            obtain ⟨rfl, rfl⟩ := h
            refine ⟨a1, Nat.le_succ_of_le a2, ⟨t, rfl⟩, ?_⟩
            intro hag hm
            have hag' : agreeUpTo p.tokens toks2 (q.current + 1) := hag
            have ht2' : toks2[p.current]? = some t := agreeUpTo_token hag' (by omega) ht
            have ht2 : ({ tokens := toks2, current := p.current } : Parser).tokens[
                ({ tokens := toks2, current := p.current } : Parser).current]? = some t := ht2'
            have hq2' : toks2[q.current]? = some u :=
              agreeUpTo_token hag' (by omega) (a1 ▸ hq)
            have hq2 : ({ tokens := toks2, current := q.current } : Parser).tokens[
                ({ tokens := toks2, current := q.current } : Parser).current]? = some u := hq2'
            have hr2 := a4 (toks2.length + 1) (agreeUpTo_mono hag' (by omega)) hm (by omega)
            have hfound2 := Parser.consume_found hq2 close hu hclose message
            simp [Parser.check_eq ht2, hc, bind, Except.bind, pure, Except.pure,
              Parser.budget, hr2, hfound2]
            rfl
          · have hmiss := Parser.consume_missing hq close hu message
            simp [Parser.check_eq ht, hc, bind, Except.bind, pure, Except.pure, hr,
              hmiss] at h

end LocalityBracket

section LocalityPrimary2

variable {F : Type} [Float64 F]

theorem Parser.primary_follows (E1 E2 : Parser → Run (ASTNode F × Parser))
    (toks2 : List Token) (m : Nat) (hE : Parser.follows E1 E2 toks2 m) :
    Parser.follows (Parser.primary E1) (Parser.primary E2) toks2 (m + 1) := by
  intro p x p1 h
  cases ht : p.tokens[p.current]? with
  | none =>
    rw [Parser.primary_none E1 ht] at h
    cases h
  | some t =>
    -- the token of the second run
    have tok2 : agreeUpTo p.tokens toks2 p1.current → p.current ≤ p1.current →
        ({ tokens := toks2, current := p.current } : Parser).tokens[
          ({ tokens := toks2, current := p.current } : Parser).current]? = some t :=
      fun hag hle => agreeUpTo_token hag hle ht
    -- a literal: one token
    have one : ∀ node : ASTNode F,
        (∀ E : Parser → Run (ASTNode F × Parser), ∀ q : Parser,
          q.tokens[q.current]? = some t → Parser.primary E q = Except.ok (node, q.next)) →
        Parser.primary E1 p = Except.ok (x, p1) →
        p1.tokens = p.tokens ∧ p.current ≤ p1.current ∧ (∃ u, some t = some u)
          ∧ (agreeUpTo p.tokens toks2 p1.current → toks2.length - p.current ≤ m + 1 →
            Parser.primary E2 { tokens := toks2, current := p.current }
              = Except.ok (x, { tokens := toks2, current := p1.current })) := by
      intro node hnode h
      rw [hnode E1 p ht] at h
      simp only [Except.ok.injEq, Prod.mk.injEq] at h
      obtain ⟨rfl, rfl⟩ := h
      refine ⟨rfl, Nat.le_succ _, ⟨t, rfl⟩, ?_⟩
      intro hag _
      exact hnode E2 { tokens := toks2, current := p.current } (tok2 hag (Nat.le_succ _))
    by_cases hb : beginsPrimary t.Typ = false
    · rw [Parser.primary_default E1 ht hb] at h
      simp only [Except.ok.injEq, Prod.mk.injEq] at h
      obtain ⟨rfl, rfl⟩ := h
      refine ⟨rfl, le_refl _, ⟨t, rfl⟩, ?_⟩
      intro hag _
      exact Parser.primary_default E2 (tok2 hag (le_refl _)) hb
    by_cases h1 : t.Typ = TokenType.INT
    · cases hv : Atoi t.Literal with
      | some v =>
        exact one (ASTNode.IntLiteralNode v)
          (fun E q hq => Parser.primary_int E hq h1 hv) h
      | none =>
        simp [Parser.primary, Parser.matchTypes_one ht, h1, Parser.previous_next ht, parseInt,
          hv, bind, Except.bind, throw, throwThe, MonadExceptOf.throw] at h
    by_cases h2 : t.Typ = TokenType.FLOAT
    · cases hv : (Float64.parse t.Literal : Option F) with
      | some v =>
        exact one (ASTNode.FloatLiteralNode v)
          (fun E q hq => Parser.primary_float E hq h2 hv) h
      | none =>
        simp [Parser.primary, Parser.matchTypes_one ht, h2, Parser.previous_next ht,
          parseFloat, hv, bind, Except.bind, throw, throwThe, MonadExceptOf.throw] at h
    by_cases h3 : t.Typ = TokenType.STRING
    · exact one _ (fun E q hq => Parser.primary_string E hq h3) h
    by_cases h4 : t.Typ = TokenType.BOOL
    · exact one _ (fun E q hq => Parser.primary_bool E hq h4) h
    by_cases h5 : t.Typ = TokenType.VARIABLE
    · exact one _ (fun E q hq => Parser.primary_variable E hq h5) h
    by_cases h6 : t.Typ = TokenType.PAREN_LEFT
    · cases hr : E1 p.next with
      | error f =>
        simp [Parser.primary, Parser.matchTypes_one ht, h6, hr, bind, Except.bind] at h
      | ok v =>
        obtain ⟨e, q⟩ := v
        obtain ⟨a1, a2, _, a4⟩ := hE p.next e q hr
        have a1' : q.tokens = p.tokens := a1
        have a2' : p.current + 1 ≤ q.current := a2
        cases hq : q.tokens[q.current]? with
        | none =>
          simp [Parser.primary, Parser.matchTypes_one ht, h6, hr, bind, Except.bind,
            Parser.consume, Parser.check_none hq] at h
        | some u =>
          by_cases hu : u.Typ = TokenType.PAREN_RIGHT
          · rw [Parser.primary_paren E1 p q ht h6 hr hq hu] at h
            simp only [Except.ok.injEq, Prod.mk.injEq] at h
            obtain ⟨rfl, rfl⟩ := h
            refine ⟨a1', by show p.current ≤ q.current + 1; omega, ⟨t, rfl⟩, ?_⟩
            intro hag hm
            have hag' : agreeUpTo p.tokens toks2 (q.current + 1) := hag
            have ht2 := tok2 hag (by show p.current ≤ q.current + 1; omega)
            have hlt := lt_length_of_token ht2
            have hlt' : p.current < toks2.length := hlt
            have hr2 : E2 (Parser.next { tokens := toks2, current := p.current })
                = Except.ok (e, { tokens := toks2, current := q.current }) :=
              a4 (agreeUpTo_mono hag' (by omega))
                (by show toks2.length - (p.current + 1) ≤ m; omega)
            have hq2' : toks2[q.current]? = some u :=
              agreeUpTo_token hag' (by omega) (a1' ▸ hq)
            have hq2 : ({ tokens := toks2, current := q.current } : Parser).tokens[
                ({ tokens := toks2, current := q.current } : Parser).current]? = some u := hq2'
            exact Parser.primary_paren E2 { tokens := toks2, current := p.current }
              { tokens := toks2, current := q.current } ht2 h6 hr2 hq2 hu
          · rw [Parser.primary_paren_missing E1 p q ht h6 hr hq hu] at h
            cases h
    -- calls and array literals
    have bracket : ∀ (opening close : TokenType) (msg1 msg2 : String)
        (mk : List (ASTNode F) → ASTNode F),
        opening ≠ TokenType.EOF → close ≠ TokenType.EOF →
        (∀ E : Parser → Run (ASTNode F × Parser), ∀ q : Parser,
          q.tokens[q.current]? = some t → Parser.primary E q = (do
            let (_, p) ← q.next.consume opening msg1
            let (elements, p) ←
              if !(← p.check close) then Parser.listLoop E p.budget [] p
              else pure ([], p)
            let (_, p) ← p.consume close msg2
            pure (mk elements, p))) →
        Parser.primary E1 p = Except.ok (x, p1) →
        p1.tokens = p.tokens ∧ p.current ≤ p1.current ∧ (∃ u, some t = some u)
          ∧ (agreeUpTo p.tokens toks2 p1.current → toks2.length - p.current ≤ m + 1 →
            Parser.primary E2 { tokens := toks2, current := p.current }
              = Except.ok (x, { tokens := toks2, current := p1.current })) := by
      intro opening close msg1 msg2 mk hopen hclose heq h
      rw [heq E1 p ht] at h
      cases hq : p.next.tokens[p.next.current]? with
      | none =>
        simp [Parser.consume, Parser.check_none hq, bind, Except.bind] at h
      | some u =>
        by_cases hu : u.Typ = opening
        · rw [Parser.consume_found hq opening hu hopen msg1] at h
          obtain ⟨b1, b2, _, b4⟩ :=
            Parser.bracketed_follows E1 E2 toks2 m hE close hclose msg2 mk p.next.next x p1 h
          have b1' : p1.tokens = p.tokens := b1
          have b2' : p.current + 2 ≤ p1.current := b2
          refine ⟨b1', by omega, ⟨t, rfl⟩, ?_⟩
          intro hag hm
          have ht2 := tok2 hag (by omega)
          have hq' : p.tokens[p.current + 1]? = some u := hq
          have hq2' : toks2[p.current + 1]? = some u := agreeUpTo_token hag (by omega) hq'
          have hq2 : (Parser.next { tokens := toks2, current := p.current }).tokens[
              (Parser.next { tokens := toks2, current := p.current }).current]? = some u := hq2'
          have hlt := lt_length_of_token hq2'
          rw [heq E2 { tokens := toks2, current := p.current } ht2,
            Parser.consume_found hq2 opening hu hopen msg1]
          exact b4 hag (by show toks2.length - (p.current + 2) ≤ m; omega)
        · rw [Parser.consume_missing hq opening hu msg1] at h
          cases h
    by_cases h7 : t.Typ = TokenType.FUNCTION
    · exact bracket TokenType.PAREN_LEFT TokenType.PAREN_RIGHT _ _
        (ASTNode.FunctionCallNode t.Literal) (by decide) (by decide)
        (fun E q hq => Parser.primary_function_eq E hq h7) h
    by_cases h8 : t.Typ = TokenType.ARRAY
    · exact bracket TokenType.ARRAY_START TokenType.ARRAY_END _ _
        (fun elements => ASTNode.ArrayNode elements t.Literal) (by decide) (by decide)
        (fun E q hq => Parser.primary_array_eq E hq h8) h
    exfalso
    apply hb
    revert h1 h2 h3 h4 h5 h6 h7 h8
    cases t.Typ <;> simp [beginsPrimary]

end LocalityPrimary2

section LocalityLevels

variable {F : Type} [Float64 F]

theorem Parser.functions_follows (E1 E2 : Parser → Run (ASTNode F × Parser))
    (toks2 : List Token) (m : Nat) (hE : Parser.follows E1 E2 toks2 m) :
    ∀ n1 n2 : Nat,
      Parser.follows (Parser.functions E1 n1) (Parser.functions E2 n2) toks2
        (min (m + 1) n2) := by
  intro n1
  induction n1 with
  | zero =>
    intro n2 p x p1 h
    simp [Parser.functions, throw, throwThe, MonadExceptOf.throw] at h
  | succ n ih =>
    intro n2 p x p1 h
    cases hr : Parser.primary E1 p with
    | error f =>
      simp [Parser.functions, hr, bind, Except.bind] at h
    | ok v =>
      obtain ⟨node, q⟩ := v
      have e1 : Parser.functions E1 (n + 1) p
          = Parser.binaryLoop [TokenType.EXPONENT, TokenType.FUNCTION]
              ASTNode.BinaryOperationNode (Parser.functions E1 n) q.budget node q := by
        simp [Parser.functions, hr, bind, Except.bind]
      rw [e1] at h
      obtain ⟨a1, a2, a3, a4⟩ := Parser.primary_follows E1 E2 toks2 m hE p node q hr
      obtain ⟨b1, b2, _, _⟩ :=
        Parser.binaryLoop_follows TokenType.EXPONENT [TokenType.FUNCTION]
          ASTNode.BinaryOperationNode (Parser.functions E1 n) (Parser.functions E2 0) toks2
          (min (m + 1) 0) (ih 0) q.budget node q x p1 h
      refine ⟨b1.trans a1, le_trans a2 b2, a3, ?_⟩
      intro hag hm
      obtain ⟨t, ht⟩ := a3
      have hlt := lt_length_of_token (agreeUpTo_token hag (le_trans a2 b2) ht)
      have hm1 : toks2.length - p.current ≤ m + 1 := le_trans hm (Nat.min_le_left _ _)
      have hm2 : toks2.length - p.current ≤ n2 := le_trans hm (Nat.min_le_right _ _)
      obtain ⟨k, rfl⟩ : ∃ k, n2 = k + 1 := ⟨n2 - 1, by omega⟩
      have hr2 := a4 (agreeUpTo_mono hag b2) hm1
      obtain ⟨_, _, _, c4⟩ :=
        Parser.binaryLoop_follows TokenType.EXPONENT [TokenType.FUNCTION]
          ASTNode.BinaryOperationNode (Parser.functions E1 n) (Parser.functions E2 k) toks2
          (min (m + 1) k) (ih k) q.budget node q x p1 h
      have e2 : Parser.functions E2 (k + 1) { tokens := toks2, current := p.current }
          = Parser.binaryLoop [TokenType.EXPONENT, TokenType.FUNCTION]
              ASTNode.BinaryOperationNode (Parser.functions E2 k) (toks2.length + 1) node
              { tokens := toks2, current := q.current } := by
        simp [Parser.functions, hr2, bind, Except.bind, Parser.budget]
      rw [e2]
      refine c4 (toks2.length + 1) (by rw [a1]; exact hag) ?_
        (by show toks2.length - q.current ≤ toks2.length + 1; omega)
      show toks2.length - q.current ≤ min (m + 1) k + 1
      have h3 : toks2.length - q.current ≤ toks2.length - p.current := by omega
      have h4 : toks2.length - p.current - 1 ≤ min (m + 1) k :=
        Nat.le_min.2 ⟨by omega, by omega⟩
      omega

theorem levelOps_cons {k : Nat} (hk : k < 7) : ∃ typ ops, levelOps k = typ :: ops := by
  interval_cases k <;> exact ⟨_, _, rfl⟩

theorem Parser.atLevel_follows (E1 E2 : Parser → Run (ASTNode F × Parser))
    (toks2 : List Token) (m : Nat) (hE : Parser.follows E1 E2 toks2 m) :
    ∀ d k : Nat, k + d = 7 →
      Parser.follows (Parser.atLevel E1 k) (Parser.atLevel E2 k) toks2 (m + 1) := by
  intro d
  induction d with
  | zero =>
    intro k hk p x p1 h
    have hk7 : k = 7 := by omega
    subst hk7
    have h' : Parser.functions E1 p.budget p = Except.ok (x, p1) := h
    obtain ⟨a1, a2, a3, a4⟩ :=
      Parser.functions_follows E1 E2 toks2 m hE p.budget (toks2.length + 1) p x p1 h'
    refine ⟨a1, a2, a3, ?_⟩
    intro hag hm
    exact a4 hag (Nat.le_min.2 ⟨hm, by omega⟩)
  | succ d ih =>
    intro k hk
    obtain ⟨typ, ops, hops⟩ := levelOps_cons (by omega : k < 7)
    rw [Parser.atLevel_succ E1 (by omega : k < 7), Parser.atLevel_succ E2 (by omega : k < 7),
      hops]
    exact Parser.binaryLevel_follows typ ops (levelNode k) _ _ toks2 (m + 1)
      (ih (k + 1) (by omega))

theorem Parser.expression_follows (toks2 : List Token) :
    ∀ n1 n2 : Nat,
      Parser.follows (Parser.expression (F := F) n1) (Parser.expression n2) toks2 n2 := by
  intro n1
  induction n1 with
  | zero =>
    intro n2 p x p1 h
    simp [Parser.expression, throw, throwThe, MonadExceptOf.throw] at h
  | succ n ih =>
    intro n2 p x p1 h
    rw [Parser.expression_succ] at h
    obtain ⟨a1, a2, a3, _⟩ :=
      Parser.atLevel_follows (Parser.expression n) (Parser.expression 0) toks2 0 (ih 0) 7 0 rfl
        p x p1 h
    refine ⟨a1, a2, a3, ?_⟩
    intro hag hm
    obtain ⟨t, ht⟩ := a3
    have hlt := lt_length_of_token (agreeUpTo_token hag a2 ht)
    obtain ⟨k, rfl⟩ : ∃ k, n2 = k + 1 := ⟨n2 - 1, by omega⟩
    rw [Parser.expression_succ]
    exact (Parser.atLevel_follows (Parser.expression n) (Parser.expression k) toks2 k (ih k)
      7 0 rfl p x p1 h).2.2.2 hag hm

/-- The result of `Parse` depends only on the tokens up to the one at which
`expression` stops. -/
theorem Parser.Parse_local {toks1 toks2 : List Token} {tree : ASTNode F} {p1 : Parser}
    (h : Parser.expression (toks1.length + 1) { tokens := toks1, current := 0 }
      = Except.ok (tree, p1))
    (hag : agreeUpTo toks1 toks2 p1.current) :
    Parser.expression (toks2.length + 1) { tokens := toks2, current := 0 }
        = Except.ok (tree, { tokens := toks2, current := p1.current })
      ∧ Parser.Parse { tokens := toks2, current := 0 } = Except.ok tree := by
  have h2 := (Parser.expression_follows (F := F) toks2 (toks1.length + 1) (toks2.length + 1)
    { tokens := toks1, current := 0 } tree p1 h).2.2.2 hag
    (by show toks2.length - 0 ≤ toks2.length + 1; omega)
  refine ⟨h2, ?_⟩
  simp [Parser.Parse, Parser.budget, h2, bind, Except.bind, pure, Except.pure]

end LocalityLevels

/-! ## C36: tokens after a complete expression -/

set_option maxRecDepth 100000 in
/-- C36. `Parse` never checks that the whole input was consumed.  It returns
the tree of `expression` wherever the cursor stopped.  The result depends only
on the tokens up to the one at which `expression` stops: when the parse of the
tokens `pre`, `t` and some rest stops at `t`, the parse of `pre`, `t` and any
other rest returns the same tree and stops at `t` as well.  A primary followed
by a token that continues no expression parses to that primary alone, and two
primaries joined by a binary operator and followed by such a token parse to
their node alone, whatever tokens come after.  Literals, variables, `)`, `]`,
`,` and illegal tokens continue no expression.  An integer literal followed by
such a token and any tokens parses to the literal.  `1 2`, `1 )` and
`true&&false` evaluate to 1, 1 and true with no error. -/
theorem parse_ignores_trailing_tokens :
    (∀ (F : Type) [Float64 F] (toks : List Token) (tree : ASTNode F) (p1 : Parser),
      Parser.expression (toks.length + 1) { tokens := toks, current := 0 }
        = Except.ok (tree, p1) →
      Parser.Parse { tokens := toks, current := 0 } = Except.ok tree)
    ∧ (∀ (F : Type) [Float64 F] (pre : List Token) (t : Token) (rest1 rest2 : List Token)
        (tree : ASTNode F),
      Parser.expression ((pre ++ t :: rest1).length + 1)
          { tokens := pre ++ t :: rest1, current := 0 }
        = Except.ok (tree, { tokens := pre ++ t :: rest1, current := pre.length }) →
      Parser.expression ((pre ++ t :: rest2).length + 1)
            { tokens := pre ++ t :: rest2, current := 0 }
          = Except.ok (tree, { tokens := pre ++ t :: rest2, current := pre.length })
        ∧ Parser.Parse { tokens := pre ++ t :: rest2, current := 0 } = Except.ok tree)
    ∧ (∀ (F : Type) [Float64 F] (toks : List Token) (a : ASTNode F) (c1 : Nat) (t : Token),
      Parser.primary (Parser.expression toks.length) { tokens := toks, current := 0 }
        = Except.ok (a, { tokens := toks, current := c1 }) →
      toks[c1]? = some t → continues t.Typ = false →
      Parser.Parse { tokens := toks, current := 0 } = Except.ok a)
    ∧ (∀ (F : Type) [Float64 F] (toks : List Token) (a b : ASTNode F) (c1 c2 i : Nat)
        (t1 t2 : Token),
      Parser.primary (Parser.expression toks.length) { tokens := toks, current := 0 }
        = Except.ok (a, { tokens := toks, current := c1 }) →
      toks[c1]? = some t1 → opLevel t1.Typ = some i →
      Parser.primary (Parser.expression toks.length) { tokens := toks, current := c1 + 1 }
        = Except.ok (b, { tokens := toks, current := c2 }) →
      toks[c2]? = some t2 → continues t2.Typ = false →
      Parser.Parse { tokens := toks, current := 0 } = Except.ok (mkNode a t1.Typ b))
    ∧ (∀ ty ∈ [TokenType.INT, TokenType.FLOAT, TokenType.STRING, TokenType.BOOL,
        TokenType.VARIABLE, TokenType.PAREN_RIGHT, TokenType.ARRAY_END, TokenType.COMMA,
        TokenType.ILLEGAL], continues ty = false)
    ∧ (∀ (F : Type) [Float64 F] (la : String) (a : Int) (t : Token) (rest : List Token),
      Atoi la = some a → continues t.Typ = false →
      Parser.Parse (F := F) { tokens := ⟨TokenType.INT, la⟩ :: t :: rest, current := 0 }
        = Except.ok (ASTNode.IntLiteralNode a))
    ∧ (∀ (F : Type) [Float64 F] (library : String → bifFunc F) (n : Nat) (ctx : Context F),
      Evaluate (init library) (n + 1) ctx "1 2" = Except.ok (Value.int 1, none)
        ∧ Evaluate (init library) (n + 1) ctx "1 )" = Except.ok (Value.int 1, none)
        ∧ Evaluate (init library) (n + 1) ctx "true&&false"
          = Except.ok (Value.bool true, none)) := by
  refine ⟨?_, ?_, ?_, ?_, by decide, ?_, ?_⟩
  · intro F _ toks tree p1 h
    simp [Parser.Parse, Parser.budget, h, bind, Except.bind, pure, Except.pure]
  · intro F _ pre t rest1 rest2 tree h
    exact Parser.Parse_local h (agreeUpTo_append pre t rest1 rest2)
  · intro F _ toks a c1 t ha h1 hend
    obtain ⟨e3, x3, f3⟩ := continues_false hend
    exact Parser.Parse_of_atLevel
      (Parser.atLevel_primary (Parser.expression toks.length) ha h1 ⟨x3, f3⟩ 0 (by omega)
        (fun k _ => by rw [e3]; simp))
  · intro F _ toks a b c1 c2 i t1 t2 ha h1 hi hb h2 hend
    exact Parser.Parse_of_atLevel (climb_one c1 c2 t1 t2 i ha h1 hb h2 hend hi)
  · intro F _ la a t rest ha hend
    obtain ⟨e3, x3, f3⟩ := continues_false hend
    have hp : Parser.primary (F := F) (Parser.expression (⟨TokenType.INT, la⟩ :: t :: rest).length)
        { tokens := ⟨TokenType.INT, la⟩ :: t :: rest, current := 0 }
        = Except.ok (ASTNode.IntLiteralNode a,
            { tokens := ⟨TokenType.INT, la⟩ :: t :: rest, current := 1 }) :=
      Parser.primary_int _ rfl rfl ha
    have h1 : (⟨TokenType.INT, la⟩ :: t :: rest)[1]? = some t := by simp
    exact Parser.Parse_of_atLevel
      (Parser.atLevel_primary _ hp h1 ⟨x3, f3⟩ 0 (by omega) (fun k _ => by rw [e3]; simp))
  · intro F _ library n ctx
    exact ⟨rfl, rfl, rfl⟩

set_option maxRecDepth 100000 in
/-- C36 at the tokens of `1 2`. -/
theorem parse_ignores_trailing_tokens_witness :
    Atoi "1" = some 1
    ∧ continues (⟨TokenType.INT, "2"⟩ : Token).Typ = false
    ∧ Parser.Parse (F := Exact)
        { tokens := ⟨TokenType.INT, "1"⟩ :: ⟨TokenType.INT, "2"⟩ :: [⟨TokenType.EOF, ""⟩],
          current := 0 }
      = Except.ok (ASTNode.IntLiteralNode 1) :=
  ⟨by decide, by decide, parse_ignores_trailing_tokens.2.2.2.2.2.1 Exact "1" 1
    ⟨TokenType.INT, "2"⟩ [⟨TokenType.EOF, ""⟩] (by decide) (by decide)⟩

/-! ## C38: the character after a boolean literal -/

set_option maxRecDepth 100000 in
/-- C38. After the identifier `true` or `false` the lexer advances one character
beyond the identifier.  When the boolean is followed by a character `x` that
continues no identifier, `NextToken` returns the BOOL token and leaves the lexer
on the character after `x`, so `x` is never tokenised.  `(true)` lexes to
PAREN_LEFT, BOOL, EOF and its parse aborts with the panic of the missing `)`;
`true&&false` lexes to BOOL, ILLEGAL `&`, BOOL, EOF; `( true )` and
`true && false` lex to the expected tokens and evaluate to true and false. -/
theorem boolean_swallows_next_character :
    (∀ (pre w : List Char) (x : Char) (rest : List Char),
      (String.mk w = "true" ∨ String.mk w = "false") → identChar x = false →
      (Lexer.view pre (w ++ x :: rest)).NextToken
        = Except.ok (⟨TokenType.BOOL, String.mk w⟩, Lexer.view (pre ++ w ++ [x]) rest))
    ∧ lexAll (NewLexer "(true)")
      = Except.ok [⟨TokenType.PAREN_LEFT, "("⟩, ⟨TokenType.BOOL, "true"⟩,
          ⟨TokenType.EOF, ""⟩]
    ∧ (∀ (F : Type) [Float64 F],
      Parser.Parse (F := F)
          { tokens := [⟨TokenType.PAREN_LEFT, "("⟩, ⟨TokenType.BOOL, "true"⟩,
              ⟨TokenType.EOF, ""⟩],
            current := 0 }
        = Except.error (Fault.panic "Expect ')' after expression."))
    ∧ lexAll (NewLexer "true&&false")
      = Except.ok [⟨TokenType.BOOL, "true"⟩, ⟨TokenType.ILLEGAL, "&"⟩,
          ⟨TokenType.BOOL, "false"⟩, ⟨TokenType.EOF, ""⟩]
    ∧ lexAll (NewLexer "( true )")
      = Except.ok [⟨TokenType.PAREN_LEFT, "("⟩, ⟨TokenType.BOOL, "true"⟩,
          ⟨TokenType.PAREN_RIGHT, ")"⟩, ⟨TokenType.EOF, ""⟩]
    ∧ lexAll (NewLexer "true && false")
      = Except.ok [⟨TokenType.BOOL, "true"⟩, ⟨TokenType.AND, "&&"⟩,
          ⟨TokenType.BOOL, "false"⟩, ⟨TokenType.EOF, ""⟩]
    ∧ (∀ (F : Type) [Float64 F] (library : String → bifFunc F) (n : Nat) (ctx : Context F),
      Evaluate (init library) (n + 1) ctx "(true)"
          = Except.error (Fault.panic "Expect ')' after expression.")
        ∧ Evaluate (init library) (n + 1) ctx "( true )"
          = Except.ok (Value.bool true, none)
        ∧ Evaluate (init library) (n + 1) ctx "true && false"
          = Except.ok (Value.bool false, none)) := by
  refine ⟨?_, by rfl, ?_, by rfl, by rfl, by rfl, ?_⟩
  · intro pre w x rest hw hx
    have key : ∀ (c : Char) (cs : List Char), w = c :: cs → isLetter c = true →
        (∀ y ∈ cs, identChar y = true) →
        (Lexer.view pre (w ++ x :: rest)).NextToken
          = Except.ok (⟨TokenType.BOOL, String.mk w⟩,
              Lexer.view (pre ++ w ++ [x]) rest) := by
      intro c cs e hc hcs
      subst e
      have hr := Lexer.readIdentifier_view pre c cs (x :: rest) hcs
        (by rw [List.headD_cons]; exact hx)
      rw [if_pos hw] at hr
      have hl : isLetter (Lexer.view pre (c :: (cs ++ x :: rest))).ch = true := by
        rw [Lexer.view_ch]; exact hc
      have := Lexer.NextToken_letter _ hl hr
      rw [Lexer.view_readChar] at this
      exact this
    rcases hw with hw | hw
    · have e : w = ['t', 'r', 'u', 'e'] := congrArg String.data hw
      exact key 't' ['r', 'u', 'e'] e (by decide) (by decide)
    · have e : w = ['f', 'a', 'l', 's', 'e'] := congrArg String.data hw
      exact key 'f' ['a', 'l', 's', 'e'] e (by decide) (by decide)
  · intro F _
    rfl
  · intro F _ library n ctx
    exact ⟨rfl, rfl, rfl⟩

set_option maxRecDepth 100000 in
/-- C38 at `true)`. -/
theorem boolean_swallows_next_character_witness :
    (String.mk ['t', 'r', 'u', 'e'] = "true" ∨ String.mk ['t', 'r', 'u', 'e'] = "false")
    ∧ identChar ')' = false
    ∧ (Lexer.view ['('] (['t', 'r', 'u', 'e'] ++ ')' :: [])).NextToken
      = Except.ok (⟨TokenType.BOOL, String.mk ['t', 'r', 'u', 'e']⟩,
          Lexer.view (['('] ++ ['t', 'r', 'u', 'e'] ++ [')']) []) :=
  ⟨Or.inl rfl, by decide, boolean_swallows_next_character.1 ['('] ['t', 'r', 'u', 'e'] ')' []
    (Or.inl rfl) (by decide)⟩

/-! ## C39: a literal with several minus signs -/

section MalformedLiteral

theorem digitsValue_minus (bs rest : List Char) (hb : ∀ c ∈ bs, isDigit c = true) :
    ∀ acc : Nat, digitsValue (bs ++ '-' :: rest) acc = none := by
  induction bs with
  | nil =>
    intro acc
    simp [digitsValue, isDigit]
  | cons b bs ih =>
    intro acc
    have h1 : isDigit b = true := hb b (List.mem_cons_self _ _)
    simp only [List.cons_append, digitsValue, h1, if_true]
    exact ih (fun c hc => hb c (List.mem_cons_of_mem _ hc)) _

/-- A literal with a second minus sign is no numeral for `strconv.Atoi`. -/
theorem Atoi_second_minus (b0 : Char) (bs rest : List Char)
    (hb : ∀ c ∈ b0 :: bs, isDigit c = true) :
    Atoi (String.mk ('-' :: b0 :: (bs ++ '-' :: rest))) = none := by
  have h := digitsValue_minus (b0 :: bs) rest hb 0
  simp only [List.cons_append] at h
  simp [Atoi, h]

/-- The tokens of `a-w` for a digit string `a` and digits and minus signs `w`
that start with a digit. -/
theorem lexAll_digits_negative (a0 : Char) (as : List Char) (b0 : Char) (w : List Char)
    (ha : ∀ c ∈ a0 :: as, isDigit c = true) (hb : isDigit b0 = true)
    (hw : ∀ c ∈ w, negativeChar c = true) :
    lexAll (Lexer.view [] (a0 :: (as ++ '-' :: b0 :: (w ++ []))))
      = Except.ok [⟨TokenType.INT, String.mk (a0 :: as)⟩,
          ⟨TokenType.INT, String.mk ('-' :: b0 :: w)⟩, ⟨TokenType.EOF, ""⟩] := by
  obtain ⟨k, hk⟩ : ∃ k, (Lexer.view [] (a0 :: (as ++ '-' :: b0 :: (w ++ [])))).budget
      = k + 3 := by
    refine ⟨as.length + w.length + 2, ?_⟩
    simp [Lexer.budget, Lexer.view]
    omega
  unfold lexAll
  rw [hk]
  have h1 := Lexer.NextToken_int [] a0 as ('-' :: b0 :: (w ++ [])) ha (endsNumber_minus _)
  rw [drainLoop_step h1 (by simp)]
  have h2 := Lexer.NextToken_negative ([] ++ a0 :: as) b0 w [] hb hw (by decide) (by decide)
  rw [drainLoop_step h2 (by simp)]
  obtain ⟨l, h3⟩ := Lexer.NextToken_eof ([] ++ a0 :: as ++ '-' :: b0 :: w)
  rw [drainLoop_eof h3 rfl]
  rfl

/-- The tokens of `-w` for digits and minus signs `w` that start with a digit. -/
theorem lexAll_negative (b0 : Char) (w : List Char) (hb : isDigit b0 = true)
    (hw : ∀ c ∈ w, negativeChar c = true) :
    lexAll (Lexer.view [] ('-' :: b0 :: (w ++ [])))
      = Except.ok [⟨TokenType.INT, String.mk ('-' :: b0 :: w)⟩, ⟨TokenType.EOF, ""⟩] := by
  obtain ⟨k, hk⟩ : ∃ k, (Lexer.view [] ('-' :: b0 :: (w ++ []))).budget = k + 2 := by
    refine ⟨w.length + 2, ?_⟩
    simp [Lexer.budget, Lexer.view]
  unfold lexAll
  rw [hk]
  have h2 := Lexer.NextToken_negative [] b0 w [] hb hw (by decide) (by decide)
  rw [drainLoop_step h2 (by simp)]
  obtain ⟨l, h3⟩ := Lexer.NextToken_eof ([] ++ '-' :: b0 :: w)
  rw [drainLoop_eof h3 rfl]
  rfl

theorem negativeChar_tail (bs : List Char) (c0 : Char) (cs : List Char)
    (hb : ∀ c ∈ bs, isDigit c = true) (hc : ∀ c ∈ c0 :: cs, isDigit c = true) :
    ∀ c ∈ bs ++ '-' :: c0 :: cs, negativeChar c = true := by
  intro c hmem
  rw [List.mem_append, List.mem_cons] at hmem
  rcases hmem with h | h | h
  · exact negativeChar_of_digit (hb c h)
  · rw [h]; decide
  · exact negativeChar_of_digit (hc c h)

end MalformedLiteral

section MalformedParse

variable {F : Type} [Float64 F]

/-- A first literal that is no numeral aborts the parse in `parseInt`. -/
theorem Parse_malformed_int (lit : String) (rest : List Token) (h : Atoi lit = none) :
    Parser.Parse (F := F) { tokens := ⟨TokenType.INT, lit⟩ :: rest, current := 0 }
      = Except.error (Fault.panic ("strconv.Atoi: parsing " ++ lit)) := by
  have hp : ∀ E : Parser → Run (ASTNode F × Parser),
      Parser.primary E { tokens := ⟨TokenType.INT, lit⟩ :: rest, current := 0 }
        = Except.error (Fault.panic ("strconv.Atoi: parsing " ++ lit)) := by
    intro E
    have ht : ({ tokens := ⟨TokenType.INT, lit⟩ :: rest, current := 0 } : Parser).tokens[
        ({ tokens := ⟨TokenType.INT, lit⟩ :: rest, current := 0 } : Parser).current]?
        = some ⟨TokenType.INT, lit⟩ := by simp
    simp [Parser.primary, Parser.matchTypes_one ht, Parser.previous_next ht, parseInt, h,
      bind, Except.bind, throw, throwThe, MonadExceptOf.throw]
  rw [Parser.Parse_eq_atLevel]
  rw [Parser.atLevel_primary_fault _ (hp _) 0 (by omega)]
  rfl

theorem Evaluate_of_parse_fault {reg : Bif F} {ctx : Context F} {comparison : String}
    {toks : List Token} {f : Fault}
    (hlex : lexAll (NewLexer comparison) = Except.ok toks)
    (hparse : Parser.Parse (F := F) { tokens := toks, current := 0 } = Except.error f)
    (n : Nat) :
    Evaluate reg (n + 1) ctx comparison = Except.error f := by
  show pipeline reg (hostAt reg n) ctx comparison = _
  simp [pipeline, NewParser, hlex, hparse, bind, Except.bind, pure, Except.pure]

end MalformedParse

set_option maxRecDepth 100000 in
/-- The source `5-3-1` lexes to the literals `5` and `-3-1`; its parse does not
abort but returns the first literal, and it evaluates to 5. -/
theorem minus_chain_parses_to_first_literal :
    lexAll (NewLexer "5-3-1")
      = Except.ok [⟨TokenType.INT, "5"⟩, ⟨TokenType.INT, "-3-1"⟩, ⟨TokenType.EOF, ""⟩]
    ∧ Parser.Parse (F := Exact)
        { tokens := [⟨TokenType.INT, "5"⟩, ⟨TokenType.INT, "-3-1"⟩, ⟨TokenType.EOF, ""⟩],
          current := 0 }
      = Except.ok (ASTNode.IntLiteralNode 5)
    ∧ Evaluate (fun _ => none) 1 (⟨none⟩ : Context Exact) "5-3-1"
      = Except.ok (Value.int 5, none) :=
  ⟨rfl, rfl, rfl⟩

set_option maxRecDepth 100000 in
/-- C39, as the code has it.  While scanning a negative literal the lexer also
consumes every later minus sign: for all non-empty digit strings `a`, `b`, `c`
the source `a-b-c` lexes to INT `a`, INT `-b-c`, EOF, and `-b-c` is no numeral
for `strconv.Atoi`.  The parse of `a-b-c` does not abort: it stops after the
first literal and the source evaluates to `a`.  The malformed literal aborts
the parse, with the panic of the integer conversion, when it is the first
token: the source `-b-c` lexes to INT `-b-c`, EOF and its evaluation panics.
`5-3-1` evaluates to 5 and `-5-3` panics. -/
theorem minus_chain_literal :
    (∀ (src : String) (a0 : Char) (as : List Char) (b0 : Char) (bs : List Char) (c0 : Char)
        (cs : List Char),
      src.data = a0 :: (as ++ '-' :: b0 :: (bs ++ '-' :: c0 :: cs)) →
      (∀ c ∈ a0 :: as, isDigit c = true) → (∀ c ∈ b0 :: bs, isDigit c = true) →
      (∀ c ∈ c0 :: cs, isDigit c = true) →
      lexAll (NewLexer src)
          = Except.ok [⟨TokenType.INT, String.mk (a0 :: as)⟩,
              ⟨TokenType.INT, String.mk ('-' :: b0 :: (bs ++ '-' :: c0 :: cs))⟩,
              ⟨TokenType.EOF, ""⟩]
        ∧ Atoi (String.mk ('-' :: b0 :: (bs ++ '-' :: c0 :: cs))) = none
        ∧ ((decimalValue (a0 :: as) : Int) ≤ maxInt →
          ∀ (F : Type) [Float64 F] (reg : Bif F) (n : Nat) (ctx : Context F),
            Parser.Parse (F := F)
                { tokens := [⟨TokenType.INT, String.mk (a0 :: as)⟩,
                    ⟨TokenType.INT, String.mk ('-' :: b0 :: (bs ++ '-' :: c0 :: cs))⟩,
                    ⟨TokenType.EOF, ""⟩],
                  current := 0 }
              = Except.ok (ASTNode.IntLiteralNode (decimalValue (a0 :: as)))
            ∧ Evaluate reg (n + 1) ctx src
              = Except.ok (Value.int (decimalValue (a0 :: as)), none)))
    ∧ (∀ (src : String) (b0 : Char) (bs : List Char) (c0 : Char) (cs : List Char),
      src.data = '-' :: b0 :: (bs ++ '-' :: c0 :: cs) →
      (∀ c ∈ b0 :: bs, isDigit c = true) → (∀ c ∈ c0 :: cs, isDigit c = true) →
      lexAll (NewLexer src) = Except.ok [⟨TokenType.INT, src⟩, ⟨TokenType.EOF, ""⟩]
        ∧ ∀ (F : Type) [Float64 F] (reg : Bif F) (n : Nat) (ctx : Context F),
          Parser.Parse (F := F)
              { tokens := [⟨TokenType.INT, src⟩, ⟨TokenType.EOF, ""⟩], current := 0 }
            = Except.error (Fault.panic ("strconv.Atoi: parsing " ++ src))
          ∧ Evaluate reg (n + 1) ctx src
            = Except.error (Fault.panic ("strconv.Atoi: parsing " ++ src)))
    ∧ (∀ (F : Type) [Float64 F] (library : String → bifFunc F) (n : Nat) (ctx : Context F),
      Evaluate (init library) (n + 1) ctx "5-3-1" = Except.ok (Value.int 5, none)
        ∧ Evaluate (init library) (n + 1) ctx "-5-3"
          = Except.error (Fault.panic "strconv.Atoi: parsing -5-3")) := by
  refine ⟨?_, ?_, ?_⟩
  · intro src a0 as b0 bs c0 cs hsrc ha hb hc
    have hlex : lexAll (NewLexer src)
        = Except.ok [⟨TokenType.INT, String.mk (a0 :: as)⟩,
            ⟨TokenType.INT, String.mk ('-' :: b0 :: (bs ++ '-' :: c0 :: cs))⟩,
            ⟨TokenType.EOF, ""⟩] := by
      rw [NewLexer_eq_view, hsrc]
      have := lexAll_digits_negative a0 as b0 (bs ++ '-' :: c0 :: cs) ha (hb b0 (by simp))
        (negativeChar_tail bs c0 cs (fun c h => hb c (List.mem_cons_of_mem _ h)) hc)
      rw [List.append_nil] at this
      exact this
    refine ⟨hlex, Atoi_second_minus b0 bs (c0 :: cs) hb, ?_⟩
    intro va F _ reg n ctx
    have hparse := Parse_int_int (F := F) (String.mk (a0 :: as))
      (String.mk ('-' :: b0 :: (bs ++ '-' :: c0 :: cs))) _ (Atoi_digits a0 as ha va)
    refine ⟨hparse, ?_⟩
    rw [Evaluate_of_parse hlex hparse]
    rfl
  · intro src b0 bs c0 cs hsrc hb hc
    have hs : src = String.mk ('-' :: b0 :: (bs ++ '-' :: c0 :: cs)) := by
      rw [← hsrc]
    have hlex : lexAll (NewLexer src)
        = Except.ok [⟨TokenType.INT, src⟩, ⟨TokenType.EOF, ""⟩] := by
      rw [NewLexer_eq_view, hsrc]
      have := lexAll_negative b0 (bs ++ '-' :: c0 :: cs) (hb b0 (by simp))
        (negativeChar_tail bs c0 cs (fun c h => hb c (List.mem_cons_of_mem _ h)) hc)
      rw [List.append_nil] at this
      rw [this, hs]
    refine ⟨hlex, ?_⟩
    intro F _ reg n ctx
    have hparse := Parse_malformed_int (F := F) src [⟨TokenType.EOF, ""⟩]
      (by rw [hs]; exact Atoi_second_minus b0 bs (c0 :: cs) hb)
    exact ⟨hparse, Evaluate_of_parse_fault hlex hparse n⟩
  · intro F _ library n ctx
    exact ⟨rfl, rfl⟩

set_option maxRecDepth 100000 in
/-- C39 at the source `5-3-1`. -/
theorem minus_chain_literal_witness :
    "5-3-1".data = '5' :: ([] ++ '-' :: '3' :: ([] ++ '-' :: '1' :: []))
    ∧ (∀ c ∈ '5' :: [], isDigit c = true) ∧ (∀ c ∈ '3' :: [], isDigit c = true)
    ∧ (∀ c ∈ '1' :: [], isDigit c = true)
    ∧ (lexAll (NewLexer "5-3-1")
          = Except.ok [⟨TokenType.INT, String.mk ('5' :: [])⟩,
              ⟨TokenType.INT, String.mk ('-' :: '3' :: ([] ++ '-' :: '1' :: []))⟩,
              ⟨TokenType.EOF, ""⟩]
        ∧ Atoi (String.mk ('-' :: '3' :: ([] ++ '-' :: '1' :: []))) = none
        ∧ ((decimalValue ('5' :: []) : Int) ≤ maxInt →
          ∀ (F : Type) [Float64 F] (reg : Bif F) (n : Nat) (ctx : Context F),
            Parser.Parse (F := F)
                { tokens := [⟨TokenType.INT, String.mk ('5' :: [])⟩,
                    ⟨TokenType.INT, String.mk ('-' :: '3' :: ([] ++ '-' :: '1' :: []))⟩,
                    ⟨TokenType.EOF, ""⟩],
                  current := 0 }
              = Except.ok (ASTNode.IntLiteralNode (decimalValue ('5' :: [])))
            ∧ Evaluate reg (n + 1) ctx "5-3-1"
              = Except.ok (Value.int (decimalValue ('5' :: [])), none))) :=
  ⟨rfl, by decide, by decide, by decide,
    minus_chain_literal.1 "5-3-1" '5' [] '3' [] '1' [] rfl (by decide) (by decide)
      (by decide)⟩

/-! ## C40: the result of `Sort` -/

section SortConversions

variable {F : Type}

theorem Bif.toInts_ints (l : List Int) :
    Bif.toInts (l.map (Value.int (F := F))) = Except.ok l := by
  induction l with
  | nil => rfl
  | cons x xs ih => simp [Bif.toInts, ih, bind, Except.bind, pure, Except.pure]

theorem Bif.toFloats_floats (l : List F) :
    Bif.toFloats (l.map Value.float) = Except.ok l := by
  induction l with
  | nil => rfl
  | cons x xs ih => simp [Bif.toFloats, ih, bind, Except.bind, pure, Except.pure]

theorem Bif.toStrings_strs (l : List String) :
    Bif.toStrings (l.map (Value.str (F := F))) = Except.ok l := by
  induction l with
  | nil => rfl
  | cons x xs ih => simp [Bif.toStrings, ih, bind, Except.bind, pure, Except.pure]

end SortConversions

section SortLemmas

variable {F : Type} [Float64 F]

theorem Bif.Sort_ints (h : Host F) (ctx : Context F) (l : List Int) (hl : l ≠ []) :
    Bif.Sort h ctx [.list (l.map Value.int)] = ok (.ints (sortInts l)) := by
  cases l with
  | nil => exact absurd rfl hl
  | cons x xs =>
    have := Bif.toInts_ints (F := F) (x :: xs)
    simp only [List.map_cons] at this
    simp [Bif.Sort, this, bind, Except.bind]

theorem Bif.Sort_floats (h : Host F) (ctx : Context F) (l : List F) (hl : l ≠ []) :
    Bif.Sort h ctx [.list (l.map Value.float)] = ok (.floats (sortFloat64s l)) := by
  cases l with
  | nil => exact absurd rfl hl
  | cons x xs =>
    have := Bif.toFloats_floats (x :: xs)
    simp only [List.map_cons] at this
    simp [Bif.Sort, this, bind, Except.bind]

theorem Bif.Sort_strs (h : Host F) (ctx : Context F) (l : List String) (hl : l ≠ []) :
    Bif.Sort h ctx [.list (l.map Value.str)] = ok (.strs (sortStrings l)) := by
  cases l with
  | nil => exact absurd rfl hl
  | cons x xs =>
    have := Bif.toStrings_strs (F := F) (x :: xs)
    simp only [List.map_cons] at this
    simp [Bif.Sort, this, bind, Except.bind]

end SortLemmas

section SortOrder

theorem sortInts_sorted (l : List Int) : (sortInts l).Sorted (fun a b => a ≤ b) :=
  List.sorted_insertionSort (fun a b : Int => a ≤ b) l

theorem sortInts_perm (l : List Int) : (sortInts l).Perm l :=
  List.perm_insertionSort (fun a b : Int => a ≤ b) l

theorem strLt_false_iff (a b : String) : strLt b a = false ↔ a ≤ b := by
  rw [← Bool.not_eq_true, strLt_iff, not_lt]

theorem sortStrings_sorted (l : List String) : (sortStrings l).Sorted (fun a b => a ≤ b) := by
  have htotal : IsTotal String (fun a b => strLt b a = false) :=
    ⟨fun a b => by
      simp only [strLt_false_iff]
      exact le_total a b⟩
  have htrans : IsTrans String (fun a b => strLt b a = false) :=
    ⟨fun a b c => by
      simp only [strLt_false_iff]
      exact le_trans⟩
  have := List.sorted_insertionSort (fun a b : String => strLt b a = false) l
  exact List.Pairwise.imp (fun {a b} hab => (strLt_false_iff a b).1 hab) this

theorem sortStrings_perm (l : List String) : (sortStrings l).Perm l :=
  List.perm_insertionSort (fun a b : String => strLt b a = false) l

theorem sortFloat64s_perm {F : Type} [Float64 F] (l : List F) : (sortFloat64s l).Perm l :=
  List.perm_insertionSort (fun a b : F => floatLess b a = false) l

end SortOrder

section FloatOrder

theorem sortFloat64s_sorted {F : Type} [Float64 F]
    (htotal : ∀ a b : F, floatLess b a = false ∨ floatLess a b = false)
    (htrans : ∀ a b c : F, floatLess b a = false → floatLess c b = false →
      floatLess c a = false)
    (l : List F) : (sortFloat64s l).Sorted (fun a b => floatLess b a = false) := by
  have h1 : IsTotal F (fun a b => floatLess b a = false) := ⟨htotal⟩
  have h2 : IsTrans F (fun a b => floatLess b a = false) := ⟨htrans⟩
  exact List.sorted_insertionSort (fun a b : F => floatLess b a = false) l

theorem Exact.floatLess_some (a b : Rat) :
    floatLess (some a : Exact) (some b) = decide (a < b) := by
  have h : (a.num * b.den < b.num * a.den) ↔ a < b := Rat.lt_def.symm
  simp [floatLess, Float64.lt, Float64.eq, Exact.rel, h]

theorem Exact.floatLess_none (x : Exact) : floatLess x (none : Exact) = false := by
  cases x <;> simp [floatLess, Float64.lt, Float64.eq, Exact.rel]

theorem Exact.floatLess_none_some (b : Rat) : floatLess (none : Exact) (some b) = true := by
  simp [floatLess, Float64.lt, Float64.eq, Exact.rel]

theorem Exact.floatLess_total (a b : Exact) :
    floatLess b a = false ∨ floatLess a b = false := by
  cases a with
  | none => exact Or.inl (Exact.floatLess_none b)
  | some x =>
    cases b with
    | none => exact Or.inr (Exact.floatLess_none _)
    | some y =>
      rw [Exact.floatLess_some, Exact.floatLess_some]
      rcases le_total x y with h | h
      · exact Or.inl (by simpa using h)
      · exact Or.inr (by simpa using h)

theorem Exact.floatLess_trans (a b c : Exact) (h1 : floatLess b a = false)
    (h2 : floatLess c b = false) : floatLess c a = false := by
  cases a with
  | none => exact Exact.floatLess_none c
  | some x =>
    cases b with
    | none => rw [Exact.floatLess_none_some] at h1; cases h1
    | some y =>
      cases c with
      | none => rw [Exact.floatLess_none_some] at h2; cases h2
      | some z =>
        rw [Exact.floatLess_some] at h1 h2 ⊢
        simp only [decide_eq_false_iff_not, not_lt] at h1 h2 ⊢
        exact le_trans h1 h2

end FloatOrder

set_option maxRecDepth 100000 in
/-- C40. The result of `Sort` is a typed sequence that the other array builtins
reject.  For every non-empty list of ints `Sort` succeeds with the typed
sequence of `sortInts`, which is ascending and a rearrangement of the list;
likewise for strings, and for floats with the rearrangement of `sortFloat64s`,
which is ascending when the order of the floats is total and transitive, as it
is for the exact floats.
`Len`, `Reverse`, `Unique`, `Slice`, `Filter`, `Map` and `Reduce` applied to a
typed sequence of ints, floats or strings return the error of their argument
type.  `len(sort(int[3, 1, 2]))` returns that error of `len`. -/
theorem sort_result_is_no_list :
    (∀ (F : Type) [Float64 F] (h : Host F) (ctx : Context F) (l : List Int), l ≠ [] →
      Bif.Sort h ctx [.list (l.map Value.int)] = ok (.ints (sortInts l))
        ∧ (sortInts l).Sorted (fun a b => a ≤ b) ∧ (sortInts l).Perm l)
    ∧ (∀ (F : Type) [Float64 F] (h : Host F) (ctx : Context F) (l : List String), l ≠ [] →
      Bif.Sort h ctx [.list (l.map Value.str)] = ok (.strs (sortStrings l))
        ∧ (sortStrings l).Sorted (fun a b => a ≤ b) ∧ (sortStrings l).Perm l)
    ∧ (∀ (F : Type) [Float64 F] (h : Host F) (ctx : Context F) (l : List F), l ≠ [] →
      Bif.Sort h ctx [.list (l.map Value.float)] = ok (.floats (sortFloat64s l))
        ∧ (sortFloat64s l).Perm l
        ∧ ((∀ a b : F, floatLess b a = false ∨ floatLess a b = false) →
          (∀ a b c : F, floatLess b a = false → floatLess c b = false →
            floatLess c a = false) →
          (sortFloat64s l).Sorted (fun a b => floatLess b a = false)))
    ∧ (∀ l : List Exact, (sortFloat64s l).Sorted (fun a b => floatLess b a = false))
    ∧ (∀ (F : Type) [Float64 F] (h : Host F) (ctx : Context F) (s : Value F)
        (a b : Value F),
      ((∃ l, s = .ints l) ∨ (∃ l, s = .floats l) ∨ (∃ l, s = .strs l)) →
      Bif.Len h ctx [s] = fail "len function expects a string or array argument"
        ∧ Bif.Reverse h ctx [s] = fail "reverse function expects a string or array argument"
        ∧ Bif.Unique h ctx [s] = fail "unique function expects an array argument"
        ∧ Bif.Slice h ctx [s, a, b] = fail "slice function expects an array argument"
        ∧ Bif.Filter h ctx [s, a] = fail "first argument to filter must be an array"
        ∧ Bif.Map h ctx [s, a] = fail "first argument to map must be an array"
        ∧ Bif.Reduce h ctx [s, a] = fail "first argument to reduce must be a non-empty array"
        ∧ Bif.Reduce h ctx [s, a, b]
          = fail "first argument to reduce must be a non-empty array")
    ∧ (∀ (F : Type) [Float64 F] (library : String → bifFunc F) (n : Nat) (ctx : Context F),
      Evaluate (init library) (n + 1) ctx "sort(int[3, 1, 2])"
          = Except.ok (Value.ints [1, 2, 3], none)
        ∧ Evaluate (init library) (n + 1) ctx "len(sort(int[3, 1, 2]))"
          = Except.ok (Value.nil,
              some (Error.text "len function expects a string or array argument"))
        ∧ Evaluate (init library) (n + 1) ctx "len(int[3, 1, 2])"
          = Except.ok (Value.int 3, none)) := by
  refine ⟨?_, ?_, ?_, ?_, ?_, ?_⟩
  · intro F _ h ctx l hl
    exact ⟨Bif.Sort_ints h ctx l hl, sortInts_sorted l, sortInts_perm l⟩
  · intro F _ h ctx l hl
    exact ⟨Bif.Sort_strs h ctx l hl, sortStrings_sorted l, sortStrings_perm l⟩
  · intro F _ h ctx l hl
    exact ⟨Bif.Sort_floats h ctx l hl, sortFloat64s_perm l,
      fun htotal htrans => sortFloat64s_sorted htotal htrans l⟩
  · intro l
    exact sortFloat64s_sorted Exact.floatLess_total Exact.floatLess_trans l
  · intro F _ h ctx s a b hs
    rcases hs with ⟨l, rfl⟩ | ⟨l, rfl⟩ | ⟨l, rfl⟩ <;>
      exact ⟨rfl, rfl, rfl, rfl, rfl, rfl, rfl, rfl⟩
  · intro F _ library n ctx
    exact ⟨by with_unfolding_all rfl, by with_unfolding_all rfl, by with_unfolding_all rfl⟩

/-- C40 at the list of 3, 1 and 2. -/
theorem sort_result_is_no_list_witness :
    ([3, 1, 2] : List Int) ≠ []
    ∧ (Bif.Sort (hostAt (fun _ => none) 0) (⟨none⟩ : Context Exact)
          [.list (([3, 1, 2] : List Int).map Value.int)]
        = ok (.ints (sortInts [3, 1, 2]))
      ∧ (sortInts [3, 1, 2]).Sorted (fun a b => a ≤ b)
      ∧ (sortInts [3, 1, 2]).Perm [3, 1, 2]) :=
  ⟨by decide, sort_result_is_no_list.1 Exact (hostAt (fun _ => none) 0) ⟨none⟩ [3, 1, 2]
    (by decide)⟩

/-! ## The propagation of parse failures -/

section CallPropagation

variable {F : Type} [Float64 F]

theorem faultOf_eq_some {α : Type} {r : Run α} {f : Fault} :
    faultOf r = some f ↔ r = Except.error f := by
  cases r with
  | ok v => simp [faultOf]
  | error g => simp [faultOf]

theorem Parser.atLevel_functions (E : Parser → Run (ASTNode F × Parser)) {k : Nat}
    (hk : 7 ≤ k) : Parser.atLevel E k = fun p => Parser.functions E p.budget p := by
  obtain ⟨j, rfl⟩ : ∃ j, k = j + 7 := ⟨k - 7, by omega⟩
  rfl

theorem Parser.Calls.fault {c d : Parser.Call F} (h : Parser.Calls c d) {f : Fault}
    (hd : d.fault = some f) : c.fault = some f := by
  cases h with
  | expression n p => exact hd
  | levelOperand n k p hk =>
    have hd' := faultOf_eq_some.1 hd
    apply faultOf_eq_some.2
    rw [Parser.atLevel_succ _ hk]
    exact Parser.binaryLevel_fault hd'
  | levelLoop n k p p1 node hk h =>
    have hd' := faultOf_eq_some.1 hd
    apply faultOf_eq_some.2
    rw [Parser.atLevel_succ _ hk]
    simp only [Parser.binaryLevel, h, bind, Except.bind]
    exact hd'
  | levelFunctions n k p hk =>
    show faultOf (Parser.atLevel (Parser.expression (F := F) n) k p) = some f
    rw [Parser.atLevel_functions _ hk]
    exact hd
  | loopOperand n k fuel node p t ht hne hin =>
    have hd' := faultOf_eq_some.1 hd
    apply faultOf_eq_some.2
    simp [Parser.binaryLoop, Parser.matchTypes_eq ht, hne, hin, bind, Except.bind,
      Parser.previous_next ht, hd']
  | loopRound n k fuel node right p p2 t ht hne hin h =>
    have hd' := faultOf_eq_some.1 hd
    apply faultOf_eq_some.2
    rw [Parser.binaryLoop_step ht hin hne h]
    exact hd'
  | functionsPrimary n m p =>
    have hd' := faultOf_eq_some.1 hd
    apply faultOf_eq_some.2
    simp [Parser.functions, hd', bind, Except.bind]
  | functionsLoop n m p p1 node h =>
    have hd' := faultOf_eq_some.1 hd
    apply faultOf_eq_some.2
    simp only [Parser.functions, h, bind, Except.bind]
    exact hd'
  | functionsOperand n m fuel node p t ht hin =>
    have hd' := faultOf_eq_some.1 hd
    apply faultOf_eq_some.2
    have hne : t.Typ ≠ TokenType.EOF := by rcases hin with h | h <;> rw [h] <;> decide
    have hmem : t.Typ ∈ [TokenType.EXPONENT, TokenType.FUNCTION] := by
      rcases hin with h | h <;> simp [h]
    simp [Parser.binaryLoop, Parser.matchTypes_eq ht, hne, hmem, bind, Except.bind,
      Parser.previous_next ht, hd']
  | functionsRound n m fuel node right p p2 t ht hin h =>
    have hd' := faultOf_eq_some.1 hd
    apply faultOf_eq_some.2
    have hne : t.Typ ≠ TokenType.EOF := by rcases hin with h | h <;> rw [h] <;> decide
    have hmem : t.Typ ∈ [TokenType.EXPONENT, TokenType.FUNCTION] := by
      rcases hin with h | h <;> simp [h]
    rw [Parser.binaryLoop_step ht hmem hne h]
    exact hd'
  | parenthesis n p t ht hty =>
    have hd' := faultOf_eq_some.1 hd
    apply faultOf_eq_some.2
    simp [Parser.primary, Parser.matchTypes_one ht, hty, hd', bind, Except.bind]
  | arguments n p t t1 t2 ht hty h1 hty1 h2 hty2 =>
    have hd' := faultOf_eq_some.1 hd
    apply faultOf_eq_some.2
    simp [Parser.primary, Parser.matchTypes_one ht, hty, Parser.previous_next ht,
      Parser.consume_found h1 TokenType.PAREN_LEFT hty1, Parser.check_eq h2, hty2, hd', bind,
      Except.bind, pure, Except.pure]
  | elements n p t t1 t2 ht hty h1 hty1 h2 hty2 =>
    have hd' := faultOf_eq_some.1 hd
    apply faultOf_eq_some.2
    simp [Parser.primary, Parser.matchTypes_one ht, hty, Parser.previous_next ht,
      Parser.consume_found h1 TokenType.ARRAY_START hty1, Parser.check_eq h2, hty2, hd', bind,
      Except.bind, pure, Except.pure]
  | listElement n fuel acc p =>
    have hd' := faultOf_eq_some.1 hd
    apply faultOf_eq_some.2
    simp [Parser.listLoop, hd', bind, Except.bind]
  | listRound n fuel acc element p p1 t h ht hty =>
    have hd' := faultOf_eq_some.1 hd
    apply faultOf_eq_some.2
    simp [Parser.listLoop, h, bind, Except.bind, Parser.matchTypes_one ht, hty, hd']

theorem Parser.Calls.fault_trans {c d : Parser.Call F}
    (h : Relation.ReflTransGen Parser.Calls c d) {f : Fault} (hd : d.fault = some f) :
    c.fault = some f := by
  induction h with
  | refl => exact hd
  | tail _ hstep ih => exact ih (Parser.Calls.fault hstep hd)

theorem Parser.Parse_fault {toks : List Token} {c : Parser.Call F} {f : Fault}
    (h : Relation.ReflTransGen Parser.Calls
      (.expression (toks.length + 1) { tokens := toks, current := 0 }) c)
    (hc : c.fault = some f) :
    Parser.Parse (F := F) { tokens := toks, current := 0 } = Except.error f := by
  have h0 := faultOf_eq_some.1 (Parser.Calls.fault_trans h hc)
  have h1 : Parser.expression (F := F) (toks.length + 1) { tokens := toks, current := 0 }
      = Except.error f := h0
  simp [Parser.Parse, Parser.budget, h1, bind, Except.bind]

end CallPropagation

section CallOriginLoops

variable {F : Type}

theorem Parser.raised_fuel : Parser.raised Fault.fuel := Or.inl rfl

theorem Parser.raised_index : Parser.raised (Fault.panic "index out of range") :=
  Or.inr (Or.inl rfl)

theorem Parser.raised_explicit {msg : String} (h : explicitPanic msg) :
    Parser.raised (Fault.panic msg) :=
  Or.inr (Or.inr ⟨msg, rfl, h⟩)

theorem Parser.consume_none {p : Parser} (h : p.tokens[p.current]? = none) (typ : TokenType)
    (message : String) :
    p.consume typ message = Except.error (Fault.panic "index out of range") := by
  simp [Parser.consume, Parser.check_none h, bind, Except.bind]

/-- The outcomes of `consume`. -/
theorem Parser.consume_outcome (p : Parser) (typ : TokenType) (htyp : typ ≠ TokenType.EOF)
    (message : String) :
    (∃ t, p.tokens[p.current]? = some t ∧ t.Typ = typ
        ∧ p.consume typ message = Except.ok (t, p.next))
      ∨ p.consume typ message = Except.error (Fault.panic "index out of range")
      ∨ p.consume typ message = Except.error (Fault.panic message) := by
  cases ht : p.tokens[p.current]? with
  | none => exact Or.inr (Or.inl (Parser.consume_none ht typ message))
  | some t =>
    by_cases h : t.Typ = typ
    · exact Or.inl ⟨t, rfl, h, Parser.consume_found ht typ h htyp message⟩
    · exact Or.inr (Or.inr (Parser.consume_missing ht typ h message))

/-- The faults of the shared tail of a call and of an array literal. -/
theorem Parser.bracketed_origin (E : Parser → Run (ASTNode F × Parser))
    (close : TokenType) (hclose : close ≠ TokenType.EOF) (message : String)
    (hmsg : explicitPanic message) (mk : List (ASTNode F) → ASTNode F) (p : Parser)
    (f : Fault)
    (h : (do
      let (elements, p) ←
        if !(← p.check close) then Parser.listLoop E p.budget [] p
        else pure ([], p)
      let (_, p) ← p.consume close message
      pure (mk elements, p) : Run (ASTNode F × Parser)) = Except.error f) :
    (∃ t, p.tokens[p.current]? = some t ∧ t.Typ ≠ close
        ∧ Parser.listLoop E p.budget [] p = Except.error f)
      ∨ Parser.raised f := by
  cases ht : p.tokens[p.current]? with
  | none =>
    simp [Parser.check_none ht, bind, Except.bind] at h
    rw [← h]
    exact Or.inr Parser.raised_index
  | some t =>
    by_cases hc : t.Typ = close
    · have hfound := Parser.consume_found ht close hc hclose message
      simp [Parser.check_eq ht, hc, hclose, bind, Except.bind, pure, Except.pure, hfound] at h
    · cases hr : Parser.listLoop E p.budget [] p with
      | error g =>
        simp [Parser.check_eq ht, hc, bind, Except.bind, pure, Except.pure, hr] at h
        rw [← h]
        exact Or.inl ⟨t, rfl, hc, rfl⟩
      | ok v =>
        obtain ⟨elements, q⟩ := v
        rcases Parser.consume_outcome q close hclose message with ⟨u, _, _, hu⟩ | hu | hu
        · simp [Parser.check_eq ht, hc, bind, Except.bind, pure, Except.pure, hr, hu] at h
        · simp [Parser.check_eq ht, hc, bind, Except.bind, pure, Except.pure, hr, hu] at h
          rw [← h]
          exact Or.inr Parser.raised_index
        · simp [Parser.check_eq ht, hc, bind, Except.bind, pure, Except.pure, hr, hu] at h
          rw [← h]
          exact Or.inr (Parser.raised_explicit hmsg)

/-- The faults of a loop `for p.match(...)`. -/
theorem Parser.binaryLoop_origin (ops : List TokenType)
    (mk : ASTNode F → TokenType → ASTNode F → ASTNode F)
    (next : Parser → Run (ASTNode F × Parser)) (fuel : Nat) (node : ASTNode F) (p : Parser)
    (f : Fault) (h : Parser.binaryLoop ops mk next fuel node p = Except.error f) :
    (∃ n t, fuel = n + 1 ∧ p.tokens[p.current]? = some t ∧ t.Typ ≠ TokenType.EOF
        ∧ t.Typ ∈ ops
        ∧ (next p.next = Except.error f
          ∨ ∃ right p2, next p.next = Except.ok (right, p2)
            ∧ Parser.binaryLoop ops mk next n (mk node t.Typ right) p2 = Except.error f))
      ∨ Parser.raised f := by
  cases fuel with
  | zero =>
    simp [Parser.binaryLoop, throw, throwThe, MonadExceptOf.throw] at h
    rw [← h]
    exact Or.inr Parser.raised_fuel
  | succ n =>
    cases ht : p.tokens[p.current]? with
    | none =>
      cases ops with
      | nil => simp [Parser.binaryLoop, Parser.matchTypes, bind, Except.bind, pure,
          Except.pure] at h
      | cons typ ops =>
        simp [Parser.binaryLoop, Parser.matchTypes_none ht, bind, Except.bind] at h
        rw [← h]
        exact Or.inr Parser.raised_index
    | some t =>
      by_cases hmatch : t.Typ ≠ TokenType.EOF ∧ t.Typ ∈ ops
      · cases hr : next p.next with
        | error g =>
          simp [Parser.binaryLoop, Parser.matchTypes_eq ht, hmatch.1, hmatch.2, bind,
            Except.bind, Parser.previous_next ht, hr] at h
          rw [← h]
          exact Or.inl ⟨n, t, rfl, rfl, hmatch.1, hmatch.2, Or.inl rfl⟩
        | ok v =>
          obtain ⟨right, p2⟩ := v
          rw [Parser.binaryLoop_step ht hmatch.2 hmatch.1 hr] at h
          exact Or.inl ⟨n, t, rfl, rfl, hmatch.1, hmatch.2, Or.inr ⟨right, p2, rfl, h⟩⟩
      · exfalso
        simp only [Parser.binaryLoop, Parser.matchTypes_eq ht, hmatch, if_false, bind,
          Except.bind] at h
        cases h

end CallOriginLoops

section CallOrigin

variable {F : Type} [Float64 F]

/-- The faults of `primary`. -/
theorem Parser.primary_origin (n : Nat) (p : Parser) (f : Fault)
    (h : Parser.primary (F := F) (Parser.expression n) p = Except.error f) :
    (∃ d, Parser.Calls (Parser.Call.primary (F := F) n p) d ∧ d.fault = some f)
      ∨ Parser.raised f := by
  cases ht : p.tokens[p.current]? with
  | none =>
    rw [Parser.primary_none _ ht] at h
    cases h
    exact Or.inr Parser.raised_index
  | some t =>
    by_cases hb : beginsPrimary t.Typ = false
    · rw [Parser.primary_default _ ht hb] at h
      cases h
    by_cases h1 : t.Typ = TokenType.INT
    · cases hv : Atoi t.Literal with
      | some v =>
        rw [Parser.primary_int _ ht h1 hv] at h
        cases h
      | none =>
        simp [Parser.primary, Parser.matchTypes_one ht, h1, Parser.previous_next ht, parseInt,
          hv, bind, Except.bind, throw, throwThe, MonadExceptOf.throw] at h
        rw [← h]
        exact Or.inr (Parser.raised_explicit (explicitPanic_atoi _))
    by_cases h2 : t.Typ = TokenType.FLOAT
    · cases hv : (Float64.parse t.Literal : Option F) with
      | some v =>
        rw [Parser.primary_float _ ht h2 hv] at h
        cases h
      | none =>
        simp [Parser.primary, Parser.matchTypes_one ht, h2, Parser.previous_next ht,
          parseFloat, hv, bind, Except.bind, throw, throwThe, MonadExceptOf.throw] at h
        rw [← h]
        exact Or.inr (Parser.raised_explicit (explicitPanic_parseFloat _))
    by_cases h3 : t.Typ = TokenType.STRING
    · rw [Parser.primary_string _ ht h3] at h
      cases h
    by_cases h4 : t.Typ = TokenType.BOOL
    · rw [Parser.primary_bool _ ht h4] at h
      cases h
    by_cases h5 : t.Typ = TokenType.VARIABLE
    · rw [Parser.primary_variable _ ht h5] at h
      cases h
    by_cases h6 : t.Typ = TokenType.PAREN_LEFT
    · cases hr : Parser.expression (F := F) n p.next with
      | error g =>
        simp [Parser.primary, Parser.matchTypes_one ht, h6, hr, bind, Except.bind] at h
        rw [← h]
        exact Or.inl ⟨_, Parser.Calls.parenthesis n p t ht h6, faultOf_eq_some.2 hr⟩
      | ok v =>
        obtain ⟨e, q⟩ := v
        rcases Parser.consume_outcome q TokenType.PAREN_RIGHT (by decide)
          "Expect ')' after expression." with ⟨u, _, _, hu⟩ | hu | hu
        · simp [Parser.primary, Parser.matchTypes_one ht, h6, hr, hu, bind, Except.bind, pure,
            Except.pure] at h
        · simp [Parser.primary, Parser.matchTypes_one ht, h6, hr, hu, bind, Except.bind] at h
          rw [← h]
          exact Or.inr Parser.raised_index
        · simp [Parser.primary, Parser.matchTypes_one ht, h6, hr, hu, bind, Except.bind] at h
          rw [← h]
          exact Or.inr (Parser.raised_explicit (Or.inl rfl))
    by_cases h7 : t.Typ = TokenType.FUNCTION
    · rw [Parser.primary_function_eq _ ht h7] at h
      rcases Parser.consume_outcome p.next TokenType.PAREN_LEFT (by decide)
        "Expect '(' after function." with ⟨u, hu1, hu2, hu⟩ | hu | hu
      · rw [hu] at h
        rcases Parser.bracketed_origin _ TokenType.PAREN_RIGHT (by decide) _
          (Or.inr (Or.inr (Or.inl rfl))) _ p.next.next f h with ⟨t2, h2', hne, hl⟩ | hraised
        · exact Or.inl ⟨_, Parser.Calls.arguments n p t u t2 ht h7 hu1 hu2 h2' hne,
            faultOf_eq_some.2 hl⟩
        · exact Or.inr hraised
      · rw [hu] at h
        cases h
        exact Or.inr Parser.raised_index
      · rw [hu] at h
        cases h
        exact Or.inr (Parser.raised_explicit (Or.inr (Or.inl rfl)))
    by_cases h8 : t.Typ = TokenType.ARRAY
    · rw [Parser.primary_array_eq _ ht h8] at h
      rcases Parser.consume_outcome p.next TokenType.ARRAY_START (by decide)
        "Expect '[' after array." with ⟨u, hu1, hu2, hu⟩ | hu | hu
      · rw [hu] at h
        rcases Parser.bracketed_origin _ TokenType.ARRAY_END (by decide) _
          (Or.inr (Or.inr (Or.inr (Or.inr (Or.inl rfl)))))
          (fun elements => ASTNode.ArrayNode elements t.Literal) p.next.next f h with
          ⟨t2, h2', hne, hl⟩ | hraised
        · exact Or.inl ⟨_, Parser.Calls.elements n p t u t2 ht h8 hu1 hu2 h2' hne,
            faultOf_eq_some.2 hl⟩
        · exact Or.inr hraised
      · rw [hu] at h
        cases h
        exact Or.inr Parser.raised_index
      · rw [hu] at h
        cases h
        exact Or.inr (Parser.raised_explicit (Or.inr (Or.inr (Or.inr (Or.inl rfl)))))
    exfalso
    apply hb
    revert h1 h2 h3 h4 h5 h6 h7 h8
    cases t.Typ <;> simp [beginsPrimary]

/-- Every fault of a call is raised by the call itself or is the fault of a
call that it makes. -/
theorem Parser.Call.fault_origin (c : Parser.Call F) (f : Fault) (h : c.fault = some f) :
    (∃ d, Parser.Calls c d ∧ d.fault = some f) ∨ Parser.raised f := by
  cases c with
  | expression n p =>
    cases n with
    | zero =>
      have h' : Parser.expression (F := F) 0 p = Except.error f := faultOf_eq_some.1 h
      simp [Parser.expression, throw, throwThe, MonadExceptOf.throw] at h'
      rw [← h']
      exact Or.inr Parser.raised_fuel
    | succ n => exact Or.inl ⟨_, Parser.Calls.expression n p, h⟩
  | level n k p =>
    by_cases hk : k < 7
    · have h' : Parser.atLevel (Parser.expression (F := F) n) k p = Except.error f :=
        faultOf_eq_some.1 h
      rw [Parser.atLevel_succ _ hk] at h'
      cases hr : Parser.atLevel (Parser.expression (F := F) n) (k + 1) p with
      | error g =>
        simp [Parser.binaryLevel, hr, bind, Except.bind] at h'
        rw [← h']
        exact Or.inl ⟨_, Parser.Calls.levelOperand n k p hk, faultOf_eq_some.2 hr⟩
      | ok v =>
        obtain ⟨node, p1⟩ := v
        simp only [Parser.binaryLevel, hr, bind, Except.bind] at h'
        exact Or.inl ⟨_, Parser.Calls.levelLoop n k p p1 node hk hr, faultOf_eq_some.2 h'⟩
    · have h' : Parser.atLevel (Parser.expression (F := F) n) k p = Except.error f :=
        faultOf_eq_some.1 h
      rw [Parser.atLevel_functions _ (by omega : 7 ≤ k)] at h'
      exact Or.inl ⟨_, Parser.Calls.levelFunctions n k p (by omega), faultOf_eq_some.2 h'⟩
  | levelLoop n k fuel node p =>
    have h' : Parser.binaryLoop (levelOps k) (levelNode k)
        (Parser.atLevel (Parser.expression (F := F) n) (k + 1)) fuel node p
        = Except.error f := faultOf_eq_some.1 h
    rcases Parser.binaryLoop_origin _ _ _ fuel node p f h' with
      ⟨m, t, rfl, ht, hne, hin, hc⟩ | hraised
    · rcases hc with hc | ⟨right, p2, hr, hl⟩
      · exact Or.inl ⟨_, Parser.Calls.loopOperand n k m node p t ht hne hin,
          faultOf_eq_some.2 hc⟩
      · exact Or.inl ⟨_, Parser.Calls.loopRound n k m node right p p2 t ht hne hin hr,
          faultOf_eq_some.2 hl⟩
    · exact Or.inr hraised
  | functions n m p =>
    have h' : Parser.functions (Parser.expression (F := F) n) m p = Except.error f :=
      faultOf_eq_some.1 h
    cases m with
    | zero =>
      simp [Parser.functions, throw, throwThe, MonadExceptOf.throw] at h'
      rw [← h']
      exact Or.inr Parser.raised_fuel
    | succ m =>
      cases hr : Parser.primary (Parser.expression (F := F) n) p with
      | error g =>
        simp [Parser.functions, hr, bind, Except.bind] at h'
        rw [← h']
        exact Or.inl ⟨_, Parser.Calls.functionsPrimary n m p, faultOf_eq_some.2 hr⟩
      | ok v =>
        obtain ⟨node, p1⟩ := v
        simp only [Parser.functions, hr, bind, Except.bind] at h'
        exact Or.inl ⟨_, Parser.Calls.functionsLoop n m p p1 node hr, faultOf_eq_some.2 h'⟩
  | functionsLoop n m fuel node p =>
    have h' : Parser.binaryLoop [TokenType.EXPONENT, TokenType.FUNCTION]
        ASTNode.BinaryOperationNode (Parser.functions (Parser.expression (F := F) n) m) fuel
        node p = Except.error f := faultOf_eq_some.1 h
    rcases Parser.binaryLoop_origin _ _ _ fuel node p f h' with
      ⟨k, t, rfl, ht, hne, hin, hc⟩ | hraised
    · have hin' : t.Typ = TokenType.EXPONENT ∨ t.Typ = TokenType.FUNCTION := by
        simpa using hin
      rcases hc with hc | ⟨right, p2, hr, hl⟩
      · exact Or.inl ⟨_, Parser.Calls.functionsOperand n m k node p t ht hin',
          faultOf_eq_some.2 hc⟩
      · exact Or.inl ⟨_, Parser.Calls.functionsRound n m k node right p p2 t ht hin' hr,
          faultOf_eq_some.2 hl⟩
    · exact Or.inr hraised
  | primary n p =>
    have h' : Parser.primary (Parser.expression (F := F) n) p = Except.error f :=
      faultOf_eq_some.1 h
    exact Parser.primary_origin n p f h'
  | listLoop n fuel acc p =>
    have h' : Parser.listLoop (Parser.expression (F := F) n) fuel acc p = Except.error f :=
      faultOf_eq_some.1 h
    cases fuel with
    | zero =>
      simp [Parser.listLoop, throw, throwThe, MonadExceptOf.throw] at h'
      rw [← h']
      exact Or.inr Parser.raised_fuel
    | succ m =>
      cases hr : Parser.expression (F := F) n p with
      | error g =>
        simp [Parser.listLoop, hr, bind, Except.bind] at h'
        rw [← h']
        exact Or.inl ⟨_, Parser.Calls.listElement n m acc p, faultOf_eq_some.2 hr⟩
      | ok v =>
        obtain ⟨element, p1⟩ := v
        cases ht : p1.tokens[p1.current]? with
        | none =>
          simp [Parser.listLoop, hr, bind, Except.bind, Parser.matchTypes_none ht] at h'
          rw [← h']
          exact Or.inr Parser.raised_index
        | some t =>
          by_cases hc : t.Typ = TokenType.COMMA
          · have e1 : Parser.listLoop (Parser.expression (F := F) n) (m + 1) acc p
                = Parser.listLoop (Parser.expression n) m (acc ++ [element]) p1.next := by
              simp [Parser.listLoop, hr, bind, Except.bind, Parser.matchTypes_one ht, hc]
            rw [e1] at h'
            exact Or.inl ⟨_, Parser.Calls.listRound n m acc element p p1 t hr ht hc,
              faultOf_eq_some.2 h'⟩
          · simp [Parser.listLoop, hr, bind, Except.bind, Parser.matchTypes_one ht, hc, pure,
              Except.pure] at h'

end CallOrigin

/-! ## C20: a missing closing bracket -/

set_option maxRecDepth 100000 in
/-- C20. A missing closing bracket aborts the parse.  In `primary`, at every
position and whatever the recursive call is: after a `(` and its inner
expression a current token that is not `)` raises the panic
`Expect ')' after expression.`; after a function name, its `(` and its
arguments, a current token that is not `)` raises
`Expect ')' after arguments to function.`; after an array name, its `[` and its
elements, a current token that is not `]` raises
`Expect ']' after elements to array.`.  A fault of a call is the fault of every
call that makes it, directly or through other calls, at every level, in every
round of a loop and at every depth of brackets.  So whenever the run of `Parse`
on a token sequence reaches a `primary` with a missing closing bracket, `Parse`
aborts with the panic of that bracket: no tree and no error value is returned.
The sources `(1 + 2`, `add(1, 2`, `int[1, 2`, `1 + (2`, `1 + 2 + (3`, `2 ** (3`
and `add(1, (2` abort in this way.  Conversely a fault of a call is raised by
that call itself (the exhausted budget of the model, an index out of range or
an explicit panic) or is the fault of a call that it makes. -/
theorem missing_closing_bracket_aborts :
    (∀ (F : Type) [Float64 F] (E : Parser → Run (ASTNode F × Parser)) (p p2 : Parser)
      (t t2 : Token) (e : ASTNode F), p.tokens[p.current]? = some t →
      t.Typ = TokenType.PAREN_LEFT → E p.next = Except.ok (e, p2) →
      p2.tokens[p2.current]? = some t2 → t2.Typ ≠ TokenType.PAREN_RIGHT →
      Parser.primary E p = Except.error (Fault.panic "Expect ')' after expression."))
    ∧ (∀ (F : Type) [Float64 F] (E : Parser → Run (ASTNode F × Parser)) (p p3 : Parser)
      (t t1 t2 t3 : Token) (arguments : List (ASTNode F)),
      p.tokens[p.current]? = some t → t.Typ = TokenType.FUNCTION →
      p.next.tokens[p.next.current]? = some t1 → t1.Typ = TokenType.PAREN_LEFT →
      p.next.next.tokens[p.next.next.current]? = some t2 →
      t2.Typ ≠ TokenType.PAREN_RIGHT →
      Parser.listLoop E p.next.next.budget [] p.next.next = Except.ok (arguments, p3) →
      p3.tokens[p3.current]? = some t3 → t3.Typ ≠ TokenType.PAREN_RIGHT →
      Parser.primary E p
        = Except.error (Fault.panic "Expect ')' after arguments to function."))
    ∧ (∀ (F : Type) [Float64 F] (E : Parser → Run (ASTNode F × Parser)) (p p3 : Parser)
      (t t1 t2 t3 : Token) (elements : List (ASTNode F)),
      p.tokens[p.current]? = some t → t.Typ = TokenType.ARRAY →
      p.next.tokens[p.next.current]? = some t1 → t1.Typ = TokenType.ARRAY_START →
      p.next.next.tokens[p.next.next.current]? = some t2 →
      t2.Typ ≠ TokenType.ARRAY_END →
      Parser.listLoop E p.next.next.budget [] p.next.next = Except.ok (elements, p3) →
      p3.tokens[p3.current]? = some t3 → t3.Typ ≠ TokenType.ARRAY_END →
      Parser.primary E p
        = Except.error (Fault.panic "Expect ']' after elements to array."))
    ∧ (∀ (F : Type) [Float64 F] (c d : Parser.Call F) (f : Fault),
      Relation.ReflTransGen Parser.Calls c d → d.fault = some f → c.fault = some f)
    ∧ (∀ (F : Type) [Float64 F] (toks : List Token) (c : Parser.Call F) (f : Fault),
      Relation.ReflTransGen Parser.Calls
        (Parser.Call.expression (F := F) (toks.length + 1) { tokens := toks, current := 0 }) c →
      c.fault = some f →
      Parser.Parse (F := F) { tokens := toks, current := 0 } = Except.error f)
    ∧ (∀ (F : Type) [Float64 F] (toks : List Token) (n : Nat) (p p2 : Parser)
      (t t2 : Token) (e : ASTNode F),
      Relation.ReflTransGen Parser.Calls
        (Parser.Call.expression (F := F) (toks.length + 1) { tokens := toks, current := 0 })
        (Parser.Call.primary n p) →
      p.tokens[p.current]? = some t → t.Typ = TokenType.PAREN_LEFT →
      Parser.expression n p.next = Except.ok (e, p2) →
      p2.tokens[p2.current]? = some t2 → t2.Typ ≠ TokenType.PAREN_RIGHT →
      Parser.Parse (F := F) { tokens := toks, current := 0 }
        = Except.error (Fault.panic "Expect ')' after expression."))
    ∧ (∀ (F : Type) [Float64 F] (toks : List Token) (n : Nat) (p p3 : Parser)
      (t t1 t2 t3 : Token) (arguments : List (ASTNode F)),
      Relation.ReflTransGen Parser.Calls
        (Parser.Call.expression (F := F) (toks.length + 1) { tokens := toks, current := 0 })
        (Parser.Call.primary n p) →
      p.tokens[p.current]? = some t → t.Typ = TokenType.FUNCTION →
      p.next.tokens[p.next.current]? = some t1 → t1.Typ = TokenType.PAREN_LEFT →
      p.next.next.tokens[p.next.next.current]? = some t2 →
      t2.Typ ≠ TokenType.PAREN_RIGHT →
      Parser.listLoop (Parser.expression n) p.next.next.budget [] p.next.next
        = Except.ok (arguments, p3) →
      p3.tokens[p3.current]? = some t3 → t3.Typ ≠ TokenType.PAREN_RIGHT →
      Parser.Parse (F := F) { tokens := toks, current := 0 }
        = Except.error (Fault.panic "Expect ')' after arguments to function."))
    ∧ (∀ (F : Type) [Float64 F] (toks : List Token) (n : Nat) (p p3 : Parser)
      (t t1 t2 t3 : Token) (elements : List (ASTNode F)),
      Relation.ReflTransGen Parser.Calls
        (Parser.Call.expression (F := F) (toks.length + 1) { tokens := toks, current := 0 })
        (Parser.Call.primary n p) →
      p.tokens[p.current]? = some t → t.Typ = TokenType.ARRAY →
      p.next.tokens[p.next.current]? = some t1 → t1.Typ = TokenType.ARRAY_START →
      p.next.next.tokens[p.next.next.current]? = some t2 →
      t2.Typ ≠ TokenType.ARRAY_END →
      Parser.listLoop (Parser.expression n) p.next.next.budget [] p.next.next
        = Except.ok (elements, p3) →
      p3.tokens[p3.current]? = some t3 → t3.Typ ≠ TokenType.ARRAY_END →
      Parser.Parse (F := F) { tokens := toks, current := 0 }
        = Except.error (Fault.panic "Expect ']' after elements to array."))
    ∧ (∀ (F : Type) [Float64 F] (library : String → bifFunc F) (n : Nat) (ctx : Context F),
      Evaluate (init library) (n + 1) ctx "(1 + 2"
          = Except.error (Fault.panic "Expect ')' after expression.")
        ∧ Evaluate (init library) (n + 1) ctx "add(1, 2"
          = Except.error (Fault.panic "Expect ')' after arguments to function.")
        ∧ Evaluate (init library) (n + 1) ctx "int[1, 2"
          = Except.error (Fault.panic "Expect ']' after elements to array.")
        ∧ Evaluate (init library) (n + 1) ctx "1 + (2"
          = Except.error (Fault.panic "Expect ')' after expression.")
        ∧ Evaluate (init library) (n + 1) ctx "1 + 2 + (3"
          = Except.error (Fault.panic "Expect ')' after expression.")
        ∧ Evaluate (init library) (n + 1) ctx "2 ** (3"
          = Except.error (Fault.panic "Expect ')' after expression.")
        ∧ Evaluate (init library) (n + 1) ctx "add(1, (2"
          = Except.error (Fault.panic "Expect ')' after expression."))
    ∧ (∀ (F : Type) [Float64 F] (c : Parser.Call F) (f : Fault), c.fault = some f →
      (∃ d, Parser.Calls c d ∧ d.fault = some f) ∨ Parser.raised f) := by
  refine ⟨?_, ?_, ?_, ?_, ?_, ?_, ?_, ?_, ?_, ?_⟩
  · intro F _ E p p2 t t2 e h ht he h2 ht2
    exact Parser.primary_paren_missing E p p2 h ht he h2 ht2
  · intro F _ E p p3 t t1 t2 t3 arguments h ht h1 ht1 h2 ht2 hargs h3 ht3
    exact Parser.primary_call_missing E p p3 h ht h1 ht1 h2 ht2 hargs h3 ht3
  · intro F _ E p p3 t t1 t2 t3 elements h ht h1 ht1 h2 ht2 helems h3 ht3
    exact Parser.primary_array_missing E p p3 h ht h1 ht1 h2 ht2 helems h3 ht3
  · intro F _ c d f h hd
    exact Parser.Calls.fault_trans h hd
  · intro F _ toks c f h hc
    exact Parser.Parse_fault h hc
  · intro F _ toks n p p2 t t2 e hreach h ht he h2 ht2
    exact Parser.Parse_fault hreach
      (faultOf_eq_some.2 (Parser.primary_paren_missing _ p p2 h ht he h2 ht2))
  · intro F _ toks n p p3 t t1 t2 t3 arguments hreach h ht h1 ht1 h2 ht2 hargs h3 ht3
    exact Parser.Parse_fault hreach
      (faultOf_eq_some.2 (Parser.primary_call_missing _ p p3 h ht h1 ht1 h2 ht2 hargs h3 ht3))
  · intro F _ toks n p p3 t t1 t2 t3 elements hreach h ht h1 ht1 h2 ht2 helems h3 ht3
    exact Parser.Parse_fault hreach
      (faultOf_eq_some.2
        (Parser.primary_array_missing _ p p3 h ht h1 ht1 h2 ht2 helems h3 ht3))
  · intro F _ library n ctx
    exact ⟨rfl, rfl, rfl, rfl, rfl, rfl, rfl⟩
  · intro F _ c f h
    exact Parser.Call.fault_origin c f h

set_option maxRecDepth 100000 in
/-- The tokens of `1 + 2 + (3`: the second round of the loop of `addition`
reaches the `primary` of the open bracket, and the parse aborts. -/
theorem missing_closing_bracket_aborts_witness :
    Relation.ReflTransGen Parser.Calls
        (Parser.Call.expression (F := Exact) 8
          { tokens := [⟨TokenType.INT, "1"⟩, ⟨TokenType.PLUS, "+"⟩, ⟨TokenType.INT, "2"⟩,
              ⟨TokenType.PLUS, "+"⟩, ⟨TokenType.PAREN_LEFT, "("⟩, ⟨TokenType.INT, "3"⟩,
              ⟨TokenType.EOF, ""⟩],
            current := 0 })
        (Parser.Call.primary 7
          { tokens := [⟨TokenType.INT, "1"⟩, ⟨TokenType.PLUS, "+"⟩, ⟨TokenType.INT, "2"⟩,
              ⟨TokenType.PLUS, "+"⟩, ⟨TokenType.PAREN_LEFT, "("⟩, ⟨TokenType.INT, "3"⟩,
              ⟨TokenType.EOF, ""⟩],
            current := 4 })
    ∧ Parser.Parse (F := Exact)
        { tokens := [⟨TokenType.INT, "1"⟩, ⟨TokenType.PLUS, "+"⟩, ⟨TokenType.INT, "2"⟩,
            ⟨TokenType.PLUS, "+"⟩, ⟨TokenType.PAREN_LEFT, "("⟩, ⟨TokenType.INT, "3"⟩,
            ⟨TokenType.EOF, ""⟩],
          current := 0 }
      = Except.error (Fault.panic "Expect ')' after expression.") :=
  have hreach : Relation.ReflTransGen Parser.Calls
      (Parser.Call.expression (F := Exact) 8
        { tokens := [⟨TokenType.INT, "1"⟩, ⟨TokenType.PLUS, "+"⟩, ⟨TokenType.INT, "2"⟩,
            ⟨TokenType.PLUS, "+"⟩, ⟨TokenType.PAREN_LEFT, "("⟩, ⟨TokenType.INT, "3"⟩,
            ⟨TokenType.EOF, ""⟩],
          current := 0 })
      (Parser.Call.primary 7
        { tokens := [⟨TokenType.INT, "1"⟩, ⟨TokenType.PLUS, "+"⟩, ⟨TokenType.INT, "2"⟩,
            ⟨TokenType.PLUS, "+"⟩, ⟨TokenType.PAREN_LEFT, "("⟩, ⟨TokenType.INT, "3"⟩,
            ⟨TokenType.EOF, ""⟩],
          current := 4 }) :=
    Relation.ReflTransGen.head (Parser.Calls.expression 7 _)
    (Relation.ReflTransGen.head (Parser.Calls.levelOperand 7 0 _ (by decide))
    (Relation.ReflTransGen.head (Parser.Calls.levelOperand 7 1 _ (by decide))
    (Relation.ReflTransGen.head (Parser.Calls.levelOperand 7 2 _ (by decide))
    (Relation.ReflTransGen.head (Parser.Calls.levelOperand 7 3 _ (by decide))
    (Relation.ReflTransGen.head (Parser.Calls.levelOperand 7 4 _ (by decide))
    (Relation.ReflTransGen.head
      (Parser.Calls.levelLoop 7 5 _
        { tokens := [⟨TokenType.INT, "1"⟩, ⟨TokenType.PLUS, "+"⟩, ⟨TokenType.INT, "2"⟩,
            ⟨TokenType.PLUS, "+"⟩, ⟨TokenType.PAREN_LEFT, "("⟩, ⟨TokenType.INT, "3"⟩,
            ⟨TokenType.EOF, ""⟩],
          current := 1 }
        (ASTNode.IntLiteralNode 1) (by decide) rfl)
    (Relation.ReflTransGen.head
      (Parser.Calls.loopRound 7 5 7 (ASTNode.IntLiteralNode 1) (ASTNode.IntLiteralNode 2) _
        { tokens := [⟨TokenType.INT, "1"⟩, ⟨TokenType.PLUS, "+"⟩, ⟨TokenType.INT, "2"⟩,
            ⟨TokenType.PLUS, "+"⟩, ⟨TokenType.PAREN_LEFT, "("⟩, ⟨TokenType.INT, "3"⟩,
            ⟨TokenType.EOF, ""⟩],
          current := 3 }
        ⟨TokenType.PLUS, "+"⟩ rfl (by decide) (by decide) rfl)
    (Relation.ReflTransGen.head
      (Parser.Calls.loopOperand 7 5 6 _ _ ⟨TokenType.PLUS, "+"⟩ rfl (by decide) (by decide))
    (Relation.ReflTransGen.head (Parser.Calls.levelOperand 7 6 _ (by decide))
    (Relation.ReflTransGen.head (Parser.Calls.levelFunctions 7 7 _ (by decide))
    (Relation.ReflTransGen.single (Parser.Calls.functionsPrimary 7 7 _))))))))))))
  ⟨hreach,
    missing_closing_bracket_aborts.2.2.2.2.2.1 Exact
      [⟨TokenType.INT, "1"⟩, ⟨TokenType.PLUS, "+"⟩, ⟨TokenType.INT, "2"⟩,
        ⟨TokenType.PLUS, "+"⟩, ⟨TokenType.PAREN_LEFT, "("⟩, ⟨TokenType.INT, "3"⟩,
        ⟨TokenType.EOF, ""⟩]
      7
      { tokens := [⟨TokenType.INT, "1"⟩, ⟨TokenType.PLUS, "+"⟩, ⟨TokenType.INT, "2"⟩,
          ⟨TokenType.PLUS, "+"⟩, ⟨TokenType.PAREN_LEFT, "("⟩, ⟨TokenType.INT, "3"⟩,
          ⟨TokenType.EOF, ""⟩],
        current := 4 }
      { tokens := [⟨TokenType.INT, "1"⟩, ⟨TokenType.PLUS, "+"⟩, ⟨TokenType.INT, "2"⟩,
          ⟨TokenType.PLUS, "+"⟩, ⟨TokenType.PAREN_LEFT, "("⟩, ⟨TokenType.INT, "3"⟩,
          ⟨TokenType.EOF, ""⟩],
        current := 6 }
      ⟨TokenType.PAREN_LEFT, "("⟩ ⟨TokenType.EOF, ""⟩ (ASTNode.IntLiteralNode 3)
      hreach rfl rfl rfl rfl (by decide)⟩

/-! ## The lexer returns on every input without a backtick -/

section LexerTotality

theorem Lexer.readChar_aligned (l : Lexer) : l.readChar.aligned := by
  refine ⟨rfl, ?_⟩
  show (if l.readPosition ≥ l.input.length then NUL else l.input.getD l.readPosition NUL)
    = l.input.getD l.readPosition NUL
  split
  · rename_i h
    rw [List.getD_eq_default _ _ h]
  · rfl

theorem Lexer.readChar_input (l : Lexer) : l.readChar.input = l.input := rfl

theorem Lexer.readChar_position {l : Lexer} (h : l.aligned) :
    l.readChar.position = l.position + 1 := h.1

theorem Lexer.aligned_lt {l : Lexer} (h : l.aligned) (hc : l.ch ≠ NUL) :
    l.position < l.input.length := by
  by_contra hn
  apply hc
  rw [h.2, List.getD_eq_default _ _ (by omega)]

theorem Lexer.aligned_peek {l : Lexer} (h : l.aligned) (hc : l.peekChar ≠ NUL) :
    l.position + 1 < l.input.length := by
  by_contra hn
  apply hc
  rw [Lexer.peekChar_eq_getD, h.1, List.getD_eq_default _ _ (by omega)]

theorem Lexer.aligned_not_backtick {l : Lexer} (h : l.aligned)
    (hb : ∀ c ∈ l.input, c.toNat ≠ 96) : (l.ch.toNat == 96) = false := by
  rw [beq_eq_false_iff_ne, h.2]
  by_cases hlt : l.position < l.input.length
  · rw [List.getD_eq_getElem _ _ hlt]
    exact hb _ (List.getElem_mem _)
  · rw [List.getD_eq_default _ _ (by omega)]
    decide

theorem sliceStr_ok (s : List Char) (a b : Nat) (h1 : a ≤ b) (h2 : b ≤ s.length) :
    sliceStr s a b = Except.ok (String.mk ((s.drop a).take (b - a))) := by
  simp [sliceStr, h1, h2, pure, Except.pure]

theorem Lexer.skipWhitespaceLoop_total (fuel : Nat) :
    ∀ l : Lexer, l.aligned → l.left < fuel →
      ∃ l1, Lexer.skipWhitespaceLoop fuel l = Except.ok l1 ∧ l1.aligned
        ∧ l1.input = l.input ∧ l.position ≤ l1.position
        ∧ (l1.ch.toNat == 32 || l1.ch.toNat == 9 || l1.ch.toNat == 10 || l1.ch.toNat == 13)
          = false := by
  induction fuel with
  | zero => intro l _ h; omega
  | succ n ih =>
    intro l ha hf
    by_cases hw : (l.ch.toNat == 32 || l.ch.toNat == 9 || l.ch.toNat == 10
        || l.ch.toNat == 13) = true
    · have hne : l.ch ≠ NUL := by
        intro e
        rw [e] at hw
        revert hw
        decide
      have hlt := Lexer.aligned_lt ha hne
      obtain ⟨l1, h1, h2, h3, h4, h5⟩ := ih l.readChar (Lexer.readChar_aligned l)
        (by
          unfold Lexer.left at hf ⊢
          rw [Lexer.readChar_input, Lexer.readChar_position ha]
          omega)
      refine ⟨l1, ?_, h2, h3, ?_, h5⟩
      · simp only [Lexer.skipWhitespaceLoop, hw, if_true]
        exact h1
      · rw [Lexer.readChar_position ha] at h4
        omega
    · have hw' : (l.ch.toNat == 32 || l.ch.toNat == 9 || l.ch.toNat == 10
          || l.ch.toNat == 13) = false := by
        simpa using hw
      refine ⟨l, ?_, ha, rfl, le_refl _, hw'⟩
      simp only [Lexer.skipWhitespaceLoop, hw', Bool.false_eq_true, if_false]
      rfl

theorem Lexer.readNumberLoop_total (isNegative : Bool) (fuel : Nat) :
    ∀ (hasDecimal : Bool) (l : Lexer), l.aligned → l.position ≤ l.input.length →
      l.left < fuel →
      ∃ b l1, Lexer.readNumberLoop isNegative fuel hasDecimal l = Except.ok (b, l1)
        ∧ l1.aligned ∧ l1.input = l.input ∧ l.position ≤ l1.position
        ∧ l1.position ≤ l.input.length
        ∧ ((isDigit l.ch || (!hasDecimal && l.ch == '.') || (isNegative && l.ch == '-'))
            = true → l.position < l1.position) := by
  induction fuel with
  | zero => intro _ l _ _ h; omega
  | succ n ih =>
    intro hasDecimal l ha hle hf
    by_cases hc : (isDigit l.ch || (!hasDecimal && l.ch == '.')
        || (isNegative && l.ch == '-')) = true
    · have hne : l.ch ≠ NUL := by
        intro e
        rw [e] at hc
        revert hc
        cases hasDecimal <;> cases isNegative <;> decide
      have hlt := Lexer.aligned_lt ha hne
      obtain ⟨b, l1, h1, h2, h3, h4, h5, _⟩ := ih (if l.ch == '.' then true else hasDecimal)
        l.readChar (Lexer.readChar_aligned l)
        (by rw [Lexer.readChar_input, Lexer.readChar_position ha]; omega)
        (by
          unfold Lexer.left at hf ⊢
          rw [Lexer.readChar_input, Lexer.readChar_position ha]
          omega)
      rw [Lexer.readChar_position ha] at h4
      refine ⟨b, l1, ?_, h2, h3, by omega, h5, fun _ => by omega⟩
      simp only [Lexer.readNumberLoop, hc, if_true]
      exact h1
    · refine ⟨hasDecimal, l, ?_, ha, rfl, le_refl _, hle, fun h => absurd h hc⟩
      simp only [Lexer.readNumberLoop, hc, if_false]
      rfl

theorem Lexer.readNumber_total (l : Lexer) (isNegative : Bool) (ha : l.aligned)
    (hc : (isDigit l.ch || (isNegative && l.ch == '-')) = true) :
    ∃ tok l1, l.readNumber isNegative = Except.ok (tok, l1) ∧ tok.Typ ≠ TokenType.EOF
      ∧ l1.aligned ∧ l1.input = l.input ∧ l.position < l.input.length
      ∧ l.position < l1.position := by
  have hne : l.ch ≠ NUL := by
    intro e
    rw [e] at hc
    revert hc
    cases isNegative <;> decide
  have hlt := Lexer.aligned_lt ha hne
  obtain ⟨b, l1, h1, h2, h3, h4, h5, h6⟩ := Lexer.readNumberLoop_total isNegative l.budget false
    l ha (by omega) (by unfold Lexer.left Lexer.budget; omega)
  have hpos := h6 (by
    rcases Bool.or_eq_true_iff.1 hc with h | h
    · simp [h]
    · simp [h])
  have hs := sliceStr_ok l1.input l.position l1.position (by omega) (by rw [h3]; exact h5)
  cases b with
  | true =>
    refine ⟨⟨TokenType.FLOAT,
        String.mk ((l1.input.drop l.position).take (l1.position - l.position))⟩,
      l1, ?_, ?_, h2, h3, hlt, hpos⟩
    · simp only [Lexer.readNumber, h1, hs, bind, Except.bind, if_true]
      rfl
    · simp
  | false =>
    refine ⟨⟨TokenType.INT,
        String.mk ((l1.input.drop l.position).take (l1.position - l.position))⟩,
      l1, ?_, ?_, h2, h3, hlt, hpos⟩
    · simp only [Lexer.readNumber, h1, hs, bind, Except.bind, Bool.false_eq_true, if_false]
      rfl
    · simp

theorem Lexer.readIdentifierLoop_total (fuel : Nat) :
    ∀ l : Lexer, l.aligned → l.position < l.input.length → l.left < fuel →
      ∃ l1, Lexer.readIdentifierLoop fuel l = Except.ok l1 ∧ l1.aligned
        ∧ l1.input = l.input ∧ l.position ≤ l1.position
        ∧ l1.position < l.input.length := by
  induction fuel with
  | zero => intro l _ _ h; omega
  | succ n ih =>
    intro l ha hlt hf
    by_cases hc : (isLetter l.peekChar || isDigit l.peekChar || l.peekChar == '_'
        || l.peekChar == '.') = true
    · have hne : l.peekChar ≠ NUL := by
        intro e
        rw [e] at hc
        revert hc
        decide
      have hp := Lexer.aligned_peek ha hne
      obtain ⟨l1, h1, h2, h3, h4, h5⟩ := ih l.readChar (Lexer.readChar_aligned l)
        (by rw [Lexer.readChar_input, Lexer.readChar_position ha]; exact hp)
        (by
          unfold Lexer.left at hf ⊢
          rw [Lexer.readChar_input, Lexer.readChar_position ha]
          omega)
      rw [Lexer.readChar_position ha] at h4
      refine ⟨l1, ?_, h2, h3, by omega, h5⟩
      simp only [Lexer.readIdentifierLoop, hc, if_true]
      exact h1
    · refine ⟨l, ?_, ha, rfl, le_refl _, hlt⟩
      simp only [Lexer.readIdentifierLoop, hc, if_false]
      rfl

theorem Lexer.readIdentifier_total (l : Lexer) (ha : l.aligned)
    (hlt : l.position < l.input.length) :
    ∃ ident ty l1, l.readIdentifier = Except.ok (ident, ty, l1) ∧ l1.aligned
      ∧ l1.input = l.input ∧ l.position < l1.position := by
  obtain ⟨l1, h1, h2, h3, h4, h5⟩ := Lexer.readIdentifierLoop_total l.budget l ha hlt
    (by unfold Lexer.left Lexer.budget; omega)
  have hp : l1.readChar.position = l1.position + 1 := Lexer.readChar_position h2
  have hs := sliceStr_ok l1.readChar.input l.position l1.readChar.position
    (by rw [hp]; omega) (by rw [Lexer.readChar_input, h3, hp]; omega)
  by_cases hb : String.mk ((l1.readChar.input.drop l.position).take
      (l1.readChar.position - l.position)) = "true"
      ∨ String.mk ((l1.readChar.input.drop l.position).take
        (l1.readChar.position - l.position)) = "false"
  · refine ⟨String.mk ((l1.readChar.input.drop l.position).take
        (l1.readChar.position - l.position)), identifierType.bool, l1.readChar, ?_,
      Lexer.readChar_aligned l1, h3, by rw [hp]; omega⟩
    simp only [Lexer.readIdentifier, h1, hs, bind, Except.bind, hb, if_true]
    rfl
  · refine ⟨String.mk ((l1.readChar.input.drop l.position).take
        (l1.readChar.position - l.position)),
      (if l1.peekChar == '[' then identifierType.array
        else if l1.peekChar == '(' then identifierType.function
        else identifierType.variable), l1.readChar, ?_,
      Lexer.readChar_aligned l1, h3, by rw [hp]; omega⟩
    simp only [Lexer.readIdentifier, h1, hs, bind, Except.bind, hb, if_false]
    rfl

theorem Lexer.readStringLoop_total (fuel : Nat) :
    ∀ l : Lexer, l.aligned → l.position < l.input.length → l.left ≤ fuel → 0 < fuel →
      ∃ l1, Lexer.readStringLoop fuel l = Except.ok l1 ∧ l1.aligned
        ∧ l1.input = l.input ∧ l.position < l1.position
        ∧ l1.position ≤ l.input.length := by
  induction fuel with
  | zero => intro l _ _ _ h; omega
  | succ n ih =>
    intro l ha hlt hf _
    have hp : l.readChar.position = l.position + 1 := Lexer.readChar_position ha
    by_cases hc : (l.readChar.ch.toNat == 34 || l.readChar.ch == NUL) = true
    · refine ⟨l.readChar, ?_, Lexer.readChar_aligned l, rfl, by rw [hp]; omega,
        by rw [hp]; omega⟩
      simp only [Lexer.readStringLoop, hc, if_true]
      rfl
    · have hne : l.readChar.ch ≠ NUL := by
        intro e
        apply hc
        simp [e]
      have hlt1 := Lexer.aligned_lt (Lexer.readChar_aligned l) hne
      rw [Lexer.readChar_input, hp] at hlt1
      obtain ⟨l1, h1, h2, h3, h4, h5⟩ := ih l.readChar (Lexer.readChar_aligned l)
        (by rw [Lexer.readChar_input, hp]; exact hlt1)
        (by
          unfold Lexer.left at hf ⊢
          rw [Lexer.readChar_input, hp]
          omega)
        (by unfold Lexer.left at hf; omega)
      rw [hp] at h4
      refine ⟨l1, ?_, h2, h3, by omega, h5⟩
      simp only [Lexer.readStringLoop, hc, if_false]
      exact h1

theorem Lexer.readString_total (l : Lexer) (ha : l.aligned)
    (hlt : l.position < l.input.length) :
    ∃ lit l1, l.readString = Except.ok (lit, l1) ∧ l1.aligned ∧ l1.input = l.input
      ∧ l.position < l1.position := by
  obtain ⟨l1, h1, h2, h3, h4, h5⟩ := Lexer.readStringLoop_total l.budget l ha hlt
    (by unfold Lexer.left Lexer.budget; omega) (by unfold Lexer.budget; omega)
  have hs := sliceStr_ok l1.input (l.position + 1) l1.position (by omega)
    (by rw [h3]; exact h5)
  refine ⟨String.mk ((l1.input.drop (l.position + 1)).take (l1.position - (l.position + 1))),
    l1, ?_, h2, h3, h4⟩
  simp only [Lexer.readString, h1, hs, bind, Except.bind]
  rfl

end LexerTotality

section LexerTotality2

theorem ne_NUL_of_beq {c d : Char} (h : (c == d) = true) (hd : d ≠ NUL) : c ≠ NUL := by
  rw [beq_iff_eq] at h
  rw [h]
  exact hd

theorem Lexer.fin_total (l : Lexer) (ha : l.aligned) (hne : l.ch ≠ NUL)
    (h : ∃ tok, l.NextToken = Except.ok (tok, l.readChar)) :
    ∃ tok l1, l.NextToken = Except.ok (tok, l1) ∧ l1.aligned ∧ l1.input = l.input
      ∧ (tok.Typ = TokenType.EOF
        ∨ (l.position < l.input.length ∧ l.position < l1.position)) := by
  obtain ⟨tok, h⟩ := h
  refine ⟨tok, l.readChar, h, Lexer.readChar_aligned l, rfl,
    Or.inr ⟨Lexer.aligned_lt ha hne, ?_⟩⟩
  rw [Lexer.readChar_position ha]
  omega

theorem Lexer.two_total (l : Lexer) (ha : l.aligned) (hne : l.ch ≠ NUL)
    (h : ∃ tok, l.NextToken = Except.ok (tok, l.readChar.readChar)) :
    ∃ tok l1, l.NextToken = Except.ok (tok, l1) ∧ l1.aligned ∧ l1.input = l.input
      ∧ (tok.Typ = TokenType.EOF
        ∨ (l.position < l.input.length ∧ l.position < l1.position)) := by
  obtain ⟨tok, h⟩ := h
  refine ⟨tok, l.readChar.readChar, h, Lexer.readChar_aligned _, rfl,
    Or.inr ⟨Lexer.aligned_lt ha hne, ?_⟩⟩
  rw [Lexer.readChar_position (Lexer.readChar_aligned l), Lexer.readChar_position ha]
  omega

/-- One call of `NextToken` on a state that stands on no white space. -/
theorem Lexer.scan_total (l : Lexer) (ha : l.aligned) (hb : ∀ c ∈ l.input, c.toNat ≠ 96)
    (hw : (l.ch.toNat == 32 || l.ch.toNat == 9 || l.ch.toNat == 10 || l.ch.toNat == 13)
      = false) :
    ∃ tok l1, l.NextToken = Except.ok (tok, l1) ∧ l1.aligned ∧ l1.input = l.input
      ∧ (tok.Typ = TokenType.EOF
        ∨ (l.position < l.input.length ∧ l.position < l1.position)) := by
  have hbt := Lexer.aligned_not_backtick ha hb
  have hs := Lexer.skipWhitespace_id l hw
  by_cases hnul : l.ch = NUL
  · refine ⟨⟨TokenType.EOF, ""⟩, l.readChar, ?_, Lexer.readChar_aligned l, rfl, Or.inl rfl⟩
    unfold Lexer.NextToken
    rw [hs]
    simp [bind, Except.bind, hnul, NUL, pure, Except.pure]
  have hlt := Lexer.aligned_lt ha hnul
  by_cases hletter : isLetter l.ch = true
  · obtain ⟨ident, ty, l1, h1, h2, h3, h4⟩ := Lexer.readIdentifier_total l ha hlt
    have hn := Lexer.NextToken_letter l hletter h1
    cases ty <;> first
      | exact ⟨_, l1, hn, h2, h3, Or.inr ⟨hlt, h4⟩⟩
      | exact ⟨_, l1.readChar, hn, Lexer.readChar_aligned l1, h3, Or.inr ⟨hlt, by
          rw [Lexer.readChar_position h2]; omega⟩⟩
  by_cases hdigit : isDigit l.ch = true
  · obtain ⟨tok, l1, h1, _, h2, h3, _, h4⟩ := Lexer.readNumber_total l false ha
      (by simp [hdigit])
    exact ⟨tok, l1, by rw [Lexer.NextToken_digit l hdigit]; exact h1, h2, h3,
      Or.inr ⟨hlt, h4⟩⟩

  by_cases c1 : (l.ch == '(') = true
  · exact Lexer.fin_total l ha hnul (by
      simp [Lexer.NextToken, hs, bind, Except.bind, pure, Except.pure, newToken, Lexer.twoChar, hbt, c1])
  by_cases c2 : (l.ch == ')') = true
  · exact Lexer.fin_total l ha hnul (by
      simp [Lexer.NextToken, hs, bind, Except.bind, pure, Except.pure, newToken, Lexer.twoChar, hbt, c1, c2])
  by_cases c3 : (l.ch == '+') = true
  · exact Lexer.fin_total l ha hnul (by
      simp [Lexer.NextToken, hs, bind, Except.bind, pure, Except.pure, newToken, Lexer.twoChar, hbt, c1, c2, c3])
  by_cases c4 : (l.ch == '-') = true
  · by_cases d4 : isDigit l.peekChar = true
    · have hn : l.NextToken = l.readNumber true := by
        simp [Lexer.NextToken, hs, bind, Except.bind, pure, Except.pure, newToken, Lexer.twoChar, hbt, c1, c2, c3, c4, d4]
      obtain ⟨tok, l1, h1, _, h2, h3, _, h4⟩ := Lexer.readNumber_total l true ha
        (by simp [c4])
      exact ⟨tok, l1, by rw [hn]; exact h1, h2, h3, Or.inr ⟨hlt, h4⟩⟩
    · exact Lexer.fin_total l ha hnul (by
        simp [Lexer.NextToken, hs, bind, Except.bind, pure, Except.pure, newToken, Lexer.twoChar, hbt, c1, c2, c3, c4, d4])
  by_cases c5 : (l.ch == '*') = true
  · by_cases d5_0 : (l.peekChar == '*') = true
    · exact Lexer.two_total l ha hnul (by
        simp [Lexer.NextToken, hs, bind, Except.bind, pure, Except.pure, newToken, Lexer.twoChar, hbt, c1, c2, c3, c4, c5, d5_0])
    exact Lexer.fin_total l ha hnul (by
      simp [Lexer.NextToken, hs, bind, Except.bind, pure, Except.pure, newToken, Lexer.twoChar, hbt, c1, c2, c3, c4, c5, d5_0])
  by_cases c6 : (l.ch == '^') = true
  · exact Lexer.fin_total l ha hnul (by
      simp [Lexer.NextToken, hs, bind, Except.bind, pure, Except.pure, newToken, Lexer.twoChar, hbt, c1, c2, c3, c4, c5, c6])
  by_cases c7 : (l.ch == '/') = true
  · by_cases d7_0 : (l.peekChar == '/') = true
    · exact Lexer.two_total l ha hnul (by
        simp [Lexer.NextToken, hs, bind, Except.bind, pure, Except.pure, newToken, Lexer.twoChar, hbt, c1, c2, c3, c4, c5, c6, c7, d7_0])
    exact Lexer.fin_total l ha hnul (by
      simp [Lexer.NextToken, hs, bind, Except.bind, pure, Except.pure, newToken, Lexer.twoChar, hbt, c1, c2, c3, c4, c5, c6, c7, d7_0])
  by_cases c8 : (l.ch == '%') = true
  · exact Lexer.fin_total l ha hnul (by
      simp [Lexer.NextToken, hs, bind, Except.bind, pure, Except.pure, newToken, Lexer.twoChar, hbt, c1, c2, c3, c4, c5, c6, c7, c8])
  by_cases c9 : (l.ch == ',') = true
  · exact Lexer.fin_total l ha hnul (by
      simp [Lexer.NextToken, hs, bind, Except.bind, pure, Except.pure, newToken, Lexer.twoChar, hbt, c1, c2, c3, c4, c5, c6, c7, c8, c9])
  by_cases c10 : (l.ch == '[') = true
  · exact Lexer.fin_total l ha hnul (by
      simp [Lexer.NextToken, hs, bind, Except.bind, pure, Except.pure, newToken, Lexer.twoChar, hbt, c1, c2, c3, c4, c5, c6, c7, c8, c9, c10])
  by_cases c11 : (l.ch == ']') = true
  · exact Lexer.fin_total l ha hnul (by
      simp [Lexer.NextToken, hs, bind, Except.bind, pure, Except.pure, newToken, Lexer.twoChar, hbt, c1, c2, c3, c4, c5, c6, c7, c8, c9, c10, c11])
  by_cases c12 : (l.ch == '<') = true
  · by_cases d12_0 : (l.peekChar == '=') = true
    · exact Lexer.two_total l ha hnul (by
        simp [Lexer.NextToken, hs, bind, Except.bind, pure, Except.pure, newToken, Lexer.twoChar, hbt, c1, c2, c3, c4, c5, c6, c7, c8, c9, c10, c11, c12, d12_0])
    by_cases d12_1 : (l.peekChar == '<') = true
    · exact Lexer.two_total l ha hnul (by
        simp [Lexer.NextToken, hs, bind, Except.bind, pure, Except.pure, newToken, Lexer.twoChar, hbt, c1, c2, c3, c4, c5, c6, c7, c8, c9, c10, c11, c12, d12_0, d12_1])
    exact Lexer.fin_total l ha hnul (by
      simp [Lexer.NextToken, hs, bind, Except.bind, pure, Except.pure, newToken, Lexer.twoChar, hbt, c1, c2, c3, c4, c5, c6, c7, c8, c9, c10, c11, c12, d12_0, d12_1])
  by_cases c13 : (l.ch == '>') = true
  · by_cases d13_0 : (l.peekChar == '=') = true
    · exact Lexer.two_total l ha hnul (by
        simp [Lexer.NextToken, hs, bind, Except.bind, pure, Except.pure, newToken, Lexer.twoChar, hbt, c1, c2, c3, c4, c5, c6, c7, c8, c9, c10, c11, c12, c13, d13_0])
    by_cases d13_1 : (l.peekChar == '>') = true
    · exact Lexer.two_total l ha hnul (by
        simp [Lexer.NextToken, hs, bind, Except.bind, pure, Except.pure, newToken, Lexer.twoChar, hbt, c1, c2, c3, c4, c5, c6, c7, c8, c9, c10, c11, c12, c13, d13_0, d13_1])
    exact Lexer.fin_total l ha hnul (by
      simp [Lexer.NextToken, hs, bind, Except.bind, pure, Except.pure, newToken, Lexer.twoChar, hbt, c1, c2, c3, c4, c5, c6, c7, c8, c9, c10, c11, c12, c13, d13_0, d13_1])
  by_cases c14 : (l.ch == '=') = true
  · by_cases d14_0 : (l.peekChar == '=') = true
    · exact Lexer.two_total l ha hnul (by
        simp [Lexer.NextToken, hs, bind, Except.bind, pure, Except.pure, newToken, Lexer.twoChar, hbt, c1, c2, c3, c4, c5, c6, c7, c8, c9, c10, c11, c12, c13, c14, d14_0])
    exact Lexer.fin_total l ha hnul (by
      simp [Lexer.NextToken, hs, bind, Except.bind, pure, Except.pure, newToken, Lexer.twoChar, hbt, c1, c2, c3, c4, c5, c6, c7, c8, c9, c10, c11, c12, c13, c14, d14_0])
  by_cases c15 : (l.ch == '!') = true
  · by_cases d15_0 : (l.peekChar == '=') = true
    · exact Lexer.two_total l ha hnul (by
        simp [Lexer.NextToken, hs, bind, Except.bind, pure, Except.pure, newToken, Lexer.twoChar, hbt, c1, c2, c3, c4, c5, c6, c7, c8, c9, c10, c11, c12, c13, c14, c15, d15_0])
    exact Lexer.fin_total l ha hnul (by
      simp [Lexer.NextToken, hs, bind, Except.bind, pure, Except.pure, newToken, Lexer.twoChar, hbt, c1, c2, c3, c4, c5, c6, c7, c8, c9, c10, c11, c12, c13, c14, c15, d15_0])
  by_cases c16 : (l.ch.toNat == 34 || l.ch.toNat == 39) = true
  · obtain ⟨lit, l1, h1, h2, h3, h4⟩ := Lexer.readString_total l ha hlt
    refine ⟨⟨TokenType.STRING, lit⟩, l1.readChar, ?_, Lexer.readChar_aligned l1, h3,
      Or.inr ⟨hlt, ?_⟩⟩
    · simp [Lexer.NextToken, hs, bind, Except.bind, pure, Except.pure, newToken, Lexer.twoChar, hbt, c1, c2, c3, c4, c5, c6, c7, c8, c9, c10, c11, c12, c13, c14, c15, c16, h1]
    · rw [Lexer.readChar_position h2]
      omega
  by_cases c17 : (l.ch == '&') = true
  · by_cases d17_0 : (l.peekChar == '&') = true
    · exact Lexer.two_total l ha hnul (by
        simp [Lexer.NextToken, hs, bind, Except.bind, pure, Except.pure, newToken, Lexer.twoChar, hbt, c1, c2, c3, c4, c5, c6, c7, c8, c9, c10, c11, c12, c13, c14, c15, c16, c17, d17_0])
    exact Lexer.fin_total l ha hnul (by
      simp [Lexer.NextToken, hs, bind, Except.bind, pure, Except.pure, newToken, Lexer.twoChar, hbt, c1, c2, c3, c4, c5, c6, c7, c8, c9, c10, c11, c12, c13, c14, c15, c16, c17, d17_0])
  by_cases c18 : (l.ch == '|') = true
  · by_cases d18_0 : (l.peekChar == '|') = true
    · exact Lexer.two_total l ha hnul (by
        simp [Lexer.NextToken, hs, bind, Except.bind, pure, Except.pure, newToken, Lexer.twoChar, hbt, c1, c2, c3, c4, c5, c6, c7, c8, c9, c10, c11, c12, c13, c14, c15, c16, c17, c18, d18_0])
    exact Lexer.fin_total l ha hnul (by
      simp [Lexer.NextToken, hs, bind, Except.bind, pure, Except.pure, newToken, Lexer.twoChar, hbt, c1, c2, c3, c4, c5, c6, c7, c8, c9, c10, c11, c12, c13, c14, c15, c16, c17, c18, d18_0])
  exact Lexer.fin_total l ha hnul (by
    simp [Lexer.NextToken, hs, bind, Except.bind, pure, Except.pure, newToken, Lexer.twoChar, hbt, c1, c2, c3, c4, c5, c6, c7, c8, c9, c10, c11, c12, c13, c14, c15, c16, c17, c18, hnul, hletter, hdigit])

end LexerTotality2

section LexerTotality3

/-- One call of `NextToken` on an input without backtick returns a token; a
token other than EOF moves the position forward. -/
theorem Lexer.NextToken_total (l : Lexer) (ha : l.aligned)
    (hb : ∀ c ∈ l.input, c.toNat ≠ 96) :
    ∃ tok l1, l.NextToken = Except.ok (tok, l1) ∧ l1.aligned ∧ l1.input = l.input
      ∧ (tok.Typ = TokenType.EOF
        ∨ (l.position < l.input.length ∧ l.position < l1.position)) := by
  obtain ⟨l0, h0, ha0, hi0, hp0, hw0⟩ :=
    Lexer.skipWhitespaceLoop_total l.budget l ha (by unfold Lexer.left Lexer.budget; omega)
  obtain ⟨tok, l1, h1, ha1, hi1, h2⟩ := Lexer.scan_total l0 ha0 (by rw [hi0]; exact hb) hw0
  refine ⟨tok, l1, ?_, ha1, by rw [hi1, hi0], ?_⟩
  · rw [Lexer.NextToken_of_skip h0 (Lexer.skipWhitespace_id l0 hw0)]
    exact h1
  · rcases h2 with h2 | ⟨h2, h3⟩
    · exact Or.inl h2
    · rw [hi0] at h2
      exact Or.inr ⟨by omega, by omega⟩

/-- The drain loop of `NewParser` ends on an input without backtick. -/
theorem drainLoop_total (fuel : Nat) :
    ∀ (l : Lexer) (acc : List Token), l.aligned → (∀ c ∈ l.input, c.toNat ≠ 96) →
      l.left < fuel → ∃ toks, drainLoop fuel l acc = Except.ok toks := by
  induction fuel with
  | zero => intro l _ _ _ h; omega
  | succ n ih =>
    intro l acc ha hb hf
    obtain ⟨tok, l1, h1, ha1, hi1, h2⟩ := Lexer.NextToken_total l ha hb
    by_cases he : tok.Typ = TokenType.EOF
    · exact ⟨_, drainLoop_eof h1 he n acc⟩
    · rcases h2 with h2 | ⟨h2, h3⟩
      · exact absurd h2 he
      · rw [drainLoop_step h1 he n acc]
        exact ih l1 _ ha1 (by rw [hi1]; exact hb) (by
          unfold Lexer.left at hf ⊢
          rw [hi1]
          omega)

/-- The lexer yields a token sequence on every source without backtick. -/
theorem lexAll_total (s : String) (hb : ∀ c ∈ s.data, c.toNat ≠ 96) :
    ∃ toks, lexAll (NewLexer s) = Except.ok toks := by
  unfold lexAll
  exact drainLoop_total _ (NewLexer s) [] (Lexer.readChar_aligned _) hb (by
    have h1 : (NewLexer s).input = s.data := rfl
    unfold Lexer.left Lexer.budget
    omega)

theorem Lexer.view_unclosed_after (pre : List Char) (c : Char) (rest : List Char)
    (h : ∀ x ∈ rest, x.toNat ≠ 96) :
    ∀ i, (Lexer.view pre (c :: rest)).readPosition ≤ i →
      ((Lexer.view pre (c :: rest)).input.getD i NUL).toNat ≠ 96 := by
  intro i hi
  have hr : (Lexer.view pre (c :: rest)).readPosition = pre.length + 1 := rfl
  have hin : (Lexer.view pre (c :: rest)).input = (pre ++ [c]) ++ rest := by
    simp [Lexer.view]
  rw [hr] at hi
  rw [hin]
  obtain ⟨j, rfl⟩ : ∃ j, i = (pre ++ [c]).length + j := ⟨i - (pre.length + 1), by simp; omega⟩
  by_cases hj : j < rest.length
  · rw [List.getD_eq_getElem _ _ (by simp; omega),
      List.getElem_append_right (by simp)]
    simp only [add_tsub_cancel_left]
    exact h _ (List.getElem_mem _)
  · rw [List.getD_eq_default _ _ (by simp; omega)]
    decide

/-- An illegal character followed by a backtick that nothing closes: the second
call of `NextToken` enters the loop of `readUntilBacktick`, which has no exit. -/
theorem lexAll_illegal_unclosed (c : Char) (rest : List Char) (hc : illegalChar c = true)
    (h : ∀ x ∈ rest, x.toNat ≠ 96) :
    lexAll (Lexer.view [] (c :: Char.ofNat 96 :: rest)) = Except.error Fault.fuel := by
  have h1 := Lexer.NextToken_illegal [] c (Char.ofNat 96 :: rest) hc
  have hloop := Lexer.readUntilBacktickLoop_unclosed
    (Lexer.view ([] ++ [c]) (Char.ofNat 96 :: rest)).budget _
    (Lexer.view_unclosed_after ([] ++ [c]) (Char.ofNat 96) rest h)
  have hread : (Lexer.view ([] ++ [c]) (Char.ofNat 96 :: rest)).readUntilBacktick
      = Except.error Fault.fuel := by
    simp only [Lexer.readUntilBacktick, hloop, bind, Except.bind]
  have h2 := Lexer.NextToken_backtick_fault _
    (by rw [Lexer.view_ch]; rfl) Fault.fuel hread
  unfold lexAll
  have hb : (Lexer.view [] (c :: Char.ofNat 96 :: rest)).budget
      = rest.length + 1 + 1 + 1 + 1 := by
    simp [Lexer.budget, Lexer.view]
  rw [hb, drainLoop_step h1 (by simp)]
  simp only [drainLoop, h2, bind, Except.bind]

end LexerTotality3

/-! ## C29: the default of `primary` -/

set_option maxRecDepth 100000 in
/-- The source of `@` followed by a backtick starts with an illegal character
and does not evaluate to 0: after the token of `@` the lexer enters the loop of
`readUntilBacktick`, which exits for no number of iterations, so the lexer
yields no token sequence and `Evaluate` does not return. -/
theorem illegal_then_backtick_never_returns :
    illegalChar '@' = true
    ∧ (NewLexer "@`").NextToken
      = Except.ok (⟨TokenType.ILLEGAL, "@"⟩, Lexer.view ['@'] [Char.ofNat 96])
    ∧ (∀ fuel : Nat, Lexer.readUntilBacktickLoop fuel (Lexer.view ['@'] [Char.ofNat 96])
      = Except.error Fault.fuel)
    ∧ lexAll (NewLexer "@`") = Except.error Fault.fuel
    ∧ Evaluate (fun _ => none) 1 (⟨none⟩ : Context Exact) "@`"
      = Except.error Fault.fuel :=
  ⟨rfl, rfl,
    fun fuel => Lexer.readUntilBacktickLoop_unclosed fuel _
      (Lexer.view_unclosed_after ['@'] (Char.ofNat 96) [] (by simp)),
    rfl, rfl⟩

set_option maxRecDepth 100000 in
/-- C29, as the code has it.  When the kind of the current token begins no
production of `primary` (it is none of INT, FLOAT, STRING, BOOL, VARIABLE, `(`,
a function name or an array name), `primary` returns the node `IntLiteral 0`
and the parser state it was given.  When the first token is such a token and no
operator either, `Parse` returns `IntLiteral 0`.  Hence every source that
starts with a character that starts no token, such as `@`, and that holds no
backtick evaluates to the int 0 with no error: the lexer returns on every
source without backtick.  So does every source that starts with such a
character and on which the lexer returns, and so do the empty source, `@`,
`@ + 1` and `@` followed by a closed pair of backticks.  A source that starts
with such a character followed by a backtick that nothing closes does not
evaluate to 0: after the token of the first character the loop of
`readUntilBacktick` exits for no number of iterations, so the lexer and
`Evaluate` do not return. -/
theorem primary_defaults_to_zero :
    (∀ (F : Type) [Float64 F] (E : Parser → Run (ASTNode F × Parser)) (p : Parser)
      (t : Token), p.tokens[p.current]? = some t → beginsPrimary t.Typ = false →
      Parser.primary E p = Except.ok (ASTNode.IntLiteralNode 0, p))
    ∧ (∀ (F : Type) [Float64 F] (toks : List Token) (t : Token), toks[0]? = some t →
      beginsPrimary t.Typ = false → continues t.Typ = false →
      Parser.Parse (F := F) { tokens := toks, current := 0 }
        = Except.ok (ASTNode.IntLiteralNode 0))
    ∧ (∀ (F : Type) [Float64 F] (reg : Bif F) (n : Nat) (ctx : Context F)
      (c : Char) (rest : List Char), illegalChar c = true →
      (∀ x ∈ rest, x.toNat ≠ 96) →
      (∃ toks, lexAll (NewLexer (String.mk (c :: rest))) = Except.ok toks)
      ∧ Evaluate reg (n + 1) ctx (String.mk (c :: rest)) = Except.ok (Value.int 0, none))
    ∧ (∀ (F : Type) [Float64 F] (reg : Bif F) (n : Nat) (ctx : Context F)
      (c : Char) (rest : List Char) (toks : List Token), illegalChar c = true →
      lexAll (NewLexer (String.mk (c :: rest))) = Except.ok toks →
      Evaluate reg (n + 1) ctx (String.mk (c :: rest)) = Except.ok (Value.int 0, none))
    ∧ (∀ (F : Type) [Float64 F] (reg : Bif F) (n : Nat) (ctx : Context F)
      (c : Char) (rest : List Char), illegalChar c = true →
      (∀ x ∈ rest, x.toNat ≠ 96) →
      (NewLexer (String.mk (c :: Char.ofNat 96 :: rest))).NextToken
        = Except.ok ({ Typ := TokenType.ILLEGAL, Literal := String.mk [c] },
            Lexer.view [c] (Char.ofNat 96 :: rest))
      ∧ (∀ fuel : Nat,
        Lexer.readUntilBacktickLoop fuel (Lexer.view [c] (Char.ofNat 96 :: rest))
          = Except.error Fault.fuel)
      ∧ lexAll (NewLexer (String.mk (c :: Char.ofNat 96 :: rest)))
        = Except.error Fault.fuel
      ∧ Evaluate reg (n + 1) ctx (String.mk (c :: Char.ofNat 96 :: rest))
        = Except.error Fault.fuel)
    ∧ (∀ (F : Type) [Float64 F] (library : String → bifFunc F) (n : Nat) (ctx : Context F),
      Evaluate (init library) (n + 1) ctx "" = Except.ok (Value.int 0, none)
      ∧ Evaluate (init library) (n + 1) ctx "@" = Except.ok (Value.int 0, none)
      ∧ Evaluate (init library) (n + 1) ctx "@ + 1" = Except.ok (Value.int 0, none)
      ∧ Evaluate (init library) (n + 1) ctx "@`a`" = Except.ok (Value.int 0, none)) := by
  have hzero : ∀ (F : Type) [Float64 F] (reg : Bif F) (n : Nat) (ctx : Context F)
      (c : Char) (rest : List Char) (toks : List Token), illegalChar c = true →
      lexAll (NewLexer (String.mk (c :: rest))) = Except.ok toks →
      Evaluate reg (n + 1) ctx (String.mk (c :: rest))
        = Except.ok (Value.int 0, none) := by
    intro F _ reg n ctx c rest toks hc hlex
    have hn : (NewLexer (String.mk (c :: rest))).NextToken
        = Except.ok ({ Typ := TokenType.ILLEGAL, Literal := String.mk [c] },
            Lexer.view [c] rest) := by
      rw [NewLexer_eq_view]
      exact Lexer.NextToken_illegal [] c rest hc
    have h0 := lexAll_head hn hlex
    have hp : Parser.Parse (F := F) { tokens := toks, current := 0 }
        = Except.ok (ASTNode.IntLiteralNode 0) := Parser.Parse_default h0 rfl rfl
    rw [Evaluate_of_parse hlex hp n]
    rfl
  refine ⟨?_, ?_, ?_, hzero, ?_, ?_⟩
  · intro F _ E p t h ht
    exact Parser.primary_default E h ht
  · intro F _ toks t h ht hc
    exact Parser.Parse_default h ht hc
  · intro F _ reg n ctx c rest hc hb
    have hbt : ∀ x ∈ (String.mk (c :: rest)).data, x.toNat ≠ 96 := by
      intro x hx
      rcases List.mem_cons.1 hx with rfl | hx
      · intro h96
        simp [illegalChar, h96] at hc
      · exact hb x hx
    obtain ⟨toks, hlex⟩ := lexAll_total _ hbt
    exact ⟨⟨toks, hlex⟩, hzero F reg n ctx c rest toks hc hlex⟩
  · intro F _ reg n ctx c rest hc hb
    have hl : lexAll (NewLexer (String.mk (c :: Char.ofNat 96 :: rest)))
        = Except.error Fault.fuel := by
      rw [NewLexer_eq_view]
      exact lexAll_illegal_unclosed c rest hc hb
    refine ⟨?_, ?_, hl, ?_⟩
    · rw [NewLexer_eq_view]
      exact Lexer.NextToken_illegal [] c _ hc
    · intro fuel
      exact Lexer.readUntilBacktickLoop_unclosed fuel _
        (Lexer.view_unclosed_after [c] (Char.ofNat 96) rest hb)
    · show pipeline reg (hostAt reg n) ctx (String.mk (c :: Char.ofNat 96 :: rest)) = _
      simp only [pipeline, NewParser, hl, bind, Except.bind]
  · intro F _ library n ctx
    exact ⟨rfl, rfl, rfl, rfl⟩

/-- The tokens of `)`: `Parse` returns the node of 0; the source of `@` and `#`
holds no backtick and evaluates to 0. -/
theorem primary_defaults_to_zero_witness :
    Parser.Parse (F := Exact)
        { tokens := [⟨TokenType.PAREN_RIGHT, ")"⟩, ⟨TokenType.EOF, ""⟩], current := 0 }
      = Except.ok (ASTNode.IntLiteralNode 0)
    ∧ illegalChar '@' = true
    ∧ (∀ x ∈ ['#'], x.toNat ≠ 96)
    ∧ Evaluate (fun _ => none) (0 + 1) (⟨none⟩ : Context Exact) (String.mk ['@', '#'])
      = Except.ok (Value.int 0, none) :=
  ⟨primary_defaults_to_zero.2.1 Exact [⟨TokenType.PAREN_RIGHT, ")"⟩, ⟨TokenType.EOF, ""⟩]
      ⟨TokenType.PAREN_RIGHT, ")"⟩ rfl rfl rfl,
    by decide, by decide,
    (primary_defaults_to_zero.2.2.1 Exact (fun _ => none) 0 ⟨none⟩ '@' ['#'] (by decide)
      (by decide)).2⟩

end Expronaut
